import Mathlib

/-!
The gvox palette serializer and raw parser: shallow embedding and verification.

Embedding of `src/adapters/serialize/gvox_palette.cpp` (the palette container
writer) and of `src/adapters/parse/gvox_raw.cpp` (the raw container parser),
together with the bit utilities of `src/formats/gvox_u32_palette.cpp`.

Conventions of the embedding

* a byte buffer (`std::vector<uint8_t>`, the output stream) is a `List Nat`
  whose entries are bytes;
* `uint32_t` arithmetic is arithmetic on `Nat` reduced modulo `2^32`
  (`u32`), `size_t` arithmetic is reduced modulo `2^64` (`u64`) where a
  product or a sum is formed;
* `int32_t` positions are `Int`s, conversions and additions wrap in two's
  complement;
* the voxel sampler of the blit context is a function from a position and a
  channel id to a 32-bit value;
* the iteration order of `std::unordered_set` and the order in which the
  worker pool runs its tasks are parameters of the model.
-/

namespace Gvox

/-! ## Machine integers -/

/-- Reduction to `uint32_t` (`static_cast<uint32_t>`, wrap-around of unsigned arithmetic). -/
def u32 (n : Nat) : Nat := n % 4294967296

/-- Reduction to a 64-bit `size_t`. -/
def u64 (n : Nat) : Nat := n % 18446744073709551616

/-- Difference of two unsigned values followed by `static_cast<uint32_t>`:
the value of `a - b` modulo `2^32`, whatever the order of `a` and `b`. -/
def u32_sub (a b : Nat) : Nat := (a + (4294967296 - b % 4294967296)) % 4294967296

/-- Bitwise complement of a `uint32_t`. -/
def u32_not (n : Nat) : Nat := 4294967295 - n % 4294967296

/-- Conversion `static_cast<int32_t>` of an unsigned value (two's complement). -/
def to_i32 (n : Nat) : Int :=
  if n % 4294967296 < 2147483648 then ((n % 4294967296 : Nat) : Int)
  else ((n % 4294967296 : Nat) : Int) - 4294967296

/-- Wrap an integer into the `int32_t` range (two's complement). -/
def wrap_i32 (i : Int) : Int := (i + 2147483648) % 4294967296 - 2147483648

/-- The image of an `int32_t` as a `uint32_t` bit pattern. -/
def of_i32 (i : Int) : Nat := (i % 4294967296).toNat

/-- Number of set bits among the low 32 bits (`std::popcount` on a `uint32_t`). -/
def popcount (n : Nat) : Nat := ((List.range 32).filter (fun i => n.testBit i)).length

/-! ## Byte buffers -/

/-- Little-endian bytes of a `uint32_t`. -/
def le32 (v : Nat) : List Nat :=
  [v % 256, v / 256 % 256, v / 65536 % 256, v / 16777216 % 256]

/-- The `uint32_t` stored little-endian at byte offset `off`
(`*reinterpret_cast<uint32_t *>(ptr + off)`). -/
def read_u32 (buf : List Nat) (off : Nat) : Nat :=
  buf.getD off 0 + 256 * buf.getD (off + 1) 0 + 65536 * buf.getD (off + 2) 0
    + 16777216 * buf.getD (off + 3) 0

/-- Store `bytes` at byte offset `off` of a buffer (`memcpy`, `write_data`).
A store that would leave the buffer is undefined in the source; the model
leaves the buffer unchanged in that case. -/
def write_bytes (buf : List Nat) (off : Nat) (bytes : List Nat) : List Nat :=
  if off + bytes.length ≤ buf.length then
    buf.take off ++ bytes ++ buf.drop (off + bytes.length)
  else buf

/-- A run of `write_data<uint32_t>(output_buffer, w)` calls: the words are
stored one after the other, the cursor advancing by 4 each time. -/
def write_words (buf : List Nat) (off : Nat) : List Nat → List Nat
  | [] => buf
  | w :: ws => write_words (write_bytes buf off (le32 w)) (off + 4) ws

/-- The `n` words stored from byte offset `off` on. -/
def read_words (buf : List Nat) (off n : Nat) : List Nat :=
  (List.range n).map (fun i => read_u32 buf (off + 4 * i))

/-- Resize of a `std::vector<uint8_t>`: truncate, or extend with zero bytes. -/
def vec_resize (buf : List Nat) (n : Nat) : List Nat :=
  buf.take n ++ List.replicate (n - buf.length) 0

/-- Modelled from the spec: the output stream of the I/O facade (`gvox_output_write`
is declared in `gvox/gvox.h`, which is not among the sources). The stream is the
list of its bytes; a write at `offset` replaces the bytes it covers and extends
the stream when it reaches past its end, bytes never written reading as 0. -/
def gvox_output_write (out : List Nat) (offset : Nat) (bytes : List Nat) : List Nat :=
  let padded := out ++ List.replicate (offset + bytes.length - out.length) 0
  padded.take offset ++ bytes ++ padded.drop (offset + bytes.length)

/-! ## Bit utilities -/

/-- The table `t` of `ceil_log2`. -/
def ceil_log2_table : List Nat :=
  [0xFFFFFFFF00000000, 0x00000000FFFF0000, 0x000000000000FF00,
   0x00000000000000F0, 0x000000000000000C, 0x0000000000000002]

/-- One iteration of the loop of `ceil_log2`; the state is `(x, y, j)`. -/
def ceil_log2_step (s : Nat × Nat × Nat) (t : Nat) : Nat × Nat × Nat :=
  let k := if s.1 &&& t = 0 then 0 else s.2.2
  (s.1 >>> k, u32 (s.2.1 + k), s.2.2 >>> 1)

/-- The function `ceil_log2` of `formats/gvox_u32_palette.cpp`, on a 64-bit `size_t`.
The serializer calls the `ceil_log2` of `shared/gvox_palette.hpp`, which is not
among the sources; this definition of the repository stands for it. -/
def ceil_log2 (x : Nat) : Nat :=
  let x := u64 x
  let y := if x &&& u64 (x + 18446744073709551615) = 0 then 0 else 1
  (ceil_log2_table.foldl ceil_log2_step (x, y, 32)).2.1

/-- Modelled from the spec: `low_mask(k) = (1u << k) - 1`, the mask of the `k`
lowest bits, which `get_mask` of the missing header `shared/gvox_palette.hpp`
computes. -/
def get_mask (bits_per_variant : Nat) : Nat := u32 ((1 <<< bits_per_variant) - 1)

/-- Modelled from the spec: the cube side `R = 8` (`REGION_SIZE` of the missing
header `shared/gvox_palette.hpp`), a 32-bit constant like `CHUNK_SIZE` of
`formats/gvox_u32_palette.cpp`. -/
def REGION_SIZE : Nat := 8

/-- Modelled from the spec: `MAX_PALETTE_VARIANTS = 367`
(`MAX_REGION_COMPRESSED_VARIANT_N` of the missing header). -/
def MAX_REGION_COMPRESSED_VARIANT_N : Nat := 367

/-- Modelled from the spec: the size `4 * R^3` of a raw tile
(`MAX_REGION_ALLOCATION_SIZE` of the missing header). -/
def MAX_REGION_ALLOCATION_SIZE : Nat := REGION_SIZE * REGION_SIZE * REGION_SIZE * 4

/-- Modelled from the spec: `packed_size`, that is `ceil(R^3 * bits / 8)` rounded up
to a multiple of 4, plus a 4-byte tail pad (`calc_palette_region_size` of the
missing header). -/
def calc_palette_region_size (bits_per_variant : Nat) : Nat :=
  ((bits_per_variant * REGION_SIZE * REGION_SIZE * REGION_SIZE + 7) / 8 + 3) / 4 * 4 + 4

/-! ## Data model -/

/-- Position of a voxel: `GvoxOffset3D`, three `int32_t`. -/
structure GvoxOffset3D where
  x : Int
  y : Int
  z : Int
deriving DecidableEq, Repr

/-- Size of a box of voxels: `GvoxExtent3D`, three `uint32_t`. -/
structure GvoxExtent3D where
  x : Nat
  y : Nat
  z : Nat
deriving DecidableEq, Repr

/-- The box `GvoxRegionRange`. -/
structure GvoxRegionRange where
  offset : GvoxOffset3D
  extent : GvoxExtent3D
deriving DecidableEq, Repr

/-- Modelled from the spec: the channel header `{ variant_n: u32, blob_offset: u32 }`
(`ChannelHeader` of the missing header `shared/gvox_palette.hpp`), 8 bytes. -/
structure ChannelHeader where
  variant_n : Nat
  blob_offset : Nat
deriving DecidableEq, Repr

/-- The state `GvoxPaletteSerializeUserState` of the serializer. -/
structure GvoxPaletteSerializeUserState where
  offset : Nat
  blobs_begin : Nat
  data : List Nat
deriving DecidableEq, Repr

/-- Error kinds pushed to the adapter context. -/
inductive GvoxResult where
  | ERROR_PARSE_ADAPTER_INVALID_INPUT
deriving DecidableEq, Repr

/-- The voxel sampler behind `gvox_load_region` / `gvox_sample_region`: the
`uint32_t` sample of a channel at a position. -/
abbrev Sampler := GvoxOffset3D → Nat → Fin 4294967296

/-- Bytes of a `ChannelHeader` as `write_data<ChannelHeader>` stores them. -/
def header_bytes (h : ChannelHeader) : List Nat := le32 h.variant_n ++ le32 h.blob_offset

/-- Bytes of a `GvoxRegionRange`: offset `i32 x 3`, extent `u32 x 3`. -/
def range_bytes (range : GvoxRegionRange) : List Nat :=
  le32 (of_i32 range.offset.x) ++ le32 (of_i32 range.offset.y) ++ le32 (of_i32 range.offset.z)
    ++ le32 range.extent.x ++ le32 range.extent.y ++ le32 range.extent.z

/-! ## The region encoder `add_region` -/

/-- The cube coordinates `(xi, yi, zi)` in the order of the three nested loops
`for zi, for yi, for xi` over `[0, REGION_SIZE)`. -/
def region_coords : List (Nat × Nat × Nat) :=
  (List.range REGION_SIZE).flatMap fun zi =>
    (List.range REGION_SIZE).flatMap fun yi =>
      (List.range REGION_SIZE).map fun xi => (xi, yi, zi)

/-- The body shared by the three sampling loops of `add_region`: the voxel value
`u32_voxel` at cube coordinates `c`, which is 0 outside the extent and the
sample at `range.offset + (px, py, pz)` inside. -/
def region_voxel (S : Sampler) (range : GvoxRegionRange) (ox oy oz channel_id : Nat)
    (c : Nat × Nat × Nat) : Nat :=
  let px := u32 (ox + c.1)
  let py := u32 (oy + c.2.1)
  let pz := u32 (oz + c.2.2)
  if px < range.extent.x ∧ py < range.extent.y ∧ pz < range.extent.z then
    (S { x := wrap_i32 (to_i32 px + range.offset.x),
         y := wrap_i32 (to_i32 py + range.offset.y),
         z := wrap_i32 (to_i32 pz + range.offset.z) } channel_id).val
  else 0

/-- Insertion into the `std::unordered_set<uint32_t>`, kept as a list without
repetition. -/
def tile_set_insert (s : List Nat) (v : Nat) : List Nat :=
  if v ∈ s then s else s ++ [v]

/-- The lambda `alloc_region`: records the blob offset, grows the shared buffer by
`size` zero bytes and sizes the local buffer. Returns the new state, the value
given to `region_header.blob_offset` and `local_data`. -/
def alloc_region (user_state : GvoxPaletteSerializeUserState) (size : Nat) :
    GvoxPaletteSerializeUserState × Nat × List Nat :=
  let old_size := user_state.data.length
  ({ user_state with data := vec_resize user_state.data (old_size + size) },
   u32_sub old_size user_state.blobs_begin,
   vec_resize [] size)

/-- Body of the index loop of the palette path (source lines 139-168). -/
def palette_fill_step (S : Sampler) (range : GvoxRegionRange) (ox oy oz channel_id : Nat)
    (variant_n bits_per_variant : Nat) (local_data : List Nat) (c : Nat × Nat × Nat) :
    Except GvoxResult (List Nat) :=
  let in_region_index := u32 (c.1 + c.2.1 * REGION_SIZE + c.2.2 * REGION_SIZE * REGION_SIZE)
  let u32_voxel := region_voxel S range ox oy oz channel_id c
  let palette_id := (read_words local_data 0 variant_n).indexOf u32_voxel
  if palette_id = variant_n then
    .error GvoxResult.ERROR_PARSE_ADAPTER_INVALID_INPUT
  else
    let bit_index := u32 (in_region_index * bits_per_variant)
    let byte_index := bit_index / 8
    let bit_offset := u32 (bit_index - byte_index * 8)
    let mask := get_mask bits_per_variant
    if 4 * variant_n + byte_index + 3 ≥ local_data.length then
      .error GvoxResult.ERROR_PARSE_ADAPTER_INVALID_INPUT
    else
      let output := read_u32 local_data (4 * variant_n + byte_index)
      let output := output &&& u32_not (u32 (mask <<< bit_offset))
      let output := output ||| u32 (u64 (palette_id <<< bit_offset))
      .ok (write_bytes local_data (4 * variant_n + byte_index) (le32 output))

/-- The index loop of the palette path; an error leaves the loop at once
(`return 0` in the source). -/
def palette_fill_loop (step : List Nat → Nat × Nat × Nat → Except GvoxResult (List Nat)) :
    List Nat → List (Nat × Nat × Nat) → Except GvoxResult (List Nat)
  | buf, [] => .ok buf
  | buf, c :: cs =>
    match step buf c with
    | .error e => .error e
    | .ok buf1 => palette_fill_loop step buf1 cs

/-- Result of one `add_region` call: the shared state after the call, the value
returned, the `region_header` local at the end of the call and the errors
pushed. -/
structure AddRegionResult where
  user_state : GvoxPaletteSerializeUserState
  size : Nat
  region_header : ChannelHeader
  errors : List GvoxResult
deriving DecidableEq, Repr

/-- Number of regions along an axis, `(extent + REGION_SIZE - 1) / REGION_SIZE`
in `uint32_t` arithmetic. -/
def region_count (extent : Nat) : Nat := u32 (extent + REGION_SIZE - 1) / REGION_SIZE

/-- Byte offset of the header slot of task `(rx, ry, rz, ci)` in the shared
buffer (source lines 181-185): the region index is formed in `uint32_t`
arithmetic and scaled by `sizeof(ChannelHeader) * channels.size()`. -/
def header_slot_offset (range : GvoxRegionRange) (rx ry rz ci channel_n : Nat) : Nat :=
  let region_nx := region_count range.extent.x
  let region_ny := region_count range.extent.y
  u32 (rx + ry * region_nx + rz * region_nx * region_ny) * (8 * channel_n) + 8 * ci

/-- The closing block of `add_region` (source lines 175-191): the header is
written to its slot and, when `variant_n > 1`, the local blob is copied to
`blobs_begin + blob_offset`. -/
def publish_region (user_state : GvoxPaletteSerializeUserState) (range : GvoxRegionRange)
    (rx ry rz ci channel_n : Nat) (region_header : ChannelHeader) (local_data : List Nat)
    (size : Nat) : AddRegionResult :=
  let data1 := write_bytes user_state.data (header_slot_offset range rx ry rz ci channel_n)
    (header_bytes region_header)
  let data2 :=
    if region_header.variant_n > 1 then
      write_bytes data1 (user_state.blobs_begin + region_header.blob_offset) local_data
    else data1
  { user_state := { user_state with data := data2 }, size := size,
    region_header := region_header, errors := [] }

/-- The sampling pass of `add_region` (source lines 61-83): the variant set. -/
def region_tile_set (S : Sampler) (range : GvoxRegionRange) (ox oy oz channel_id : Nat) :
    List Nat :=
  region_coords.foldl (fun s c => tile_set_insert s (region_voxel S range ox oy oz channel_id c)) []

/-- The raw path of `add_region` (source lines 103-122): the cube is sampled again
and the samples are stored one after the other in the local buffer. -/
def raw_local_data (S : Sampler) (range : GvoxRegionRange) (ox oy oz channel_id : Nat)
    (local_data : List Nat) : List Nat :=
  write_words local_data 0 (region_coords.map (region_voxel S range ox oy oz channel_id))

/-- The palette path of `add_region` (source lines 129-171): the variants are
stored in the iteration order `variants` of the set, sorted in place with
`std::sort`, and the index loop packs one palette index per voxel after them. -/
def palette_local_data (S : Sampler) (range : GvoxRegionRange) (ox oy oz channel_id : Nat)
    (variants : List Nat) (variant_n bits_per_variant : Nat) (local_data : List Nat) :
    Except GvoxResult (List Nat) :=
  let local_data := write_words local_data 0 variants
  let local_data := write_words local_data 0
    ((read_words local_data 0 variant_n).insertionSort (· ≤ ·))
  palette_fill_loop (palette_fill_step S range ox oy oz channel_id variant_n bits_per_variant)
    local_data region_coords

/-- The function `add_region`. `hash_order` is the iteration order of the
`std::unordered_set`: it rearranges the list of the elements of the set. -/
def add_region (S : Sampler) (hash_order : List Nat → List Nat)
    (user_state : GvoxPaletteSerializeUserState) (range : GvoxRegionRange)
    (rx ry rz ci : Nat) (channels : List Nat) : AddRegionResult :=
  let channel_id := channels.getD ci 0
  let ox := u32 (rx * REGION_SIZE)
  let oy := u32 (ry * REGION_SIZE)
  let oz := u32 (rz * REGION_SIZE)
  let tile_set := region_tile_set S range ox oy oz channel_id
  let variant_n := u32 tile_set.length
  let bits_per_variant := ceil_log2 variant_n
  if variant_n > MAX_REGION_COMPRESSED_VARIANT_N then
    let size := MAX_REGION_ALLOCATION_SIZE
    let a := alloc_region user_state size
    let local_data := raw_local_data S range ox oy oz channel_id a.2.2
    publish_region a.1 range rx ry rz ci channels.length
      { variant_n := variant_n, blob_offset := a.2.1 } local_data size
  else if variant_n > 1 then
    let size := 4 * variant_n + calc_palette_region_size bits_per_variant
    let a := alloc_region user_state size
    match palette_local_data S range ox oy oz channel_id (hash_order tile_set)
        variant_n bits_per_variant a.2.2 with
    | .error e =>
      { user_state := a.1, size := 0,
        region_header := { variant_n := variant_n, blob_offset := a.2.1 }, errors := [e] }
    | .ok local_data =>
      publish_region a.1 range rx ry rz ci channels.length
        { variant_n := variant_n, blob_offset := a.2.1 } local_data size
  else
    publish_region user_state range rx ry rz ci channels.length
      { variant_n := variant_n, blob_offset := (hash_order tile_set).headD 0 } [] 0

/-! ## The container writer `serialize_region` -/

/-- A region task `(xi, yi, zi, ci)` of `serialize_region`. -/
abbrev RegionTask := Nat × Nat × Nat × Nat

/-- The tasks enqueued by `serialize_region`, in the order of its loops
`for zi, for yi, for xi, for ci`. -/
def region_tasks (region_nx region_ny region_nz channel_n : Nat) : List RegionTask :=
  (List.range region_nz).flatMap fun zi =>
    (List.range region_ny).flatMap fun yi =>
      (List.range region_nx).flatMap fun xi =>
        (List.range channel_n).map fun ci => (xi, yi, zi, ci)

/-- The channel list built by `serialize_region` (source lines 208-216): the
indices of the set bits of `channel_flags`, ascending. -/
def channel_list (channel_flags : Nat) : List Nat :=
  (List.range 32).filter (fun channel_i => channel_flags &&& (1 <<< channel_i) ≠ 0)

/-- What a finished task leaves behind: the task, its `region_header` and the
size it returned. -/
abbrev TaskRecord := RegionTask × ChannelHeader × Nat

/-- State of the run of the enqueued tasks: the shared user state, the `size`
accumulator, the errors pushed, and the record of the finished tasks. -/
structure RunState where
  user_state : GvoxPaletteSerializeUserState
  size : Nat
  errors : List GvoxResult
  trace : List TaskRecord
deriving DecidableEq, Repr

/-- One enqueued task (the lambda of source lines 234-242): `add_region`, then
`size += region_size`. -/
def run_task (S : Sampler) (hash_order : List Nat → List Nat) (range : GvoxRegionRange)
    (channels : List Nat) (r : RunState) (t : RegionTask) : RunState :=
  let a := add_region S hash_order r.user_state range t.1 t.2.1 t.2.2.1 t.2.2.2 channels
  { user_state := a.user_state, size := u64 (r.size + a.size),
    errors := r.errors ++ a.errors, trace := r.trace ++ [(t, a.region_header, a.size)] }

/-- Result of `serialize_region`: the user state left behind, the output
stream, the errors pushed and the record of the tasks. -/
structure SerializeResult where
  user_state : GvoxPaletteSerializeUserState
  output : List Nat
  errors : List GvoxResult
  trace : List TaskRecord
deriving DecidableEq, Repr

/-- The function `gvox_serialize_adapter_gvox_palette_serialize_region`.
`pool` is the worker pool (`shared/thread_pool.hpp` is not among the sources):
it gives the order in which the enqueued tasks are run, each task running to
completion. `output` is the output stream before the call. The `reserve` call
of source line 223 changes no contents and is left out. -/
def serialize_region (S : Sampler) (hash_order : List Nat → List Nat)
    (pool : List RegionTask → List RegionTask) (output : List Nat)
    (user_state : GvoxPaletteSerializeUserState) (range : GvoxRegionRange)
    (channel_flags : Nat) : SerializeResult :=
  let magic := [103, 118, 112, 0]
  let channel_n := u32 (popcount channel_flags)
  let out := gvox_output_write output user_state.offset magic
  let offset := user_state.offset + 4
  let out := gvox_output_write out offset (range_bytes range)
  let offset := offset + 24
  let blob_size_offset := offset
  let offset := offset + 4
  let out := gvox_output_write out offset (le32 channel_flags)
  let offset := offset + 4
  let out := gvox_output_write out offset (le32 channel_n)
  let offset := offset + 4
  let channels := channel_list channel_flags
  let region_nx := region_count range.extent.x
  let region_ny := region_count range.extent.y
  let region_nz := region_count range.extent.z
  let size := u64 (8 * channels.length * region_nx * region_ny * region_nz)
  let user_state : GvoxPaletteSerializeUserState :=
    { offset := offset, blobs_begin := size, data := vec_resize user_state.data size }
  let r := (pool (region_tasks region_nx region_ny region_nz channels.length)).foldl
    (run_task S hash_order range channels)
    { user_state := user_state, size := size, errors := [], trace := [] }
  let blob_size := u32_sub r.size r.user_state.blobs_begin
  let out := gvox_output_write out blob_size_offset (le32 blob_size)
  let out := gvox_output_write out r.user_state.offset r.user_state.data
  { user_state := r.user_state, output := out, errors := r.errors, trace := r.trace }

/-- The state of a freshly created serializer (`GvoxPaletteSerializeUserState{}`). -/
def fresh_state : GvoxPaletteSerializeUserState := { offset := 0, blobs_begin := 0, data := [] }

/-! ## The decoder of the palette container -/

/-- Modelled from the spec: the decoder of the palette container (section 4.4; the
parse adapter `parse/gvox_palette.cpp` is not among the sources), as the value
it places in the decoded grid at position `pos` for channel `channel_id`.
It reads the preamble, derives the channel list and the region grid
`ceil(extent / R)`, reads the `ChannelHeader` of the region holding `pos` at
index `((rz*Ny+ry)*Nx+rx)*channel_n + ci` of the header table, rejects a header
whose blob range leaves `[0, blob_size)` and reconstructs the voxel from
`variant_n` and the blob at `blobs_begin + blob_offset`. -/
def decode_voxel (input : List Nat) (pos : GvoxOffset3D) (channel_id : Nat) : Option Nat :=
  if read_u32 input 0 ≠ 7370343 then none else
  let ox := to_i32 (read_u32 input 4)
  let oy := to_i32 (read_u32 input 8)
  let oz := to_i32 (read_u32 input 12)
  let ex := read_u32 input 16
  let ey := read_u32 input 20
  let ez := read_u32 input 24
  let blob_size := read_u32 input 28
  let channel_mask := read_u32 input 32
  let channel_n := read_u32 input 36
  let channels := channel_list channel_mask
  let ci := channels.indexOf channel_id
  if ci ≥ channels.length then none else
  if pos.x < ox ∨ pos.y < oy ∨ pos.z < oz then none else
  let dx := (pos.x - ox).toNat
  let dy := (pos.y - oy).toNat
  let dz := (pos.z - oz).toNat
  if dx ≥ ex ∨ dy ≥ ey ∨ dz ≥ ez then none else
  let nx := (ex + REGION_SIZE - 1) / REGION_SIZE
  let ny := (ey + REGION_SIZE - 1) / REGION_SIZE
  let nz := (ez + REGION_SIZE - 1) / REGION_SIZE
  let blobs_begin := 40 + nx * ny * nz * channel_n * 8
  let rx := dx / REGION_SIZE
  let ry := dy / REGION_SIZE
  let rz := dz / REGION_SIZE
  let idx := dx % REGION_SIZE + dy % REGION_SIZE * REGION_SIZE
    + dz % REGION_SIZE * REGION_SIZE * REGION_SIZE
  let slot := 40 + 8 * (((rz * ny + ry) * nx + rx) * channel_n + ci)
  let variant_n := read_u32 input slot
  let blob_offset := read_u32 input (slot + 4)
  if variant_n = 0 then none
  else if variant_n = 1 then some blob_offset
  else if variant_n ≤ MAX_REGION_COMPRESSED_VARIANT_N then
    let bits := ceil_log2 variant_n
    if blob_offset + (4 * variant_n + calc_palette_region_size bits) > blob_size then none else
    let bit := idx * bits
    let byte := bit / 8
    let shift := bit - byte * 8
    let word := read_u32 input (blobs_begin + blob_offset + 4 * variant_n + byte)
    let palette_id := (word >>> shift) &&& get_mask bits
    some (read_u32 input (blobs_begin + blob_offset + 4 * palette_id))
  else
    if blob_offset + MAX_REGION_ALLOCATION_SIZE > blob_size then none else
    some (read_u32 input (blobs_begin + blob_offset + 4 * idx))

/-! ## Notions used to state the properties -/

/-- The position `offset + (px, py, pz)` as a `GvoxOffset3D` (`int32_t` arithmetic). -/
def offset_add (offset : GvoxOffset3D) (px py pz : Nat) : GvoxOffset3D :=
  { x := wrap_i32 (offset.x + px), y := wrap_i32 (offset.y + py), z := wrap_i32 (offset.z + pz) }

/-- The effective sample of voxel `c = (xi, yi, zi)` of region `(rx, ry, rz)`:
0 when `(rx*R + xi, ry*R + yi, rz*R + zi)` lies outside the extent on some
axis, the sample at `range.offset` plus that position otherwise. -/
def effective_sample (S : Sampler) (range : GvoxRegionRange) (rx ry rz channel_id : Nat)
    (c : Nat × Nat × Nat) : Nat :=
  if rx * REGION_SIZE + c.1 < range.extent.x ∧ ry * REGION_SIZE + c.2.1 < range.extent.y
      ∧ rz * REGION_SIZE + c.2.2 < range.extent.z then
    (S (offset_add range.offset (rx * REGION_SIZE + c.1) (ry * REGION_SIZE + c.2.1)
      (rz * REGION_SIZE + c.2.2)) channel_id).val
  else 0

/-- The `R^3` effective samples of a region, voxel `(xi, yi, zi)` at position
`xi + yi*R + zi*R^2`. -/
def region_samples (S : Sampler) (range : GvoxRegionRange) (rx ry rz channel_id : Nat) :
    List Nat :=
  region_coords.map (effective_sample S range rx ry rz channel_id)

/-- Number of distinct values among the effective samples of a region. -/
def distinct_count (S : Sampler) (range : GvoxRegionRange) (rx ry rz channel_id : Nat) : Nat :=
  (region_samples S range rx ry rz channel_id).toFinset.card

/-- The blob size the spec gives for a region with `variant_n` variants: nothing
for a constant region, `4 * variant_n + packed_size(bits)` on the palette path,
`4 * R^3` on the raw path. -/
def region_blob_size (variant_n : Nat) : Nat :=
  if variant_n > MAX_REGION_COMPRESSED_VARIANT_N then MAX_REGION_ALLOCATION_SIZE
  else if variant_n > 1 then 4 * variant_n + calc_palette_region_size (ceil_log2 variant_n)
  else 0

/-- The local buffer of a region task at the end of its fill pass, the variants
being taken in the order of their insertion (empty for a constant region). -/
def region_local_data (S : Sampler) (range : GvoxRegionRange) (rx ry rz channel_id : Nat) :
    List Nat :=
  let ox := u32 (rx * REGION_SIZE)
  let oy := u32 (ry * REGION_SIZE)
  let oz := u32 (rz * REGION_SIZE)
  let tile_set := region_tile_set S range ox oy oz channel_id
  let variant_n := u32 tile_set.length
  if variant_n > MAX_REGION_COMPRESSED_VARIANT_N then
    raw_local_data S range ox oy oz channel_id (vec_resize [] MAX_REGION_ALLOCATION_SIZE)
  else if variant_n > 1 then
    match palette_local_data S range ox oy oz channel_id tile_set variant_n
        (ceil_log2 variant_n)
        (vec_resize [] (4 * variant_n + calc_palette_region_size (ceil_log2 variant_n))) with
    | .ok l => l
    | .error _ => []
  else []

/-- The blob a finished region task has stored in the shared buffer: the `size`
bytes from `blobs_begin + blob_offset` on. -/
def stored_blob (a : AddRegionResult) : List Nat :=
  (a.user_state.data.drop (a.user_state.blobs_begin + a.region_header.blob_offset)).take a.size

/-- A serializer state whose blob area `[blobs_begin, data.size())` is shorter
than `2^32` bytes. -/
def state_ok (user_state : GvoxPaletteSerializeUserState) : Prop :=
  user_state.blobs_begin ≤ user_state.data.length
    ∧ user_state.data.length - user_state.blobs_begin < 4294967296

/-- The channel id a task samples, `channels[ci]`. -/
def task_channel (channels : List Nat) (t : RegionTask) : Nat := channels.getD t.2.2.2 0

/-- Number of distinct effective samples of the region and channel of a task. -/
def task_variant_n (S : Sampler) (range : GvoxRegionRange) (channels : List Nat)
    (t : RegionTask) : Nat :=
  distinct_count S range t.1 t.2.1 t.2.2.1 (task_channel channels t)

/-- The blob size of a task. -/
def task_size (S : Sampler) (range : GvoxRegionRange) (channels : List Nat)
    (t : RegionTask) : Nat :=
  region_blob_size (task_variant_n S range channels t)

/-- The sum of the blob sizes of a list of tasks. -/
def tasks_size (S : Sampler) (range : GvoxRegionRange) (channels : List Nat)
    (ts : List RegionTask) : Nat :=
  (ts.map (task_size S range channels)).sum

/-- The byte offset of the header slot of a task. -/
def task_slot (range : GvoxRegionRange) (channel_n : Nat) (t : RegionTask) : Nat :=
  header_slot_offset range t.1 t.2.1 t.2.2.1 t.2.2.2 channel_n

/-- The header a task records when the shared buffer holds `len` bytes at its
reserve step: its variant count, and the blob offset `len - blobs_begin` reduced
to 32 bits, or the single sample of a constant region. -/
def task_header (S : Sampler) (range : GvoxRegionRange) (channels : List Nat)
    (blobs_begin len : Nat) (t : RegionTask) : ChannelHeader :=
  { variant_n := task_variant_n S range channels t,
    blob_offset :=
      if 1 < task_variant_n S range channels t then u32_sub len blobs_begin
      else (region_samples S range t.1 t.2.1 t.2.2.1 (task_channel channels t)).headD 0 }

/-- The records left by tasks run one after the other from a buffer of `len` bytes. -/
def task_records (S : Sampler) (range : GvoxRegionRange) (channels : List Nat)
    (blobs_begin : Nat) : Nat → List RegionTask → List TaskRecord
  | _, [] => []
  | len, t :: ts =>
    (t, task_header S range channels blobs_begin len t, task_size S range channels t)
      :: task_records S range channels blobs_begin (len + task_size S range channels t) ts

/-- A task whose region indices are below `2^29`. -/
def task_ok (t : RegionTask) : Prop :=
  t.1 < 536870912 ∧ t.2.1 < 536870912 ∧ t.2.2.1 < 536870912

/-- A task is stored in a buffer: its header sits in its slot and its blob, reserved
when the buffer held `len` bytes, sits at `[len, len + size)`. -/
def task_stored (S : Sampler) (range : GvoxRegionRange) (channels : List Nat)
    (blobs_begin : Nat) (data : List Nat) (t : RegionTask) : Prop :=
  ∃ len, blobs_begin ≤ len ∧ len - blobs_begin < 4294967296
    ∧ len + task_size S range channels t ≤ data.length
    ∧ read_u32 data (task_slot range channels.length t) = task_variant_n S range channels t
    ∧ read_u32 data (task_slot range channels.length t + 4)
        = (task_header S range channels blobs_begin len t).blob_offset
    ∧ ∀ j, j < task_size S range channels t →
        data.getD (len + j) 0
          = (region_local_data S range t.1 t.2.1 t.2.2.1 (task_channel channels t)).getD j 0

/-- The index of the header slot of a task in the header table. -/
def task_index (nx ny cn : Nat) (t : RegionTask) : Nat :=
  ((t.2.2.1 * ny + t.2.1) * nx + t.1) * cn + t.2.2.2

/-- The state in which `serialize_region`, called on a fresh state, starts its tasks. -/
def run_init (range : GvoxRegionRange) (flags : Nat) : RunState :=
  let size := u64 (8 * (channel_list flags).length * region_count range.extent.x
    * region_count range.extent.y * region_count range.extent.z)
  { user_state := { offset := 40, blobs_begin := size, data := vec_resize [] size },
    size := size, errors := [], trace := [] }

/-- The tasks `serialize_region` enqueues. -/
def enqueued_tasks (range : GvoxRegionRange) (flags : Nat) : List RegionTask :=
  region_tasks (region_count range.extent.x) (region_count range.extent.y)
    (region_count range.extent.z) (channel_list flags).length

/-- The state in which the tasks of `serialize_region`, called on a fresh state,
leave the run. -/
def run_final (S : Sampler) (hash_order : List Nat → List Nat)
    (pool : List RegionTask → List RegionTask) (range : GvoxRegionRange) (flags : Nat) :
    RunState :=
  (pool (enqueued_tasks range flags)).foldl
    (run_task S hash_order range (channel_list flags)) (run_init range flags)

/-- An `int32_t` value. -/
def is_i32 (i : Int) : Prop := -2147483648 ≤ i ∧ i < 2147483648

/-- A position whose components are `int32_t` values. -/
def offset_typed (p : GvoxOffset3D) : Prop := is_i32 p.x ∧ is_i32 p.y ∧ is_i32 p.z

/-- A range whose offset components are `int32_t` and whose extent components are
`uint32_t` values. -/
def range_typed (range : GvoxRegionRange) : Prop :=
  offset_typed range.offset ∧ range.extent.x < 4294967296 ∧ range.extent.y < 4294967296
    ∧ range.extent.z < 4294967296

/-- A position inside a range. -/
def in_range (range : GvoxRegionRange) (p : GvoxOffset3D) : Prop :=
  range.offset.x ≤ p.x ∧ p.x < range.offset.x + range.extent.x
    ∧ range.offset.y ≤ p.y ∧ p.y < range.offset.y + range.extent.y
    ∧ range.offset.z ≤ p.z ∧ p.z < range.offset.z + range.extent.z

/-- The region grid of a range is formed without 32-bit wrap-around: the rounding
`extent + R - 1` stays below `2^32` on every axis and the grid has at most `2^32`
regions. -/
def grid_fits (range : GvoxRegionRange) : Prop :=
  range.extent.x + 7 < 4294967296 ∧ range.extent.y + 7 < 4294967296
    ∧ range.extent.z + 7 < 4294967296
    ∧ region_count range.extent.x * region_count range.extent.y
        * region_count range.extent.z ≤ 4294967296

/-- The number of blob bytes of a container: the sum of the blob sizes of the
enqueued tasks. -/
def total_blob_size (S : Sampler) (range : GvoxRegionRange) (flags : Nat) : Nat :=
  tasks_size S range (channel_list flags) (enqueued_tasks range flags)

/-- The size of the header table of a container: 8 bytes per region and channel. -/
def header_table_bytes (range : GvoxRegionRange) (flags : Nat) : Nat :=
  8 * (region_count range.extent.x * region_count range.extent.y
    * region_count range.extent.z * (channel_list flags).length)

/-- The sampler that returns `v` everywhere. -/
def sampler_const (v : Fin 4294967296) : Sampler := fun _ _ => v

/-- The sampler that returns the x coordinate of a position (0 left of the origin). -/
def sampler_x : Sampler := fun p _ => Fin.ofNat p.x.toNat

/-- A sampler that takes 512 distinct values on every aligned cube of side 8:
`x mod 8 + 8 * (y mod 8) + 64 * (z mod 8)`. -/
def sampler_index : Sampler :=
  fun p _ => Fin.ofNat (p.x.toNat % 8 + 8 * (p.y.toNat % 8) + 64 * (p.z.toNat % 8))

/-- The range at the origin with the given extent. -/
def range_at_origin (ex ey ez : Nat) : GvoxRegionRange :=
  { offset := { x := 0, y := 0, z := 0 }, extent := { x := ex, y := ey, z := ez } }

/-- A serializer state holding a zeroed header table of `n` bytes and no blob. -/
def state_with_table (n : Nat) : GvoxPaletteSerializeUserState :=
  { offset := 40, blobs_begin := n, data := List.replicate n 0 }

/-- Bit `i` of a byte buffer read as a little-endian bit stream. -/
def bit_at (buf : List Nat) (i : Nat) : Bool := (buf.getD (i / 8) 0).testBit (i % 8)

/-- The number a byte buffer spells as a little-endian bit stream. -/
def le_value : List Nat → Nat
  | [] => 0
  | b :: bs => b + 256 * le_value bs

/-- The bits `[start, start + width)` of a byte buffer read as a little-endian
bit stream, as a number (LSB first). -/
def bit_field (buf : List Nat) (start width : Nat) : Nat :=
  le_value buf / 2 ^ start % 2 ^ width

/-- The index `xi + yi*R + zi*R^2` of voxel `c = (xi, yi, zi)` inside its region. -/
def in_region_index (c : Nat × Nat × Nat) : Nat :=
  c.1 + c.2.1 * REGION_SIZE + c.2.2 * REGION_SIZE * REGION_SIZE

/-- Every entry of a buffer is a byte. -/
def bytes_ok (buf : List Nat) : Prop := ∀ i, buf.getD i 0 < 256

/-- The sum of the blob sizes the tasks of a trace returned. -/
def trace_size (tr : List TaskRecord) : Nat := (tr.map (fun r => r.2.2)).sum

/-- The blob bytes reserved before the `i`-th task of a trace made its reserve step:
the sum of the sizes returned by the tasks that ran before it. -/
def reserved_before (tr : List TaskRecord) (i : Nat) : Nat := trace_size (tr.take i)

/-! ## The region encoder with a sampler that may answer differently when asked again -/

/-- The function `add_region` for a sampler that need not return the same value when
it is called again for the same position: `S` answers the calls of the sampling pass
(source lines 61-83) and `S2` the calls of the second pass over the cube (source
lines 103-122 on the raw path, 139-168 on the palette path). With `S2 = S` this is
`add_region`. -/
def add_region_resampled (S S2 : Sampler) (hash_order : List Nat → List Nat)
    (user_state : GvoxPaletteSerializeUserState) (range : GvoxRegionRange)
    (rx ry rz ci : Nat) (channels : List Nat) : AddRegionResult :=
  let channel_id := channels.getD ci 0
  let ox := u32 (rx * REGION_SIZE)
  let oy := u32 (ry * REGION_SIZE)
  let oz := u32 (rz * REGION_SIZE)
  let tile_set := region_tile_set S range ox oy oz channel_id
  let variant_n := u32 tile_set.length
  let bits_per_variant := ceil_log2 variant_n
  if variant_n > MAX_REGION_COMPRESSED_VARIANT_N then
    let size := MAX_REGION_ALLOCATION_SIZE
    let a := alloc_region user_state size
    let local_data := raw_local_data S2 range ox oy oz channel_id a.2.2
    publish_region a.1 range rx ry rz ci channels.length
      { variant_n := variant_n, blob_offset := a.2.1 } local_data size
  else if variant_n > 1 then
    let size := 4 * variant_n + calc_palette_region_size bits_per_variant
    let a := alloc_region user_state size
    match palette_local_data S2 range ox oy oz channel_id (hash_order tile_set)
        variant_n bits_per_variant a.2.2 with
    | .error e =>
      { user_state := a.1, size := 0,
        region_header := { variant_n := variant_n, blob_offset := a.2.1 }, errors := [e] }
    | .ok local_data =>
      publish_region a.1 range rx ry rz ci channels.length
        { variant_n := variant_n, blob_offset := a.2.1 } local_data size
  else
    publish_region user_state range rx ry rz ci channels.length
      { variant_n := variant_n, blob_offset := (hash_order tile_set).headD 0 } [] 0

/-! ## The mask table of `formats/gvox_u32_palette.cpp` -/

/-- The table `mask_bases` (source lines 57-67): nine entries. -/
def mask_bases : List Nat :=
  [0b0000000000000001, 0b0000000000000011, 0b0000000000000111, 0b0000000000001111,
   0b0000000000011111, 0b0000000000111111, 0b0000000001111111, 0b0000000011111111,
   0b0000000111111111]

/-- The mask `mask_bases[bits_per_variant]` that `chunk_variance` and `parse_payload`
select for a palette index of `bits_per_variant` bits; `none` where the index
leaves the `std::array` (undefined in the source). -/
def mask_bases_at (bits_per_variant : Nat) : Option Nat := mask_bases[bits_per_variant]?

/-! ## The raw parse adapter (`adapters/parse/gvox_raw.cpp`) -/

/-- The state `GvoxRawParseUserState` of the raw parser. -/
structure GvoxRawParseUserState where
  range : GvoxRegionRange
  channel_flags : Nat
  channel_n : Nat
  offset : Nat
deriving DecidableEq, Repr

/-- The in-memory region `GvoxRegion`; `data` is the pointer-sized field that
carries the sample inline. -/
structure GvoxRegion where
  range : GvoxRegionRange
  channels : Nat
  flags : Nat
  data : Nat
deriving DecidableEq, Repr

/-- Modelled from the spec: the region flag `UNIFORM` (`GVOX_REGION_FLAG_UNIFORM` of
`gvox/gvox.h`, which is not among the sources). -/
def GVOX_REGION_FLAG_UNIFORM : Nat := 1

/-- The state of a freshly created raw parser (`GvoxRawParseUserState()` in
`gvox_parse_adapter_gvox_raw_create`). -/
def raw_fresh_state : GvoxRawParseUserState :=
  { range := { offset := { x := 0, y := 0, z := 0 }, extent := { x := 0, y := 0, z := 0 } },
    channel_flags := 0, channel_n := 0, offset := 0 }

/-- The `GvoxRegionRange` that `gvox_input_read` fetches from byte offset `off` of the
input: offset `i32 x 3`, extent `u32 x 3`. The input stream is the list of its
bytes (`gvox_input_read` is declared in `gvox/gvox.h`, which is not among the
sources); a byte the stream does not hold reads as 0. -/
def read_range (input : List Nat) (off : Nat) : GvoxRegionRange :=
  { offset := { x := to_i32 (read_u32 input off), y := to_i32 (read_u32 input (off + 4)),
                z := to_i32 (read_u32 input (off + 8)) },
    extent := { x := read_u32 input (off + 12), y := read_u32 input (off + 16),
                z := read_u32 input (off + 20) } }

/-- The function `gvox_parse_adapter_gvox_raw_blit_begin`: the state it leaves and
the errors it pushes. -/
def blit_begin (input : List Nat) (user_state : GvoxRawParseUserState) :
    GvoxRawParseUserState × List GvoxResult :=
  let magic := read_u32 input user_state.offset
  let offset := u64 (user_state.offset + 4)
  if magic ≠ 103 + 256 * 118 + 65536 * 114 + 16777216 * 0 then
    ({ user_state with offset := offset }, [GvoxResult.ERROR_PARSE_ADAPTER_INVALID_INPUT])
  else
    let range := read_range input offset
    let offset := u64 (offset + 24)
    let channel_flags := read_u32 input offset
    let offset := u64 (offset + 4)
    ({ range := range, channel_flags := channel_flags,
       channel_n := u32 (popcount channel_flags), offset := offset }, [])

/-- Conversion `static_cast<size_t>` of an `int32_t` (sign extension to 64 bits). -/
def to_size_t (i : Int) : Nat := (i % 18446744073709551616).toNat

/-- The loop of `load_region` (source lines 63-68) that counts the set bits of the
mask below `channel_id`. -/
def voxel_channel_index (channel_flags channel_id : Nat) : Nat :=
  (List.range channel_id).foldl
    (fun voxel_channel_index channel_index =>
      if (channel_flags >>> channel_index) &&& 1 ≠ 0 then u32 (voxel_channel_index + 1)
      else voxel_channel_index) 0

/-- The function `gvox_parse_adapter_gvox_raw_load_region`. The differences
`offset->x - range.offset.x` are `int32_t` (two's complement wrap-around) and the
address is formed in 64-bit `size_t` arithmetic. -/
def load_region (input : List Nat) (user_state : GvoxRawParseUserState)
    (offset : GvoxOffset3D) (channel_id : Nat) : GvoxRegion :=
  let base_offset := user_state.offset
  let voxel_channel_index := voxel_channel_index user_state.channel_flags channel_id
  let dx := to_size_t (wrap_i32 (offset.x - user_state.range.offset.x))
  let dy := to_size_t (wrap_i32 (offset.y - user_state.range.offset.y))
  let dz := to_size_t (wrap_i32 (offset.z - user_state.range.offset.z))
  let read_offset := u64 (base_offset + u64 (4 * u64 (voxel_channel_index
    + u64 (user_state.channel_n * u64 (u64 (dx + u64 (dy * user_state.range.extent.x))
      + u64 (u64 (dz * user_state.range.extent.x) * user_state.range.extent.y))))))
  let voxel_data := read_u32 input read_offset
  { range := { offset := offset, extent := { x := 1, y := 1, z := 1 } },
    channels := channel_id, flags := GVOX_REGION_FLAG_UNIFORM, data := voxel_data }

/-- The function `gvox_parse_adapter_gvox_raw_sample_region`:
`static_cast<uint32_t>(reinterpret_cast<size_t>(region->data))`. -/
def sample_region (region : GvoxRegion) : Nat := u32 region.data

/-! ## Notions used to state the properties of the raw parser -/

/-- Number of set bits of a mask below bit `c`. -/
def set_bits_below (flags c : Nat) : Nat :=
  ((List.range c).filter (fun i => flags.testBit i)).length

/-- Index of the sample of channel slot `ch_idx` of the voxel `(dx, dy, dz)` in a
dense array with the channel fastest, then `x`, `y`, `z`. -/
def dense_index (channel_n ex ey ch_idx dx dy dz : Nat) : Nat :=
  ch_idx + channel_n * (dx + dy * ex + dz * ex * ey)

/-- Modelled from the spec: the raw container (section 6; the raw serialize adapter
is not among the sources): magic `'g','v','r',0`, the 24-byte range, the channel
mask, then the dense array of `u32` samples. -/
def raw_container (range : GvoxRegionRange) (flags : Nat) (samples : List Nat) : List Nat :=
  [103, 118, 114, 0] ++ range_bytes range ++ le32 flags ++ samples.flatMap le32

/-! ## States and nodes used in examples -/

/-- A sampler for a row of regions along x: 512 distinct values on every aligned cube
of side 8 left of `x = 16777216` (`x mod 8 + 8 * (y mod 8) + 64 * (z mod 8)`), and two
values from there on (8 where `x mod 8 = 0`, else 0). -/
def sampler_mixed : Sampler :=
  fun p _ =>
    if p.x.toNat < 16777216 then
      Fin.ofNat (p.x.toNat % 8 + 8 * (p.y.toNat % 8) + 64 * (p.z.toNat % 8))
    else Fin.ofNat (if p.x.toNat % 8 = 0 then 8 else 0)

/-! ## The legacy codec of `formats/gvox_u32_palette.cpp` -/

/-- The constant `CHUNK_SIZE`. -/
def CHUNK_SIZE : Nat := 8

/-- A scene node `GVoxSceneNode`: its sizes and its voxels.  A voxel is held as the
`uint32_t` value `u32_voxel` that source lines 89-97 pack from its colour and id (the
conversion of the colour floats to bytes is not modelled). -/
structure GVoxSceneNode where
  size_x : Nat
  size_y : Nat
  size_z : Nat
  voxels : Nat → Nat

/-- The cube coordinates `(xi, yi, zi)` in the order of the three nested loops
`for zi, for yi, for xi` over `[0, CHUNK_SIZE)`. -/
def chunk_coords : List (Nat × Nat × Nat) :=
  (List.range CHUNK_SIZE).flatMap fun zi =>
    (List.range CHUNK_SIZE).flatMap fun yi =>
      (List.range CHUNK_SIZE).map fun xi => (xi, yi, zi)

/-- The voxel index `px + py * size_x + pz * size_x * size_y` of the voxel at cube
coordinates `c` of chunk `(chunk_x, chunk_y, chunk_z)`, in `size_t` arithmetic. -/
def chunk_voxel_index (size_x size_y chunk_x chunk_y chunk_z : Nat) (c : Nat × Nat × Nat) :
    Nat :=
  let px := u64 (u64 (chunk_x * CHUNK_SIZE) + c.1)
  let py := u64 (u64 (chunk_y * CHUNK_SIZE) + c.2.1)
  let pz := u64 (u64 (chunk_z * CHUNK_SIZE) + c.2.2)
  u64 (u64 (px + u64 (py * size_x)) + u64 (u64 (pz * size_x) * size_y))

/-- The packed voxel `u32_voxel` at cube coordinates `c` of a chunk. -/
def chunk_voxel (node : GVoxSceneNode) (chunk_x chunk_y chunk_z : Nat)
    (c : Nat × Nat × Nat) : Nat :=
  u32 (node.voxels (chunk_voxel_index node.size_x node.size_y chunk_x chunk_y chunk_z c))

/-- The first pass of `chunk_variance` (source lines 73-102): the variant set. -/
def chunk_tile_set (node : GVoxSceneNode) (chunk_x chunk_y chunk_z : Nat) : List Nat :=
  chunk_coords.foldl
    (fun s c => tile_set_insert s (chunk_voxel node chunk_x chunk_y chunk_z c)) []

/-- Body of the index loop of `chunk_variance` (source lines 155-178).  The palette is
searched in the buffer; the result is `none` where the lookup `mask_bases[bits_per_variant]`
leaves the table. -/
def chunk_fill_step (node : GVoxSceneNode) (chunk_x chunk_y chunk_z : Nat)
    (palette_begin output_buffer variants bits_per_variant : Nat) (data : List Nat)
    (c : Nat × Nat × Nat) : Option (List Nat) :=
  let index := chunk_voxel_index node.size_x node.size_y chunk_x chunk_y chunk_z c
  let u32_voxel := chunk_voxel node chunk_x chunk_y chunk_z c
  let palette_id := u32 ((read_words data palette_begin variants).indexOf u32_voxel)
  let bit_index := u32 (index * bits_per_variant)
  let byte_index := bit_index / 8
  let bit_offset := bit_index - byte_index * 8
  match mask_bases_at bits_per_variant with
  | none => none
  | some mask =>
    let output := read_u32 data (output_buffer + byte_index)
    let output := output &&& u32_not (u32 (mask <<< bit_offset))
    let output := output ||| u32 (palette_id <<< bit_offset)
    some (write_bytes data (output_buffer + byte_index) (le32 output))

/-- The index loop of `chunk_variance`. -/
def chunk_fill_loop (step : List Nat → Nat × Nat × Nat → Option (List Nat)) :
    List Nat → List (Nat × Nat × Nat) → Option (List Nat)
  | buf, [] => some buf
  | buf, c :: cs =>
    match step buf c with
    | none => none
    | some buf1 => chunk_fill_loop step buf1 cs

/-- The function `PaletteCompressor::chunk_variance`: the chunk is appended to the
buffer `data` of the compressor.  Returns the buffer and the size of the chunk.
`hash_order` is the iteration order of the `std::unordered_set`. -/
def chunk_variance (hash_order : List Nat → List Nat) (data : List Nat)
    (node : GVoxSceneNode) (chunk_x chunk_y chunk_z : Nat) : Option (List Nat × Nat) :=
  let tile_set := chunk_tile_set node chunk_x chunk_y chunk_z
  let variants := u64 tile_set.length
  let bits_per_variant := ceil_log2 variants
  let chunk_info := u32 variants
  let size := 4 + 4 * variants
  let size :=
    if variants ≠ 1 then
      size + ((CHUNK_SIZE * CHUNK_SIZE * CHUNK_SIZE * bits_per_variant) / 8 + 3) / 4 * 4 + 1
    else size
  let size := size + 4
  let old_size := data.length
  let data := data ++ List.replicate size 0
  let data := write_bytes data old_size (le32 chunk_info)
  let palette_begin := old_size + 4
  let data := write_words data palette_begin (hash_order tile_set)
  let output_buffer := palette_begin + 4 * variants
  if variants > 1 then
    match chunk_fill_loop (chunk_fill_step node chunk_x chunk_y chunk_z palette_begin
        output_buffer variants bits_per_variant) data chunk_coords with
    | none => none
    | some data => some (data, size)
  else some (data, size)

/-- The palette index `parse_payload` extracts for the voxel at cube coordinates `c` of
the chunk that starts at `buffer_ptr` (source lines 306-347; 0 for a chunk of one
variant, which reads `palette_begin[0]`).  The result is `none` where the assertion
`bits_per_variant < 9` fails or the lookup in `mask_bases` leaves the table. -/
def parse_palette_id (payload : List Nat) (buffer_ptr size_x size_y : Nat)
    (chunk_x chunk_y chunk_z : Nat) (c : Nat × Nat × Nat) : Option Nat :=
  let chunk_info := read_u32 payload buffer_ptr
  let variants := chunk_info
  let palette_begin := buffer_ptr + 4
  let bits_per_variant := ceil_log2 variants
  if ¬ bits_per_variant < 9 then none
  else
    let buffer_ptr := palette_begin + variants * 4
    if variants = 1 then some 0
    else
      let index := chunk_voxel_index size_x size_y chunk_x chunk_y chunk_z c
      let bit_index := u32 (index * bits_per_variant)
      let byte_index := bit_index / 8
      let bit_offset := bit_index - byte_index * 8
      match mask_bases_at bits_per_variant with
      | none => none
      | some mask =>
        let input := read_u32 payload (buffer_ptr + byte_index)
        some ((input &&& mask) >>> bit_offset)

/-- The packed voxel `u32_voxel = palette_begin[palette_id]` that `parse_payload` decodes
for the voxel at cube coordinates `c` (source lines 322 and 348). -/
def parse_voxel (payload : List Nat) (buffer_ptr size_x size_y : Nat)
    (chunk_x chunk_y chunk_z : Nat) (c : Nat × Nat × Nat) : Option Nat :=
  (parse_palette_id payload buffer_ptr size_x size_y chunk_x chunk_y chunk_z c).map
    (fun palette_id => read_u32 payload (buffer_ptr + 4 + 4 * palette_id))

/-- The node of one chunk whose voxels are all 0 but the voxel of index 2, which is 1. -/
def node_two : GVoxSceneNode :=
  { size_x := 8, size_y := 8, size_z := 8, voxels := fun i => if i = 2 then 1 else 0 }

/-- The node of one chunk whose voxel of index `i` is `i`: 512 distinct voxels. -/
def node_ramp : GVoxSceneNode :=
  { size_x := 8, size_y := 8, size_z := 8, voxels := fun i => i }

/-! ## A call of `serialize_region` on a state that was used before -/

/-- The state in which `serialize_region`, called on the state `st`, starts its tasks
(source lines 198-224): the write offset has moved past the 40 bytes of the preamble,
`blobs_begin` is the size of the header table and the buffer is resized to that size. -/
def run_start (st : GvoxPaletteSerializeUserState) (range : GvoxRegionRange) (flags : Nat) :
    RunState :=
  let size := u64 (8 * (channel_list flags).length * region_count range.extent.x
    * region_count range.extent.y * region_count range.extent.z)
  { user_state := { offset := st.offset + 4 + 24 + 4 + 4 + 4, blobs_begin := size,
                    data := vec_resize st.data size },
    size := size, errors := [], trace := [] }

/-- The state in which the tasks of `serialize_region`, called on the state `st`, leave
the run. -/
def run_from (S : Sampler) (hash_order : List Nat → List Nat)
    (pool : List RegionTask → List RegionTask) (st : GvoxPaletteSerializeUserState)
    (range : GvoxRegionRange) (flags : Nat) : RunState :=
  (pool (enqueued_tasks range flags)).foldl
    (run_task S hash_order range (channel_list flags)) (run_start st range flags)

/-! ## A sampler for the threshold between the palette path and the raw path -/

/-- A sampler that takes exactly `m + 1` values on every aligned cube of side 8 (for
`m ≤ 511`), descending along the voxel index `i = x mod 8 + 8 * (y mod 8) + 64 * (z mod 8)`:
the value is `m - min m i`. -/
def sampler_descending (m : Nat) : Sampler :=
  fun p _ => Fin.ofNat (m - min m (p.x.toNat % 8 + 8 * (p.y.toNat % 8) + 64 * (p.z.toNat % 8)))

/-- The sampler that returns the channel id it is asked for, at every position. -/
def sampler_channel : Sampler := fun _ channel_id => Fin.ofNat channel_id

/-! ## The worker pool: interleavings of the locked sections of the region tasks -/

theorem u32_of_lt {n : Nat} (h : n < 4294967296) : u32 n = n := by
  unfold u32; omega

theorem u32_lt (n : Nat) : u32 n < 4294967296 := by
  unfold u32; omega

theorem le32_length (v : Nat) : (le32 v).length = 4 := rfl

theorem write_bytes_length (buf : List Nat) (off : Nat) (bytes : List Nat) :
    (write_bytes buf off bytes).length = buf.length := by
  unfold write_bytes
  split
  · simp only [List.length_append, List.length_take, List.length_drop]; omega
  · rfl

theorem getD_write_bytes (buf bytes : List Nat) (off i : Nat)
    (h : off + bytes.length ≤ buf.length) :
    (write_bytes buf off bytes).getD i 0 =
      if off ≤ i ∧ i < off + bytes.length then bytes.getD (i - off) 0 else buf.getD i 0 := by
  unfold write_bytes
  rw [if_pos h]
  have h1 : (List.take off buf).length = off := by simp; omega
  by_cases c1 : i < off
  · rw [if_neg (by omega), List.append_assoc, List.getD_append _ _ _ _ (by omega)]
    simp only [List.getD_eq_getElem?_getD, List.getElem?_take, if_pos c1]
  · by_cases c2 : i < off + bytes.length
    · rw [if_pos (by omega), List.append_assoc, List.getD_append_right _ _ _ _ (by omega), h1,
        List.getD_append _ _ _ _ (by omega)]
    · rw [if_neg (by omega), List.getD_append_right _ _ _ _ (by simp; omega)]
      simp only [List.getD_eq_getElem?_getD, List.getElem?_drop, List.length_append, h1]
      congr 2; omega

theorem getD_of_le_length (buf : List Nat) (i : Nat) (h : buf.length ≤ i) : buf.getD i 0 = 0 := by
  simp [List.getD_eq_getElem?_getD, List.getElem?_eq_none h]

theorem list_ext_getD (a b : List Nat) (hl : a.length = b.length)
    (h : ∀ i, i < a.length → a.getD i 0 = b.getD i 0) : a = b := by
  apply List.ext_getElem hl
  intro i h1 h2
  have := h i h1
  rwa [List.getD_eq_getElem _ _ h1, List.getD_eq_getElem _ _ h2] at this

theorem le32_getD_lt (v i : Nat) : (le32 v).getD i 0 < 256 := by
  unfold le32
  match i with
  | 0 => simp; omega
  | 1 => simp; omega
  | 2 => simp; omega
  | 3 => simp; omega
  | (n+4) => simp

theorem bytes_ok_write_bytes (buf bytes : List Nat) (off : Nat) (h1 : bytes_ok buf)
    (h2 : bytes_ok bytes) : bytes_ok (write_bytes buf off bytes) := by
  intro i
  by_cases h : off + bytes.length ≤ buf.length
  · rw [getD_write_bytes _ _ _ _ h]
    split
    · exact h2 _
    · exact h1 _
  · unfold write_bytes; rw [if_neg h]; exact h1 i

theorem read_u32_lt (buf : List Nat) (off : Nat) (h : bytes_ok buf) :
    read_u32 buf off < 4294967296 := by
  unfold read_u32
  have := h off; have := h (off+1); have := h (off+2); have := h (off+3)
  omega

theorem read_u32_write_bytes_same (buf : List Nat) (off v : Nat) (h : off + 4 ≤ buf.length) :
    read_u32 (write_bytes buf off (le32 v)) off = v % 4294967296 := by
  unfold read_u32
  rw [getD_write_bytes _ _ _ _ (by simpa using h), getD_write_bytes _ _ _ _ (by simpa using h),
    getD_write_bytes _ _ _ _ (by simpa using h), getD_write_bytes _ _ _ _ (by simpa using h)]
  simp only [le32_length]
  rw [if_pos (by omega), if_pos (by omega), if_pos (by omega), if_pos (by omega)]
  have e0 : off - off = 0 := by omega
  have e1 : off + 1 - off = 1 := by omega
  have e2 : off + 2 - off = 2 := by omega
  have e3 : off + 3 - off = 3 := by omega
  rw [e0, e1, e2, e3]
  simp only [le32, List.getD_cons_zero, List.getD_cons_succ]
  omega

theorem read_u32_write_bytes_disjoint (buf bytes : List Nat) (off off1 : Nat)
    (h : off1 + 4 ≤ off ∨ off + bytes.length ≤ off1) :
    read_u32 (write_bytes buf off bytes) off1 = read_u32 buf off1 := by
  by_cases hb : off + bytes.length ≤ buf.length
  · unfold read_u32
    rw [getD_write_bytes _ _ _ _ hb, getD_write_bytes _ _ _ _ hb,
      getD_write_bytes _ _ _ _ hb, getD_write_bytes _ _ _ _ hb]
    rw [if_neg (by omega), if_neg (by omega), if_neg (by omega), if_neg (by omega)]
  · unfold write_bytes; rw [if_neg hb]

theorem read_u32_write_bytes_inside (buf bytes : List Nat) (off off1 : Nat)
    (hb : off + bytes.length ≤ buf.length) (h : off ≤ off1 ∧ off1 + 4 ≤ off + bytes.length) :
    read_u32 (write_bytes buf off bytes) off1 = read_u32 bytes (off1 - off) := by
  unfold read_u32
  rw [getD_write_bytes _ _ _ _ hb, getD_write_bytes _ _ _ _ hb,
    getD_write_bytes _ _ _ _ hb, getD_write_bytes _ _ _ _ hb]
  rw [if_pos (by omega), if_pos (by omega), if_pos (by omega), if_pos (by omega)]
  have e1 : off1 + 1 - off = off1 - off + 1 := by omega
  have e2 : off1 + 2 - off = off1 - off + 2 := by omega
  have e3 : off1 + 3 - off = off1 - off + 3 := by omega
  rw [e1, e2, e3]

theorem read_u32_congr (a b : List Nat) (off off1 : Nat)
    (h : ∀ k, k < 4 → a.getD (off + k) 0 = b.getD (off1 + k) 0) :
    read_u32 a off = read_u32 b off1 := by
  unfold read_u32
  have h0 := h 0 (by omega); have h1 := h 1 (by omega)
  have h2 := h 2 (by omega); have h3 := h 3 (by omega)
  simp only [Nat.add_zero] at h0
  rw [h0, h1, h2, h3]

/-! ## Words in byte buffers -/

theorem words_bytes_length (ws : List Nat) : (ws.flatMap le32).length = 4 * ws.length := by
  induction ws with
  | nil => rfl
  | cons w ws ih => simp only [List.flatMap_cons, List.length_append, le32_length, ih,
      List.length_cons]; omega

theorem write_bytes_append (buf a b : List Nat) (off : Nat)
    (h : off + a.length + b.length ≤ buf.length) :
    write_bytes (write_bytes buf off a) (off + a.length) b = write_bytes buf off (a ++ b) := by
  apply list_ext_getD
  · simp only [write_bytes_length]
  · intro i _
    rw [getD_write_bytes _ _ _ _ (by rw [write_bytes_length]; omega),
      getD_write_bytes _ _ _ _ (by omega),
      getD_write_bytes _ _ _ _ (by rw [List.length_append]; omega)]
    simp only [List.length_append]
    by_cases c1 : off + a.length ≤ i ∧ i < off + a.length + b.length
    · rw [if_pos c1, if_pos (by omega), List.getD_append_right _ _ _ _ (by omega)]
      congr 1; omega
    · rw [if_neg c1]
      by_cases c2 : off ≤ i ∧ i < off + a.length
      · rw [if_pos c2, if_pos (by omega), List.getD_append _ _ _ _ (by omega)]
      · rw [if_neg c2, if_neg (by omega)]

theorem write_words_eq (ws : List Nat) (buf : List Nat) (off : Nat)
    (h : off + 4 * ws.length ≤ buf.length) :
    write_words buf off ws = write_bytes buf off (ws.flatMap le32) := by
  induction ws generalizing buf off with
  | nil =>
    simp only [write_words, List.flatMap_nil]
    unfold write_bytes
    simp
  | cons w ws ih =>
    simp only [List.length_cons] at h
    simp only [write_words, List.flatMap_cons]
    rw [ih _ _ (by rw [write_bytes_length]; omega)]
    have := write_bytes_append buf (le32 w) (ws.flatMap le32) off
      (by rw [words_bytes_length, le32_length]; omega)
    rw [le32_length] at this
    exact this

theorem write_words_length (ws : List Nat) (buf : List Nat) (off : Nat) :
    (write_words buf off ws).length = buf.length := by
  induction ws generalizing buf off with
  | nil => rfl
  | cons w ws ih => simp only [write_words]; rw [ih, write_bytes_length]

theorem getD_words_bytes (ws : List Nat) (i k : Nat) (hk : k < 4) :
    (ws.flatMap le32).getD (4 * i + k) 0 = (le32 (ws.getD i 0)).getD k 0 := by
  induction ws generalizing i with
  | nil => simp [le32]; match k with
    | 0 => rfl
    | 1 => rfl
    | 2 => rfl
    | 3 => rfl
  | cons w ws ih =>
    simp only [List.flatMap_cons]
    cases i with
    | zero =>
      simp only [Nat.mul_zero, Nat.zero_add, List.getD_cons_zero]
      rw [List.getD_append _ _ _ _ (by rw [le32_length]; exact hk)]
    | succ i =>
      rw [List.getD_append_right _ _ _ _ (by rw [le32_length]; omega), le32_length,
        List.getD_cons_succ]
      have : 4 * (i + 1) + k - 4 = 4 * i + k := by omega
      rw [this, ih]

theorem read_u32_le32 (v : Nat) : read_u32 (le32 v) 0 = v % 4294967296 := by
  unfold read_u32 le32
  simp only [Nat.zero_add, List.getD_cons_zero, List.getD_cons_succ]
  omega

theorem read_u32_words_bytes (ws : List Nat) (i : Nat) :
    read_u32 (ws.flatMap le32) (4 * i) = ws.getD i 0 % 4294967296 := by
  rw [← read_u32_le32]
  apply read_u32_congr
  intro k hk
  rw [getD_words_bytes _ _ _ hk, Nat.zero_add]

theorem bytes_ok_le32 (v : Nat) : bytes_ok (le32 v) := fun i => le32_getD_lt v i

theorem bytes_ok_words_bytes (ws : List Nat) : bytes_ok (ws.flatMap le32) := by
  intro i
  have h := getD_words_bytes ws (i / 4) (i % 4) (Nat.mod_lt _ (by omega))
  have e : 4 * (i / 4) + i % 4 = i := by omega
  rw [e] at h
  rw [h]
  exact le32_getD_lt _ _

theorem bytes_ok_replicate (n : Nat) : bytes_ok (List.replicate n 0) := by
  intro i
  simp only [List.getD_eq_getElem?_getD, List.getElem?_replicate]
  split <;> simp

theorem bytes_ok_write_words (ws : List Nat) (buf : List Nat) (off : Nat) (h : bytes_ok buf) :
    bytes_ok (write_words buf off ws) := by
  induction ws generalizing buf off with
  | nil => exact h
  | cons w ws ih =>
    simp only [write_words]
    exact ih _ _ (bytes_ok_write_bytes _ _ _ h (bytes_ok_le32 w))

theorem read_words_length (buf : List Nat) (off n : Nat) : (read_words buf off n).length = n := by
  simp [read_words]

theorem getD_read_words (buf : List Nat) (off n i : Nat) (h : i < n) :
    (read_words buf off n).getD i 0 = read_u32 buf (off + 4 * i) := by
  rw [List.getD_eq_getElem _ _ (by rw [read_words_length]; exact h)]
  simp [read_words]

theorem read_words_congr (a b : List Nat) (off n : Nat)
    (h : ∀ k, k < 4 * n → a.getD (off + k) 0 = b.getD (off + k) 0) :
    read_words a off n = read_words b off n := by
  unfold read_words
  apply List.map_congr_left
  intro i hi
  rw [List.mem_range] at hi
  apply read_u32_congr
  intro k hk
  have := h (4 * i + k) (by omega)
  rwa [← Nat.add_assoc] at this

theorem read_words_write_words (ws : List Nat) (buf : List Nat) (off : Nat)
    (h : off + 4 * ws.length ≤ buf.length) (hw : ∀ w ∈ ws, w < 4294967296) :
    read_words (write_words buf off ws) off ws.length = ws := by
  rw [write_words_eq _ _ _ h]
  apply List.ext_getElem (by rw [read_words_length])
  intro i h1 h2
  have hb : off + (ws.flatMap le32).length ≤ buf.length := by rw [words_bytes_length]; exact h
  have e := getD_read_words (write_bytes buf off (ws.flatMap le32)) off ws.length i h2
  rw [List.getD_eq_getElem _ _ h1] at e
  rw [e, read_u32_write_bytes_inside _ _ _ _ hb (by rw [words_bytes_length]; omega)]
  have : off + 4 * i - off = 4 * i := by omega
  rw [this, read_u32_words_bytes, List.getD_eq_getElem _ _ h2]
  exact Nat.mod_eq_of_lt (hw _ (List.getElem_mem _))


/-! ## Bits of byte buffers -/

theorem testBit_div_pow (w n m : Nat) : (w / 2 ^ n).testBit m = w.testBit (n + m) := by
  rw [← Nat.shiftRight_eq_div_pow, Nat.testBit_shiftRight]

theorem testBit_le32 (w k m : Nat) (hk : k < 4) (hm : m < 8) :
    ((le32 w).getD k 0).testBit m = w.testBit (8 * k + m) := by
  have e1 : (256 : Nat) = 2 ^ 8 := by norm_num
  have e2 : (65536 : Nat) = 2 ^ 16 := by norm_num
  have e3 : (16777216 : Nat) = 2 ^ 24 := by norm_num
  unfold le32
  match k, hk with
  | 0, _ => simp only [List.getD_cons_zero]; rw [e1, Nat.testBit_mod_two_pow]; simp [hm]
  | 1, _ =>
    simp only [List.getD_cons_zero, List.getD_cons_succ]
    rw [e1, Nat.testBit_mod_two_pow, testBit_div_pow]; simp [hm]
  | 2, _ =>
    simp only [List.getD_cons_zero, List.getD_cons_succ]
    rw [e2, e1, Nat.testBit_mod_two_pow, testBit_div_pow]; simp [hm]
  | 3, _ =>
    simp only [List.getD_cons_zero, List.getD_cons_succ]
    rw [e3, e1, Nat.testBit_mod_two_pow, testBit_div_pow]; simp [hm]

theorem testBit_byte_high (b m : Nat) (hb : b < 256) (hm : 8 ≤ m) : b.testBit m = false := by
  apply Nat.testBit_lt_two_pow
  calc b < 2 ^ 8 := by norm_num; exact hb
    _ ≤ 2 ^ m := Nat.pow_le_pow_right (by norm_num) hm

theorem testBit_read_u32 (buf : List Nat) (off j : Nat) (h : bytes_ok buf) :
    (read_u32 buf off).testBit j = (decide (j < 32) && bit_at buf (8 * off + j)) := by
  have h0 := h off; have h1 := h (off + 1); have h2 := h (off + 2); have h3 := h (off + 3)
  have e : read_u32 buf off = 2 ^ 8 * (2 ^ 8 * (2 ^ 8 * buf.getD (off + 3) 0
      + buf.getD (off + 2) 0) + buf.getD (off + 1) 0) + buf.getD off 0 := by
    unfold read_u32; ring
  rw [e]
  rw [Nat.testBit_mul_pow_two_add _ (show _ < 2 ^ 8 from h0)]
  unfold bit_at
  by_cases c0 : j < 8
  · rw [if_pos c0]
    have a1 : (8 * off + j) / 8 = off := by omega
    have a2 : (8 * off + j) % 8 = j := by omega
    rw [a1, a2]; simp; omega
  rw [if_neg c0, Nat.testBit_mul_pow_two_add _ (show _ < 2 ^ 8 from h1)]
  by_cases c1 : j - 8 < 8
  · rw [if_pos c1]
    have a1 : (8 * off + j) / 8 = off + 1 := by omega
    have a2 : (8 * off + j) % 8 = j - 8 := by omega
    rw [a1, a2]; simp; omega
  rw [if_neg c1, Nat.testBit_mul_pow_two_add _ (show _ < 2 ^ 8 from h2)]
  by_cases c2 : j - 8 - 8 < 8
  · rw [if_pos c2]
    have a1 : (8 * off + j) / 8 = off + 2 := by omega
    have a2 : (8 * off + j) % 8 = j - 8 - 8 := by omega
    rw [a1, a2]; simp; omega
  rw [if_neg c2]
  by_cases c3 : j < 32
  · have a1 : (8 * off + j) / 8 = off + 3 := by omega
    have a2 : (8 * off + j) % 8 = j - 8 - 8 - 8 := by omega
    rw [a1, a2]; simp [c3]
  · rw [testBit_byte_high _ _ h3 (by omega)]; simp [c3]

theorem bit_at_write_le32 (buf : List Nat) (off w i : Nat) (h : off + 4 ≤ buf.length) :
    bit_at (write_bytes buf off (le32 w)) i =
      if 8 * off ≤ i ∧ i < 8 * off + 32 then w.testBit (i - 8 * off) else bit_at buf i := by
  unfold bit_at
  rw [getD_write_bytes _ _ _ _ (by rw [le32_length]; exact h), le32_length]
  by_cases c : 8 * off ≤ i ∧ i < 8 * off + 32
  · rw [if_pos c, if_pos (by omega), testBit_le32 _ _ _ (by omega) (by omega)]
    congr 1; omega
  · rw [if_neg c, if_neg (by omega)]


theorem testBit_false_of_lt_pow (x j n : Nat) (hx : x < 2 ^ n) (hj : n ≤ j) :
    x.testBit j = false := by
  apply Nat.testBit_lt_two_pow
  exact lt_of_lt_of_le hx (Nat.pow_le_pow_right (by norm_num) hj)

theorem testBit_u32_not (x j : Nat) (hx : x < 4294967296) :
    (u32_not x).testBit j = (decide (j < 32) && !x.testBit j) := by
  unfold u32_not
  rw [Nat.mod_eq_of_lt hx]
  have e : 4294967295 - x = 2 ^ 32 - (x + 1) := by norm_num; omega
  rw [e, Nat.testBit_two_pow_sub_succ (by norm_num; exact hx)]

theorem get_mask_eq (bits : Nat) (h : bits ≤ 32) : get_mask bits = 2 ^ bits - 1 := by
  unfold get_mask u32
  rw [Nat.shiftLeft_eq, Nat.one_mul]
  apply Nat.mod_eq_of_lt
  have : 2 ^ bits ≤ 2 ^ 32 := Nat.pow_le_pow_right (by norm_num) h
  have : 0 < 2 ^ bits := Nat.pow_pos (by norm_num)
  norm_num at *
  omega

theorem shift_lt_pow (x bits shift : Nat) (hx : x < 2 ^ bits) (h : shift + bits ≤ 32) :
    x <<< shift < 4294967296 := by
  rw [Nat.shiftLeft_eq]
  calc x * 2 ^ shift < 2 ^ bits * 2 ^ shift :=
        Nat.mul_lt_mul_of_pos_right hx (Nat.pow_pos (by norm_num))
    _ = 2 ^ (bits + shift) := by rw [Nat.pow_add]
    _ ≤ 2 ^ 32 := Nat.pow_le_pow_right (by norm_num) (by omega)
    _ = 4294967296 := by norm_num

theorem rmw_testBit (output pid bits shift j : Nat) (ho : output < 4294967296)
    (hp : pid < 2 ^ bits) (hs : shift + bits ≤ 32) :
    ((output &&& u32_not (u32 (get_mask bits <<< shift))) ||| u32 (u64 (pid <<< shift))).testBit j
      = if shift ≤ j ∧ j < shift + bits then pid.testBit (j - shift) else output.testBit j := by
  have hm : get_mask bits <<< shift < 4294967296 := by
    apply shift_lt_pow _ bits _ _ hs
    rw [get_mask_eq _ (by omega)]
    have : 0 < 2 ^ bits := Nat.pow_pos (by norm_num)
    omega
  have hq : pid <<< shift < 4294967296 := shift_lt_pow _ bits _ hp hs
  have e1 : u32 (get_mask bits <<< shift) = get_mask bits <<< shift := u32_of_lt hm
  have e2 : u32 (u64 (pid <<< shift)) = pid <<< shift := by
    unfold u64; rw [Nat.mod_eq_of_lt (by omega), u32_of_lt hq]
  rw [e1, e2, Nat.testBit_lor, Nat.testBit_land, testBit_u32_not _ _ hm,
    Nat.testBit_shiftLeft, Nat.testBit_shiftLeft, get_mask_eq _ (by omega),
    Nat.testBit_two_pow_sub_one]
  by_cases c : shift ≤ j ∧ j < shift + bits
  · rw [if_pos c]
    have c1 : j ≥ shift := c.1
    have c2 : j - shift < bits := by omega
    simp [c1, c2]
  · rw [if_neg c]
    by_cases c1 : j < shift
    · have c3 : ¬ (j ≥ shift) := by omega
      simp only [c3, decide_False, Bool.false_and, Bool.not_false, Bool.and_true, Bool.or_false]
      by_cases c4 : j < 32
      · simp [c4]
      · rw [testBit_false_of_lt_pow output j 32 (by norm_num; exact ho) (by omega)]; simp
    · have c3 : j ≥ shift := by omega
      have c5 : ¬ (j - shift < bits) := by omega
      rw [testBit_false_of_lt_pow pid (j - shift) bits hp (by omega)]
      simp only [c3, c5, decide_True, decide_False, Bool.true_and, Bool.not_false, Bool.and_true,
        Bool.and_false, Bool.or_false]
      by_cases c4 : j < 32
      · simp [c4]
      · rw [testBit_false_of_lt_pow output j 32 (by norm_num; exact ho) (by omega)]; simp

theorem rmw_lt (output pid bits shift : Nat) (ho : output < 4294967296)
    (hp : pid < 2 ^ bits) (hs : shift + bits ≤ 32) :
    (output &&& u32_not (u32 (get_mask bits <<< shift))) ||| u32 (u64 (pid <<< shift))
      < 4294967296 := by
  have : (4294967296 : Nat) = 2 ^ 32 := by norm_num
  rw [this]
  apply Nat.lt_pow_two_of_testBit
  intro i hi
  rw [rmw_testBit _ _ _ _ _ ho hp hs]
  split
  · omega
  · exact testBit_false_of_lt_pow output i 32 (by norm_num; exact ho) hi


/-! ## The index loop of the palette path -/

theorem mem_region_coords (c : Nat × Nat × Nat) :
    c ∈ region_coords ↔ c.1 < 8 ∧ c.2.1 < 8 ∧ c.2.2 < 8 := by
  obtain ⟨x, y, z⟩ := c
  simp only [region_coords, REGION_SIZE, List.mem_flatMap, List.mem_map, List.mem_range,
    Prod.mk.injEq]
  constructor
  · rintro ⟨z1, hz, y1, hy, x1, hx, rfl, rfl, rfl⟩
    exact ⟨hx, hy, hz⟩
  · rintro ⟨hx, hy, hz⟩
    exact ⟨z, hz, y, hy, x, hx, rfl, rfl, rfl⟩

theorem in_region_index_lt (c : Nat × Nat × Nat) (hc : c ∈ region_coords) :
    in_region_index c < 512 := by
  rw [mem_region_coords] at hc
  unfold in_region_index REGION_SIZE
  omega

theorem in_region_index_inj (c d : Nat × Nat × Nat) (hc : c ∈ region_coords)
    (hd : d ∈ region_coords) (h : in_region_index c = in_region_index d) : c = d := by
  rw [mem_region_coords] at hc hd
  unfold in_region_index REGION_SIZE at h
  obtain ⟨x, y, z⟩ := c
  obtain ⟨x1, y1, z1⟩ := d
  simp only at hc hd h
  have : x = x1 := by omega
  have : y = y1 := by omega
  have : z = z1 := by omega
  subst_vars; rfl

theorem palette_fill_step_ok (S : Sampler) (range : GvoxRegionRange) (ox oy oz ch : Nat)
    (n bits : Nat) (buf : List Nat) (c : Nat × Nat × Nat)
    (hc : c ∈ region_coords) (hbits : bits ≤ 9) (hn : n ≤ 2 ^ bits)
    (hlen : buf.length = 4 * n + calc_palette_region_size bits) (hok : bytes_ok buf)
    (hv : region_voxel S range ox oy oz ch c ∈ read_words buf 0 n) :
    ∃ buf1, palette_fill_step S range ox oy oz ch n bits buf c = .ok buf1
      ∧ buf1.length = buf.length ∧ bytes_ok buf1
      ∧ (∀ k, k < 4 * n → buf1.getD k 0 = buf.getD k 0)
      ∧ (∀ i, bit_at buf1 i =
          if 32 * n + in_region_index c * bits ≤ i ∧ i < 32 * n + in_region_index c * bits + bits
          then ((read_words buf 0 n).indexOf (region_voxel S range ox oy oz ch c)).testBit
            (i - (32 * n + in_region_index c * bits))
          else bit_at buf i) := by
  have hidx := in_region_index_lt c hc
  have hpid : (read_words buf 0 n).indexOf (region_voxel S range ox oy oz ch c) < n := by
    have := List.indexOf_lt_length.mpr hv
    rwa [read_words_length] at this
  generalize hP : (read_words buf 0 n).indexOf (region_voxel S range ox oy oz ch c) = pid at hpid ⊢
  have hB : in_region_index c * bits ≤ 511 * bits := Nat.mul_le_mul_right _ (by omega)
  have hB9 : 511 * bits ≤ 511 * 9 := Nat.mul_le_mul_left _ hbits
  generalize hBe : in_region_index c * bits = B at hB ⊢
  have e1 : u32 (c.1 + c.2.1 * REGION_SIZE + c.2.2 * REGION_SIZE * REGION_SIZE)
      = in_region_index c := by
    unfold in_region_index; apply u32_of_lt; unfold in_region_index at hidx; omega
  have e2 : u32 B = B := u32_of_lt (by omega)
  have e3 : u32 (B - B / 8 * 8) = B % 8 := by rw [u32_of_lt (by omega)]; omega
  have hsz : B / 8 + 4 ≤ calc_palette_region_size bits := by
    unfold calc_palette_region_size REGION_SIZE; omega
  have hpid2 : pid < 2 ^ bits := lt_of_lt_of_le hpid hn
  have hout := read_u32_lt buf (4 * n + B / 8) hok
  refine ⟨write_bytes buf (4 * n + B / 8) (le32 ((read_u32 buf (4 * n + B / 8)
    &&& u32_not (u32 (get_mask bits <<< (B % 8)))) ||| u32 (u64 (pid <<< (B % 8))))),
    ?_, ?_, ?_, ?_, ?_⟩
  · unfold palette_fill_step
    simp only [hP, e1, hBe, e2, e3]
    rw [if_neg (by omega), if_neg (by omega)]
  · rw [write_bytes_length]
  · exact bytes_ok_write_bytes _ _ _ hok (bytes_ok_le32 _)
  · intro k hk
    rw [getD_write_bytes _ _ _ _ (by rw [le32_length]; omega), if_neg (by omega)]
  · intro i
    rw [bit_at_write_le32 _ _ _ _ (by omega)]
    by_cases ci : 8 * (4 * n + B / 8) ≤ i ∧ i < 8 * (4 * n + B / 8) + 32
    · rw [if_pos ci, rmw_testBit _ _ _ _ _ hout hpid2 (by omega), testBit_read_u32 _ _ _ hok]
      by_cases cf : 32 * n + B ≤ i ∧ i < 32 * n + B + bits
      · rw [if_pos cf, if_pos (by omega)]
        congr 1; omega
      · rw [if_neg cf, if_neg (by omega)]
        have : 8 * (4 * n + B / 8) + (i - 8 * (4 * n + B / 8)) = i := by omega
        rw [this]
        have : i - 8 * (4 * n + B / 8) < 32 := by omega
        simp [this]
    · rw [if_neg ci, if_neg (by omega)]

theorem field_disjoint (a b bits n i : Nat) (h : a ≠ b)
    (h1 : 32 * n + a * bits ≤ i ∧ i < 32 * n + a * bits + bits) :
    ¬ (32 * n + b * bits ≤ i ∧ i < 32 * n + b * bits + bits) := by
  rcases Nat.lt_or_gt_of_ne h with hlt | hgt
  · have : (a + 1) * bits ≤ b * bits := Nat.mul_le_mul_right _ hlt
    rw [Nat.add_mul, Nat.one_mul] at this
    omega
  · have : (b + 1) * bits ≤ a * bits := Nat.mul_le_mul_right _ hgt
    rw [Nat.add_mul, Nat.one_mul] at this
    omega

theorem palette_fill_loop_ok (S : Sampler) (range : GvoxRegionRange) (ox oy oz ch : Nat)
    (n bits : Nat) (hbits : bits ≤ 9) (hn : n ≤ 2 ^ bits) (cs : List (Nat × Nat × Nat)) :
    ∀ (buf : List Nat), (∀ c ∈ cs, c ∈ region_coords) →
    buf.length = 4 * n + calc_palette_region_size bits → bytes_ok buf →
    (∀ c ∈ cs, region_voxel S range ox oy oz ch c ∈ read_words buf 0 n) →
    ∃ buf1, palette_fill_loop (palette_fill_step S range ox oy oz ch n bits) buf cs = .ok buf1
      ∧ buf1.length = buf.length ∧ bytes_ok buf1
      ∧ (∀ k, k < 4 * n → buf1.getD k 0 = buf.getD k 0)
      ∧ (∀ c ∈ cs, ∀ t, t < bits → bit_at buf1 (32 * n + in_region_index c * bits + t) =
          ((read_words buf 0 n).indexOf (region_voxel S range ox oy oz ch c)).testBit t)
      ∧ (∀ i, (∀ c ∈ cs, ¬ (32 * n + in_region_index c * bits ≤ i
            ∧ i < 32 * n + in_region_index c * bits + bits)) → bit_at buf1 i = bit_at buf i) := by
  induction cs with
  | nil =>
    intro buf _ _ hok _
    exact ⟨buf, rfl, rfl, hok, fun _ _ => rfl, fun c hc => by simp at hc, fun _ _ => rfl⟩
  | cons c0 cs ih =>
    intro buf hcs hlen hok hv
    obtain ⟨buf1, hs, hl1, hok1, hk1, hb1⟩ := palette_fill_step_ok S range ox oy oz ch n bits buf
      c0 (hcs c0 (List.mem_cons_self _ _)) hbits hn hlen hok (hv c0 (List.mem_cons_self _ _))
    have hpal : read_words buf1 0 n = read_words buf 0 n :=
      read_words_congr _ _ _ _ (fun k hk => by rw [Nat.zero_add]; exact hk1 k hk)
    obtain ⟨buf2, hs2, hl2, hok2, hk2, hf2, hfr2⟩ := ih buf1
      (fun c hc => hcs c (List.mem_cons_of_mem _ hc)) (by rw [hl1, hlen]) hok1
      (fun c hc => by rw [hpal]; exact hv c (List.mem_cons_of_mem _ hc))
    refine ⟨buf2, ?_, by rw [hl2, hl1], hok2, fun k hk => by rw [hk2 k hk, hk1 k hk], ?_, ?_⟩
    · simp only [palette_fill_loop, hs]; exact hs2
    · intro c hc t ht
      by_cases hmem : c ∈ cs
      · rw [hf2 c hmem t ht, hpal]
      · have hc0 : c = c0 := by
          rcases List.mem_cons.mp hc with h | h
          · exact h
          · exact absurd h hmem
        subst hc0
        rw [hfr2, hb1, if_pos (by omega)]
        · congr 1; omega
        · intro d hd
          have hne : in_region_index c ≠ in_region_index d := by
            intro he
            have := in_region_index_inj c d (hcs c hc) (hcs d (List.mem_cons_of_mem _ hd)) he
            exact hmem (this ▸ hd)
          exact field_disjoint _ _ _ _ _ hne (by omega)
    · intro i hi
      rw [hfr2 i (fun c hc => hi c (List.mem_cons_of_mem _ hc)), hb1,
        if_neg (hi c0 (List.mem_cons_self _ _))]

theorem testBit_le_value (buf : List Nat) (hok : bytes_ok buf) (i : Nat) :
    (le_value buf).testBit i = bit_at buf i := by
  induction buf generalizing i with
  | nil => simp [le_value, bit_at]
  | cons b bs ih =>
    have hb : b < 2 ^ 8 := hok 0
    have hbs : bytes_ok bs := fun k => hok (k + 1)
    have e : le_value (b :: bs) = 2 ^ 8 * le_value bs + b := by simp only [le_value]; ring
    rw [e, Nat.testBit_mul_pow_two_add _ hb]
    unfold bit_at
    by_cases c : i < 8
    · rw [if_pos c]
      have a1 : i / 8 = 0 := by omega
      have a2 : i % 8 = i := by omega
      rw [a1, a2, List.getD_cons_zero]
    · rw [if_neg c, ih hbs]
      unfold bit_at
      have a1 : i / 8 = (i - 8) / 8 + 1 := by omega
      have a2 : (i - 8) % 8 = i % 8 := by omega
      rw [a1, a2, List.getD_cons_succ]

theorem testBit_bit_field (buf : List Nat) (hok : bytes_ok buf) (start width t : Nat) :
    (bit_field buf start width).testBit t = (decide (t < width) && bit_at buf (start + t)) := by
  unfold bit_field
  rw [Nat.testBit_mod_two_pow, testBit_div_pow, testBit_le_value _ hok]

theorem bit_at_drop (buf : List Nat) (k i : Nat) :
    bit_at (buf.drop k) i = bit_at buf (8 * k + i) := by
  unfold bit_at
  simp only [List.getD_eq_getElem?_getD, List.getElem?_drop]
  have a1 : (8 * k + i) / 8 = k + i / 8 := by omega
  have a2 : (8 * k + i) % 8 = i % 8 := by omega
  rw [a1, a2]

theorem bytes_ok_drop (buf : List Nat) (k : Nat) (h : bytes_ok buf) : bytes_ok (buf.drop k) := by
  intro i
  have := h (k + i)
  simpa only [List.getD_eq_getElem?_getD, List.getElem?_drop] using this

theorem eq_of_bits (x pid bits : Nat) (hp : pid < 2 ^ bits)
    (h : ∀ t, x.testBit t = (decide (t < bits) && pid.testBit t)) : x = pid := by
  apply Nat.eq_of_testBit_eq
  intro t
  rw [h t]
  by_cases c : t < bits
  · simp [c]
  · rw [testBit_false_of_lt_pow pid t bits hp (by omega)]; simp

theorem packed_read (buf : List Nat) (n bits B pid : Nat) (hok : bytes_ok buf)
    (hbits : bits ≤ 9) (hp : pid < 2 ^ bits)
    (hf : ∀ t, t < bits → bit_at buf (32 * n + B + t) = pid.testBit t) :
    (read_u32 buf (4 * n + B / 8) >>> (B - B / 8 * 8)) &&& get_mask bits = pid := by
  apply eq_of_bits _ _ _ hp
  intro t
  rw [Nat.testBit_land, Nat.testBit_shiftRight, testBit_read_u32 _ _ _ hok,
    get_mask_eq _ (by omega), Nat.testBit_two_pow_sub_one]
  by_cases c : t < bits
  · have e : 8 * (4 * n + B / 8) + (B - B / 8 * 8 + t) = 32 * n + B + t := by omega
    have c2 : B - B / 8 * 8 + t < 32 := by omega
    rw [e, hf t c]; simp [c, c2]
  · simp [c]


theorem bit_field_eq (buf : List Nat) (k start width pid : Nat) (hok : bytes_ok buf)
    (hp : pid < 2 ^ width)
    (h : ∀ t, t < width → bit_at buf (8 * k + start + t) = pid.testBit t) :
    bit_field (buf.drop k) start width = pid := by
  apply eq_of_bits _ _ _ hp
  intro t
  rw [testBit_bit_field _ (bytes_ok_drop _ _ hok), bit_at_drop]
  by_cases c : t < width
  · simp only [c, decide_True, Bool.true_and]
    rw [← Nat.add_assoc, h t c]
  · simp [c]

/-- A successful step of the index loop leaves the bit fields of the other voxels as
they were. -/
theorem palette_fill_step_frame (S : Sampler) (range : GvoxRegionRange) (ox oy oz ch : Nat)
    (n bits : Nat) (buf buf1 : List Nat) (c d : Nat × Nat × Nat)
    (hc : c ∈ region_coords) (hd : d ∈ region_coords) (hne : d ≠ c)
    (hbits : bits ≤ 9) (hn : n ≤ 2 ^ bits)
    (hlen : buf.length = 4 * n + calc_palette_region_size bits) (hok : bytes_ok buf)
    (hstep : palette_fill_step S range ox oy oz ch n bits buf c = .ok buf1) :
    bit_field (buf1.drop (4 * n)) (in_region_index d * bits) bits
      = bit_field (buf.drop (4 * n)) (in_region_index d * bits) bits := by
  have hv : region_voxel S range ox oy oz ch c ∈ read_words buf 0 n := by
    by_contra hnot
    have e : (read_words buf 0 n).indexOf (region_voxel S range ox oy oz ch c) = n := by
      rw [List.indexOf_eq_length.mpr hnot, read_words_length]
    unfold palette_fill_step at hstep
    simp only [e, if_true] at hstep
    cases hstep
  obtain ⟨b2, hs, _, hok2, _, hb⟩ := palette_fill_step_ok S range ox oy oz ch n bits buf c hc
    hbits hn hlen hok hv
  rw [hs] at hstep
  have e : b2 = buf1 := by injection hstep
  subst e
  apply Nat.eq_of_testBit_eq
  intro t
  rw [testBit_bit_field _ (bytes_ok_drop _ _ hok2), testBit_bit_field _ (bytes_ok_drop _ _ hok),
    bit_at_drop, bit_at_drop]
  by_cases ct : t < bits
  · rw [hb]
    have hidx : in_region_index d ≠ in_region_index c :=
      fun h => hne (in_region_index_inj d c hd hc h)
    have hin : 32 * n + in_region_index d * bits ≤ 8 * (4 * n) + (in_region_index d * bits + t)
        ∧ 8 * (4 * n) + (in_region_index d * bits + t)
          < 32 * n + in_region_index d * bits + bits := by omega
    rw [if_neg (field_disjoint _ _ _ _ _ hidx hin)]
  · simp [ct]

/-! ## The sampling pass and the variant set -/

set_option maxRecDepth 100000 in
theorem ceil_log2_small : ∀ n, n < 513 → n ≤ 2 ^ ceil_log2 n ∧ ceil_log2 n ≤ 9
    ∧ (1 < n → 2 ^ ceil_log2 n < 2 * n) ∧ (n ≤ 1 → ceil_log2 n = 0) := by
  decide

theorem mem_tile_set_insert (s : List Nat) (v w : Nat) :
    w ∈ tile_set_insert s v ↔ w ∈ s ∨ w = v := by
  unfold tile_set_insert
  split
  · constructor
    · exact Or.inl
    · rintro (h | h)
      · exact h
      · subst h; assumption
  · simp

theorem nodup_tile_set_insert (s : List Nat) (v : Nat) (h : s.Nodup) :
    (tile_set_insert s v).Nodup := by
  unfold tile_set_insert
  split
  · exact h
  · rename_i hv
    rw [List.nodup_append]
    refine ⟨h, List.nodup_singleton v, ?_⟩
    intro a ha hb
    rw [List.mem_singleton] at hb
    subst hb
    exact hv ha

theorem foldl_tile_set (f : Nat × Nat × Nat → Nat) (l : List (Nat × Nat × Nat)) :
    ∀ s : List Nat, s.Nodup →
      (l.foldl (fun s c => tile_set_insert s (f c)) s).Nodup
      ∧ ∀ w, w ∈ l.foldl (fun s c => tile_set_insert s (f c)) s ↔ (w ∈ s ∨ w ∈ l.map f) := by
  induction l with
  | nil => intro s hs; exact ⟨hs, fun w => by simp⟩
  | cons c l ih =>
    intro s hs
    obtain ⟨h1, h2⟩ := ih (tile_set_insert s (f c)) (nodup_tile_set_insert s (f c) hs)
    refine ⟨h1, fun w => ?_⟩
    simp only [List.foldl_cons, h2, mem_tile_set_insert, List.map_cons, List.mem_cons]
    tauto

theorem region_tile_set_nodup (S : Sampler) (range : GvoxRegionRange) (ox oy oz ch : Nat) :
    (region_tile_set S range ox oy oz ch).Nodup := by
  unfold region_tile_set
  generalize region_coords = l
  exact (foldl_tile_set _ l [] List.nodup_nil).1

theorem mem_region_tile_set (S : Sampler) (range : GvoxRegionRange) (ox oy oz ch w : Nat) :
    w ∈ region_tile_set S range ox oy oz ch
      ↔ w ∈ region_coords.map (region_voxel S range ox oy oz ch) := by
  have h := (foldl_tile_set (region_voxel S range ox oy oz ch) region_coords []
    List.nodup_nil).2 w
  unfold region_tile_set
  generalize region_coords = l at h ⊢
  refine Iff.trans h ⟨?_, Or.inr⟩
  rintro (h1 | h1)
  · exact absurd h1 (List.not_mem_nil w)
  · exact h1

theorem region_tile_set_length (S : Sampler) (range : GvoxRegionRange) (ox oy oz ch : Nat) :
    (region_tile_set S range ox oy oz ch).length
      = (region_coords.map (region_voxel S range ox oy oz ch)).toFinset.card := by
  have e : (region_tile_set S range ox oy oz ch).toFinset
      = (region_coords.map (region_voxel S range ox oy oz ch)).toFinset := by
    ext w
    simp only [List.mem_toFinset]
    exact mem_region_tile_set S range ox oy oz ch w
  rw [← List.toFinset_card_of_nodup (region_tile_set_nodup S range ox oy oz ch), e]

set_option maxRecDepth 100000 in
theorem region_coords_length : region_coords.length = 512 := by
  decide

theorem region_tile_set_length_le (S : Sampler) (range : GvoxRegionRange) (ox oy oz ch : Nat) :
    (region_tile_set S range ox oy oz ch).length ≤ 512 := by
  rw [region_tile_set_length]
  calc _ ≤ (region_coords.map (region_voxel S range ox oy oz ch)).length :=
        List.toFinset_card_le _
    _ = 512 := by rw [List.length_map, region_coords_length]

theorem region_tile_set_length_pos (S : Sampler) (range : GvoxRegionRange) (ox oy oz ch : Nat) :
    0 < (region_tile_set S range ox oy oz ch).length := by
  apply List.length_pos_of_mem (a := region_voxel S range ox oy oz ch (0, 0, 0))
  rw [mem_region_tile_set]
  exact List.mem_map_of_mem _ ((mem_region_coords _).mpr (by simp))

theorem wrap_to_i32 (px : Nat) (o : Int) : wrap_i32 (to_i32 px + o) = wrap_i32 (o + px) := by
  unfold wrap_i32 to_i32
  split <;> omega

theorem region_voxel_eq (S : Sampler) (range : GvoxRegionRange) (rx ry rz ch : Nat)
    (c : Nat × Nat × Nat) (hc : c ∈ region_coords)
    (hx : rx < 536870912) (hy : ry < 536870912) (hz : rz < 536870912) :
    region_voxel S range (u32 (rx * REGION_SIZE)) (u32 (ry * REGION_SIZE))
      (u32 (rz * REGION_SIZE)) ch c = effective_sample S range rx ry rz ch c := by
  rw [mem_region_coords] at hc
  have ex : u32 (u32 (rx * REGION_SIZE) + c.1) = rx * REGION_SIZE + c.1 := by
    unfold u32 REGION_SIZE; omega
  have ey : u32 (u32 (ry * REGION_SIZE) + c.2.1) = ry * REGION_SIZE + c.2.1 := by
    unfold u32 REGION_SIZE; omega
  have ez : u32 (u32 (rz * REGION_SIZE) + c.2.2) = rz * REGION_SIZE + c.2.2 := by
    unfold u32 REGION_SIZE; omega
  unfold region_voxel effective_sample offset_add
  simp only [ex, ey, ez, wrap_to_i32]

theorem region_voxel_map_eq (S : Sampler) (range : GvoxRegionRange) (rx ry rz ch : Nat)
    (hx : rx < 536870912) (hy : ry < 536870912) (hz : rz < 536870912) :
    region_coords.map (region_voxel S range (u32 (rx * REGION_SIZE)) (u32 (ry * REGION_SIZE))
      (u32 (rz * REGION_SIZE)) ch) = region_samples S range rx ry rz ch := by
  unfold region_samples
  apply List.map_congr_left
  intro c hc
  exact region_voxel_eq S range rx ry rz ch c hc hx hy hz

theorem region_voxel_lt (S : Sampler) (range : GvoxRegionRange) (ox oy oz ch : Nat)
    (c : Nat × Nat × Nat) : region_voxel S range ox oy oz ch c < 4294967296 := by
  unfold region_voxel
  simp only
  split
  · exact Fin.isLt _
  · norm_num


/-! ## The local buffer of a region task -/

set_option maxRecDepth 100000 in
theorem region_coords_eq :
    region_coords = (List.range 512).map (fun i => (i % 8, i / 8 % 8, i / 64)) := by
  decide

theorem getD_map_region_coords (f : Nat × Nat × Nat → Nat) (c : Nat × Nat × Nat)
    (hc : c ∈ region_coords) : (region_coords.map f).getD (in_region_index c) 0 = f c := by
  have hi := in_region_index_lt c hc
  rw [mem_region_coords] at hc
  rw [region_coords_eq, List.map_map,
    List.getD_eq_getElem _ _ (by rw [List.length_map, List.length_range]; exact hi)]
  simp only [List.getElem_map, List.getElem_range, Function.comp]
  congr 1
  unfold in_region_index REGION_SIZE
  obtain ⟨x, y, z⟩ := c
  simp only at hc ⊢
  refine Prod.ext ?_ (Prod.ext ?_ ?_) <;> simp only <;> omega

theorem vec_resize_nil (n : Nat) : vec_resize [] n = List.replicate n 0 := by
  simp [vec_resize]

theorem vec_resize_grow (buf : List Nat) (n : Nat) :
    vec_resize buf (buf.length + n) = buf ++ List.replicate n 0 := by
  unfold vec_resize
  rw [List.take_of_length_le (by omega)]
  congr 2; omega

theorem write_bytes_full (buf bytes : List Nat) (h : bytes.length = buf.length) :
    write_bytes buf 0 bytes = bytes := by
  unfold write_bytes
  rw [if_pos (by omega)]
  simp [h]

theorem write_bytes_overwrite (buf a b : List Nat) (off : Nat) (h : a.length = b.length)
    (hb : off + a.length ≤ buf.length) :
    write_bytes (write_bytes buf off a) off b = write_bytes buf off b := by
  apply list_ext_getD
  · simp only [write_bytes_length]
  · intro i _
    rw [getD_write_bytes _ _ _ _ (by rw [write_bytes_length]; omega),
      getD_write_bytes _ _ _ _ hb, getD_write_bytes _ _ _ _ (by omega)]
    by_cases c : off ≤ i ∧ i < off + b.length
    · rw [if_pos c, if_pos c]
    · rw [if_neg c, if_neg c, if_neg (by omega)]

theorem raw_local_data_eq (S : Sampler) (range : GvoxRegionRange) (ox oy oz ch : Nat) :
    raw_local_data S range ox oy oz ch (vec_resize [] MAX_REGION_ALLOCATION_SIZE)
      = (region_coords.map (region_voxel S range ox oy oz ch)).flatMap le32 := by
  unfold raw_local_data
  have hl : ((region_coords.map (region_voxel S range ox oy oz ch)).flatMap le32).length
      = 2048 := by
    rw [words_bytes_length, List.length_map, region_coords_length]
  rw [vec_resize_nil, write_words_eq _ _ _ (by
    rw [List.length_map, region_coords_length, List.length_replicate]
    unfold MAX_REGION_ALLOCATION_SIZE REGION_SIZE; omega)]
  apply write_bytes_full
  rw [hl, List.length_replicate]; rfl

theorem insertionSort_perm_eq (a b : List Nat) (h : a.Perm b) :
    a.insertionSort (· ≤ ·) = b.insertionSort (· ≤ ·) := by
  apply List.eq_of_perm_of_sorted (r := (· ≤ ·))
  · exact ((List.perm_insertionSort _ a).trans h).trans (List.perm_insertionSort _ b).symm
  · exact List.sorted_insertionSort _ a
  · exact List.sorted_insertionSort _ b

/-- The local buffer of the palette path once the palette is stored and sorted. -/
theorem palette_sorted_store (ts iter : List Nat) (n bits : Nat) (hperm : iter.Perm ts)
    (hn : ts.length = n) (hlt : ∀ w ∈ ts, w < 4294967296) :
    let buf := vec_resize [] (4 * n + calc_palette_region_size bits)
    let local1 := write_words buf 0 iter
    write_words local1 0 ((read_words local1 0 n).insertionSort (· ≤ ·))
      = write_bytes buf 0 ((ts.insertionSort (· ≤ ·)).flatMap le32) := by
  intro buf local1
  have hbl : buf.length = 4 * n + calc_palette_region_size bits := by
    simp only [buf, vec_resize_nil, List.length_replicate]
  have hil : iter.length = n := by rw [hperm.length_eq, hn]
  have h1 : read_words local1 0 n = iter := by
    have := read_words_write_words iter buf 0 (by omega)
      (fun w hw => hlt w (hperm.mem_iff.mp hw))
    rw [hil] at this
    exact this
  have hsl : (ts.insertionSort (· ≤ ·)).length = n := by
    rw [(List.perm_insertionSort _ ts).length_eq, hn]
  rw [h1, insertionSort_perm_eq _ _ hperm, write_words_eq _ _ _ (by
    rw [write_words_length, hsl]; omega)]
  simp only [local1]
  rw [write_words_eq _ _ _ (by omega)]
  apply write_bytes_overwrite
  · rw [words_bytes_length, words_bytes_length, hil, hsl]
  · rw [words_bytes_length]; omega

theorem palette_local_data_perm (S : Sampler) (range : GvoxRegionRange) (ox oy oz ch : Nat)
    (ts iter : List Nat) (n bits : Nat) (hperm : iter.Perm ts)
    (hn : ts.length = n) (hlt : ∀ w ∈ ts, w < 4294967296) :
    palette_local_data S range ox oy oz ch iter n bits
        (vec_resize [] (4 * n + calc_palette_region_size bits))
      = palette_local_data S range ox oy oz ch ts n bits
        (vec_resize [] (4 * n + calc_palette_region_size bits)) := by
  unfold palette_local_data
  have h1 := palette_sorted_store ts iter n bits hperm hn hlt
  have h2 := palette_sorted_store ts ts n bits (List.Perm.refl ts) hn hlt
  simp only at h1 h2
  simp only [h1, h2]

theorem palette_local_data_ok (S : Sampler) (range : GvoxRegionRange) (ox oy oz ch : Nat)
    (ts : List Nat) (n : Nat) (hn : ts.length = n) (hn1 : n ≤ 512)
    (hlt : ∀ w ∈ ts, w < 4294967296)
    (hv : ∀ c ∈ region_coords, region_voxel S range ox oy oz ch c ∈ ts) :
    ∃ L, palette_local_data S range ox oy oz ch ts n (ceil_log2 n)
        (vec_resize [] (4 * n + calc_palette_region_size (ceil_log2 n))) = .ok L
      ∧ L.length = 4 * n + calc_palette_region_size (ceil_log2 n) ∧ bytes_ok L
      ∧ read_words L 0 n = ts.insertionSort (· ≤ ·)
      ∧ (∀ c ∈ region_coords, ∀ t, t < ceil_log2 n →
          bit_at L (32 * n + in_region_index c * ceil_log2 n + t) =
            ((ts.insertionSort (· ≤ ·)).indexOf (region_voxel S range ox oy oz ch c)).testBit t)
      := by
  obtain ⟨hc1, hc2, _, _⟩ := ceil_log2_small n (by omega)
  have hp := palette_sorted_store ts ts n (ceil_log2 n) (List.Perm.refl ts) hn hlt
  simp only at hp
  have hsl : (ts.insertionSort (· ≤ ·)).length = n := by
    rw [(List.perm_insertionSort _ ts).length_eq, hn]
  have hbl : (vec_resize [] (4 * n + calc_palette_region_size (ceil_log2 n))).length
      = 4 * n + calc_palette_region_size (ceil_log2 n) := by
    rw [vec_resize_nil, List.length_replicate]
  have hbo : bytes_ok (vec_resize [] (4 * n + calc_palette_region_size (ceil_log2 n))) := by
    rw [vec_resize_nil]; exact bytes_ok_replicate _
  generalize hbuf : vec_resize [] (4 * n + calc_palette_region_size (ceil_log2 n)) = buf
    at hp hbl hbo ⊢
  have hl2 : (write_bytes buf 0 ((ts.insertionSort (· ≤ ·)).flatMap le32)).length
      = 4 * n + calc_palette_region_size (ceil_log2 n) := by
    rw [write_bytes_length, hbl]
  have hpal : read_words (write_bytes buf 0 ((ts.insertionSort (· ≤ ·)).flatMap le32)) 0 n
      = ts.insertionSort (· ≤ ·) := by
    rw [← write_words_eq _ _ _ (by rw [hsl]; omega)]
    have := read_words_write_words (ts.insertionSort (· ≤ ·)) buf 0 (by rw [hsl]; omega)
      (fun w hw => hlt w ((List.perm_insertionSort _ ts).mem_iff.mp hw))
    rwa [hsl] at this
  obtain ⟨L, h1, h2, h3, h4, h5, _⟩ := palette_fill_loop_ok S range ox oy oz ch n (ceil_log2 n)
    hc2 hc1 region_coords (write_bytes buf 0 ((ts.insertionSort (· ≤ ·)).flatMap le32))
    (fun c hc => hc) hl2 (bytes_ok_write_bytes _ _ _ hbo (bytes_ok_words_bytes _))
    (fun c hc => by
      rw [hpal]; exact (List.perm_insertionSort _ ts).mem_iff.mpr (hv c hc))
  refine ⟨L, ?_, by rw [h2, hl2], h3, ?_, ?_⟩
  · unfold palette_local_data
    simp only [hp]
    exact h1
  · rw [← hpal]
    exact read_words_congr _ _ _ _ (fun k hk => by rw [Nat.zero_add]; exact h4 k hk)
  · intro c hc t ht
    rw [h5 c hc t ht, hpal]


/-! ## What `add_region` computes -/

attribute [irreducible] region_coords

theorem region_blob_size_raw (n : Nat) (h : n > MAX_REGION_COMPRESSED_VARIANT_N) :
    region_blob_size n = MAX_REGION_ALLOCATION_SIZE := by
  unfold region_blob_size; rw [if_pos h]

theorem region_blob_size_palette (n : Nat) (h : ¬ n > MAX_REGION_COMPRESSED_VARIANT_N)
    (h1 : n > 1) :
    region_blob_size n = 4 * n + calc_palette_region_size (ceil_log2 n) := by
  unfold region_blob_size; rw [if_neg h, if_pos h1]

theorem region_blob_size_one (n : Nat) (h : ¬ n > 1) : region_blob_size n = 0 := by
  unfold region_blob_size
  rw [if_neg (by unfold MAX_REGION_COMPRESSED_VARIANT_N; omega), if_neg h]

theorem alloc_region_local (st : GvoxPaletteSerializeUserState) (size : Nat) :
    (alloc_region st size).2.2 = vec_resize [] size := rfl

theorem alloc_region_offset (st : GvoxPaletteSerializeUserState) (size : Nat) :
    (alloc_region st size).2.1 = u32_sub st.data.length st.blobs_begin := rfl

theorem alloc_region_state (st : GvoxPaletteSerializeUserState) (size : Nat) :
    (alloc_region st size).1
      = { st with data := st.data ++ List.replicate size 0 } := by
  unfold alloc_region
  simp only [vec_resize_grow]

theorem add_region_spec (S : Sampler) (hash_order : List Nat → List Nat)
    (user_state : GvoxPaletteSerializeUserState) (range : GvoxRegionRange)
    (rx ry rz ci : Nat) (channels : List Nat) (hperm : ∀ l, (hash_order l).Perm l)
    (hx : rx < 536870912) (hy : ry < 536870912) (hz : rz < 536870912) :
    add_region S hash_order user_state range rx ry rz ci channels =
      publish_region
        (if 1 < distinct_count S range rx ry rz (channels.getD ci 0) then
          (alloc_region user_state
            (region_blob_size (distinct_count S range rx ry rz (channels.getD ci 0)))).1
         else user_state)
        range rx ry rz ci channels.length
        { variant_n := distinct_count S range rx ry rz (channels.getD ci 0),
          blob_offset :=
            if 1 < distinct_count S range rx ry rz (channels.getD ci 0) then
              u32_sub user_state.data.length user_state.blobs_begin
            else (region_samples S range rx ry rz (channels.getD ci 0)).headD 0 }
        (region_local_data S range rx ry rz (channels.getD ci 0))
        (region_blob_size (distinct_count S range rx ry rz (channels.getD ci 0))) := by
  have hmap := region_voxel_map_eq S range rx ry rz (channels.getD ci 0) hx hy hz
  have hlen := region_tile_set_length S range (u32 (rx * REGION_SIZE)) (u32 (ry * REGION_SIZE))
    (u32 (rz * REGION_SIZE)) (channels.getD ci 0)
  have hle := region_tile_set_length_le S range (u32 (rx * REGION_SIZE)) (u32 (ry * REGION_SIZE))
    (u32 (rz * REGION_SIZE)) (channels.getD ci 0)
  have hpos := region_tile_set_length_pos S range (u32 (rx * REGION_SIZE))
    (u32 (ry * REGION_SIZE)) (u32 (rz * REGION_SIZE)) (channels.getD ci 0)
  have hmem := mem_region_tile_set S range (u32 (rx * REGION_SIZE)) (u32 (ry * REGION_SIZE))
    (u32 (rz * REGION_SIZE)) (channels.getD ci 0)
  rw [hmap] at hlen
  unfold add_region region_local_data
  simp only []
  generalize region_tile_set S range (u32 (rx * REGION_SIZE)) (u32 (ry * REGION_SIZE))
    (u32 (rz * REGION_SIZE)) (channels.getD ci 0) = ts at hlen hle hpos hmem ⊢
  have hn : ts.length = distinct_count S range rx ry rz (channels.getD ci 0) := hlen
  generalize distinct_count S range rx ry rz (channels.getD ci 0) = n at hn ⊢
  have hu : u32 ts.length = n := by rw [u32_of_lt (by omega)]; exact hn
  rw [hu]
  have hlt : ∀ w ∈ ts, w < 4294967296 := by
    intro w hw
    obtain ⟨c, _, rfl⟩ := List.mem_map.mp ((hmem w).mp hw)
    exact region_voxel_lt _ _ _ _ _ _ _
  by_cases c1 : n > MAX_REGION_COMPRESSED_VARIANT_N
  · have c2 : 1 < n := by unfold MAX_REGION_COMPRESSED_VARIANT_N at c1; omega
    rw [if_pos c1, if_pos c1, if_pos c2, if_pos c2, region_blob_size_raw n c1]
    rfl
  · rw [if_neg c1, if_neg c1]
    by_cases c2 : n > 1
    · have c3 : 1 < n := c2
      rw [if_pos c2, if_pos c2, if_pos c3, if_pos c3, region_blob_size_palette n c1 c2]
      rw [alloc_region_local, alloc_region_offset,
        palette_local_data_perm S range _ _ _ _ ts (hash_order ts) n (ceil_log2 n)
        (hperm ts) hn hlt]
      obtain ⟨L, hL, _⟩ := palette_local_data_ok S range (u32 (rx * REGION_SIZE))
        (u32 (ry * REGION_SIZE)) (u32 (rz * REGION_SIZE)) (channels.getD ci 0) ts n hn
        (by omega) hlt
        (fun c hc => (hmem _).mpr (List.mem_map_of_mem _ hc))
      rw [hL]
    · have c3 : ¬ 1 < n := c2
      rw [if_neg c2, if_neg c2, if_neg c3, if_neg c3, region_blob_size_one n c2]
      have h1 : ts.length = 1 := by omega
      obtain ⟨v, hv⟩ := List.length_eq_one.mp h1
      have hh : hash_order ts = [v] := by
        have := hperm ts
        rw [hv] at this ⊢
        exact List.perm_singleton.mp this
      have hs : (region_samples S range rx ry rz (channels.getD ci 0)).headD 0 = v := by
        have h0 : (0, 0, 0) ∈ region_coords := (mem_region_coords _).mpr (by simp)
        have e := getD_map_region_coords (effective_sample S range rx ry rz (channels.getD ci 0))
          (0, 0, 0) h0
        have e2 : effective_sample S range rx ry rz (channels.getD ci 0) (0, 0, 0) ∈ ts := by
          rw [hmem, hmap]
          exact List.mem_map_of_mem _ h0
        rw [hv, List.mem_singleton] at e2
        rw [← e2, ← e]
        unfold region_samples
        generalize List.map (effective_sample S range rx ry rz (channels.getD ci 0))
          region_coords = l
        cases l <;> rfl
      rw [hh, hs]
      rfl


theorem region_samples_length (S : Sampler) (range : GvoxRegionRange) (rx ry rz ch : Nat) :
    (region_samples S range rx ry rz ch).length = 512 := by
  unfold region_samples
  rw [List.length_map, region_coords_length]

theorem getD_region_samples (S : Sampler) (range : GvoxRegionRange) (rx ry rz ch : Nat)
    (c : Nat × Nat × Nat) (hc : c ∈ region_coords) :
    (region_samples S range rx ry rz ch).getD (in_region_index c) 0
      = effective_sample S range rx ry rz ch c :=
  getD_map_region_coords _ c hc

theorem effective_sample_lt (S : Sampler) (range : GvoxRegionRange) (rx ry rz ch : Nat)
    (c : Nat × Nat × Nat) : effective_sample S range rx ry rz ch c < 4294967296 := by
  unfold effective_sample
  split
  · exact Fin.isLt _
  · norm_num

theorem distinct_count_le (S : Sampler) (range : GvoxRegionRange) (rx ry rz ch : Nat) :
    distinct_count S range rx ry rz ch ≤ 512 := by
  unfold distinct_count
  calc _ ≤ (region_samples S range rx ry rz ch).length := List.toFinset_card_le _
    _ = 512 := region_samples_length _ _ _ _ _ _

theorem distinct_count_pos (S : Sampler) (range : GvoxRegionRange) (rx ry rz ch : Nat) :
    0 < distinct_count S range rx ry rz ch := by
  unfold distinct_count
  rw [Finset.card_pos]
  refine ⟨effective_sample S range rx ry rz ch (0, 0, 0), ?_⟩
  rw [List.mem_toFinset]
  exact List.mem_map_of_mem _ ((mem_region_coords _).mpr (by simp))

/-- Facts on the variant set of a region whose indices are below `2^29`. -/
theorem tile_set_facts (S : Sampler) (range : GvoxRegionRange) (rx ry rz ch : Nat)
    (hx : rx < 536870912) (hy : ry < 536870912) (hz : rz < 536870912) :
    let ts := region_tile_set S range (u32 (rx * REGION_SIZE)) (u32 (ry * REGION_SIZE))
      (u32 (rz * REGION_SIZE)) ch
    ts.Nodup ∧ ts.length = distinct_count S range rx ry rz ch
      ∧ u32 ts.length = distinct_count S range rx ry rz ch
      ∧ (∀ w, w ∈ ts ↔ w ∈ region_samples S range rx ry rz ch)
      ∧ (∀ w ∈ ts, w < 4294967296) := by
  intro ts
  have hmap := region_voxel_map_eq S range rx ry rz ch hx hy hz
  have hlen := region_tile_set_length S range (u32 (rx * REGION_SIZE)) (u32 (ry * REGION_SIZE))
    (u32 (rz * REGION_SIZE)) ch
  have hle := region_tile_set_length_le S range (u32 (rx * REGION_SIZE)) (u32 (ry * REGION_SIZE))
    (u32 (rz * REGION_SIZE)) ch
  have hmem := mem_region_tile_set S range (u32 (rx * REGION_SIZE)) (u32 (ry * REGION_SIZE))
    (u32 (rz * REGION_SIZE)) ch
  rw [hmap] at hlen
  simp only [hmap] at hmem
  refine ⟨region_tile_set_nodup _ _ _ _ _ _, hlen, ?_, hmem, ?_⟩
  · rw [u32_of_lt (lt_of_le_of_lt hle (by norm_num))]; exact hlen
  · intro w hw
    obtain ⟨c, _, rfl⟩ := List.mem_map.mp ((hmem w).mp hw)
    exact effective_sample_lt _ _ _ _ _ _ _

theorem region_local_data_raw (S : Sampler) (range : GvoxRegionRange) (rx ry rz ch : Nat)
    (hx : rx < 536870912) (hy : ry < 536870912) (hz : rz < 536870912)
    (h : distinct_count S range rx ry rz ch > MAX_REGION_COMPRESSED_VARIANT_N) :
    region_local_data S range rx ry rz ch
      = (region_samples S range rx ry rz ch).flatMap le32 := by
  obtain ⟨_, _, hu, _, _⟩ := tile_set_facts S range rx ry rz ch hx hy hz
  unfold region_local_data
  simp only []
  rw [hu, if_pos h, raw_local_data_eq, region_voxel_map_eq S range rx ry rz ch hx hy hz]

theorem region_local_data_one (S : Sampler) (range : GvoxRegionRange) (rx ry rz ch : Nat)
    (hx : rx < 536870912) (hy : ry < 536870912) (hz : rz < 536870912)
    (h : ¬ distinct_count S range rx ry rz ch > 1) :
    region_local_data S range rx ry rz ch = [] := by
  obtain ⟨_, _, hu, _, _⟩ := tile_set_facts S range rx ry rz ch hx hy hz
  unfold region_local_data
  simp only []
  rw [hu, if_neg (by unfold MAX_REGION_COMPRESSED_VARIANT_N; omega), if_neg h]

theorem sorted_lt_insertionSort (ts : List Nat) (h : ts.Nodup) :
    List.Sorted (· < ·) (ts.insertionSort (· ≤ ·)) :=
  (List.sorted_insertionSort (· ≤ ·) ts).lt_of_le
    ((List.perm_insertionSort (· ≤ ·) ts).nodup_iff.mpr h)

theorem region_local_data_palette (S : Sampler) (range : GvoxRegionRange) (rx ry rz ch : Nat)
    (hx : rx < 536870912) (hy : ry < 536870912) (hz : rz < 536870912)
    (h1 : distinct_count S range rx ry rz ch > 1)
    (h2 : ¬ distinct_count S range rx ry rz ch > MAX_REGION_COMPRESSED_VARIANT_N) :
    ∃ pal : List Nat, pal.length = distinct_count S range rx ry rz ch
      ∧ List.Sorted (· < ·) pal
      ∧ (∀ w, w ∈ pal ↔ w ∈ region_samples S range rx ry rz ch)
      ∧ (region_local_data S range rx ry rz ch).length
          = 4 * distinct_count S range rx ry rz ch
            + calc_palette_region_size (ceil_log2 (distinct_count S range rx ry rz ch))
      ∧ bytes_ok (region_local_data S range rx ry rz ch)
      ∧ read_words (region_local_data S range rx ry rz ch) 0
          (distinct_count S range rx ry rz ch) = pal
      ∧ (∀ c ∈ region_coords, ∀ t, t < ceil_log2 (distinct_count S range rx ry rz ch) →
          bit_at (region_local_data S range rx ry rz ch)
            (32 * distinct_count S range rx ry rz ch
              + in_region_index c * ceil_log2 (distinct_count S range rx ry rz ch) + t)
            = (pal.indexOf (effective_sample S range rx ry rz ch c)).testBit t) := by
  obtain ⟨hnd, hlen, hu, hmem, hlt⟩ := tile_set_facts S range rx ry rz ch hx hy hz
  have hle := distinct_count_le S range rx ry rz ch
  have hv : ∀ c ∈ region_coords, region_voxel S range (u32 (rx * REGION_SIZE))
      (u32 (ry * REGION_SIZE)) (u32 (rz * REGION_SIZE)) ch c
      ∈ region_tile_set S range (u32 (rx * REGION_SIZE)) (u32 (ry * REGION_SIZE))
        (u32 (rz * REGION_SIZE)) ch := by
    intro c hc
    rw [hmem, region_voxel_eq S range rx ry rz ch c hc hx hy hz]
    exact List.mem_map_of_mem _ hc
  obtain ⟨L, hL, hl, hok, hpal, hbits⟩ := palette_local_data_ok S range
    (u32 (rx * REGION_SIZE)) (u32 (ry * REGION_SIZE)) (u32 (rz * REGION_SIZE)) ch _ _ hlen
    hle hlt hv
  have hE : region_local_data S range rx ry rz ch = L := by
    unfold region_local_data
    simp only []
    rw [hu, if_neg h2, if_pos h1, hL]
  rw [hE]
  refine ⟨_, ?_, sorted_lt_insertionSort _ hnd, ?_, hl, hok, hpal, ?_⟩
  · rw [(List.perm_insertionSort _ _).length_eq, hlen]
  · intro w
    rw [(List.perm_insertionSort _ _).mem_iff, hmem]
  · intro c hc t ht
    rw [hbits c hc t ht, region_voxel_eq S range rx ry rz ch c hc hx hy hz]

theorem region_local_data_length (S : Sampler) (range : GvoxRegionRange) (rx ry rz ch : Nat)
    (hx : rx < 536870912) (hy : ry < 536870912) (hz : rz < 536870912) :
    (region_local_data S range rx ry rz ch).length
      = region_blob_size (distinct_count S range rx ry rz ch) := by
  by_cases c1 : distinct_count S range rx ry rz ch > MAX_REGION_COMPRESSED_VARIANT_N
  · rw [region_local_data_raw S range rx ry rz ch hx hy hz c1, region_blob_size_raw _ c1,
      words_bytes_length, region_samples_length]
    rfl
  · by_cases c2 : distinct_count S range rx ry rz ch > 1
    · obtain ⟨_, _, _, _, hl, _⟩ := region_local_data_palette S range rx ry rz ch hx hy hz c2 c1
      rw [hl, region_blob_size_palette _ c1 c2]
    · rw [region_local_data_one S range rx ry rz ch hx hy hz c2, region_blob_size_one _ c2]
      rfl


/-! ## The effect of `add_region` on the shared state -/

theorem write_bytes_append_left (a z bytes : List Nat) (off : Nat)
    (h : off + bytes.length ≤ a.length) :
    write_bytes (a ++ z) off bytes = write_bytes a off bytes ++ z := by
  unfold write_bytes
  rw [if_pos (by rw [List.length_append]; omega), if_pos h,
    List.take_append_of_le_length (by omega), List.drop_append_of_le_length (by omega)]
  simp only [List.append_assoc]

theorem write_bytes_at_end (a z bytes : List Nat) (h : bytes.length = z.length) :
    write_bytes (a ++ z) a.length bytes = a ++ bytes := by
  unfold write_bytes
  rw [if_pos (by rw [List.length_append]; omega), List.take_left', List.drop_eq_nil_of_le
    (by rw [List.length_append]; omega), List.append_nil]
  rfl

theorem u32_sub_eq (a b : Nat) (h1 : b ≤ a) (h2 : a - b < 4294967296) : u32_sub a b = a - b := by
  unfold u32_sub; omega

theorem header_bytes_length (h : ChannelHeader) : (header_bytes h).length = 8 := rfl

/-- The effect of `add_region` on a state whose blob area is shorter than `2^32`. -/
theorem add_region_effect (S : Sampler) (hash_order : List Nat → List Nat)
    (st : GvoxPaletteSerializeUserState) (range : GvoxRegionRange)
    (rx ry rz ci : Nat) (channels : List Nat) (hperm : ∀ l, (hash_order l).Perm l)
    (hx : rx < 536870912) (hy : ry < 536870912) (hz : rz < 536870912) (hst : state_ok st) :
    let a := add_region S hash_order st range rx ry rz ci channels
    let n := distinct_count S range rx ry rz (channels.getD ci 0)
    a.user_state.blobs_begin = st.blobs_begin ∧ a.user_state.offset = st.offset
      ∧ a.size = region_blob_size n ∧ a.errors = []
      ∧ a.region_header = { variant_n := n, blob_offset :=
          if 1 < n then st.data.length - st.blobs_begin
          else (region_samples S range rx ry rz (channels.getD ci 0)).headD 0 }
      ∧ a.user_state.data.length = st.data.length + region_blob_size n
      ∧ stored_blob a = region_local_data S range rx ry rz (channels.getD ci 0)
      ∧ (header_slot_offset range rx ry rz ci channels.length + 8 ≤ st.data.length →
          a.user_state.data = write_bytes st.data
              (header_slot_offset range rx ry rz ci channels.length)
              (header_bytes a.region_header)
            ++ region_local_data S range rx ry rz (channels.getD ci 0)) := by
  intro a n
  have hspec := add_region_spec S hash_order st range rx ry rz ci channels hperm hx hy hz
  have hL := region_local_data_length S range rx ry rz (channels.getD ci 0) hx hy hz
  have ha : a = add_region S hash_order st range rx ry rz ci channels := rfl
  have hnd : distinct_count S range rx ry rz (channels.getD ci 0) = n := rfl
  rw [hspec] at ha
  unfold publish_region at ha
  simp only [] at ha
  rw [hnd] at ha hL
  clear_value a n
  generalize region_local_data S range rx ry rz (channels.getD ci 0) = L at ha hL ⊢
  generalize header_slot_offset range rx ry rz ci channels.length = slot at ha ⊢
  obtain ⟨hb1, hb2⟩ := hst
  by_cases c : 1 < n
  · rw [if_pos c, if_pos c, alloc_region_state, u32_sub_eq _ _ hb1 hb2] at ha
    simp only [] at ha
    rw [if_pos c] at ha
    have e1 : st.blobs_begin + (st.data.length - st.blobs_begin) = st.data.length := by omega
    rw [e1] at ha
    have hl1 := write_bytes_length (st.data ++ List.replicate (region_blob_size n) 0) slot
      (header_bytes ⟨n, st.data.length - st.blobs_begin⟩)
    rw [List.length_append, List.length_replicate] at hl1
    have hs1 : slot + 8 ≤ st.data.length →
        write_bytes (st.data ++ List.replicate (region_blob_size n) 0) slot
          (header_bytes ⟨n, st.data.length - st.blobs_begin⟩)
        = write_bytes st.data slot (header_bytes ⟨n, st.data.length - st.blobs_begin⟩)
          ++ List.replicate (region_blob_size n) 0 :=
      fun hs => write_bytes_append_left _ _ _ _ (by rw [header_bytes_length]; exact hs)
    generalize write_bytes (st.data ++ List.replicate (region_blob_size n) 0) slot
      (header_bytes ⟨n, st.data.length - st.blobs_begin⟩) = X at ha hl1 hs1
    have hw : write_bytes X st.data.length L = X.take st.data.length ++ L := by
      unfold write_bytes
      rw [if_pos (by omega), List.drop_eq_nil_of_le (by omega), List.append_nil]
    have htl : (X.take st.data.length).length = st.data.length := by
      rw [List.length_take, hl1]; omega
    rw [hw] at ha
    subst ha
    simp only [if_pos c]
    refine ⟨trivial, trivial, trivial, trivial, trivial, ?_, ?_, ?_⟩
    · rw [List.length_append, htl, hL]
    · unfold stored_blob
      simp only []
      rw [e1, List.drop_left' htl, ← hL, List.take_length]
    · intro hs
      rw [hs1 hs, List.take_left' (by rw [write_bytes_length])]
  · rw [if_neg c, if_neg c] at ha
    simp only [if_neg c] at ha ⊢
    subst ha
    have hz0 : region_blob_size n = 0 := region_blob_size_one n c
    have hL0 : L = [] := List.length_eq_zero.mp (by rw [hL, hz0])
    refine ⟨rfl, rfl, rfl, rfl, rfl, ?_, ?_, ?_⟩
    · rw [write_bytes_length, hz0]; rfl
    · unfold stored_blob
      simp only []
      rw [hz0, hL0, List.take_zero]
    · intro _
      rw [hL0, List.append_nil]


theorem read_u32_append_left (a b : List Nat) (off : Nat) (h : off + 4 ≤ a.length) :
    read_u32 (a ++ b) off = read_u32 a off := by
  apply read_u32_congr
  intro k hk
  rw [List.getD_append _ _ _ _ (by omega)]

theorem read_u32_append_right (a b : List Nat) (off : Nat) :
    read_u32 (a ++ b) (a.length + off) = read_u32 b off := by
  apply read_u32_congr
  intro k hk
  rw [List.getD_append_right _ _ _ _ (by omega)]
  congr 1; omega

theorem read_u32_drop (a : List Nat) (k off : Nat) :
    read_u32 (a.drop k) off = read_u32 a (k + off) := by
  apply read_u32_congr
  intro j hj
  simp only [List.getD_eq_getElem?_getD, List.getElem?_drop]
  congr 2; omega

theorem read_words_drop (a : List Nat) (k off n : Nat) :
    read_words (a.drop k) off n = read_words a (k + off) n := by
  unfold read_words
  apply List.map_congr_left
  intro i _
  rw [read_u32_drop]; congr 1; omega

theorem read_u32_header_bytes (h : ChannelHeader) :
    read_u32 (header_bytes h) 0 = h.variant_n % 4294967296
      ∧ read_u32 (header_bytes h) 4 = h.blob_offset % 4294967296 := by
  unfold header_bytes
  constructor
  · rw [read_u32_append_left _ _ _ (by rw [le32_length]), read_u32_le32]
  · have := read_u32_append_right (le32 h.variant_n) (le32 h.blob_offset) 0
    rw [le32_length] at this
    rw [this, read_u32_le32]

/-- Reading back a header written to its slot. -/
theorem read_header_slot (data L : List Nat) (slot : Nat) (h : ChannelHeader)
    (hs : slot + 8 ≤ data.length) :
    read_u32 (write_bytes data slot (header_bytes h) ++ L) slot = h.variant_n % 4294967296
      ∧ read_u32 (write_bytes data slot (header_bytes h) ++ L) (slot + 4)
          = h.blob_offset % 4294967296 := by
  have hb : slot + (header_bytes h).length ≤ data.length := by
    rw [header_bytes_length]; exact hs
  constructor
  · rw [read_u32_append_left _ _ _ (by rw [write_bytes_length]; omega),
      read_u32_write_bytes_inside _ _ _ _ hb (by rw [header_bytes_length]; omega),
      Nat.sub_self, (read_u32_header_bytes h).1]
  · rw [read_u32_append_left _ _ _ (by rw [write_bytes_length]; omega),
      read_u32_write_bytes_inside _ _ _ _ hb (by rw [header_bytes_length]; omega)]
    have : slot + 4 - slot = 4 := by omega
    rw [this, (read_u32_header_bytes h).2]

theorem publish_region_length (st : GvoxPaletteSerializeUserState) (range : GvoxRegionRange)
    (rx ry rz ci cn : Nat) (h : ChannelHeader) (L : List Nat) (size : Nat) :
    (publish_region st range rx ry rz ci cn h L size).user_state.data.length = st.data.length := by
  unfold publish_region
  simp only []
  split
  · rw [write_bytes_length, write_bytes_length]
  · rw [write_bytes_length]

/-- Size, header and errors of an `add_region` call, on any state. -/
theorem add_region_size (S : Sampler) (hash_order : List Nat → List Nat)
    (st : GvoxPaletteSerializeUserState) (range : GvoxRegionRange)
    (rx ry rz ci : Nat) (channels : List Nat) (hperm : ∀ l, (hash_order l).Perm l)
    (hx : rx < 536870912) (hy : ry < 536870912) (hz : rz < 536870912) :
    let a := add_region S hash_order st range rx ry rz ci channels
    let n := distinct_count S range rx ry rz (channels.getD ci 0)
    a.size = region_blob_size n ∧ a.region_header.variant_n = n ∧ a.errors = []
      ∧ a.user_state.data.length = st.data.length + region_blob_size n := by
  intro a n
  have hspec := add_region_spec S hash_order st range rx ry rz ci channels hperm hx hy hz
  have ha : a = add_region S hash_order st range rx ry rz ci channels := rfl
  have hnd : distinct_count S range rx ry rz (channels.getD ci 0) = n := rfl
  rw [hspec, hnd] at ha
  clear_value a n
  subst ha
  refine ⟨rfl, rfl, rfl, ?_⟩
  rw [publish_region_length]
  split
  · rw [alloc_region_state, List.length_append, List.length_replicate]
  · rename_i c
    rw [region_blob_size_one n c]
    rfl

theorem distinct_count_const (S : Sampler) (range : GvoxRegionRange) (rx ry rz ch v : Nat)
    (h : ∀ c ∈ region_coords, effective_sample S range rx ry rz ch c = v) :
    distinct_count S range rx ry rz ch = 1
      ∧ (region_samples S range rx ry rz ch).headD 0 = v := by
  have h0 : (0, 0, 0) ∈ region_coords := (mem_region_coords _).mpr (by simp)
  have e : (region_samples S range rx ry rz ch).toFinset = {v} := by
    ext w
    simp only [List.mem_toFinset, Finset.mem_singleton, region_samples, List.mem_map]
    constructor
    · rintro ⟨c, hc, rfl⟩; exact h c hc
    · rintro rfl; exact ⟨(0, 0, 0), h0, h _ h0⟩
  constructor
  · unfold distinct_count; rw [e]; rfl
  · have e1 := getD_region_samples S range rx ry rz ch (0, 0, 0) h0
    rw [h _ h0] at e1
    rw [← e1]
    generalize region_samples S range rx ry rz ch = l
    cases l <;> rfl


/-! ## The run of the region tasks -/

theorem add_region_record (S : Sampler) (hash_order : List Nat → List Nat)
    (st : GvoxPaletteSerializeUserState) (range : GvoxRegionRange)
    (t : RegionTask) (channels : List Nat) (hperm : ∀ l, (hash_order l).Perm l)
    (ht : task_ok t) :
    let a := add_region S hash_order st range t.1 t.2.1 t.2.2.1 t.2.2.2 channels
    a.size = task_size S range channels t
      ∧ a.region_header = task_header S range channels st.blobs_begin st.data.length t
      ∧ a.errors = []
      ∧ a.user_state.blobs_begin = st.blobs_begin ∧ a.user_state.offset = st.offset
      ∧ a.user_state.data.length = st.data.length + task_size S range channels t := by
  intro a
  obtain ⟨hx, hy, hz⟩ := ht
  have hsz := add_region_size S hash_order st range t.1 t.2.1 t.2.2.1 t.2.2.2 channels hperm
    hx hy hz
  have hspec := add_region_spec S hash_order st range t.1 t.2.1 t.2.2.1 t.2.2.2 channels hperm
    hx hy hz
  have ha : a = add_region S hash_order st range t.1 t.2.1 t.2.2.1 t.2.2.2 channels := rfl
  simp only [] at hsz
  rw [← ha] at hsz
  refine ⟨hsz.1, ?_, hsz.2.2.1, ?_, ?_, hsz.2.2.2⟩
  · rw [ha, hspec]; rfl
  · rw [ha, hspec]
    unfold publish_region
    simp only []
    split <;> rfl
  · rw [ha, hspec]
    unfold publish_region
    simp only []
    split <;> rfl

theorem u64_add_u64 (a b : Nat) : u64 (u64 a + b) = u64 (a + b) := by
  unfold u64; omega

theorem tasks_size_cons (S : Sampler) (range : GvoxRegionRange) (channels : List Nat)
    (t : RegionTask) (ts : List RegionTask) :
    tasks_size S range channels (t :: ts)
      = task_size S range channels t + tasks_size S range channels ts := by
  simp [tasks_size]

theorem run_general (S : Sampler) (hash_order : List Nat → List Nat) (range : GvoxRegionRange)
    (channels : List Nat) (hperm : ∀ l, (hash_order l).Perm l) (order : List RegionTask) :
    ∀ r0 : RunState, (∀ t ∈ order, task_ok t) →
      let r := order.foldl (run_task S hash_order range channels) r0
      r.user_state.blobs_begin = r0.user_state.blobs_begin
        ∧ r.user_state.offset = r0.user_state.offset
        ∧ r.user_state.data.length
            = r0.user_state.data.length + tasks_size S range channels order
        ∧ u64 r.size = u64 (r0.size + tasks_size S range channels order)
        ∧ r.errors = r0.errors
        ∧ r.trace = r0.trace ++ task_records S range channels r0.user_state.blobs_begin
            r0.user_state.data.length order := by
  induction order with
  | nil =>
    intro r0 _
    simp [tasks_size, task_records]
  | cons t ts ih =>
    intro r0 hok
    obtain ⟨h1, h2, h3, h4, h5, h6⟩ := add_region_record S hash_order r0.user_state range t
      channels hperm (hok t (List.mem_cons_self _ _))
    have ih1 := ih (run_task S hash_order range channels r0 t)
      (fun t' ht' => hok t' (List.mem_cons_of_mem _ ht'))
    simp only [List.foldl_cons] at ih1 ⊢
    obtain ⟨i1, i2, i3, i4, i5, i6⟩ := ih1
    have e1 : (run_task S hash_order range channels r0 t).user_state
        = (add_region S hash_order r0.user_state range t.1 t.2.1 t.2.2.1 t.2.2.2
            channels).user_state := rfl
    have e2 : (run_task S hash_order range channels r0 t).size
        = u64 (r0.size + (add_region S hash_order r0.user_state range t.1 t.2.1 t.2.2.1 t.2.2.2
            channels).size) := rfl
    have e3 : (run_task S hash_order range channels r0 t).errors
        = r0.errors ++ (add_region S hash_order r0.user_state range t.1 t.2.1 t.2.2.1 t.2.2.2
            channels).errors := rfl
    have e4 : (run_task S hash_order range channels r0 t).trace
        = r0.trace ++ [(t, (add_region S hash_order r0.user_state range t.1 t.2.1 t.2.2.1
            t.2.2.2 channels).region_header,
            (add_region S hash_order r0.user_state range t.1 t.2.1 t.2.2.1 t.2.2.2
            channels).size)] := rfl
    rw [e1] at i1 i2 i3 i6
    rw [e2] at i4
    rw [e3] at i5
    rw [e4] at i6
    rw [h1] at i4 i6
    rw [h2] at i6
    rw [h3] at i5
    rw [h4] at i1 i6
    rw [h5] at i2
    rw [h6] at i3 i6
    refine ⟨i1, i2, ?_, ?_, ?_, ?_⟩
    · rw [i3, tasks_size_cons]; omega
    · rw [i4, u64_add_u64, tasks_size_cons]; congr 1; omega
    · rw [i5, List.append_nil]
    · rw [i6, List.append_assoc]; rfl


/-- The shared buffer after one task, on a state whose blob area is shorter than `2^32`. -/
theorem run_task_data (S : Sampler) (hash_order : List Nat → List Nat)
    (range : GvoxRegionRange) (channels : List Nat) (hperm : ∀ l, (hash_order l).Perm l)
    (r0 : RunState) (t : RegionTask) (ht : task_ok t) (hst : state_ok r0.user_state)
    (hs : task_slot range channels.length t + 8 ≤ r0.user_state.data.length) :
    (run_task S hash_order range channels r0 t).user_state.data
      = write_bytes r0.user_state.data (task_slot range channels.length t)
          (header_bytes (task_header S range channels r0.user_state.blobs_begin
            r0.user_state.data.length t))
        ++ region_local_data S range t.1 t.2.1 t.2.2.1 (task_channel channels t) := by
  obtain ⟨hx, hy, hz⟩ := ht
  have h := add_region_effect S hash_order r0.user_state range t.1 t.2.1 t.2.2.1 t.2.2.2
    channels hperm hx hy hz hst
  simp only [] at h
  obtain ⟨_, _, _, _, _, _, _, h8⟩ := h
  have hr := (add_region_record S hash_order r0.user_state range t channels hperm
    ⟨hx, hy, hz⟩).2.1
  have h9 := h8 hs
  rw [hr] at h9
  exact h9

theorem task_size_eq_length (S : Sampler) (range : GvoxRegionRange) (channels : List Nat)
    (t : RegionTask) (ht : task_ok t) :
    (region_local_data S range t.1 t.2.1 t.2.2.1 (task_channel channels t)).length
      = task_size S range channels t :=
  region_local_data_length S range _ _ _ _ ht.1 ht.2.1 ht.2.2

theorem run_frame (S : Sampler) (hash_order : List Nat → List Nat) (range : GvoxRegionRange)
    (channels : List Nat) (hperm : ∀ l, (hash_order l).Perm l) (order : List RegionTask) :
    ∀ r0 : RunState, (∀ t ∈ order, task_ok t) →
      r0.user_state.blobs_begin ≤ r0.user_state.data.length →
      r0.user_state.data.length - r0.user_state.blobs_begin
        + tasks_size S range channels order < 4294967296 →
      (∀ t ∈ order, task_slot range channels.length t + 8 ≤ r0.user_state.data.length) →
      ∀ k, k < r0.user_state.data.length →
        (∀ t ∈ order, ¬ (task_slot range channels.length t ≤ k
          ∧ k < task_slot range channels.length t + 8)) →
        (order.foldl (run_task S hash_order range channels) r0).user_state.data.getD k 0
          = r0.user_state.data.getD k 0 := by
  induction order with
  | nil => intro r0 _ _ _ _ k _ _; rfl
  | cons t ts ih =>
    intro r0 hok hbb htot hslot k hk hns
    rw [tasks_size_cons] at htot
    have ht := hok t (List.mem_cons_self _ _)
    have hd := run_task_data S hash_order range channels hperm r0 t ht
      ⟨hbb, by omega⟩ (hslot t (List.mem_cons_self _ _))
    obtain ⟨_, _, _, r4, _, r6⟩ := add_region_record S hash_order r0.user_state range t
      channels hperm ht
    have e1 : (run_task S hash_order range channels r0 t).user_state
        = (add_region S hash_order r0.user_state range t.1 t.2.1 t.2.2.1 t.2.2.2
            channels).user_state := rfl
    simp only [List.foldl_cons]
    rw [ih (run_task S hash_order range channels r0 t)
      (fun t' ht' => hok t' (List.mem_cons_of_mem _ ht'))
      (by rw [e1, r4, r6]; omega) (by rw [e1, r4, r6]; omega)
      (fun t' ht' => by rw [e1, r6]; have := hslot t' (List.mem_cons_of_mem _ ht'); omega)
      k (by rw [e1, r6]; omega) (fun t' ht' => hns t' (List.mem_cons_of_mem _ ht'))]
    rw [hd, List.getD_append _ _ _ _ (by rw [write_bytes_length]; exact hk),
      getD_write_bytes _ _ _ _ (by
        rw [header_bytes_length]; exact hslot t (List.mem_cons_self _ _)),
      header_bytes_length, if_neg (hns t (List.mem_cons_self _ _))]


theorem task_header_lt (S : Sampler) (range : GvoxRegionRange) (channels : List Nat)
    (bb len : Nat) (t : RegionTask) :
    (task_header S range channels bb len t).variant_n < 4294967296
      ∧ (task_header S range channels bb len t).blob_offset < 4294967296 := by
  unfold task_header
  simp only []
  constructor
  · have := distinct_count_le S range t.1 t.2.1 t.2.2.1 (task_channel channels t)
    unfold task_variant_n; omega
  · split
    · unfold u32_sub; omega
    · have h0 : (0, 0, 0) ∈ region_coords := (mem_region_coords _).mpr (by simp)
      have e := getD_region_samples S range t.1 t.2.1 t.2.2.1 (task_channel channels t)
        (0, 0, 0) h0
      have e2 : (region_samples S range t.1 t.2.1 t.2.2.1 (task_channel channels t)).headD 0
          = (region_samples S range t.1 t.2.1 t.2.2.1 (task_channel channels t)).getD
            (in_region_index (0, 0, 0)) 0 := by
        generalize region_samples S range t.1 t.2.1 t.2.2.1 (task_channel channels t) = l
        cases l <;> rfl
      rw [e2, e]
      exact effective_sample_lt _ _ _ _ _ _ _

theorem run_content (S : Sampler) (hash_order : List Nat → List Nat) (range : GvoxRegionRange)
    (channels : List Nat) (hperm : ∀ l, (hash_order l).Perm l) (order : List RegionTask) :
    ∀ r0 : RunState, (∀ t ∈ order, task_ok t) → order.Nodup →
      r0.user_state.blobs_begin ≤ r0.user_state.data.length →
      r0.user_state.data.length - r0.user_state.blobs_begin
        + tasks_size S range channels order < 4294967296 →
      (∀ t ∈ order, task_slot range channels.length t + 8 ≤ r0.user_state.blobs_begin) →
      (∀ t ∈ order, ∀ u ∈ order, t ≠ u →
        task_slot range channels.length t + 8 ≤ task_slot range channels.length u
          ∨ task_slot range channels.length u + 8 ≤ task_slot range channels.length t) →
      ∀ t ∈ order, task_stored S range channels r0.user_state.blobs_begin
        (order.foldl (run_task S hash_order range channels) r0).user_state.data t := by
  induction order with
  | nil => intro r0 _ _ _ _ _ _ t ht; simp at ht
  | cons t0 ts ih =>
    intro r0 hok hnd hbb htot hslot hdis t ht
    rw [tasks_size_cons] at htot
    have ht0 := hok t0 (List.mem_cons_self _ _)
    have hs0 := hslot t0 (List.mem_cons_self _ _)
    have hd := run_task_data S hash_order range channels hperm r0 t0 ht0
      ⟨hbb, by omega⟩ (by omega)
    obtain ⟨_, _, _, r4, _, r6⟩ := add_region_record S hash_order r0.user_state range t0
      channels hperm ht0
    have e1 : (run_task S hash_order range channels r0 t0).user_state
        = (add_region S hash_order r0.user_state range t0.1 t0.2.1 t0.2.2.1 t0.2.2.2
            channels).user_state := rfl
    have hb1 : (run_task S hash_order range channels r0 t0).user_state.blobs_begin
        = r0.user_state.blobs_begin := by rw [e1, r4]
    have hl1 : (run_task S hash_order range channels r0 t0).user_state.data.length
        = r0.user_state.data.length + task_size S range channels t0 := by rw [e1, r6]
    have hok' : ∀ t' ∈ ts, task_ok t' := fun t' ht' => hok t' (List.mem_cons_of_mem _ ht')
    obtain ⟨hnot, hnd'⟩ := List.nodup_cons.mp hnd
    simp only [List.foldl_cons]
    by_cases hmem : t ∈ ts
    · have := ih (run_task S hash_order range channels r0 t0) hok' hnd'
        (by rw [hb1, hl1]; omega) (by rw [hb1, hl1]; omega)
        (fun t' ht' => by rw [hb1]; exact hslot t' (List.mem_cons_of_mem _ ht'))
        (fun a ha b hb hab => hdis a (List.mem_cons_of_mem _ ha) b
          (List.mem_cons_of_mem _ hb) hab) t hmem
      rw [hb1] at this
      exact this
    · have htt : t = t0 := by
        rcases List.mem_cons.mp ht with h | h
        · exact h
        · exact absurd h hmem
      subst htt
      have hfr := run_frame S hash_order range channels hperm ts
        (run_task S hash_order range channels r0 t) hok'
        (by rw [hb1, hl1]; omega) (by rw [hb1, hl1]; omega)
        (fun t' ht' => by
          rw [hl1]; have := hslot t' (List.mem_cons_of_mem _ ht'); omega)
      have hlen := (run_general S hash_order range channels hperm ts
        (run_task S hash_order range channels r0 t) hok').2.2.1
      simp only [] at hlen
      have hLl := task_size_eq_length S range channels t ht0
      have hhl := task_header_lt S range channels r0.user_state.blobs_begin
        r0.user_state.data.length t
      have hrd := read_header_slot r0.user_state.data
        (region_local_data S range t.1 t.2.1 t.2.2.1 (task_channel channels t))
        (task_slot range channels.length t)
        (task_header S range channels r0.user_state.blobs_begin r0.user_state.data.length t)
        (by omega)
      rw [← hd, Nat.mod_eq_of_lt hhl.1, Nat.mod_eq_of_lt hhl.2] at hrd
      have hslotfree : ∀ k, task_slot range channels.length t ≤ k →
          k < task_slot range channels.length t + 8 → ∀ u ∈ ts,
          ¬ (task_slot range channels.length u ≤ k
            ∧ k < task_slot range channels.length u + 8) := by
        intro k hk1 hk2 u hu
        have hne : t ≠ u := fun h => hnot (h ▸ hu)
        have := hdis t (List.mem_cons_self _ _) u (List.mem_cons_of_mem _ hu) hne
        omega
      have hrd1 : read_u32 (run_task S hash_order range channels r0 t).user_state.data
          (task_slot range channels.length t) = task_variant_n S range channels t := hrd.1
      refine ⟨r0.user_state.data.length, hbb, by omega, ?_, ?_, ?_, ?_⟩
      · rw [hlen, hl1]; omega
      · rw [← hrd1]
        apply read_u32_congr
        intro k hk
        exact hfr _ (by rw [hl1]; omega) (hslotfree _ (by omega) (by omega))
      · rw [← hrd.2]
        apply read_u32_congr
        intro k hk
        exact hfr _ (by rw [hl1]; omega) (hslotfree _ (by omega) (by omega))
      · intro j hj
        rw [hfr _ (by rw [hl1]; omega) (fun u hu => by
          have := hslot u (List.mem_cons_of_mem _ hu); omega)]
        rw [hd, List.getD_append_right _ _ _ _ (by rw [write_bytes_length]; omega),
          write_bytes_length]
        congr 1; omega

/-! ## The enqueued tasks and their header slots -/

theorem mem_region_tasks (nx ny nz cn : Nat) (t : RegionTask) :
    t ∈ region_tasks nx ny nz cn ↔ t.1 < nx ∧ t.2.1 < ny ∧ t.2.2.1 < nz ∧ t.2.2.2 < cn := by
  obtain ⟨x, y, z, c⟩ := t
  simp only [region_tasks, List.mem_flatMap, List.mem_map, List.mem_range, Prod.mk.injEq]
  constructor
  · rintro ⟨z1, hz, y1, hy, x1, hx, c1, hc, rfl, rfl, rfl, rfl⟩
    exact ⟨hx, hy, hz, hc⟩
  · rintro ⟨hx, hy, hz, hc⟩
    exact ⟨z, hz, y, hy, x, hx, c, hc, rfl, rfl, rfl, rfl⟩

theorem nodup_flatMap_range {β : Type} (n : Nat) (f : Nat → List β)
    (h1 : ∀ i, (f i).Nodup) (h2 : ∀ i j, i ≠ j → ∀ x, x ∈ f i → x ∉ f j) :
    ((List.range n).flatMap f).Nodup := by
  rw [List.nodup_flatMap]
  refine ⟨fun i _ => h1 i, ?_⟩
  apply (List.nodup_range n).pairwise_of_forall_ne
  intro a _ b _ hab
  exact List.disjoint_left.mpr (fun x hx => h2 a b hab x hx)

theorem region_tasks_nodup (nx ny nz cn : Nat) : (region_tasks nx ny nz cn).Nodup := by
  unfold region_tasks
  apply nodup_flatMap_range
  · intro zi
    apply nodup_flatMap_range
    · intro yi
      apply nodup_flatMap_range
      · intro xi
        apply List.Nodup.map _ (List.nodup_range cn)
        intro a b h
        simp only [Prod.mk.injEq] at h
        exact h.2.2.2
      · intro i j hij t ht ht'
        simp only [List.mem_map, List.mem_range] at ht ht'
        obtain ⟨_, _, rfl⟩ := ht
        obtain ⟨_, _, h⟩ := ht'
        simp only [Prod.mk.injEq] at h
        exact hij h.1.symm
    · intro i j hij t ht ht'
      simp only [List.mem_flatMap, List.mem_map, List.mem_range] at ht ht'
      obtain ⟨_, _, _, _, rfl⟩ := ht
      obtain ⟨_, _, _, _, h⟩ := ht'
      simp only [Prod.mk.injEq] at h
      exact hij h.2.1.symm
  · intro i j hij t ht ht'
    simp only [List.mem_flatMap, List.mem_map, List.mem_range] at ht ht'
    obtain ⟨_, _, _, _, _, _, rfl⟩ := ht
    obtain ⟨_, _, _, _, _, _, h⟩ := ht'
    simp only [Prod.mk.injEq] at h
    exact hij h.2.2.1.symm

theorem length_flatMap_const {α β : Type} (l : List α) (f : α → List β) (m : Nat)
    (h : ∀ a, (f a).length = m) : (l.flatMap f).length = l.length * m := by
  induction l with
  | nil => simp
  | cons a l ih =>
    rw [List.flatMap_cons, List.length_append, ih, h a, List.length_cons, Nat.add_mul,
      Nat.one_mul, Nat.add_comm]

theorem region_tasks_length (nx ny nz cn : Nat) :
    (region_tasks nx ny nz cn).length = nz * (ny * (nx * cn)) := by
  unfold region_tasks
  rw [length_flatMap_const _ _ (ny * (nx * cn)), List.length_range]
  intro zi
  rw [length_flatMap_const _ _ (nx * cn), List.length_range]
  intro yi
  rw [length_flatMap_const _ _ cn, List.length_range]
  intro xi
  rw [List.length_map, List.length_range]

theorem region_count_lt (e : Nat) : region_count e < 536870912 := by
  unfold region_count u32 REGION_SIZE; omega

theorem region_count_eq (e : Nat) (h : e + 7 < 4294967296) :
    region_count e = (e + REGION_SIZE - 1) / REGION_SIZE := by
  unfold region_count u32 REGION_SIZE; omega

theorem mixed_radix_lt (a b n m : Nat) (ha : a < n) (hb : b < m) : a + n * b < n * m := by
  have : n * (b + 1) ≤ n * m := Nat.mul_le_mul_left _ hb
  rw [Nat.mul_add, Nat.mul_one] at this
  omega

theorem mixed_radix_inj (a b a1 b1 n : Nat) (ha : a < n) (ha1 : a1 < n)
    (h : a + n * b = a1 + n * b1) : a = a1 ∧ b = b1 := by
  have h1 : (a + n * b) % n = a := by
    rw [Nat.add_mul_mod_self_left]; exact Nat.mod_eq_of_lt ha
  have h2 : (a1 + n * b1) % n = a1 := by
    rw [Nat.add_mul_mod_self_left]; exact Nat.mod_eq_of_lt ha1
  have e : a = a1 := by rw [← h1, ← h2, h]
  subst e
  refine ⟨rfl, ?_⟩
  have : n * b = n * b1 := by omega
  exact Nat.eq_of_mul_eq_mul_left (by omega) this

theorem task_index_lt (nx ny nz cn : Nat) (t : RegionTask)
    (ht : t ∈ region_tasks nx ny nz cn) : task_index nx ny cn t < nx * ny * nz * cn := by
  rw [mem_region_tasks] at ht
  obtain ⟨hx, hy, hz, hc⟩ := ht
  have h1 := mixed_radix_lt t.2.1 t.2.2.1 ny nz hy hz
  have h2 := mixed_radix_lt t.1 (t.2.1 + ny * t.2.2.1) nx (ny * nz) hx h1
  have h3 := mixed_radix_lt t.2.2.2 (t.1 + nx * (t.2.1 + ny * t.2.2.1)) cn (nx * (ny * nz)) hc h2
  unfold task_index
  calc ((t.2.2.1 * ny + t.2.1) * nx + t.1) * cn + t.2.2.2
      = t.2.2.2 + cn * (t.1 + nx * (t.2.1 + ny * t.2.2.1)) := by ring
    _ < cn * (nx * (ny * nz)) := h3
    _ = nx * ny * nz * cn := by ring

theorem task_index_inj (nx ny nz cn : Nat) (t u : RegionTask)
    (ht : t ∈ region_tasks nx ny nz cn) (hu : u ∈ region_tasks nx ny nz cn)
    (h : task_index nx ny cn t = task_index nx ny cn u) : t = u := by
  rw [mem_region_tasks] at ht hu
  obtain ⟨hx, hy, hz, hc⟩ := ht
  obtain ⟨hx1, hy1, hz1, hc1⟩ := hu
  unfold task_index at h
  have e1 : t.2.2.2 + cn * (t.1 + nx * (t.2.1 + ny * t.2.2.1))
      = u.2.2.2 + cn * (u.1 + nx * (u.2.1 + ny * u.2.2.1)) := by
    have a1 : ((t.2.2.1 * ny + t.2.1) * nx + t.1) * cn + t.2.2.2
      = t.2.2.2 + cn * (t.1 + nx * (t.2.1 + ny * t.2.2.1)) := by ring
    have a2 : ((u.2.2.1 * ny + u.2.1) * nx + u.1) * cn + u.2.2.2
      = u.2.2.2 + cn * (u.1 + nx * (u.2.1 + ny * u.2.2.1)) := by ring
    rw [← a1, ← a2, h]
  obtain ⟨c1, e2⟩ := mixed_radix_inj _ _ _ _ _ hc hc1 e1
  obtain ⟨c2, e3⟩ := mixed_radix_inj _ _ _ _ _ hx hx1 e2
  obtain ⟨c3, c4⟩ := mixed_radix_inj _ _ _ _ _ hy hy1 e3
  obtain ⟨x, y, z, c⟩ := t
  obtain ⟨x1, y1, z1, c'⟩ := u
  simp only at c1 c2 c3 c4
  subst c1 c2 c3 c4
  rfl

/-- The slot of an enqueued task, when the grid has at most `2^32` regions. -/
theorem task_slot_eq (range : GvoxRegionRange) (cn : Nat) (t : RegionTask)
    (hg : region_count range.extent.x * region_count range.extent.y
      * region_count range.extent.z ≤ 4294967296)
    (ht : t ∈ region_tasks (region_count range.extent.x) (region_count range.extent.y)
      (region_count range.extent.z) cn) :
    task_slot range cn t
      = 8 * task_index (region_count range.extent.x) (region_count range.extent.y) cn t := by
  have hm := (mem_region_tasks _ _ _ _ _).mp ht
  obtain ⟨hx, hy, hz, hc⟩ := hm
  unfold task_slot header_slot_offset task_index
  simp only []
  generalize region_count range.extent.x = nx at *
  generalize region_count range.extent.y = ny at *
  generalize region_count range.extent.z = nz at *
  have h1 := mixed_radix_lt t.2.1 t.2.2.1 ny nz hy hz
  have h2 := mixed_radix_lt t.1 (t.2.1 + ny * t.2.2.1) nx (ny * nz) hx h1
  have e : t.1 + t.2.1 * nx + t.2.2.1 * nx * ny = t.1 + nx * (t.2.1 + ny * t.2.2.1) := by ring
  have e2 : nx * (ny * nz) = nx * ny * nz := by ring
  rw [u32_of_lt (by rw [e]; omega)]
  ring

/-! ## The output stream of `serialize_region` -/

theorem flag_test (m i : Nat) : m &&& (1 <<< i) ≠ 0 ↔ m.testBit i = true := by
  rw [Nat.one_shiftLeft, Nat.and_two_pow]
  cases h : m.testBit i <;> simp [h]

theorem channel_list_eq (m : Nat) :
    channel_list m = (List.range 32).filter (fun i => m.testBit i) := by
  unfold channel_list
  apply List.filter_congr
  intro i _
  by_cases h : m.testBit i = true
  · simp [h, (flag_test m i).mpr h]
  · have : ¬ (m &&& (1 <<< i) ≠ 0) := fun h1 => h ((flag_test m i).mp h1)
    simp only [ne_eq, Decidable.not_not] at this
    simp [h, this]

theorem channel_list_length (m : Nat) : (channel_list m).length = popcount m := by
  rw [channel_list_eq]; rfl

theorem channel_list_length_le (m : Nat) : (channel_list m).length ≤ 32 := by
  unfold channel_list
  calc _ ≤ (List.range 32).length := List.length_filter_le _ _
    _ = 32 := List.length_range 32

theorem channel_list_nodup (m : Nat) : (channel_list m).Nodup :=
  List.Nodup.filter _ (List.nodup_range 32)

theorem mem_channel_list (m c : Nat) : c ∈ channel_list m ↔ c < 32 ∧ m.testBit c = true := by
  rw [channel_list_eq, List.mem_filter, List.mem_range]

theorem range_bytes_length (range : GvoxRegionRange) : (range_bytes range).length = 24 := rfl

theorem output_write_gap (out bytes : List Nat) (g : Nat) :
    gvox_output_write out (out.length + g) bytes = out ++ List.replicate g 0 ++ bytes := by
  unfold gvox_output_write
  simp only []
  have e : out.length + g + bytes.length - out.length = g + bytes.length := by omega
  rw [e, List.replicate_add, ← List.append_assoc,
    List.take_left' (by rw [List.length_append, List.length_replicate]),
    List.drop_eq_nil_of_le (by
      simp only [List.length_append, List.length_replicate]; omega), List.append_nil]

theorem output_write_end (out bytes : List Nat) :
    gvox_output_write out out.length bytes = out ++ bytes := by
  have := output_write_gap out bytes 0
  simpa using this

theorem output_write_mid (a b c bytes : List Nat) (h : bytes.length = b.length) :
    gvox_output_write (a ++ b ++ c) a.length bytes = a ++ bytes ++ c := by
  unfold gvox_output_write
  simp only []
  have e : a.length + bytes.length - (a ++ b ++ c).length = 0 := by
    simp only [List.length_append]; omega
  rw [e, List.replicate_zero, List.append_nil, List.append_assoc a b c,
    List.take_left' rfl, ← List.append_assoc a b c, h,
    List.drop_left' (by rw [List.length_append])]

theorem enqueued_task_ok (range : GvoxRegionRange) (flags : Nat) (t : RegionTask)
    (h : t ∈ enqueued_tasks range flags) : task_ok t := by
  unfold enqueued_tasks at h
  rw [mem_region_tasks] at h
  exact ⟨lt_trans h.1 (region_count_lt _), lt_trans h.2.1 (region_count_lt _),
    lt_trans h.2.2.1 (region_count_lt _)⟩

theorem pool_task_ok (pool : List RegionTask → List RegionTask) (range : GvoxRegionRange)
    (flags : Nat) (hpool : ∀ l, (pool l).Perm l) :
    ∀ t ∈ pool (enqueued_tasks range flags), task_ok t :=
  fun t ht => enqueued_task_ok range flags t ((hpool _).mem_iff.mp ht)

theorem le32_magic : le32 7370343 = [103, 118, 112, 0] := by decide

/-- The output stream `serialize_region` leaves on a fresh state and an empty stream:
the ten words of the preamble, then the shared buffer. -/
theorem serialize_region_fresh (S : Sampler) (hash_order : List Nat → List Nat)
    (pool : List RegionTask → List RegionTask) (range : GvoxRegionRange) (flags : Nat)
    (hperm : ∀ l, (hash_order l).Perm l) (hpool : ∀ l, (pool l).Perm l) :
    serialize_region S hash_order pool [] fresh_state range flags =
      { user_state := (run_final S hash_order pool range flags).user_state,
        output := ([7370343, of_i32 range.offset.x, of_i32 range.offset.y,
            of_i32 range.offset.z, range.extent.x, range.extent.y, range.extent.z,
            u32_sub (run_final S hash_order pool range flags).size
              (run_final S hash_order pool range flags).user_state.blobs_begin,
            flags, u32 (popcount flags)].flatMap le32)
          ++ (run_final S hash_order pool range flags).user_state.data,
        errors := (run_final S hash_order pool range flags).errors,
        trace := (run_final S hash_order pool range flags).trace } := by
  have hg := run_general S hash_order range (channel_list flags) hperm
    (pool (enqueued_tasks range flags)) (run_init range flags)
    (pool_task_ok pool range flags hpool)
  simp only [] at hg
  have hoff : (run_final S hash_order pool range flags).user_state.offset = 40 := hg.2.1
  have e : serialize_region S hash_order pool [] fresh_state range flags =
      { user_state := (run_final S hash_order pool range flags).user_state,
        output := gvox_output_write (gvox_output_write
            (gvox_output_write (gvox_output_write (gvox_output_write
              (gvox_output_write [] 0 [103, 118, 112, 0]) 4 (range_bytes range))
              32 (le32 flags)) 36 (le32 (u32 (popcount flags))))
            28 (le32 (u32_sub (run_final S hash_order pool range flags).size
              (run_final S hash_order pool range flags).user_state.blobs_begin)))
          (run_final S hash_order pool range flags).user_state.offset
          (run_final S hash_order pool range flags).user_state.data,
        errors := (run_final S hash_order pool range flags).errors,
        trace := (run_final S hash_order pool range flags).trace } := by
    unfold serialize_region run_final enqueued_tasks run_init
    simp only [fresh_state, Nat.zero_add, Nat.reduceAdd]
  rw [e, hoff]
  generalize (run_final S hash_order pool range flags).user_state.data = data
  generalize u32_sub (run_final S hash_order pool range flags).size
    (run_final S hash_order pool range flags).user_state.blobs_begin = bs
  generalize (run_final S hash_order pool range flags).user_state = ust
  generalize (run_final S hash_order pool range flags).errors = errs
  generalize (run_final S hash_order pool range flags).trace = tr
  have w1 : gvox_output_write [] 0 [103, 118, 112, 0] = [103, 118, 112, 0] := rfl
  have w2 := output_write_end [103, 118, 112, 0] (range_bytes range)
  have w3 := output_write_gap ([103, 118, 112, 0] ++ range_bytes range) (le32 flags) 4
  have w4 := output_write_end ([103, 118, 112, 0] ++ range_bytes range
    ++ List.replicate 4 0 ++ le32 flags) (le32 (u32 (popcount flags)))
  have w5 := output_write_mid ([103, 118, 112, 0] ++ range_bytes range) (List.replicate 4 0)
    (le32 flags ++ le32 (u32 (popcount flags))) (le32 bs) rfl
  have w6 := output_write_end ([103, 118, 112, 0] ++ range_bytes range ++ le32 bs
    ++ (le32 flags ++ le32 (u32 (popcount flags)))) data
  simp only [List.length_append, List.length_cons, List.length_nil, range_bytes_length,
    le32_length, List.length_replicate] at w2 w3 w4 w5 w6
  rw [w1, w2, w3, w4]
  rw [List.append_assoc _ (le32 flags) _, w5, w6]
  simp only [List.flatMap_cons, List.flatMap_nil, le32_magic, range_bytes, List.append_assoc,
    List.append_nil]

/-! ## Decoding a region blob -/

theorem sample_eq_head_of_count_one (S : Sampler) (range : GvoxRegionRange)
    (rx ry rz ch : Nat) (h : distinct_count S range rx ry rz ch = 1)
    (c : Nat × Nat × Nat) (hc : c ∈ region_coords) :
    (region_samples S range rx ry rz ch).headD 0 = effective_sample S range rx ry rz ch c := by
  unfold distinct_count at h
  obtain ⟨v, hv⟩ := Finset.card_eq_one.mp h
  have hm : ∀ w ∈ region_samples S range rx ry rz ch, w = v := by
    intro w hw
    have : w ∈ (region_samples S range rx ry rz ch).toFinset := List.mem_toFinset.mpr hw
    rw [hv, Finset.mem_singleton] at this
    exact this
  have h1 : effective_sample S range rx ry rz ch c = v :=
    hm _ (List.mem_map_of_mem _ hc)
  have h0 : (0, 0, 0) ∈ region_coords := (mem_region_coords _).mpr (by simp)
  have h2 : effective_sample S range rx ry rz ch (0, 0, 0) = v :=
    hm _ (List.mem_map_of_mem _ h0)
  rw [h1, ← h2, ← getD_region_samples S range rx ry rz ch (0, 0, 0) h0]
  generalize region_samples S range rx ry rz ch = l
  cases l <;> rfl

theorem region_decode_raw (S : Sampler) (range : GvoxRegionRange) (rx ry rz ch : Nat)
    (hx : rx < 536870912) (hy : ry < 536870912) (hz : rz < 536870912)
    (h : distinct_count S range rx ry rz ch > MAX_REGION_COMPRESSED_VARIANT_N)
    (c : Nat × Nat × Nat) (hc : c ∈ region_coords) :
    read_u32 (region_local_data S range rx ry rz ch) (4 * in_region_index c)
      = effective_sample S range rx ry rz ch c := by
  rw [region_local_data_raw S range rx ry rz ch hx hy hz h, read_u32_words_bytes,
    getD_region_samples _ _ _ _ _ _ c hc]
  exact Nat.mod_eq_of_lt (effective_sample_lt _ _ _ _ _ _ _)

theorem decode_palette_aux (L pal : List Nat) (n idx v : Nat) (hn : n ≤ 512)
    (hidx : idx < 512) (hpl : pal.length = n)
    (hlen : L.length = 4 * n + calc_palette_region_size (ceil_log2 n)) (hok : bytes_ok L)
    (hpal : read_words L 0 n = pal) (hin : v ∈ pal)
    (hbits : ∀ t, t < ceil_log2 n →
      bit_at L (32 * n + idx * ceil_log2 n + t) = (pal.indexOf v).testBit t) :
    (read_u32 L (4 * n + idx * ceil_log2 n / 8)
          >>> (idx * ceil_log2 n - idx * ceil_log2 n / 8 * 8)) &&& get_mask (ceil_log2 n)
        = pal.indexOf v
      ∧ pal.indexOf v < n ∧ read_u32 L (4 * pal.indexOf v) = v
      ∧ 4 * n + idx * ceil_log2 n / 8 + 4 ≤ L.length := by
  obtain ⟨hc1, hc2, _, _⟩ := ceil_log2_small n (by omega)
  have hi : pal.indexOf v < n := by
    rw [← hpl]; exact List.indexOf_lt_length.mpr hin
  have hB : idx * ceil_log2 n ≤ 511 * ceil_log2 n := Nat.mul_le_mul_right _ (by omega)
  refine ⟨packed_read L n (ceil_log2 n) _ _ hok hc2 (lt_of_lt_of_le hi hc1) hbits, hi, ?_, ?_⟩
  · have := getD_read_words L 0 n _ hi
    rw [Nat.zero_add] at this
    rw [← this, hpal, List.getD_eq_getElem _ _ (by rw [hpl]; exact hi)]
    exact List.getElem_indexOf _
  · rw [hlen]
    unfold calc_palette_region_size REGION_SIZE
    omega

theorem region_decode_palette (S : Sampler) (range : GvoxRegionRange) (rx ry rz ch : Nat)
    (hx : rx < 536870912) (hy : ry < 536870912) (hz : rz < 536870912)
    (h1 : distinct_count S range rx ry rz ch > 1)
    (h2 : ¬ distinct_count S range rx ry rz ch > MAX_REGION_COMPRESSED_VARIANT_N)
    (c : Nat × Nat × Nat) (hc : c ∈ region_coords) :
    ∃ pid, (read_u32 (region_local_data S range rx ry rz ch)
          (4 * distinct_count S range rx ry rz ch
            + in_region_index c * ceil_log2 (distinct_count S range rx ry rz ch) / 8)
          >>> (in_region_index c * ceil_log2 (distinct_count S range rx ry rz ch)
            - in_region_index c * ceil_log2 (distinct_count S range rx ry rz ch) / 8 * 8))
          &&& get_mask (ceil_log2 (distinct_count S range rx ry rz ch)) = pid
      ∧ pid < distinct_count S range rx ry rz ch
      ∧ read_u32 (region_local_data S range rx ry rz ch) (4 * pid)
          = effective_sample S range rx ry rz ch c
      ∧ 4 * distinct_count S range rx ry rz ch
          + in_region_index c * ceil_log2 (distinct_count S range rx ry rz ch) / 8 + 4
          ≤ (region_local_data S range rx ry rz ch).length := by
  obtain ⟨pal, hpl, _, hmem, hlen, hok, hpal, hbits⟩ :=
    region_local_data_palette S range rx ry rz ch hx hy hz h1 h2
  exact ⟨_, decode_palette_aux _ pal _ _ _ (distinct_count_le S range rx ry rz ch)
    (in_region_index_lt c hc) hpl hlen hok hpal
    ((hmem _).mpr (List.mem_map_of_mem _ hc)) (fun t ht => hbits c hc t ht)⟩

theorem read_u32_of_stored (data L : List Nat) (len size k : Nat)
    (h : ∀ j, j < size → data.getD (len + j) 0 = L.getD j 0) (hk : k + 4 ≤ size) :
    read_u32 data (len + k) = read_u32 L k := by
  apply read_u32_congr
  intro j hj
  rw [Nat.add_assoc]
  exact h (k + j) (by omega)


/-! ## The shared buffer after the run -/

theorem tasks_size_perm (S : Sampler) (range : GvoxRegionRange) (channels : List Nat)
    (a b : List RegionTask) (h : a.Perm b) :
    tasks_size S range channels a = tasks_size S range channels b := by
  unfold tasks_size
  exact (h.map _).sum_eq

theorem header_table_size (range : GvoxRegionRange) (flags : Nat) (hg : grid_fits range) :
    u64 (8 * (channel_list flags).length * region_count range.extent.x
      * region_count range.extent.y * region_count range.extent.z)
    = header_table_bytes range flags := by
  unfold header_table_bytes
  have hc := channel_list_length_le flags
  obtain ⟨_, _, _, h4⟩ := hg
  have e : 8 * (channel_list flags).length * region_count range.extent.x
      * region_count range.extent.y * region_count range.extent.z
      = 8 * (region_count range.extent.x * region_count range.extent.y
        * region_count range.extent.z * (channel_list flags).length) := by ring
  rw [e]
  have h5 : region_count range.extent.x * region_count range.extent.y
    * region_count range.extent.z * (channel_list flags).length ≤ 4294967296 * 32 :=
    Nat.mul_le_mul h4 hc
  generalize region_count range.extent.x * region_count range.extent.y
    * region_count range.extent.z * (channel_list flags).length = M at h5 ⊢
  unfold u64
  omega

/-- The state after the run of the tasks of `serialize_region`, when the region grid
is formed without wrap-around and the blobs take less than `2^32` bytes. -/
theorem run_final_facts (S : Sampler) (hash_order : List Nat → List Nat)
    (pool : List RegionTask → List RegionTask) (range : GvoxRegionRange) (flags : Nat)
    (hperm : ∀ l, (hash_order l).Perm l) (hpool : ∀ l, (pool l).Perm l)
    (hg : grid_fits range) (htot : total_blob_size S range flags < 4294967296) :
    (run_final S hash_order pool range flags).user_state.blobs_begin
        = header_table_bytes range flags
      ∧ (run_final S hash_order pool range flags).user_state.data.length
        = header_table_bytes range flags + total_blob_size S range flags
      ∧ u32_sub (run_final S hash_order pool range flags).size
          (run_final S hash_order pool range flags).user_state.blobs_begin
        = total_blob_size S range flags
      ∧ (run_final S hash_order pool range flags).errors = []
      ∧ ∀ t ∈ enqueued_tasks range flags,
          task_stored S range (channel_list flags) (header_table_bytes range flags)
            (run_final S hash_order pool range flags).user_state.data t := by
  generalize hHd : header_table_bytes range flags = H
  have hH := header_table_size range flags hg
  have hok := pool_task_ok pool range flags hpool
  have hts := tasks_size_perm S range (channel_list flags) _ _ (hpool (enqueued_tasks range flags))
  rw [hHd] at hH
  have hib : (run_init range flags).user_state.blobs_begin = H := hH
  have hil : (run_init range flags).user_state.data.length = H := by
    show (vec_resize [] _).length = H
    rw [vec_resize_nil, List.length_replicate]; exact hH
  have his : (run_init range flags).size = H := hH
  have hgen := run_general S hash_order range (channel_list flags) hperm
    (pool (enqueued_tasks range flags)) (run_init range flags) hok
  have hgen' : (run_final S hash_order pool range flags).user_state.blobs_begin
        = (run_init range flags).user_state.blobs_begin
      ∧ (run_final S hash_order pool range flags).user_state.offset
        = (run_init range flags).user_state.offset
      ∧ (run_final S hash_order pool range flags).user_state.data.length
        = (run_init range flags).user_state.data.length
          + tasks_size S range (channel_list flags) (pool (enqueued_tasks range flags))
      ∧ u64 (run_final S hash_order pool range flags).size
        = u64 ((run_init range flags).size
          + tasks_size S range (channel_list flags) (pool (enqueued_tasks range flags)))
      ∧ (run_final S hash_order pool range flags).errors = (run_init range flags).errors
      ∧ (run_final S hash_order pool range flags).trace = (run_init range flags).trace
          ++ task_records S range (channel_list flags)
            (run_init range flags).user_state.blobs_begin
            (run_init range flags).user_state.data.length
            (pool (enqueued_tasks range flags)) := hgen
  obtain ⟨g1, _, g3, g4, g5, _⟩ := hgen'
  rw [hts] at g3 g4
  rw [hib] at g1
  rw [hil] at g3
  rw [his] at g4
  have hslot : ∀ t ∈ enqueued_tasks range flags,
      task_slot range (channel_list flags).length t
        = 8 * task_index (region_count range.extent.x) (region_count range.extent.y)
          (channel_list flags).length t
      ∧ task_index (region_count range.extent.x) (region_count range.extent.y)
          (channel_list flags).length t
        < region_count range.extent.x * region_count range.extent.y
          * region_count range.extent.z * (channel_list flags).length :=
    fun t ht => ⟨task_slot_eq range _ t hg.2.2.2 ht, task_index_lt _ _ _ _ t ht⟩
  have hHlt : ∀ t ∈ enqueued_tasks range flags,
      8 * task_index (region_count range.extent.x) (region_count range.extent.y)
          (channel_list flags).length t + 8 ≤ H := by
    intro t ht
    have := (hslot t ht).2
    rw [← hHd]; unfold header_table_bytes; omega
  have hcont := run_content S hash_order range (channel_list flags) hperm
    (pool (enqueued_tasks range flags)) (run_init range flags) hok
    ((hpool _).nodup_iff.mpr (region_tasks_nodup _ _ _ _))
    (by rw [hib, hil]) (by rw [hib, hil, hts]; unfold total_blob_size at htot; omega)
    (fun t ht => by
      rw [hib]
      rw [(hslot t ((hpool _).mem_iff.mp ht)).1]
      exact hHlt t ((hpool _).mem_iff.mp ht))
    (fun t ht u hu hne => by
      have mt := (hpool _).mem_iff.mp ht
      have mu := (hpool _).mem_iff.mp hu
      rw [(hslot t mt).1, (hslot u mu).1]
      have : task_index (region_count range.extent.x) (region_count range.extent.y)
          (channel_list flags).length t
          ≠ task_index (region_count range.extent.x) (region_count range.extent.y)
          (channel_list flags).length u :=
        fun h => hne (task_index_inj _ _ _ _ t u mt mu h)
      omega)
  rw [hib] at hcont
  have hcont' : ∀ t ∈ pool (enqueued_tasks range flags),
      task_stored S range (channel_list flags) H
        (run_final S hash_order pool range flags).user_state.data t := hcont
  refine ⟨g1, g3, ?_, g5, fun t ht => hcont' t ((hpool _).mem_iff.mpr ht)⟩
  · rw [g1]
    unfold total_blob_size at htot ⊢
    generalize tasks_size S range (channel_list flags) (enqueued_tasks range flags) = T
      at g4 htot ⊢
    generalize (run_final S hash_order pool range flags).size = sz at g4 ⊢
    unfold u64 at g4
    unfold u32_sub
    omega


/-! ## Decoding the container -/

theorem read_preamble (W data : List Nat) (i : Nat) (hi : i < W.length) :
    read_u32 (W.flatMap le32 ++ data) (4 * i) = W.getD i 0 % 4294967296 := by
  rw [read_u32_append_left _ _ _ (by rw [words_bytes_length]; omega), read_u32_words_bytes]

theorem to_i32_of_i32 (i : Int) (h : is_i32 i) : to_i32 (of_i32 i % 4294967296) = i := by
  unfold is_i32 at h
  unfold to_i32 of_i32
  split <;> omega

theorem wrap_i32_id (i : Int) (h : is_i32 i) : wrap_i32 i = i := by
  unfold is_i32 at h
  unfold wrap_i32
  omega

theorem popcount_le (m : Nat) : popcount m ≤ 32 := by
  rw [← channel_list_length]; exact channel_list_length_le m

/-- The value the decoder gives for a voxel of a stored region. -/
theorem decode_stored (S : Sampler) (range : GvoxRegionRange) (channels : List Nat)
    (input data : List Nat) (H total : Nat) (t : RegionTask) (c : Nat × Nat × Nat)
    (ht : task_ok t) (hc : c ∈ region_coords)
    (hrd : ∀ k, read_u32 input (40 + k) = read_u32 data k)
    (hlen : data.length = H + total)
    (hst : task_stored S range channels H data t) :
    (if read_u32 input (40 + task_slot range channels.length t) = 0 then none
     else if read_u32 input (40 + task_slot range channels.length t) = 1 then
       some (read_u32 input (40 + task_slot range channels.length t + 4))
     else if read_u32 input (40 + task_slot range channels.length t)
         ≤ MAX_REGION_COMPRESSED_VARIANT_N then
       if read_u32 input (40 + task_slot range channels.length t + 4)
           + (4 * read_u32 input (40 + task_slot range channels.length t)
             + calc_palette_region_size
               (ceil_log2 (read_u32 input (40 + task_slot range channels.length t))))
           > total then none
       else some (read_u32 input (40 + H
         + read_u32 input (40 + task_slot range channels.length t + 4)
         + 4 * ((read_u32 input (40 + H
             + read_u32 input (40 + task_slot range channels.length t + 4)
             + 4 * read_u32 input (40 + task_slot range channels.length t)
             + in_region_index c
               * ceil_log2 (read_u32 input (40 + task_slot range channels.length t)) / 8)
           >>> (in_region_index c
               * ceil_log2 (read_u32 input (40 + task_slot range channels.length t))
             - in_region_index c
               * ceil_log2 (read_u32 input (40 + task_slot range channels.length t)) / 8 * 8))
           &&& get_mask (ceil_log2 (read_u32 input (40 + task_slot range channels.length t))))))
     else
       if read_u32 input (40 + task_slot range channels.length t + 4)
           + MAX_REGION_ALLOCATION_SIZE > total then none
       else some (read_u32 input (40 + H
         + read_u32 input (40 + task_slot range channels.length t + 4)
         + 4 * in_region_index c)))
      = some (effective_sample S range t.1 t.2.1 t.2.2.1 (task_channel channels t) c) := by
  obtain ⟨len, hl1, hl2, hl3, hvn, hbo, hblob⟩ := hst
  obtain ⟨hx, hy, hz⟩ := ht
  have e1 : 40 + task_slot range channels.length t + 4
      = 40 + (task_slot range channels.length t + 4) := by omega
  rw [e1, hrd, hrd, hvn, hbo]
  have hpos := distinct_count_pos S range t.1 t.2.1 t.2.2.1 (task_channel channels t)
  have hLl := region_local_data_length S range t.1 t.2.1 t.2.2.1 (task_channel channels t)
    hx hy hz
  unfold task_header
  simp only []
  unfold task_size at hl3 hblob
  unfold task_variant_n at hl3 hblob ⊢
  generalize hn : distinct_count S range t.1 t.2.1 t.2.2.1 (task_channel channels t) = n
    at hpos hLl hl3 hblob ⊢
  rw [if_neg (by omega)]
  by_cases c1 : n = 1
  · rw [if_pos c1, if_neg (by omega)]
    congr 1
    exact sample_eq_head_of_count_one S range _ _ _ _ (by rw [hn]; exact c1) c hc
  · have h1n : 1 < n := by omega
    rw [if_neg c1]
    simp only [if_pos h1n]
    rw [u32_sub_eq _ _ hl1 hl2]
    by_cases c2 : n ≤ MAX_REGION_COMPRESSED_VARIANT_N
    · rw [if_pos c2]
      have hsz : region_blob_size n = 4 * n + calc_palette_region_size (ceil_log2 n) :=
        region_blob_size_palette n (by omega) (by omega)
      rw [hsz] at hl3 hblob
      rw [if_neg (by omega)]
      obtain ⟨pid, hpid, hpl, hval, hbnd⟩ := region_decode_palette S range t.1 t.2.1 t.2.2.1
        (task_channel channels t) hx hy hz (by rw [hn]; omega) (by rw [hn]; omega) c hc
      rw [hn] at hpid hpl hbnd
      rw [hLl, hsz] at hbnd
      have a1 : 40 + H + (len - H) + 4 * n + in_region_index c * ceil_log2 n / 8
          = 40 + (len + (4 * n + in_region_index c * ceil_log2 n / 8)) := by omega
      rw [a1, hrd, read_u32_of_stored data _ len _ _ hblob (by omega), hpid]
      have a2 : 40 + H + (len - H) + 4 * pid = 40 + (len + 4 * pid) := by omega
      have hn512 : n ≤ 512 := by
        rw [← hn]; exact distinct_count_le _ _ _ _ _ _
      rw [a2, hrd, read_u32_of_stored data _ len _ _ hblob (by
        unfold calc_palette_region_size; omega), hval]
    · rw [if_neg c2]
      have hsz : region_blob_size n = MAX_REGION_ALLOCATION_SIZE :=
        region_blob_size_raw n (by omega)
      rw [hsz] at hl3 hblob
      rw [if_neg (by omega)]
      have hi := in_region_index_lt c hc
      have a1 : 40 + H + (len - H) + 4 * in_region_index c
          = 40 + (len + 4 * in_region_index c) := by omega
      rw [a1, hrd, read_u32_of_stored data _ len _ _ hblob (by
        unfold MAX_REGION_ALLOCATION_SIZE REGION_SIZE; omega)]
      rw [region_decode_raw S range _ _ _ _ hx hy hz (by rw [hn]; omega) c hc]


/-- Decoding a container gives back the samples, when its buffer holds the header table
and the blobs, every enqueued task is stored in it, and the region grid and the blob area
fit the 32-bit fields of the container. -/
theorem decode_container (S : Sampler) (range : GvoxRegionRange) (flags : Nat)
    (p : GvoxOffset3D) (c : Nat) (data : List Nat)
    (hr : range_typed range) (hf : flags < 4294967296) (hg : grid_fits range)
    (htot : total_blob_size S range flags < 4294967296)
    (hp : offset_typed p) (hin : in_range range p) (hc : c < 32)
    (hbit : flags.testBit c = true)
    (f2 : data.length = header_table_bytes range flags + total_blob_size S range flags)
    (f5 : ∀ t ∈ enqueued_tasks range flags,
      task_stored S range (channel_list flags) (header_table_bytes range flags) data t) :
    decode_voxel (([7370343, of_i32 range.offset.x, of_i32 range.offset.y,
        of_i32 range.offset.z, range.extent.x, range.extent.y, range.extent.z,
        total_blob_size S range flags, flags, u32 (popcount flags)].flatMap le32) ++ data) p c
      = some (S p c).val := by
  obtain ⟨⟨hox, hoy, hoz⟩, hex, hey, hez⟩ := hr
  have hW : ∀ i, i < 10 → read_u32 ([7370343, of_i32 range.offset.x, of_i32 range.offset.y,
        of_i32 range.offset.z, range.extent.x, range.extent.y, range.extent.z,
        total_blob_size S range flags, flags, u32 (popcount flags)].flatMap le32 ++ data)
        (4 * i)
      = [7370343, of_i32 range.offset.x, of_i32 range.offset.y,
        of_i32 range.offset.z, range.extent.x, range.extent.y, range.extent.z,
        total_blob_size S range flags, flags, u32 (popcount flags)].getD i 0 % 4294967296 :=
    fun i hi => read_preamble _ _ i hi
  have hrd : ∀ k, read_u32 ([7370343, of_i32 range.offset.x, of_i32 range.offset.y,
        of_i32 range.offset.z, range.extent.x, range.extent.y, range.extent.z,
        total_blob_size S range flags, flags, u32 (popcount flags)].flatMap le32 ++ data)
        (40 + k) = read_u32 data k := by
    intro k
    have := read_u32_append_right ([7370343, of_i32 range.offset.x, of_i32 range.offset.y,
        of_i32 range.offset.z, range.extent.x, range.extent.y, range.extent.z,
        total_blob_size S range flags, flags, u32 (popcount flags)].flatMap le32) data k
    rw [words_bytes_length] at this
    exact this
  generalize ([7370343, of_i32 range.offset.x, of_i32 range.offset.y,
        of_i32 range.offset.z, range.extent.x, range.extent.y, range.extent.z,
        total_blob_size S range flags, flags, u32 (popcount flags)].flatMap le32 ++ data)
    = input at hW hrd ⊢
  have r0 : read_u32 input 0 = 7370343 := hW 0 (by omega)
  have r4 : to_i32 (read_u32 input 4) = range.offset.x := by
    rw [show read_u32 input 4 = _ from hW 1 (by omega)]
    exact to_i32_of_i32 _ hox
  have r8 : to_i32 (read_u32 input 8) = range.offset.y := by
    rw [show read_u32 input 8 = _ from hW 2 (by omega)]
    exact to_i32_of_i32 _ hoy
  have r12 : to_i32 (read_u32 input 12) = range.offset.z := by
    rw [show read_u32 input 12 = _ from hW 3 (by omega)]
    exact to_i32_of_i32 _ hoz
  have r16 : read_u32 input 16 = range.extent.x :=
    (hW 4 (by omega)).trans (Nat.mod_eq_of_lt hex)
  have r20 : read_u32 input 20 = range.extent.y :=
    (hW 5 (by omega)).trans (Nat.mod_eq_of_lt hey)
  have r24 : read_u32 input 24 = range.extent.z :=
    (hW 6 (by omega)).trans (Nat.mod_eq_of_lt hez)
  have r28 : read_u32 input 28 = total_blob_size S range flags :=
    (hW 7 (by omega)).trans (Nat.mod_eq_of_lt htot)
  have r32 : read_u32 input 32 = flags :=
    (hW 8 (by omega)).trans (Nat.mod_eq_of_lt hf)
  have r36 : read_u32 input 36 = (channel_list flags).length := by
    rw [show read_u32 input 36 = _ from hW 9 (by omega)]
    have := popcount_le flags
    show u32 (popcount flags) % 4294967296 = _
    rw [channel_list_length]
    unfold u32; omega
  unfold decode_voxel
  simp only [r0, r4, r8, r12, r16, r20, r24, r28, r32, r36]
  obtain ⟨i1, i2, i3, i4, i5, i6⟩ := hin
  have hcm : c ∈ channel_list flags := (mem_channel_list flags c).mpr ⟨hc, hbit⟩
  have hci : (channel_list flags).indexOf c < (channel_list flags).length :=
    List.indexOf_lt_length.mpr hcm
  have hch : (channel_list flags).getD ((channel_list flags).indexOf c) 0 = c := by
    rw [List.getD_eq_getElem _ _ hci]; exact List.getElem_indexOf _
  generalize (channel_list flags).indexOf c = ci at hci hch ⊢
  have hdx : ((p.x - range.offset.x).toNat : Int) = p.x - range.offset.x :=
    Int.toNat_of_nonneg (by omega)
  have hdy : ((p.y - range.offset.y).toNat : Int) = p.y - range.offset.y :=
    Int.toNat_of_nonneg (by omega)
  have hdz : ((p.z - range.offset.z).toNat : Int) = p.z - range.offset.z :=
    Int.toNat_of_nonneg (by omega)
  generalize (p.x - range.offset.x).toNat = dx at hdx ⊢
  generalize (p.y - range.offset.y).toNat = dy at hdy ⊢
  generalize (p.z - range.offset.z).toNat = dz at hdz ⊢
  have bx : dx < range.extent.x := by omega
  have by1 : dy < range.extent.y := by omega
  have bz : dz < range.extent.z := by omega
  rw [if_neg (by simp), if_neg (by omega), if_neg (by omega), if_neg (by omega)]
  obtain ⟨g1, g2, g3, g4⟩ := hg
  rw [← region_count_eq _ g1, ← region_count_eq _ g2, ← region_count_eq _ g3]
  have hmem : (dx / REGION_SIZE, dy / REGION_SIZE, dz / REGION_SIZE, ci)
      ∈ enqueued_tasks range flags := by
    unfold enqueued_tasks
    rw [mem_region_tasks]
    refine ⟨?_, ?_, ?_, hci⟩
    · show dx / REGION_SIZE < region_count range.extent.x
      unfold region_count u32 REGION_SIZE; omega
    · show dy / REGION_SIZE < region_count range.extent.y
      unfold region_count u32 REGION_SIZE; omega
    · show dz / REGION_SIZE < region_count range.extent.z
      unfold region_count u32 REGION_SIZE; omega
  have hslot := task_slot_eq range (channel_list flags).length
    (dx / REGION_SIZE, dy / REGION_SIZE, dz / REGION_SIZE, ci) g4 hmem
  unfold task_index at hslot
  simp only [] at hslot
  rw [← hslot]
  have hH : region_count range.extent.x * region_count range.extent.y
      * region_count range.extent.z * (channel_list flags).length * 8
      = header_table_bytes range flags := by
    unfold header_table_bytes; ring
  rw [hH]
  have hidx : dx % REGION_SIZE + dy % REGION_SIZE * REGION_SIZE
      + dz % REGION_SIZE * REGION_SIZE * REGION_SIZE
      = in_region_index (dx % REGION_SIZE, dy % REGION_SIZE, dz % REGION_SIZE) := rfl
  rw [hidx]
  have hcoords : (dx % REGION_SIZE, dy % REGION_SIZE, dz % REGION_SIZE) ∈ region_coords := by
    rw [mem_region_coords]
    unfold REGION_SIZE
    simp only []
    omega
  have hdec := decode_stored S range (channel_list flags) input data
    (header_table_bytes range flags) (total_blob_size S range flags)
    (dx / REGION_SIZE, dy / REGION_SIZE, dz / REGION_SIZE, ci)
    (dx % REGION_SIZE, dy % REGION_SIZE, dz % REGION_SIZE)
    (enqueued_task_ok range flags _ hmem) hcoords hrd f2 (f5 _ hmem)
  refine Eq.trans hdec ?_
  congr 1
  unfold effective_sample task_channel offset_add
  simp only [hch]
  rw [if_pos (by unfold REGION_SIZE; omega)]
  have ex : dx / REGION_SIZE * REGION_SIZE + dx % REGION_SIZE = dx := by
    unfold REGION_SIZE; omega
  have ey : dy / REGION_SIZE * REGION_SIZE + dy % REGION_SIZE = dy := by
    unfold REGION_SIZE; omega
  have ez : dz / REGION_SIZE * REGION_SIZE + dz % REGION_SIZE = dz := by
    unfold REGION_SIZE; omega
  rw [ex, ey, ez, hdx, hdy, hdz]
  have px : range.offset.x + (p.x - range.offset.x) = p.x := by omega
  have py : range.offset.y + (p.y - range.offset.y) = p.y := by omega
  have pz : range.offset.z + (p.z - range.offset.z) = p.z := by omega
  rw [px, py, pz, wrap_i32_id _ hp.1, wrap_i32_id _ hp.2.1, wrap_i32_id _ hp.2.2]

/-- Decoding what `serialize_region` wrote gives back the samples, when the region grid
and the blob area fit the 32-bit fields of the container. -/
theorem decode_serialize (S : Sampler) (hash_order : List Nat → List Nat)
    (pool : List RegionTask → List RegionTask) (range : GvoxRegionRange) (flags : Nat)
    (p : GvoxOffset3D) (c : Nat)
    (hperm : ∀ l, (hash_order l).Perm l) (hpool : ∀ l, (pool l).Perm l)
    (hr : range_typed range) (hf : flags < 4294967296) (hg : grid_fits range)
    (htot : total_blob_size S range flags < 4294967296)
    (hp : offset_typed p) (hin : in_range range p) (hc : c < 32)
    (hbit : flags.testBit c = true) :
    decode_voxel (serialize_region S hash_order pool [] fresh_state range flags).output p c
      = some (S p c).val := by
  rw [serialize_region_fresh S hash_order pool range flags hperm hpool]
  obtain ⟨_, f2, f3, _, f5⟩ := run_final_facts S hash_order pool range flags hperm hpool hg htot
  simp only []
  rw [f3]
  exact decode_container S range flags p c _ hr hf hg htot hp hin hc hbit f2 f5

/-! ## Sample inputs -/

theorem map_in_region_index : region_coords.map in_region_index = List.range 512 := by
  rw [region_coords_eq, List.map_map]
  conv_rhs => rw [← List.map_id (List.range 512)]
  apply List.map_congr_left
  intro i hi
  rw [List.mem_range] at hi
  simp only [Function.comp, in_region_index, REGION_SIZE, id]
  omega

theorem sampler_index_sample (E rx ch : Nat) (c : Nat × Nat × Nat) (hc : c ∈ region_coords)
    (h1 : rx * 8 + 8 ≤ E) (h2 : E ≤ 2147483648) :
    effective_sample sampler_index (range_at_origin E 8 8) rx 0 0 ch c = in_region_index c := by
  rw [mem_region_coords] at hc
  unfold effective_sample range_at_origin REGION_SIZE
  simp only []
  rw [if_pos (by omega)]
  unfold sampler_index offset_add wrap_i32 in_region_index REGION_SIZE
  simp only [Fin.ofNat]
  have e1 : (((0 : Int) + ((rx * 8 + c.1 : Nat) : Int) + 2147483648) % 4294967296
      - 2147483648).toNat = rx * 8 + c.1 := by omega
  have e2 : (((0 : Int) + ((0 * 8 + c.2.1 : Nat) : Int) + 2147483648) % 4294967296
      - 2147483648).toNat = c.2.1 := by omega
  have e3 : (((0 : Int) + ((0 * 8 + c.2.2 : Nat) : Int) + 2147483648) % 4294967296
      - 2147483648).toNat = c.2.2 := by omega
  rw [e1, e2, e3]
  omega

theorem sampler_index_count (E rx ch : Nat) (h1 : rx * 8 + 8 ≤ E) (h2 : E ≤ 2147483648) :
    distinct_count sampler_index (range_at_origin E 8 8) rx 0 0 ch = 512 := by
  have e : region_samples sampler_index (range_at_origin E 8 8) rx 0 0 ch = List.range 512 := by
    rw [← map_in_region_index]
    unfold region_samples
    apply List.map_congr_left
    intro c hc
    exact sampler_index_sample E rx ch c hc h1 h2
  unfold distinct_count
  rw [e, List.toFinset_card_of_nodup (List.nodup_range 512), List.length_range]

theorem sampler_x_sample (ch : Nat) (c : Nat × Nat × Nat) (hc : c ∈ region_coords) :
    effective_sample sampler_x (range_at_origin 9 8 8) 1 0 0 ch c
      = if c.1 = 0 then 8 else 0 := by
  rw [mem_region_coords] at hc
  unfold effective_sample range_at_origin REGION_SIZE
  simp only []
  by_cases h : c.1 = 0
  · rw [if_pos (by omega), if_pos h]
    unfold sampler_x offset_add wrap_i32
    simp only [Fin.ofNat, h]
    omega
  · rw [if_neg (by omega), if_neg h]

theorem sampler_x_variants (ch : Nat) :
    (region_samples sampler_x (range_at_origin 9 8 8) 1 0 0 ch).toFinset = {8, 0} := by
  ext w
  simp only [List.mem_toFinset, region_samples, List.mem_map, Finset.mem_insert,
    Finset.mem_singleton]
  constructor
  · rintro ⟨c, hc, rfl⟩
    rw [sampler_x_sample ch c hc]
    split
    · exact Or.inl rfl
    · exact Or.inr rfl
  · rintro (rfl | rfl)
    · exact ⟨(0, 0, 0), (mem_region_coords _).mpr (by simp),
        by rw [sampler_x_sample ch _ ((mem_region_coords _).mpr (by simp))]; simp⟩
    · exact ⟨(1, 0, 0), (mem_region_coords _).mpr (by simp),
        by rw [sampler_x_sample ch _ ((mem_region_coords _).mpr (by simp))]; simp⟩

theorem sampler_x_count (ch : Nat) :
    distinct_count sampler_x (range_at_origin 9 8 8) 1 0 0 ch = 2 := by
  unfold distinct_count
  rw [sampler_x_variants]
  rfl

theorem sampler_const_count (v : Fin 4294967296) (range : GvoxRegionRange)
    (rx ry rz ch : Nat)
    (h : rx * 8 + 8 ≤ range.extent.x ∧ ry * 8 + 8 ≤ range.extent.y
      ∧ rz * 8 + 8 ≤ range.extent.z) :
    ∀ c ∈ region_coords, effective_sample (sampler_const v) range rx ry rz ch c = v.val := by
  intro c hc
  rw [mem_region_coords] at hc
  unfold effective_sample REGION_SIZE
  rw [if_pos (by omega)]
  rfl


theorem state_with_table_ok (n : Nat) : state_ok (state_with_table n) := by
  unfold state_ok state_with_table
  simp

theorem perm_id : ∀ l : List Nat, (id l).Perm l := fun l => List.Perm.refl l

theorem perm_id_tasks : ∀ l : List RegionTask, (id l).Perm l := fun l => List.Perm.refl l
theorem channel_list_one : channel_list 1 = [0] := by decide

theorem region_count_8 : region_count 8 = 1 := by decide

theorem grid_fits_cube (o : GvoxOffset3D) : grid_fits { offset := o, extent := ⟨8, 8, 8⟩ } := by
  unfold grid_fits
  simp only [region_count_8]
  decide

theorem enqueued_tasks_cube (o : GvoxOffset3D) :
    enqueued_tasks { offset := o, extent := ⟨8, 8, 8⟩ } 1 = [(0, 0, 0, 0)] := by
  unfold enqueued_tasks
  simp only [region_count_8, channel_list_one]
  rfl

/-- The container of one constant cube. -/
theorem serialize_const_cube (v : Fin 4294967296) (hash_order : List Nat → List Nat)
    (pool : List RegionTask → List RegionTask) (o : GvoxOffset3D)
    (hperm : ∀ l, (hash_order l).Perm l) (hpool : ∀ l, (pool l).Perm l) :
    read_u32 (serialize_region (sampler_const v) hash_order pool [] fresh_state
        { offset := o, extent := ⟨8, 8, 8⟩ } 1).output 0 = 7370343
      ∧ read_u32 (serialize_region (sampler_const v) hash_order pool [] fresh_state
        { offset := o, extent := ⟨8, 8, 8⟩ } 1).output 28 = 0
      ∧ (serialize_region (sampler_const v) hash_order pool [] fresh_state
        { offset := o, extent := ⟨8, 8, 8⟩ } 1).output.length = 48
      ∧ read_u32 (serialize_region (sampler_const v) hash_order pool [] fresh_state
        { offset := o, extent := ⟨8, 8, 8⟩ } 1).output 40 = 1
      ∧ read_u32 (serialize_region (sampler_const v) hash_order pool [] fresh_state
        { offset := o, extent := ⟨8, 8, 8⟩ } 1).output 44 = v.val := by
  have hconst := sampler_const_count v { offset := o, extent := ⟨8, 8, 8⟩ } 0 0 0
    (([0] : List Nat).getD 0 0) ⟨Nat.le_refl 8, Nat.le_refl 8, Nat.le_refl 8⟩
  obtain ⟨hcnt, hhead⟩ := distinct_count_const _ _ _ _ _ _ _ hconst
  have htask : task_variant_n (sampler_const v) { offset := o, extent := ⟨8, 8, 8⟩ }
      (channel_list 1) (0, 0, 0, 0) = 1 := by
    unfold task_variant_n task_channel
    rw [channel_list_one]
    exact hcnt
  have htot : total_blob_size (sampler_const v) { offset := o, extent := ⟨8, 8, 8⟩ } 1 = 0 := by
    unfold total_blob_size
    rw [enqueued_tasks_cube]
    unfold tasks_size task_size
    simp only [List.map_cons, List.map_nil, List.sum_cons, List.sum_nil, htask]
    decide
  have hH : header_table_bytes { offset := o, extent := ⟨8, 8, 8⟩ } 1 = 8 := by
    unfold header_table_bytes
    simp only [region_count_8, channel_list_one]
    rfl
  obtain ⟨f1, f2, f3, _, f5⟩ := run_final_facts (sampler_const v) hash_order pool
    { offset := o, extent := ⟨8, 8, 8⟩ } 1 hperm hpool (grid_fits_cube o) (by rw [htot]; decide)
  have hst := f5 (0, 0, 0, 0) (by rw [enqueued_tasks_cube]; exact List.mem_singleton.mpr rfl)
  obtain ⟨len, _, _, _, hv, hb, _⟩ := hst
  have hslot : task_slot { offset := o, extent := ⟨8, 8, 8⟩ } (channel_list 1).length
      (0, 0, 0, 0) = 0 := by
    unfold task_slot header_slot_offset
    simp only [region_count_8, channel_list_one]
    decide
  rw [hslot, htask] at hv
  rw [hslot] at hb
  have hbo : (task_header (sampler_const v) { offset := o, extent := ⟨8, 8, 8⟩ }
      (channel_list 1) (header_table_bytes { offset := o, extent := ⟨8, 8, 8⟩ } 1) len
      (0, 0, 0, 0)).blob_offset = v.val := by
    unfold task_header
    simp only [htask]
    rw [if_neg (by decide)]
    unfold task_channel
    rw [channel_list_one]
    exact hhead
  rw [hbo] at hb
  rw [serialize_region_fresh (sampler_const v) hash_order pool _ 1 hperm hpool]
  simp only []
  rw [f3, htot]
  rw [htot, hH] at f2
  generalize (run_final (sampler_const v) hash_order pool
    { offset := o, extent := ⟨8, 8, 8⟩ } 1).user_state.data = data at f2 hv hb ⊢
  have hrd : ∀ k, read_u32 ([7370343, of_i32 o.x, of_i32 o.y, of_i32 o.z, 8, 8, 8, 0, 1,
      u32 (popcount 1)].flatMap le32 ++ data) (40 + k) = read_u32 data k := by
    intro k
    have := read_u32_append_right ([7370343, of_i32 o.x, of_i32 o.y, of_i32 o.z, 8, 8, 8, 0, 1,
      u32 (popcount 1)].flatMap le32) data k
    rw [words_bytes_length] at this
    exact this
  refine ⟨read_preamble _ _ 0 (by simp), read_preamble _ _ 7 (by simp), ?_, ?_, ?_⟩
  · rw [List.length_append, words_bytes_length, f2]; rfl
  · exact (hrd 0).trans hv
  · exact (hrd 4).trans hb

theorem header_table_size_of_le (range : GvoxRegionRange) (flags : Nat)
    (hg : region_count range.extent.x * region_count range.extent.y
      * region_count range.extent.z ≤ 4294967296) :
    u64 (8 * (channel_list flags).length * region_count range.extent.x
      * region_count range.extent.y * region_count range.extent.z)
    = header_table_bytes range flags := by
  unfold header_table_bytes
  have hc := channel_list_length_le flags
  have e : 8 * (channel_list flags).length * region_count range.extent.x
      * region_count range.extent.y * region_count range.extent.z
      = 8 * (region_count range.extent.x * region_count range.extent.y
        * region_count range.extent.z * (channel_list flags).length) := by ring
  rw [e]
  have h5 : region_count range.extent.x * region_count range.extent.y
    * region_count range.extent.z * (channel_list flags).length ≤ 4294967296 * 32 :=
    Nat.mul_le_mul hg hc
  generalize region_count range.extent.x * region_count range.extent.y
    * region_count range.extent.z * (channel_list flags).length = M at h5 ⊢
  unfold u64
  omega

/-- Every index of the header table is the index of an enqueued task. -/
theorem task_index_surj (nx ny nz cn k : Nat) (hk : k < nx * ny * nz * cn) :
    ∃ t, t ∈ region_tasks nx ny nz cn ∧ task_index nx ny cn t = k := by
  have hcn : 0 < cn := Nat.pos_of_ne_zero (by rintro rfl; simp at hk)
  have hq : k / cn < nx * ny * nz := Nat.div_lt_of_lt_mul (by rw [Nat.mul_comm]; exact hk)
  have hnx : 0 < nx := Nat.pos_of_ne_zero (by rintro rfl; simp at hq)
  have hny : 0 < ny := Nat.pos_of_ne_zero (by rintro rfl; simp at hq)
  have hq1 : k / cn / nx < ny * nz :=
    Nat.div_lt_of_lt_mul (by rw [← Nat.mul_assoc]; exact hq)
  have hq2 : k / cn / nx / ny < nz := Nat.div_lt_of_lt_mul hq1
  refine ⟨((k / cn) % nx, (k / cn / nx) % ny, k / cn / nx / ny, k % cn), ?_, ?_⟩
  · rw [mem_region_tasks]
    exact ⟨Nat.mod_lt _ hnx, Nat.mod_lt _ hny, hq2, Nat.mod_lt _ hcn⟩
  · unfold task_index
    simp only []
    have e1 : k / cn / nx / ny * ny + k / cn / nx % ny = k / cn / nx := by
      rw [Nat.mul_comm]; exact Nat.div_add_mod _ _
    have e2 : k / cn / nx * nx + k / cn % nx = k / cn := by
      rw [Nat.mul_comm]; exact Nat.div_add_mod _ _
    have e3 : k / cn * cn + k % cn = k := by
      rw [Nat.mul_comm]; exact Nat.div_add_mod _ _
    rw [e1, e2, e3]

/-- The header table `serialize_region` reserves on a fresh state. -/
theorem run_init_table (range : GvoxRegionRange) (flags : Nat)
    (hg : region_count range.extent.x * region_count range.extent.y
      * region_count range.extent.z ≤ 4294967296) :
    (run_init range flags).user_state.data = List.replicate (header_table_bytes range flags) 0
      ∧ (run_init range flags).user_state.blobs_begin = header_table_bytes range flags := by
  have hH := header_table_size_of_le range flags hg
  constructor
  · show vec_resize [] _ = _
    rw [vec_resize_nil, hH]
  · exact hH

/-- The header slots of the enqueued tasks: inside the table, pairwise disjoint, and
every slot of the table is the slot of exactly one task. -/
theorem task_slot_bijection (range : GvoxRegionRange) (flags : Nat)
    (hg : region_count range.extent.x * region_count range.extent.y
      * region_count range.extent.z ≤ 4294967296) :
    (∀ t ∈ enqueued_tasks range flags,
        task_slot range (channel_list flags).length t
          = 8 * task_index (region_count range.extent.x) (region_count range.extent.y)
              (channel_list flags).length t
        ∧ task_slot range (channel_list flags).length t + 8 ≤ header_table_bytes range flags)
      ∧ (∀ t ∈ enqueued_tasks range flags, ∀ u ∈ enqueued_tasks range flags, t ≠ u →
          task_slot range (channel_list flags).length t + 8
              ≤ task_slot range (channel_list flags).length u
            ∨ task_slot range (channel_list flags).length u + 8
              ≤ task_slot range (channel_list flags).length t)
      ∧ (∀ k, k < region_count range.extent.x * region_count range.extent.y
            * region_count range.extent.z * (channel_list flags).length →
          ∃ t ∈ enqueued_tasks range flags,
            task_slot range (channel_list flags).length t = 8 * k
            ∧ ∀ u ∈ enqueued_tasks range flags,
                task_slot range (channel_list flags).length u = 8 * k → u = t) := by
  refine ⟨?_, ?_, ?_⟩
  · intro t ht
    have h1 := task_slot_eq range _ t hg ht
    have h2 := task_index_lt _ _ _ _ t ht
    refine ⟨h1, ?_⟩
    rw [h1]
    unfold header_table_bytes
    omega
  · intro t ht u hu hne
    rw [task_slot_eq range _ t hg ht, task_slot_eq range _ u hg hu]
    have hi : task_index (region_count range.extent.x) (region_count range.extent.y)
        (channel_list flags).length t
        ≠ task_index (region_count range.extent.x) (region_count range.extent.y)
          (channel_list flags).length u :=
      fun h => hne (task_index_inj _ _ _ _ t u ht hu h)
    omega
  · intro k hk
    obtain ⟨t, ht, hti⟩ := task_index_surj _ _ _ _ k hk
    refine ⟨t, ht, ?_, ?_⟩
    · rw [task_slot_eq range _ t hg ht, hti]
    · intro u hu hs
      rw [task_slot_eq range _ u hg hu] at hs
      exact task_index_inj _ _ _ _ u t hu ht (by omega)

/-- The header `add_region` publishes is found in its slot of the shared buffer, and
no other byte of the buffer it was given changes. -/
theorem add_region_header_slot (S : Sampler) (hash_order : List Nat → List Nat)
    (st : GvoxPaletteSerializeUserState) (range : GvoxRegionRange)
    (rx ry rz ci : Nat) (channels : List Nat) (hperm : ∀ l, (hash_order l).Perm l)
    (hx : rx < 536870912) (hy : ry < 536870912) (hz : rz < 536870912) (hst : state_ok st)
    (hs : header_slot_offset range rx ry rz ci channels.length + 8 ≤ st.data.length) :
    read_u32 (add_region S hash_order st range rx ry rz ci channels).user_state.data
        (header_slot_offset range rx ry rz ci channels.length)
        = (add_region S hash_order st range rx ry rz ci channels).region_header.variant_n
      ∧ read_u32 (add_region S hash_order st range rx ry rz ci channels).user_state.data
        (header_slot_offset range rx ry rz ci channels.length + 4)
        = (add_region S hash_order st range rx ry rz ci channels).region_header.blob_offset
      ∧ ∀ j, j < st.data.length →
          (j < header_slot_offset range rx ry rz ci channels.length
            ∨ header_slot_offset range rx ry rz ci channels.length + 8 ≤ j) →
          (add_region S hash_order st range rx ry rz ci channels).user_state.data.getD j 0
            = st.data.getD j 0 := by
  have h := add_region_effect S hash_order st range rx ry rz ci channels hperm hx hy hz hst
  simp only [] at h
  obtain ⟨_, _, _, _, _, _, _, h8⟩ := h
  have hd := h8 hs
  have hr := (add_region_record S hash_order st range (rx, ry, rz, ci) channels hperm
    ⟨hx, hy, hz⟩).2.1
  simp only [] at hr
  have hlt := task_header_lt S range channels st.blobs_begin st.data.length (rx, ry, rz, ci)
  rw [← hr] at hlt
  generalize (add_region S hash_order st range rx ry rz ci channels).region_header = hdr
    at hd hlt
  generalize (add_region S hash_order st range rx ry rz ci channels).user_state.data = data
    at hd
  generalize header_slot_offset range rx ry rz ci channels.length = slot at hd hs
  subst hd
  have hrs := read_header_slot st.data
    (region_local_data S range rx ry rz (channels.getD ci 0)) slot hdr hs
  rw [Nat.mod_eq_of_lt hlt.1, Nat.mod_eq_of_lt hlt.2] at hrs
  refine ⟨hrs.1, hrs.2, ?_⟩
  intro j hj hout
  rw [List.getD_append _ _ _ _ (by rw [write_bytes_length]; exact hj),
    getD_write_bytes _ _ _ _ (by rw [header_bytes_length]; exact hs),
    if_neg (by rw [header_bytes_length]; omega)]

theorem sum_map_of_const {α : Type} (l : List α) (f : α → Nat) (c : Nat)
    (h : ∀ a ∈ l, f a = c) : (l.map f).sum = l.length * c := by
  induction l with
  | nil => simp
  | cons a l ih =>
    rw [List.map_cons, List.sum_cons, h a (List.mem_cons_self _ _),
      ih (fun b hb => h b (List.mem_cons_of_mem _ hb)), List.length_cons]
    ring

/-- The sizes in the records of a run add up to the blob sizes of its tasks. -/
theorem task_records_sizes (S : Sampler) (range : GvoxRegionRange) (channels : List Nat)
    (bb : Nat) (order : List RegionTask) :
    ∀ len, trace_size (task_records S range channels bb len order)
      = tasks_size S range channels order := by
  induction order with
  | nil => intro len; rfl
  | cons t ts ih =>
    intro len
    rw [tasks_size_cons]
    unfold task_records trace_size
    rw [List.map_cons, List.sum_cons]
    exact congrArg _ (ih _)

/-- The records of a run name its tasks, in the order of the run. -/
theorem task_records_tasks (S : Sampler) (range : GvoxRegionRange) (channels : List Nat)
    (bb : Nat) (order : List RegionTask) :
    ∀ len, (task_records S range channels bb len order).map (fun r => r.1) = order := by
  induction order with
  | nil => intro len; rfl
  | cons t ts ih =>
    intro len
    unfold task_records
    rw [List.map_cons, ih]

/-- The sizes of the container `serialize_region` emits on a fresh state, whatever the
range: the record of the run, the length of the shared buffer, the `blob_size` field
(the 32-bit reduction of the sum of the blob sizes) and the length of the stream. -/
theorem serialize_size_facts (S : Sampler) (hash_order : List Nat → List Nat)
    (pool : List RegionTask → List RegionTask) (range : GvoxRegionRange) (flags : Nat)
    (hperm : ∀ l, (hash_order l).Perm l) (hpool : ∀ l, (pool l).Perm l) :
    (serialize_region S hash_order pool [] fresh_state range flags).trace
        = task_records S range (channel_list flags)
            (run_init range flags).user_state.blobs_begin
            (run_init range flags).user_state.blobs_begin (pool (enqueued_tasks range flags))
      ∧ (serialize_region S hash_order pool [] fresh_state range flags).user_state.blobs_begin
        = (run_init range flags).user_state.blobs_begin
      ∧ (serialize_region S hash_order pool [] fresh_state range
            flags).user_state.data.length
        = (run_init range flags).user_state.blobs_begin + total_blob_size S range flags
      ∧ read_u32 (serialize_region S hash_order pool [] fresh_state range flags).output 28
        = total_blob_size S range flags % 4294967296
      ∧ (serialize_region S hash_order pool [] fresh_state range flags).output.length
        = 40 + (run_init range flags).user_state.blobs_begin
            + total_blob_size S range flags := by
  have hg := run_general S hash_order range (channel_list flags) hperm
    (pool (enqueued_tasks range flags)) (run_init range flags)
    (pool_task_ok pool range flags hpool)
  have hts := tasks_size_perm S range (channel_list flags) _ _ (hpool (enqueued_tasks range flags))
  simp only [] at hg
  obtain ⟨g1, _, g3, g4, _, g6⟩ := hg
  have hil : (run_init range flags).user_state.data.length
      = (run_init range flags).user_state.blobs_begin := by
    show (vec_resize [] _).length = _
    rw [vec_resize_nil, List.length_replicate]; rfl
  have his : (run_init range flags).size = (run_init range flags).user_state.blobs_begin := rfl
  have hit : (run_init range flags).trace = [] := rfl
  rw [hil, hts] at g3
  rw [hil] at g6
  rw [his, hts] at g4
  rw [hit, List.nil_append] at g6
  have hrf : (pool (enqueued_tasks range flags)).foldl
      (run_task S hash_order range (channel_list flags)) (run_init range flags)
      = run_final S hash_order pool range flags := rfl
  rw [hrf] at g1 g3 g4 g6
  have htd : tasks_size S range (channel_list flags) (enqueued_tasks range flags)
      = total_blob_size S range flags := rfl
  rw [htd] at g3 g4
  rw [serialize_region_fresh S hash_order pool range flags hperm hpool]
  simp only []
  refine ⟨g6, g1, g3, ?_, ?_⟩
  · have hp := read_preamble [7370343, of_i32 range.offset.x, of_i32 range.offset.y,
      of_i32 range.offset.z, range.extent.x, range.extent.y, range.extent.z,
      u32_sub (run_final S hash_order pool range flags).size
        (run_final S hash_order pool range flags).user_state.blobs_begin,
      flags, u32 (popcount flags)]
      (run_final S hash_order pool range flags).user_state.data 7 (by simp)
    rw [hp]
    show u32_sub _ _ % 4294967296 = _
    rw [g1]
    generalize (run_final S hash_order pool range flags).size = sz at g4
    generalize (run_init range flags).user_state.blobs_begin = H at g4
    generalize total_blob_size S range flags = T at g4
    unfold u32_sub
    unfold u64 at g4
    omega
  · rw [List.length_append, words_bytes_length, g3]
    simp only [List.length_cons, List.length_nil]
    omega

theorem region_count_mul (N : Nat) (h : 8 * N ≤ 2147483648) : region_count (8 * N) = N := by
  unfold region_count u32 REGION_SIZE
  omega

theorem channel_list_1 : channel_list 1 = [0] := by decide

/-- The tasks of a row of `N` regions and one channel. -/
theorem enqueued_tasks_row (N : Nat) (h : 8 * N ≤ 2147483648) :
    enqueued_tasks (range_at_origin (8 * N) 8 8) 1 = region_tasks N 1 1 1 := by
  unfold enqueued_tasks
  have e1 : (range_at_origin (8 * N) 8 8).extent.x = 8 * N := rfl
  have e8 : region_count 8 = 1 := by decide
  have e2 : region_count (range_at_origin (8 * N) 8 8).extent.y = 1 := e8
  have e3 : region_count (range_at_origin (8 * N) 8 8).extent.z = 1 := e8
  rw [e1, e2, e3, region_count_mul N h, channel_list_1]
  rfl

/-- Under `sampler_index` every region of a row is stored raw: 2048 bytes. -/
theorem sampler_index_task_size (N : Nat) (h : 8 * N ≤ 2147483648) (t : RegionTask)
    (ht : t ∈ region_tasks N 1 1 1) :
    task_variant_n sampler_index (range_at_origin (8 * N) 8 8) (channel_list 1) t = 512
      ∧ task_size sampler_index (range_at_origin (8 * N) 8 8) (channel_list 1) t = 2048 := by
  rw [mem_region_tasks] at ht
  obtain ⟨h1, h2, h3, _⟩ := ht
  have hv : task_variant_n sampler_index (range_at_origin (8 * N) 8 8) (channel_list 1) t
      = 512 := by
    unfold task_variant_n
    have e2 : t.2.1 = 0 := by omega
    have e3 : t.2.2.1 = 0 := by omega
    rw [e2, e3]
    exact sampler_index_count (8 * N) t.1 _ (by omega) h
  refine ⟨hv, ?_⟩
  unfold task_size
  rw [hv]
  decide

theorem sampler_index_tasks_size (N M : Nat) (h : 8 * N ≤ 2147483648) (hM : M ≤ N) :
    tasks_size sampler_index (range_at_origin (8 * N) 8 8) (channel_list 1)
      (region_tasks M 1 1 1) = M * 2048 := by
  unfold tasks_size
  rw [sum_map_of_const _ _ 2048, region_tasks_length]
  · ring
  · intro t ht
    refine (sampler_index_task_size N h t ?_).2
    rw [mem_region_tasks] at ht ⊢
    exact ⟨lt_of_lt_of_le ht.1 hM, ht.2⟩

/-- Under `sampler_index` a row of `N` regions takes `2048 * N` blob bytes. -/
theorem sampler_index_total (N : Nat) (h : 8 * N ≤ 2147483648) :
    total_blob_size sampler_index (range_at_origin (8 * N) 8 8) 1 = N * 2048 := by
  unfold total_blob_size
  rw [enqueued_tasks_row N h]
  exact sampler_index_tasks_size N N h (Nat.le_refl N)

theorem sum_take_step (l : List Nat) (i : Nat) (h : i < l.length) :
    (l.take (i + 1)).sum = (l.take i).sum + l.getD i 0 := by
  induction l generalizing i with
  | nil => simp at h
  | cons a l ih =>
    cases i with
    | zero => simp
    | succ k =>
      have hk : k < l.length := by simpa using h
      rw [List.take_succ_cons, List.sum_cons, ih k hk, List.take_succ_cons, List.sum_cons,
        List.getD_cons_succ, Nat.add_assoc]

theorem sum_take_le_sum (l : List Nat) (i : Nat) : (l.take i).sum ≤ l.sum := by
  induction l generalizing i with
  | nil => simp
  | cons a l ih =>
    cases i with
    | zero => simp
    | succ k =>
      rw [List.take_succ_cons, List.sum_cons, List.sum_cons]
      exact Nat.add_le_add_left (ih k) a

theorem sum_take_le (l : List Nat) (i j : Nat) (h : i ≤ j) :
    (l.take i).sum ≤ (l.take j).sum := by
  have e : l.take i = (l.take j).take i := by
    rw [List.take_take, Nat.min_eq_left h]
  rw [e]
  exact sum_take_le_sum _ _

/-- Every position below the sum of a list of sizes falls in one of its segments. -/
theorem sum_take_cover (l : List Nat) (b : Nat) (h : b < l.sum) :
    ∃ i, i < l.length ∧ (l.take i).sum ≤ b ∧ b < (l.take i).sum + l.getD i 0 := by
  induction l generalizing b with
  | nil => simp at h
  | cons a l ih =>
    rw [List.sum_cons] at h
    by_cases hb : b < a
    · exact ⟨0, by simp, by simp, by simpa using hb⟩
    · obtain ⟨i, h1, h2, h3⟩ := ih (b - a) (by omega)
      refine ⟨i + 1, by simpa using h1, ?_, ?_⟩
      · rw [List.take_succ_cons, List.sum_cons]; omega
      · rw [List.take_succ_cons, List.sum_cons, List.getD_cons_succ]; omega

theorem reserved_before_eq (tr : List TaskRecord) (i : Nat) :
    reserved_before tr i = ((tr.map (fun r => r.2.2)).take i).sum := by
  unfold reserved_before trace_size
  rw [List.map_take]

theorem region_blob_size_pos (n : Nat) (h : 1 < n) : 0 < region_blob_size n := by
  unfold region_blob_size
  split
  · decide
  · omega

/-- The record a run leaves at position `i`: the size of its task, and the header the
task forms when the buffer holds the bytes reserved before it. -/
theorem task_records_get (S : Sampler) (range : GvoxRegionRange) (channels : List Nat)
    (bb : Nat) (order : List RegionTask) :
    ∀ len i r, (task_records S range channels bb len order)[i]? = some r →
      r.2.2 = task_size S range channels r.1
        ∧ r.2.1 = task_header S range channels bb
            (len + reserved_before (task_records S range channels bb len order) i) r.1 := by
  induction order with
  | nil => intro len i r h; simp [task_records] at h
  | cons t ts ih =>
    intro len i r h
    unfold task_records at h ⊢
    cases i with
    | zero =>
      simp only [List.getElem?_cons_zero, Option.some.injEq] at h
      subst h
      exact ⟨rfl, rfl⟩
    | succ k =>
      rw [List.getElem?_cons_succ] at h
      obtain ⟨h1, h2⟩ := ih _ k r h
      refine ⟨h1, ?_⟩
      rw [h2]
      have e : reserved_before
          ((t, task_header S range channels bb len t, task_size S range channels t)
            :: task_records S range channels bb (len + task_size S range channels t) ts)
          (k + 1)
          = task_size S range channels t
            + reserved_before
                (task_records S range channels bb (len + task_size S range channels t) ts)
                k := by
        unfold reserved_before trace_size
        rw [List.take_succ_cons, List.map_cons, List.sum_cons]
      rw [e, Nat.add_assoc]

/-- The record at position `i` of a run whose blobs take less than `2^32` bytes. -/
theorem task_records_entry (S : Sampler) (range : GvoxRegionRange) (channels : List Nat)
    (bb : Nat) (order : List RegionTask)
    (htot : tasks_size S range channels order < 4294967296) (i : Nat) (r : TaskRecord)
    (h : (task_records S range channels bb bb order)[i]? = some r) :
    r.2.2 = region_blob_size r.2.1.variant_n
      ∧ (1 < r.2.1.variant_n →
          r.2.1.blob_offset = reserved_before (task_records S range channels bb bb order) i)
      ∧ reserved_before (task_records S range channels bb bb order) (i + 1)
          = reserved_before (task_records S range channels bb bb order) i + r.2.2
      ∧ reserved_before (task_records S range channels bb bb order) (i + 1)
          ≤ trace_size (task_records S range channels bb bb order) := by
  obtain ⟨g1, g2⟩ := task_records_get S range channels bb order bb i r h
  have hsz := task_records_sizes S range channels bb order bb
  rw [← hsz] at htot
  generalize task_records S range channels bb bb order = tr at h g2 htot ⊢
  have hi : i < tr.length := by
    rcases Nat.lt_or_ge i tr.length with c | c
    · exact c
    · rw [List.getElem?_eq_none c] at h; exact absurd h (by simp)
  have hgd : (tr.map (fun r => r.2.2)).getD i 0 = r.2.2 := by
    rw [List.getD_eq_getElem?_getD, List.getElem?_map, h]
    rfl
  have hstep := sum_take_step (tr.map (fun r => r.2.2)) i (by rw [List.length_map]; exact hi)
  have hle := sum_take_le_sum (tr.map (fun r => r.2.2)) (i + 1)
  have hle0 := sum_take_le_sum (tr.map (fun r => r.2.2)) i
  rw [hgd] at hstep
  rw [reserved_before_eq, reserved_before_eq]
  have hts : trace_size tr = (tr.map (fun r => r.2.2)).sum := rfl
  rw [hts] at htot ⊢
  have hv : r.2.1.variant_n = task_variant_n S range channels r.1 := by rw [g2]; rfl
  refine ⟨?_, ?_, hstep, hle⟩
  · rw [g1, hv]; rfl
  · intro h1
    rw [hv] at h1
    have hb : r.2.1.blob_offset
        = u32_sub (bb + reserved_before tr i) bb := by
      rw [g2]
      unfold task_header
      simp only []
      rw [if_pos h1]
    rw [hb, reserved_before_eq, u32_sub_eq _ _ (by omega) (by omega)]
    omega

/-- The layout of the blob area a run leaves when its blobs take less than `2^32`
bytes: every record with more than one variant starts where the blobs reserved
before it end, the ranges of such records follow one another without overlap, and
every byte of the blob area lies in the range of exactly one of them. -/
theorem records_layout (S : Sampler) (range : GvoxRegionRange) (channels : List Nat)
    (bb : Nat) (order : List RegionTask)
    (htot : tasks_size S range channels order < 4294967296) :
    (∀ (i : Nat) (r : TaskRecord), (task_records S range channels bb bb order)[i]? = some r →
        r.2.2 = region_blob_size r.2.1.variant_n
        ∧ (1 < r.2.1.variant_n →
            r.2.1.blob_offset = reserved_before (task_records S range channels bb bb order) i
            ∧ 0 < r.2.2
            ∧ r.2.1.blob_offset + r.2.2
                ≤ trace_size (task_records S range channels bb bb order)))
      ∧ (∀ (i j : Nat) (r s : TaskRecord), i < j → (task_records S range channels bb bb order)[i]? = some r →
          (task_records S range channels bb bb order)[j]? = some s →
          1 < r.2.1.variant_n → 1 < s.2.1.variant_n →
          r.2.1.blob_offset + r.2.2 ≤ s.2.1.blob_offset
            ∧ r.2.1.blob_offset ≠ s.2.1.blob_offset)
      ∧ (∀ b, b < trace_size (task_records S range channels bb bb order) →
          ∃ (i : Nat) (r : TaskRecord), (task_records S range channels bb bb order)[i]? = some r
            ∧ 1 < r.2.1.variant_n ∧ r.2.1.blob_offset ≤ b ∧ b < r.2.1.blob_offset + r.2.2
            ∧ ∀ (j : Nat) (s : TaskRecord), (task_records S range channels bb bb order)[j]? = some s →
                1 < s.2.1.variant_n → s.2.1.blob_offset ≤ b →
                b < s.2.1.blob_offset + s.2.2 → j = i) := by
  have key := task_records_entry S range channels bb order htot
  generalize task_records S range channels bb bb order = tr at key ⊢
  have mono : ∀ i j, i ≤ j → reserved_before tr i ≤ reserved_before tr j := by
    intro i j hij
    rw [reserved_before_eq, reserved_before_eq]
    exact sum_take_le _ _ _ hij
  refine ⟨?_, ?_, ?_⟩
  · intro i r h
    obtain ⟨k1, k2, k3, k4⟩ := key i r h
    refine ⟨k1, fun h1 => ⟨k2 h1, ?_, ?_⟩⟩
    · rw [k1]; exact region_blob_size_pos _ h1
    · rw [k2 h1]; omega
  · intro i j r s hij hr hs h1 h2
    obtain ⟨k1, k2, k3, _⟩ := key i r hr
    obtain ⟨_, m2, _, _⟩ := key j s hs
    have hpos : 0 < r.2.2 := by rw [k1]; exact region_blob_size_pos _ h1
    have hm := mono (i + 1) j hij
    rw [k2 h1, m2 h2]
    omega
  · intro b hb
    have hts : trace_size tr = (tr.map (fun r => r.2.2)).sum := rfl
    rw [hts] at hb
    obtain ⟨i, c1, c2, c3⟩ := sum_take_cover _ b hb
    rw [List.length_map] at c1
    have hr : tr[i]? = some (tr.get ⟨i, c1⟩) := List.getElem?_eq_getElem c1
    obtain ⟨k1, k2, k3, _⟩ := key i _ hr
    have hgd : (tr.map (fun r => r.2.2)).getD i 0 = (tr.get ⟨i, c1⟩).2.2 := by
      rw [List.getD_eq_getElem?_getD, List.getElem?_map, hr]
      rfl
    rw [hgd, ← reserved_before_eq] at c3
    rw [← reserved_before_eq] at c2
    have h1 : 1 < (tr.get ⟨i, c1⟩).2.1.variant_n := by
      by_contra hn
      rw [k1, region_blob_size_one _ hn] at c3
      omega
    refine ⟨i, _, hr, h1, ?_, ?_, ?_⟩
    · rw [k2 h1]; exact c2
    · rw [k2 h1]; exact c3
    · intro j s hs hs1 hs2 hs3
      obtain ⟨_, m2, m3, _⟩ := key j s hs
      rw [m2 hs1] at hs2 hs3
      rcases Nat.lt_trichotomy j i with c | c | c
      · have := mono (j + 1) i c
        omega
      · exact c
      · have := mono (i + 1) j c
        omega

/-- The record a run leaves for the task at position `i` of its order. -/
theorem task_records_at (S : Sampler) (range : GvoxRegionRange) (channels : List Nat)
    (bb : Nat) (order : List RegionTask) :
    ∀ (len i : Nat) (t : RegionTask), order[i]? = some t →
      (task_records S range channels bb len order)[i]?
        = some (t, task_header S range channels bb
            (len + tasks_size S range channels (order.take i)) t,
            task_size S range channels t) := by
  induction order with
  | nil => intro len i t h; simp at h
  | cons t0 ts ih =>
    intro len i t h
    unfold task_records
    cases i with
    | zero =>
      simp only [List.getElem?_cons_zero, Option.some.injEq] at h
      subst h
      simp [tasks_size]
    | succ k =>
      rw [List.getElem?_cons_succ] at h ⊢
      rw [ih _ k t h, List.take_succ_cons, tasks_size_cons, Nat.add_assoc]

theorem flatMap_singleton_map {α β : Type} (l : List α) (f : α → β) :
    l.flatMap (fun a => [f a]) = l.map f := by
  induction l with
  | nil => rfl
  | cons a l ih => rw [List.flatMap_cons, ih]; rfl

theorem region_tasks_row (N : Nat) :
    region_tasks N 1 1 1 = (List.range N).map (fun xi => (xi, 0, 0, 0)) := by
  unfold region_tasks
  have e : List.range 1 = [0] := rfl
  simp only [e, List.flatMap_cons, List.flatMap_nil, List.append_nil, List.map_cons,
    List.map_nil]
  exact flatMap_singleton_map (List.range N) (fun xi => (xi, 0, 0, 0))

theorem region_tasks_row_take (N i : Nat) (h : i ≤ N) :
    (region_tasks N 1 1 1).take i = region_tasks i 1 1 1 := by
  rw [region_tasks_row, region_tasks_row, ← List.map_take, List.take_range,
    Nat.min_eq_left h]

theorem region_tasks_row_get (N i : Nat) (h : i < N) :
    (region_tasks N 1 1 1)[i]? = some (i, 0, 0, 0) := by
  rw [region_tasks_row, List.getElem?_map, List.getElem?_range h]
  rfl

/-- The record of region `i` of a row of raw regions, run in enqueue order. -/
theorem sampler_index_record (N i bb : Nat) (h : 8 * N ≤ 2147483648) (hi : i < N) :
    (task_records sampler_index (range_at_origin (8 * N) 8 8) (channel_list 1) bb bb
        (region_tasks N 1 1 1))[i]?
      = some ((i, 0, 0, 0),
          { variant_n := 512, blob_offset := u32_sub (bb + i * 2048) bb }, 2048) := by
  have hm : (i, 0, 0, 0) ∈ region_tasks N 1 1 1 := by
    rw [mem_region_tasks]; exact ⟨hi, Nat.zero_lt_one, Nat.zero_lt_one, Nat.zero_lt_one⟩
  obtain ⟨hv, hs⟩ := sampler_index_task_size N h _ hm
  rw [task_records_at _ _ _ _ _ bb i _ (region_tasks_row_get N i hi),
    region_tasks_row_take N i (Nat.le_of_lt hi),
    sampler_index_tasks_size N i h (Nat.le_of_lt hi), hs]
  unfold task_header
  rw [hv, if_pos (by decide)]

theorem task_records_take (S : Sampler) (range : GvoxRegionRange) (channels : List Nat)
    (bb : Nat) (order : List RegionTask) :
    ∀ (len i : Nat), (task_records S range channels bb len order).take i
      = task_records S range channels bb len (order.take i) := by
  induction order with
  | nil => intro len i; simp [task_records]
  | cons t ts ih =>
    intro len i
    cases i with
    | zero => simp [task_records]
    | succ k =>
      rw [List.take_succ_cons]
      unfold task_records
      rw [List.take_succ_cons, ih]

theorem region_blob_size_le (n : Nat) (h : n ≤ 512) : region_blob_size n ≤ 2048 := by
  have hc := (ceil_log2_small n (by omega)).2.1
  unfold region_blob_size
  split
  · decide
  · split
    · unfold MAX_REGION_COMPRESSED_VARIANT_N at *
      unfold calc_palette_region_size REGION_SIZE
      omega
    · omega

theorem tasks_size_le (S : Sampler) (range : GvoxRegionRange) (channels : List Nat)
    (ts : List RegionTask) : tasks_size S range channels ts ≤ ts.length * 2048 := by
  induction ts with
  | nil => simp [tasks_size]
  | cons t ts ih =>
    rw [tasks_size_cons, List.length_cons]
    have h : task_size S range channels t ≤ 2048 :=
      region_blob_size_le _ (distinct_count_le _ _ _ _ _ _)
    omega

/-- No region takes more than 2048 blob bytes. -/
theorem total_blob_size_le (S : Sampler) (range : GvoxRegionRange) (flags : Nat) :
    total_blob_size S range flags
      ≤ region_count range.extent.z * (region_count range.extent.y
          * (region_count range.extent.x * (channel_list flags).length)) * 2048 := by
  unfold total_blob_size
  have h := tasks_size_le S range (channel_list flags) (enqueued_tasks range flags)
  unfold enqueued_tasks at h ⊢
  rw [region_tasks_length] at h
  exact h

theorem region_tasks_row_succ (N : Nat) :
    region_tasks (N + 1) 1 1 1 = region_tasks N 1 1 1 ++ ([(N, 0, 0, 0)] : List RegionTask) := by
  rw [region_tasks_row, region_tasks_row, List.range_succ, List.map_append]
  rfl

/-- The header of the task a run ends with, when the blobs reserved before it take
less than `2^32` bytes. -/
theorem run_last_header (S : Sampler) (hash_order : List Nat → List Nat)
    (range : GvoxRegionRange) (channels : List Nat) (hperm : ∀ l, (hash_order l).Perm l)
    (ts : List RegionTask) (t : RegionTask) (r0 : RunState)
    (hok : ∀ u ∈ ts, task_ok u) (ht : task_ok t)
    (hbb : r0.user_state.blobs_begin ≤ r0.user_state.data.length)
    (hlen : r0.user_state.data.length - r0.user_state.blobs_begin
      + tasks_size S range channels ts < 4294967296)
    (hs : task_slot range channels.length t + 8 ≤ r0.user_state.data.length) :
    read_u32 ((ts ++ [t]).foldl (run_task S hash_order range channels) r0).user_state.data
        (task_slot range channels.length t) = task_variant_n S range channels t
      ∧ read_u32 ((ts ++ [t]).foldl (run_task S hash_order range channels) r0).user_state.data
          (task_slot range channels.length t + 4)
        = (task_header S range channels r0.user_state.blobs_begin
            (r0.user_state.data.length + tasks_size S range channels ts) t).blob_offset := by
  rw [List.foldl_append]
  simp only [List.foldl_cons, List.foldl_nil]
  obtain ⟨g1, _, g3, _⟩ := run_general S hash_order range channels hperm ts r0 hok
  generalize ts.foldl (run_task S hash_order range channels) r0 = r1 at g1 g3 ⊢
  have hst : state_ok r1.user_state := by
    unfold state_ok
    rw [g1, g3]
    omega
  have e : (run_task S hash_order range channels r1 t).user_state
      = (add_region S hash_order r1.user_state range t.1 t.2.1 t.2.2.1 t.2.2.2
          channels).user_state := rfl
  rw [e]
  obtain ⟨w1, w2, _⟩ := add_region_header_slot S hash_order r1.user_state range
    t.1 t.2.1 t.2.2.1 t.2.2.2 channels hperm ht.1 ht.2.1 ht.2.2 hst
    (by rw [g3]; exact le_trans hs (Nat.le_add_right _ _))
  have hr := (add_region_record S hash_order r1.user_state range t channels hperm ht).2.1
  simp only [] at hr
  rw [g1, g3] at hr
  rw [hr] at w1 w2
  exact ⟨w1, w2⟩

/-- The header of the last region of a row of `2^21` raw regions, the tasks run in
enqueue order: 512 variants, and a blob that starts `2048` bytes before `2^32`. -/
theorem sampler_index_last_header :
    (run_final sampler_index id id (range_at_origin (8 * 2097152) 8 8) 1).user_state.blobs_begin
        = 16777216
      ∧ read_u32 (run_final sampler_index id id (range_at_origin (8 * 2097152) 8 8)
          1).user_state.data 16777208 = 512
      ∧ read_u32 (run_final sampler_index id id (range_at_origin (8 * 2097152) 8 8)
          1).user_state.data 16777212 = 4294965248 := by
  have hN : 8 * 2097152 ≤ 2147483648 := by norm_num
  have e8 : region_count 8 = 1 := by decide
  have hg : region_count (range_at_origin (8 * 2097152) 8 8).extent.x
      * region_count (range_at_origin (8 * 2097152) 8 8).extent.y
      * region_count (range_at_origin (8 * 2097152) 8 8).extent.z ≤ 4294967296 := by
    show region_count (8 * 2097152) * region_count 8 * region_count 8 ≤ 4294967296
    rw [region_count_mul _ hN, e8]
    norm_num
  obtain ⟨i1, i2⟩ := run_init_table (range_at_origin (8 * 2097152) 8 8) 1 hg
  have hH : header_table_bytes (range_at_origin (8 * 2097152) 8 8) 1 = 16777216 := by
    unfold header_table_bytes
    show 8 * (region_count (8 * 2097152) * region_count 8 * region_count 8
      * (channel_list 1).length) = 16777216
    rw [region_count_mul _ hN, e8, channel_list_1]
    rfl
  rw [hH] at i1 i2
  have ht : task_ok (2097151, 0, 0, 0) := ⟨by norm_num, by norm_num, by norm_num⟩
  have hts := sampler_index_tasks_size 2097152 2097151 hN (by norm_num)
  have hm : ((2097151, 0, 0, 0) : RegionTask) ∈ region_tasks 2097152 1 1 1 :=
    (mem_region_tasks _ _ _ _ _).mpr
      ⟨by norm_num, Nat.zero_lt_one, Nat.zero_lt_one, Nat.zero_lt_one⟩
  obtain ⟨hv, _⟩ := sampler_index_task_size 2097152 hN _ hm
  have hslot : task_slot (range_at_origin (8 * 2097152) 8 8) (channel_list 1).length
      (2097151, 0, 0, 0) = 16777208 := by
    unfold task_slot header_slot_offset
    show u32 (2097151 + 0 * region_count (8 * 2097152)
      + 0 * region_count (8 * 2097152) * region_count 8) * (8 * (channel_list 1).length)
      + 8 * 0 = 16777208
    rw [region_count_mul _ hN, e8, channel_list_1]
    rfl
  have hok : ∀ u ∈ region_tasks 2097151 1 1 1, task_ok u := by
    intro u hu
    rw [mem_region_tasks] at hu
    exact ⟨by omega, by omega, by omega⟩
  have h := run_last_header sampler_index id (range_at_origin (8 * 2097152) 8 8)
    (channel_list 1) perm_id (region_tasks 2097151 1 1 1) (2097151, 0, 0, 0)
    (run_init (range_at_origin (8 * 2097152) 8 8) 1) hok ht
    (by rw [i1, i2, List.length_replicate])
    (by rw [i1, i2, List.length_replicate, hts]; norm_num)
    (by rw [hslot, i1, List.length_replicate])
  have e2 : region_tasks 2097152 1 1 1 = region_tasks 2097151 1 1 1 ++ ([(2097151, 0, 0, 0)] : List RegionTask) :=
    region_tasks_row_succ 2097151
  have hu : u32_sub (16777216 + 2097151 * 2048) 16777216 = 4294965248 := by
    unfold u32_sub; norm_num
  have hb : (task_header sampler_index (range_at_origin (8 * 2097152) 8 8) (channel_list 1)
      16777216 (16777216 + 2097151 * 2048) (2097151, 0, 0, 0)).blob_offset = 4294965248 := by
    unfold task_header
    simp only []
    rw [hv, if_pos (by norm_num), hu]
  have h4 : 16777208 + 4 = 16777212 := rfl
  rw [hslot, hv, i2, i1, List.length_replicate, hts, hb, h4] at h
  obtain ⟨g1, _⟩ := run_general sampler_index id (range_at_origin (8 * 2097152) 8 8)
    (channel_list 1) perm_id (enqueued_tasks (range_at_origin (8 * 2097152) 8 8) 1)
    (run_init (range_at_origin (8 * 2097152) 8 8) 1)
    (fun t ht => enqueued_task_ok _ 1 t ht)
  rw [i2] at g1
  unfold run_final
  rw [id_eq]
  refine ⟨g1, ?_⟩
  rw [enqueued_tasks_row 2097152 hN, e2]
  exact h

/-- The decoder rejects a voxel of a raw region of a one-channel row container whose
`blob_size` field is 0. -/
theorem decode_voxel_row_reject (input : List Nat) (pos : GvoxOffset3D) (E dx : Nat)
    (h0 : read_u32 input 0 = 7370343) (h4 : to_i32 (read_u32 input 4) = 0)
    (h8 : to_i32 (read_u32 input 8) = 0) (h12 : to_i32 (read_u32 input 12) = 0)
    (h16 : read_u32 input 16 = E) (h20 : read_u32 input 20 = 8)
    (h24 : read_u32 input 24 = 8) (h28 : read_u32 input 28 = 0)
    (h32 : read_u32 input 32 = 1) (h36 : read_u32 input 36 = 1)
    (hpx : pos.x = (dx : Int)) (hpy : pos.y = 0) (hpz : pos.z = 0) (hdx : dx < E)
    (hv : MAX_REGION_COMPRESSED_VARIANT_N < read_u32 input (40 + 8 * (dx / 8))) :
    decode_voxel input pos 0 = none := by
  have hi : ([0] : List Nat).indexOf 0 = 0 := rfl
  have hl : ([0] : List Nat).length = 1 := rfl
  have tx : (pos.x - 0).toNat = dx := by rw [hpx]; simp
  have ty : (pos.y - 0).toNat = 0 := by rw [hpy]; rfl
  have tz : (pos.z - 0).toNat = 0 := by rw [hpz]; rfl
  unfold decode_voxel
  simp only [h0, h4, h8, h12, h16, h20, h24, h28, h32, h36, channel_list_1, hi, hl, tx, ty, tz]
  rw [if_neg (by simp), if_neg (by omega), if_neg (by rw [hpx, hpy, hpz]; omega),
    if_neg (by omega)]
  have hs : 40 + 8 * (((0 / REGION_SIZE * ((8 + REGION_SIZE - 1) / REGION_SIZE)
      + 0 / REGION_SIZE) * ((E + REGION_SIZE - 1) / REGION_SIZE) + dx / REGION_SIZE) * 1 + 0)
      = 40 + 8 * (dx / 8) := by
    unfold REGION_SIZE
    simp only [Nat.zero_div, Nat.zero_mul, Nat.zero_add, Nat.mul_one, Nat.add_zero]
  rw [hs]
  unfold MAX_REGION_COMPRESSED_VARIANT_N at hv ⊢
  rw [if_neg (by omega), if_neg (by omega), if_neg (by omega),
    if_pos (by unfold MAX_REGION_ALLOCATION_SIZE REGION_SIZE; omega)]

/-- The bytes of a word of the preamble, and what follows the preamble. -/
theorem preamble_bytes (w0 w1 w2 w3 w4 w5 w6 w7 w8 w9 : Nat) (data : List Nat) :
    ([w0, w1, w2, w3, w4, w5, w6, w7, w8, w9].flatMap le32 ++ data).take 4 = le32 w0
      ∧ (([w0, w1, w2, w3, w4, w5, w6, w7, w8, w9].flatMap le32 ++ data).drop 4).take 24
        = le32 w1 ++ le32 w2 ++ le32 w3 ++ le32 w4 ++ le32 w5 ++ le32 w6
      ∧ ([w0, w1, w2, w3, w4, w5, w6, w7, w8, w9].flatMap le32 ++ data).drop 40 = data := by
  simp only [List.flatMap_cons, List.flatMap_nil, le32, List.cons_append, List.nil_append,
    List.append_nil]
  exact ⟨rfl, rfl, rfl⟩

theorem set_bits_below_getD (p : Nat → Bool) (n : Nat) :
    ∀ ci, ci < ((List.range n).filter p).length →
      ((List.range (((List.range n).filter p).getD ci 0)).filter p).length = ci := by
  induction n with
  | zero => intro ci h; simp at h
  | succ n ih =>
    intro ci h
    rw [List.range_succ, List.filter_append] at h ⊢
    by_cases hc : ci < ((List.range n).filter p).length
    · rw [List.getD_append _ _ _ _ hc]
      exact ih ci hc
    · rw [List.length_append] at h
      by_cases hp : p n = true
      · have e : List.filter p [n] = [n] := by simp [hp]
        rw [e] at h ⊢
        have hci : ci = ((List.range n).filter p).length := by
          simp only [List.length_cons, List.length_nil] at h; omega
        rw [List.getD_append_right _ _ _ _ (by omega), hci, Nat.sub_self]
        rfl
      · have e : List.filter p [n] = [] := by simp [hp]
        rw [e] at h
        simp only [List.length_nil] at h
        omega

theorem channel_list_sorted (m : Nat) : (channel_list m).Pairwise (· < ·) := by
  rw [channel_list_eq]
  exact List.Pairwise.filter _ (List.pairwise_lt_range 32)

theorem region_voxel_congr (S S1 : Sampler) (range : GvoxRegionRange) (ox oy oz ch : Nat)
    (h : ∀ p, S p ch = S1 p ch) :
    region_voxel S range ox oy oz ch = region_voxel S1 range ox oy oz ch := by
  funext c
  unfold region_voxel
  simp only [h]

/-- The function `add_region` reads the sampler on the channel `channels[ci]` only. -/
theorem add_region_congr (S S1 : Sampler) (hash_order : List Nat → List Nat)
    (st : GvoxPaletteSerializeUserState) (range : GvoxRegionRange)
    (rx ry rz ci : Nat) (channels : List Nat)
    (h : ∀ p, S p (channels.getD ci 0) = S1 p (channels.getD ci 0)) :
    add_region S hash_order st range rx ry rz ci channels
      = add_region S1 hash_order st range rx ry rz ci channels := by
  have hv := region_voxel_congr S S1 range (u32 (rx * REGION_SIZE)) (u32 (ry * REGION_SIZE))
    (u32 (rz * REGION_SIZE)) (channels.getD ci 0) h
  unfold add_region region_tile_set raw_local_data palette_local_data palette_fill_step
  simp only [hv]

/-! ## The function `ceil_log2` -/

/-- The test `(x & t) == 0` of `ceil_log2` with the mask of the bits `[j, 2j)`. -/
theorem mask_test (j x : Nat) (hx : x < 2 ^ (2 * j)) :
    x &&& (2 ^ (2 * j) - 2 ^ j) = 0 ↔ x < 2 ^ j := by
  have et : 2 ^ (2 * j) - 2 ^ j = 2 ^ j * (2 ^ j - 1) := by
    rw [Nat.mul_sub, Nat.mul_one, ← Nat.pow_add]
    congr 2
    omega
  have tb : ∀ i, (2 ^ (2 * j) - 2 ^ j).testBit i = (decide (j ≤ i) && decide (i - j < j)) := by
    intro i
    rw [et, Nat.testBit_mul_pow_two, Nat.testBit_two_pow_sub_one]
  constructor
  · intro h
    apply Nat.lt_pow_two_of_testBit
    intro i hi
    by_cases h2 : i < 2 * j
    · have hb : (x &&& (2 ^ (2 * j) - 2 ^ j)).testBit i = false := by rw [h]; simp
      rw [Nat.testBit_and, tb] at hb
      have e1 : decide (j ≤ i) = true := decide_eq_true hi
      have e2 : decide (i - j < j) = true := decide_eq_true (by omega)
      rw [e1, e2] at hb
      simpa using hb
    · exact Nat.testBit_lt_two_pow
        (lt_of_lt_of_le hx (Nat.pow_le_pow_right (by norm_num) (by omega)))
  · intro h
    apply Nat.eq_of_testBit_eq
    intro i
    rw [Nat.testBit_and, tb, Nat.zero_testBit]
    by_cases hi : j ≤ i
    · rw [Nat.testBit_lt_two_pow
        (lt_of_lt_of_le h (Nat.pow_le_pow_right (by norm_num) hi))]
      rfl
    · have e1 : decide (j ≤ i) = false := decide_eq_false hi
      rw [e1]
      simp

/-- One iteration of the loop of `ceil_log2` on a value below `2^(2j)`: the value is
divided by `2^k` with `k = j` or `k = 0` and falls below `2^j`, and `k` is added
to `y`. -/
theorem ceil_log2_step_inv (x0 y0 j s t : Nat) (ht : t = 2 ^ (2 * j) - 2 ^ j)
    (h2 : x0 / 2 ^ s < 2 ^ (2 * j)) (h3 : s + 2 * j ≤ 64) (hy0 : y0 ≤ 1) :
    ∃ s1, ceil_log2_step (x0 / 2 ^ s, y0 + s, j) t = (x0 / 2 ^ s1, y0 + s1, j >>> 1)
      ∧ x0 / 2 ^ s1 < 2 ^ j ∧ s1 + j ≤ 64 ∧ (1 ≤ x0 / 2 ^ s → 1 ≤ x0 / 2 ^ s1) := by
  have hm := mask_test j (x0 / 2 ^ s) h2
  unfold ceil_log2_step
  simp only []
  rw [ht]
  by_cases hc : x0 / 2 ^ s < 2 ^ j
  · refine ⟨s, ?_, hc, by omega, fun h => h⟩
    rw [if_pos (hm.mpr hc), Nat.shiftRight_zero, Nat.add_zero]
    rw [u32_of_lt (by omega)]
  · refine ⟨s + j, ?_, ?_, by omega, ?_⟩
    · rw [if_neg (fun h => hc (hm.mp h)), Nat.shiftRight_eq_div_pow, Nat.div_div_eq_div_mul,
        ← Nat.pow_add, u32_of_lt (by omega), Nat.add_assoc]
    · rw [Nat.pow_add, ← Nat.div_div_eq_div_mul]
      apply Nat.div_lt_of_lt_mul
      rw [← Nat.pow_add]
      have e : j + j = 2 * j := by omega
      rw [e]
      exact h2
    · intro _
      rw [Nat.pow_add, ← Nat.div_div_eq_div_mul]
      exact (Nat.le_div_iff_mul_le (Nat.two_pow_pos j)).mpr (by rw [Nat.one_mul]; omega)

/-- The loop of `ceil_log2` computes the position of the highest set bit. -/
theorem ceil_log2_loop (x y0 : Nat) (hx : x < 18446744073709551616) (hy0 : y0 ≤ 1) :
    ∃ s, (ceil_log2_table.foldl ceil_log2_step (x, y0, 32)).2.1 = y0 + s
      ∧ x / 2 ^ s < 2 ∧ s < 64 ∧ (1 ≤ x → 1 ≤ x / 2 ^ s) := by
  have h0 : (x, y0, 32) = (x / 2 ^ 0, y0 + 0, 32) := by simp
  obtain ⟨s1, e1, b1, c1, p1⟩ := ceil_log2_step_inv x y0 32 0 0xFFFFFFFF00000000
    (by norm_num) (by simpa using hx) (by norm_num) hy0
  obtain ⟨s2, e2, b2, c2, p2⟩ := ceil_log2_step_inv x y0 16 s1 0x00000000FFFF0000
    (by norm_num) (by simpa using b1) (by omega) hy0
  obtain ⟨s3, e3, b3, c3, p3⟩ := ceil_log2_step_inv x y0 8 s2 0x000000000000FF00
    (by norm_num) (by simpa using b2) (by omega) hy0
  obtain ⟨s4, e4, b4, c4, p4⟩ := ceil_log2_step_inv x y0 4 s3 0x00000000000000F0
    (by norm_num) (by simpa using b3) (by omega) hy0
  obtain ⟨s5, e5, b5, c5, p5⟩ := ceil_log2_step_inv x y0 2 s4 0x000000000000000C
    (by norm_num) (by simpa using b4) (by omega) hy0
  obtain ⟨s6, e6, b6, c6, p6⟩ := ceil_log2_step_inv x y0 1 s5 0x0000000000000002
    (by norm_num) (by simpa using b5) (by omega) hy0
  refine ⟨s6, ?_, by simpa using b6, by omega, fun h => p6 (p5 (p4 (p3 (p2 (p1 (by simpa using h))))))⟩
  unfold ceil_log2_table
  simp only [List.foldl_cons, List.foldl_nil]
  rw [h0, e1]
  have r1 : 32 >>> 1 = 16 := rfl
  have r2 : 16 >>> 1 = 8 := rfl
  have r3 : 8 >>> 1 = 4 := rfl
  have r4 : 4 >>> 1 = 2 := rfl
  have r5 : 2 >>> 1 = 1 := rfl
  rw [r1, e2, r2, e3, r3, e4, r4, e5, r5, e6]

/-- The test `(x & (x - 1)) == 0` of `ceil_log2` on a value with highest bit `s`. -/
theorem pow2_test (x s : Nat) (h1 : 2 ^ s ≤ x) (h2 : x < 2 ^ (s + 1)) :
    x &&& (x - 1) = 0 ↔ x = 2 ^ s := by
  constructor
  · intro h
    by_contra hne
    have hb : ∀ y, 2 ^ s ≤ y → y < 2 ^ (s + 1) → y.testBit s = true := by
      intro y hy1 hy2
      rw [Nat.testBit_to_div_mod]
      have : y / 2 ^ s = 1 := by
        apply Nat.div_eq_of_lt_le
        · rw [Nat.one_mul]; exact hy1
        · rw [Nat.pow_succ] at hy2; omega
      rw [this]
      rfl
    have hx := hb x h1 h2
    have hx1 := hb (x - 1) (by omega) (by omega)
    have hz : (x &&& (x - 1)).testBit s = false := by rw [h]; simp
    rw [Nat.testBit_and, hx, hx1] at hz
    exact absurd hz (by decide)
  · intro h
    rw [h, Nat.and_pow_two_sub_one_eq_mod, Nat.mod_self]

/-- The value of `ceil_log2` on a 64-bit input with highest set bit `s`. -/
theorem ceil_log2_of_bits (n s : Nat) (h1 : 2 ^ s ≤ n) (h2 : n < 2 ^ (s + 1)) (hs : s < 64) :
    ceil_log2 n = if n = 2 ^ s then s else s + 1 := by
  have hn : n < 18446744073709551616 := by
    have h64 : 2 ^ (s + 1) ≤ 2 ^ 64 := Nat.pow_le_pow_right (by norm_num) (by omega)
    have e64 : (2 : Nat) ^ 64 = 18446744073709551616 := by norm_num
    omega
  have hpos : 1 ≤ n := le_trans (Nat.one_le_two_pow) h1
  unfold ceil_log2
  simp only []
  have eu : u64 n = n := Nat.mod_eq_of_lt hn
  have eu1 : u64 (n + 18446744073709551615) = n - 1 := by unfold u64; omega
  rw [eu, eu1]
  have hp := pow2_test n s h1 h2
  have key : ∀ y0, y0 ≤ 1 →
      (ceil_log2_table.foldl ceil_log2_step (n, y0, 32)).2.1 = y0 + s := by
    intro y0 hy0
    obtain ⟨s1, e, b, _, p⟩ := ceil_log2_loop n y0 hn hy0
    have hq : n / 2 ^ s1 = 1 := by have := p hpos; omega
    have hlo : 2 ^ s1 ≤ n := by
      by_contra hc
      rw [Nat.div_eq_of_lt (by omega)] at hq
      omega
    have hhi : n < 2 ^ (s1 + 1) := by
      by_contra hc
      have : 2 ≤ n / 2 ^ s1 := by
        rw [Nat.le_div_iff_mul_le (Nat.two_pow_pos s1), Nat.mul_comm, ← Nat.pow_succ]
        omega
      omega
    have hss : s1 = s := by
      rcases Nat.lt_trichotomy s1 s with c | c | c
      · have : 2 ^ (s1 + 1) ≤ 2 ^ s := Nat.pow_le_pow_right (by norm_num) c
        omega
      · exact c
      · have : 2 ^ (s + 1) ≤ 2 ^ s1 := Nat.pow_le_pow_right (by norm_num) c
        omega
    rw [e, hss]
  by_cases hc : n = 2 ^ s
  · rw [if_pos (hp.mpr hc), if_pos hc, key 0 (by norm_num), Nat.zero_add]
  · rw [if_neg (fun h => hc (hp.mp h)), if_neg hc, key 1 (by norm_num), Nat.add_comm]

theorem ceil_log2_zero : ceil_log2 0 = 0 := by decide

/-- The function `ceil_log2` returns the smallest `k` with `2^k ≥ n`, on every 64-bit
input. -/
theorem ceil_log2_spec (n : Nat) (hn : n < 18446744073709551616) :
    (n ≤ 1 → ceil_log2 n = 0)
      ∧ n ≤ 2 ^ ceil_log2 n
      ∧ ∀ k, n ≤ 2 ^ k → ceil_log2 n ≤ k := by
  rcases Nat.eq_zero_or_pos n with h0 | hpos
  · subst h0
    rw [ceil_log2_zero]
    exact ⟨fun _ => rfl, by norm_num, fun k _ => Nat.zero_le k⟩
  · have hlog1 : 2 ^ Nat.log 2 n ≤ n := Nat.pow_log_le_self 2 (by omega)
    have hlog2 : n < 2 ^ (Nat.log 2 n + 1) := Nat.lt_pow_succ_log_self (by norm_num) n
    have hs : Nat.log 2 n < 64 := by
      by_contra hc
      have h64 : 2 ^ 64 ≤ 2 ^ Nat.log 2 n := Nat.pow_le_pow_right (by norm_num) (by omega)
      have e64 : (2 : Nat) ^ 64 = 18446744073709551616 := by norm_num
      omega
    have hv := ceil_log2_of_bits n (Nat.log 2 n) hlog1 hlog2 hs
    generalize Nat.log 2 n = s at hlog1 hlog2 hs hv
    refine ⟨?_, ?_, ?_⟩
    · intro h1
      have e1 : n = 1 := by omega
      subst e1
      have es : s = 0 := by
        by_contra hc
        have : 2 ^ 1 ≤ 2 ^ s := Nat.pow_le_pow_right (by norm_num) (by omega)
        omega
      subst es
      rw [hv]
      rfl
    · rw [hv]
      split
      · omega
      · omega
    · intro k hk
      rw [hv]
      split
      · rename_i he
        by_contra hc
        have : 2 ^ (k + 1) ≤ 2 ^ s := Nat.pow_le_pow_right (by norm_num) (by omega)
        rw [Nat.pow_succ] at this
        have := Nat.two_pow_pos k
        omega
      · rename_i he
        by_contra hc
        have : 2 ^ k ≤ 2 ^ s := Nat.pow_le_pow_right (by norm_num) (by omega)
        omega

/-! ## The palette lookup miss -/

theorem add_region_resampled_self (S : Sampler) (hash_order : List Nat → List Nat)
    (st : GvoxPaletteSerializeUserState) (range : GvoxRegionRange)
    (rx ry rz ci : Nat) (channels : List Nat) :
    add_region_resampled S S hash_order st range rx ry rz ci channels
      = add_region S hash_order st range rx ry rz ci channels := rfl

theorem palette_fill_step_miss (S : Sampler) (range : GvoxRegionRange) (ox oy oz ch : Nat)
    (n bits : Nat) (buf : List Nat) (c : Nat × Nat × Nat)
    (hv : region_voxel S range ox oy oz ch c ∉ read_words buf 0 n) :
    palette_fill_step S range ox oy oz ch n bits buf c
      = .error GvoxResult.ERROR_PARSE_ADAPTER_INVALID_INPUT := by
  have h := List.indexOf_eq_length.mpr hv
  rw [read_words_length] at h
  unfold palette_fill_step
  simp only []
  rw [if_pos h]

/-- The index loop stops with `INVALID_INPUT` when the sample of some voxel is not in
the palette. -/
theorem palette_fill_loop_miss (S : Sampler) (range : GvoxRegionRange) (ox oy oz ch : Nat)
    (n bits : Nat) (hbits : bits ≤ 9) (hn : n ≤ 2 ^ bits) (cs : List (Nat × Nat × Nat)) :
    ∀ (buf : List Nat), (∀ c ∈ cs, c ∈ region_coords) →
    buf.length = 4 * n + calc_palette_region_size bits → bytes_ok buf →
    (∃ c ∈ cs, region_voxel S range ox oy oz ch c ∉ read_words buf 0 n) →
    palette_fill_loop (palette_fill_step S range ox oy oz ch n bits) buf cs
      = .error GvoxResult.ERROR_PARSE_ADAPTER_INVALID_INPUT := by
  induction cs with
  | nil => intro buf _ _ _ h; obtain ⟨c, hc, _⟩ := h; simp at hc
  | cons c0 cs ih =>
    intro buf hcs hlen hok hex
    by_cases hv0 : region_voxel S range ox oy oz ch c0 ∈ read_words buf 0 n
    · obtain ⟨buf1, hs, hl1, hok1, hk1, _⟩ := palette_fill_step_ok S range ox oy oz ch n bits
        buf c0 (hcs c0 (List.mem_cons_self _ _)) hbits hn hlen hok hv0
      have hpal : read_words buf1 0 n = read_words buf 0 n :=
        read_words_congr _ _ _ _ (fun k hk => by rw [Nat.zero_add]; exact hk1 k hk)
      obtain ⟨c, hc, hmiss⟩ := hex
      have hc1 : c ∈ cs := by
        rcases List.mem_cons.mp hc with e | e
        · subst e; exact absurd hv0 hmiss
        · exact e
      simp only [palette_fill_loop, hs]
      exact ih buf1 (fun c hc => hcs c (List.mem_cons_of_mem _ hc)) (by rw [hl1, hlen]) hok1
        ⟨c, hc1, by rw [hpal]; exact hmiss⟩
    · simp only [palette_fill_loop, palette_fill_step_miss S range ox oy oz ch n bits buf c0 hv0]

/-- The palette path fails with `INVALID_INPUT` when the second pass meets a sample
that is not among the variants. -/
theorem palette_local_data_miss (S2 : Sampler) (range : GvoxRegionRange) (ox oy oz ch : Nat)
    (ts iter : List Nat) (n : Nat) (hperm : iter.Perm ts) (hn : ts.length = n)
    (hn1 : n ≤ 512) (hlt : ∀ w ∈ ts, w < 4294967296)
    (hmiss : ∃ c ∈ region_coords, region_voxel S2 range ox oy oz ch c ∉ ts) :
    palette_local_data S2 range ox oy oz ch iter n (ceil_log2 n)
        (vec_resize [] (4 * n + calc_palette_region_size (ceil_log2 n)))
      = .error GvoxResult.ERROR_PARSE_ADAPTER_INVALID_INPUT := by
  rw [palette_local_data_perm S2 range ox oy oz ch ts iter n (ceil_log2 n) hperm hn hlt]
  obtain ⟨hc1, hc2, _, _⟩ := ceil_log2_small n (by omega)
  have hp := palette_sorted_store ts ts n (ceil_log2 n) (List.Perm.refl ts) hn hlt
  simp only at hp
  have hsl : (ts.insertionSort (· ≤ ·)).length = n := by
    rw [(List.perm_insertionSort _ ts).length_eq, hn]
  have hbl : (vec_resize [] (4 * n + calc_palette_region_size (ceil_log2 n))).length
      = 4 * n + calc_palette_region_size (ceil_log2 n) := by
    rw [vec_resize_nil, List.length_replicate]
  have hbo : bytes_ok (vec_resize [] (4 * n + calc_palette_region_size (ceil_log2 n))) := by
    rw [vec_resize_nil]; exact bytes_ok_replicate _
  generalize hbuf : vec_resize [] (4 * n + calc_palette_region_size (ceil_log2 n)) = buf
    at hp hbl hbo ⊢
  have hl2 : (write_bytes buf 0 ((ts.insertionSort (· ≤ ·)).flatMap le32)).length
      = 4 * n + calc_palette_region_size (ceil_log2 n) := by
    rw [write_bytes_length, hbl]
  have hpal : read_words (write_bytes buf 0 ((ts.insertionSort (· ≤ ·)).flatMap le32)) 0 n
      = ts.insertionSort (· ≤ ·) := by
    rw [← write_words_eq _ _ _ (by rw [hsl]; omega)]
    have := read_words_write_words (ts.insertionSort (· ≤ ·)) buf 0 (by rw [hsl]; omega)
      (fun w hw => hlt w ((List.perm_insertionSort _ ts).mem_iff.mp hw))
    rwa [hsl] at this
  obtain ⟨c, hc, hm⟩ := hmiss
  unfold palette_local_data
  simp only [hp]
  exact palette_fill_loop_miss S2 range ox oy oz ch n (ceil_log2 n) hc2 hc1 region_coords
    (write_bytes buf 0 ((ts.insertionSort (· ≤ ·)).flatMap le32))
    (fun c hc => hc) hl2 (bytes_ok_write_bytes _ _ _ hbo (bytes_ok_words_bytes _))
    ⟨c, hc, by rw [hpal]; exact fun h => hm ((List.perm_insertionSort _ ts).mem_iff.mp h)⟩

/-- The result of `add_region` when the second pass of a palette-path region meets a
sample that is not among the variants of the first pass. -/
theorem add_region_resampled_miss (S S2 : Sampler) (hash_order : List Nat → List Nat)
    (st : GvoxPaletteSerializeUserState) (range : GvoxRegionRange)
    (rx ry rz ci : Nat) (channels : List Nat) (hperm : ∀ l, (hash_order l).Perm l)
    (hx : rx < 536870912) (hy : ry < 536870912) (hz : rz < 536870912)
    (h1 : 1 < distinct_count S range rx ry rz (channels.getD ci 0))
    (h2 : distinct_count S range rx ry rz (channels.getD ci 0)
      ≤ MAX_REGION_COMPRESSED_VARIANT_N)
    (hmiss : ∃ c ∈ region_coords,
      effective_sample S2 range rx ry rz (channels.getD ci 0) c
        ∉ region_samples S range rx ry rz (channels.getD ci 0)) :
    add_region_resampled S S2 hash_order st range rx ry rz ci channels
      = { user_state :=
            { st with
              data := (st.data ++ List.replicate
                (region_blob_size (distinct_count S range rx ry rz (channels.getD ci 0))) 0) },
          size := 0,
          region_header :=
            { variant_n := distinct_count S range rx ry rz (channels.getD ci 0),
              blob_offset := u32_sub st.data.length st.blobs_begin },
          errors := [GvoxResult.ERROR_PARSE_ADAPTER_INVALID_INPUT] } := by
  obtain ⟨_, hlen, hu, hmem, hlt⟩ := tile_set_facts S range rx ry rz (channels.getD ci 0)
    hx hy hz
  have hle := distinct_count_le S range rx ry rz (channels.getD ci 0)
  obtain ⟨c, hc, hm⟩ := hmiss
  rw [← region_voxel_eq S2 range rx ry rz (channels.getD ci 0) c hc hx hy hz] at hm
  unfold add_region_resampled
  simp only []
  generalize region_tile_set S range (u32 (rx * REGION_SIZE)) (u32 (ry * REGION_SIZE))
    (u32 (rz * REGION_SIZE)) (channels.getD ci 0) = ts at hlen hu hmem hlt ⊢
  rw [hu]
  generalize distinct_count S range rx ry rz (channels.getD ci 0) = n at hlen h1 h2 hle ⊢
  rw [if_neg (by omega), if_pos h1, alloc_region_local, alloc_region_offset,
    alloc_region_state,
    palette_local_data_miss S2 range _ _ _ _ ts (hash_order ts) n (hperm ts) hlen hle hlt
      ⟨c, hc, fun h => hm ((hmem _).mp h)⟩,
    region_blob_size_palette n (by omega) h1]

theorem sampler_const_first (v : Fin 4294967296) (ch : Nat) :
    effective_sample (sampler_const v) (range_at_origin 9 8 8) 1 0 0 ch (0, 0, 0) = v.val := by
  unfold effective_sample range_at_origin REGION_SIZE
  simp only []
  rw [if_pos (by decide)]
  rfl

theorem sampler_x_miss (ch : Nat) :
    ∃ c ∈ region_coords,
      effective_sample (sampler_const 7) (range_at_origin 9 8 8) 1 0 0 ch c
        ∉ region_samples sampler_x (range_at_origin 9 8 8) 1 0 0 ch := by
  refine ⟨(0, 0, 0), (mem_region_coords _).mpr (by simp), ?_⟩
  rw [sampler_const_first]
  intro h
  have h1 := List.mem_toFinset.mpr h
  rw [sampler_x_variants] at h1
  exact absurd h1 (by decide)

/-! ## The raw parse adapter -/

theorem shift_and_one (m i : Nat) : (m >>> i) &&& 1 ≠ 0 ↔ m.testBit i = true := by
  unfold Nat.testBit
  rw [Nat.and_comm]
  simp

/-- The counting loop of `load_region` returns the number of set bits below
`channel_id`. -/
theorem voxel_channel_index_eq (flags c : Nat) (hc : c < 4294967296) :
    voxel_channel_index flags c = set_bits_below flags c := by
  unfold voxel_channel_index set_bits_below
  have key : ∀ n, n < 4294967296 →
      (List.range n).foldl
        (fun v i => if (flags >>> i) &&& 1 ≠ 0 then u32 (v + 1) else v) 0
        = ((List.range n).filter (fun i => flags.testBit i)).length := by
    intro n
    induction n with
    | zero => intro _; rfl
    | succ n ih =>
      intro hn
      have hle : ((List.range n).filter (fun i => flags.testBit i)).length ≤ n := by
        calc _ ≤ (List.range n).length := List.length_filter_le _ _
          _ = n := List.length_range n
      rw [List.range_succ, List.foldl_append, List.filter_append, List.length_append,
        ih (by omega)]
      simp only [List.foldl_cons, List.foldl_nil]
      by_cases hb : flags.testBit n = true
      · rw [if_pos ((shift_and_one flags n).mpr hb), u32_of_lt (by omega)]
        simp [hb]
      · rw [if_neg (fun h => hb ((shift_and_one flags n).mp h))]
        simp [hb]
  exact key c hc

theorem set_bits_below_le (flags c : Nat) (hc : c ≤ 32) :
    set_bits_below flags c ≤ popcount flags := by
  unfold set_bits_below popcount
  have e : List.range 32 = List.range c ++ List.range' c (32 - c) := by
    have h := List.range'_append_1 0 c (32 - c)
    rw [Nat.zero_add] at h
    rw [List.range_eq_range', List.range_eq_range', h]
    congr 1; omega
  rw [e, List.filter_append, List.length_append]
  omega

theorem set_bits_below_lt (flags c : Nat) (hc : c < 32) (hb : flags.testBit c = true) :
    set_bits_below flags c < popcount flags := by
  have h1 : set_bits_below flags (c + 1) = set_bits_below flags c + 1 := by
    unfold set_bits_below
    rw [List.range_succ, List.filter_append, List.length_append]
    simp [hb]
  have h2 := set_bits_below_le flags (c + 1) (by omega)
  omega

/-- The state `blit_begin` leaves after a matching magic. -/
theorem blit_begin_ok (input : List Nat) (st : GvoxRawParseUserState)
    (hB : st.offset + 32 < 18446744073709551616)
    (hm : read_u32 input st.offset = 7501415) :
    blit_begin input st
      = ({ range := read_range input (st.offset + 4),
           channel_flags := read_u32 input (st.offset + 28),
           channel_n := popcount (read_u32 input (st.offset + 28)),
           offset := st.offset + 32 }, []) := by
  have e1 : u64 (st.offset + 4) = st.offset + 4 := by unfold u64; omega
  have e2 : u64 (st.offset + 4 + 24) = st.offset + 28 := by unfold u64; omega
  have e3 : u64 (st.offset + 28 + 4) = st.offset + 32 := by unfold u64; omega
  have hp := popcount_le (read_u32 input (st.offset + 28))
  unfold blit_begin
  simp only [e1, e2, e3]
  rw [if_neg (by rw [hm]; decide), u32_of_lt (by omega)]

/-- The state `blit_begin` leaves after a magic that does not match. -/
theorem blit_begin_bad (input : List Nat) (st : GvoxRawParseUserState)
    (hB : st.offset + 32 < 18446744073709551616)
    (hm : read_u32 input st.offset ≠ 7501415) :
    blit_begin input st
      = ({ st with offset := st.offset + 4 }, [GvoxResult.ERROR_PARSE_ADAPTER_INVALID_INPUT]) := by
  have e1 : u64 (st.offset + 4) = st.offset + 4 := by unfold u64; omega
  unfold blit_begin
  simp only [e1]
  rw [if_pos hm]

theorem magic_bytes (input : List Nat) (off : Nat) (h : bytes_ok input) :
    read_u32 input off = 7501415
      ↔ input.getD off 0 = 103 ∧ input.getD (off + 1) 0 = 118
        ∧ input.getD (off + 2) 0 = 114 ∧ input.getD (off + 3) 0 = 0 := by
  have h0 := h off
  have h1 := h (off + 1)
  have h2 := h (off + 2)
  have h3 := h (off + 3)
  unfold read_u32
  omega

theorem to_size_t_diff (d : Int) (n : Nat) (h : d = (n : Int)) (hn : n < 2147483648) :
    to_size_t (wrap_i32 d) = n := by
  subst h
  unfold to_size_t wrap_i32
  omega

/-- The address `load_region` reads, when the differences `offset - range.offset` fit
an `int32_t` and the address fits a 64-bit `size_t`. -/
theorem load_region_addr (input : List Nat) (st : GvoxRawParseUserState)
    (p : GvoxOffset3D) (c dx dy dz : Nat)
    (hc : c < 32) (hbit : st.channel_flags.testBit c = true)
    (hcn : st.channel_n = popcount st.channel_flags)
    (hx : p.x - st.range.offset.x = (dx : Int)) (hy : p.y - st.range.offset.y = (dy : Int))
    (hz : p.z - st.range.offset.z = (dz : Int))
    (hdx : dx < 2147483648) (hdy : dy < 2147483648) (hdz : dz < 2147483648)
    (hey : dy < st.range.extent.y)
    (haddr : st.offset + 4 * dense_index st.channel_n st.range.extent.x st.range.extent.y
      (set_bits_below st.channel_flags c) dx dy dz < 18446744073709551616) :
    load_region input st p c
      = { range := { offset := p, extent := { x := 1, y := 1, z := 1 } },
          channels := c, flags := GVOX_REGION_FLAG_UNIFORM,
          data := read_u32 input (st.offset + 4 * dense_index st.channel_n
            st.range.extent.x st.range.extent.y (set_bits_below st.channel_flags c)
            dx dy dz) } := by
  have hv := voxel_channel_index_eq st.channel_flags c (by omega)
  have hlt := set_bits_below_lt st.channel_flags c hc hbit
  have hcn1 : 1 ≤ st.channel_n := by omega
  unfold load_region
  simp only []
  rw [hv, hx, hy, hz, to_size_t_diff _ dx rfl hdx, to_size_t_diff _ dy rfl hdy,
    to_size_t_diff _ dz rfl hdz]
  unfold dense_index at haddr ⊢
  generalize set_bits_below st.channel_flags c = v at haddr ⊢
  have b1 : dz * st.range.extent.x ≤ dz * st.range.extent.x * st.range.extent.y :=
    Nat.le_mul_of_pos_right _ (by omega)
  have b2 : dx + dy * st.range.extent.x + dz * st.range.extent.x * st.range.extent.y
      ≤ st.channel_n * (dx + dy * st.range.extent.x
        + dz * st.range.extent.x * st.range.extent.y) :=
    Nat.le_mul_of_pos_left _ hcn1
  have e1 : u64 (dy * st.range.extent.x) = dy * st.range.extent.x := by
    apply Nat.mod_eq_of_lt; omega
  have e2 : u64 (dz * st.range.extent.x) = dz * st.range.extent.x := by
    apply Nat.mod_eq_of_lt; omega
  have e3 : u64 (dz * st.range.extent.x * st.range.extent.y)
      = dz * st.range.extent.x * st.range.extent.y := by
    apply Nat.mod_eq_of_lt; omega
  have e4 : u64 (dx + dy * st.range.extent.x) = dx + dy * st.range.extent.x := by
    apply Nat.mod_eq_of_lt; omega
  have e5 : u64 (dx + dy * st.range.extent.x + dz * st.range.extent.x * st.range.extent.y)
      = dx + dy * st.range.extent.x + dz * st.range.extent.x * st.range.extent.y := by
    apply Nat.mod_eq_of_lt; omega
  rw [e1, e2, e3, e4, e5]
  generalize st.channel_n * (dx + dy * st.range.extent.x
    + dz * st.range.extent.x * st.range.extent.y) = m at haddr b2 ⊢
  have e6 : u64 m = m := by apply Nat.mod_eq_of_lt; omega
  have e7 : u64 (v + m) = v + m := by apply Nat.mod_eq_of_lt; omega
  have e8 : u64 (4 * (v + m)) = 4 * (v + m) := by apply Nat.mod_eq_of_lt; omega
  have e9 : u64 (st.offset + 4 * (v + m)) = st.offset + 4 * (v + m) := by
    apply Nat.mod_eq_of_lt; omega
  rw [e6, e7, e8, e9]

/-- After a magic that does not match, on a fresh parser, `load_region` reads the
word that follows the magic. -/
theorem load_region_after_error (input : List Nat) (p : GvoxOffset3D) (c : Nat)
    (hm : read_u32 input 0 ≠ 7501415) :
    (blit_begin input raw_fresh_state).2 = [GvoxResult.ERROR_PARSE_ADAPTER_INVALID_INPUT]
      ∧ (blit_begin input raw_fresh_state).1 = { raw_fresh_state with offset := 4 }
      ∧ load_region input (blit_begin input raw_fresh_state).1 p c
        = { range := { offset := p, extent := { x := 1, y := 1, z := 1 } },
            channels := c, flags := GVOX_REGION_FLAG_UNIFORM, data := read_u32 input 4 } := by
  have hb := blit_begin_bad input raw_fresh_state (by decide) hm
  have hv : voxel_channel_index 0 c = 0 := by
    unfold voxel_channel_index
    generalize List.range c = l
    induction l with
    | nil => rfl
    | cons i l ih =>
      rw [List.foldl_cons, if_neg (by simp)]
      exact ih
  rw [hb]
  refine ⟨rfl, rfl, ?_⟩
  unfold load_region
  simp only []
  have hf : raw_fresh_state.channel_flags = 0 := rfl
  have hn : raw_fresh_state.channel_n = 0 := rfl
  have ho : raw_fresh_state.offset + 4 = 4 := rfl
  rw [hf, hn, ho, hv, Nat.zero_mul]
  rfl

theorem read_u32_of_length_le (buf : List Nat) (off : Nat) (h : buf.length ≤ off) :
    read_u32 buf off = 0 := by
  unfold read_u32
  rw [List.getD_eq_default _ _ h, List.getD_eq_default _ _ (by omega),
    List.getD_eq_default _ _ (by omega), List.getD_eq_default _ _ (by omega)]

/-- The raw container as a list of little-endian words. -/
theorem raw_container_eq (range : GvoxRegionRange) (flags : Nat) (samples : List Nat) :
    raw_container range flags samples
      = [7501415, of_i32 range.offset.x, of_i32 range.offset.y, of_i32 range.offset.z,
          range.extent.x, range.extent.y, range.extent.z, flags].flatMap le32
        ++ samples.flatMap le32 := by
  unfold raw_container range_bytes
  have hm : ([103, 118, 114, 0] : List Nat) = le32 7501415 := by decide
  rw [hm]
  simp only [List.flatMap_cons, List.flatMap_nil, List.append_nil, List.append_assoc]

theorem raw_container_length (range : GvoxRegionRange) (flags : Nat) (samples : List Nat) :
    (raw_container range flags samples).length = 32 + 4 * samples.length := by
  rw [raw_container_eq, List.length_append, words_bytes_length, words_bytes_length]
  rfl

theorem raw_container_sample (range : GvoxRegionRange) (flags : Nat) (samples : List Nat)
    (i : Nat) :
    read_u32 (raw_container range flags samples) (32 + 4 * i)
      = samples.getD i 0 % 4294967296 := by
  rw [raw_container_eq]
  have h := read_u32_append_right ([7501415, of_i32 range.offset.x, of_i32 range.offset.y,
    of_i32 range.offset.z, range.extent.x, range.extent.y, range.extent.z,
    flags].flatMap le32) (samples.flatMap le32) (4 * i)
  rw [words_bytes_length] at h
  rw [← read_u32_words_bytes]
  exact h

/-- The state `blit_begin` leaves on a raw container read from its start. -/
theorem raw_container_blit (range : GvoxRegionRange) (flags : Nat) (samples : List Nat)
    (hr : range_typed range) (hf : flags < 4294967296) :
    blit_begin (raw_container range flags samples) raw_fresh_state
      = ({ range := range, channel_flags := flags, channel_n := popcount flags,
           offset := 32 }, []) := by
  have hW := fun i hi => read_preamble [7501415, of_i32 range.offset.x, of_i32 range.offset.y,
    of_i32 range.offset.z, range.extent.x, range.extent.y, range.extent.z, flags]
    (samples.flatMap le32) i hi
  rw [← raw_container_eq] at hW
  obtain ⟨⟨hox, hoy, hoz⟩, hex, hey, hez⟩ := hr
  have r0 : read_u32 (raw_container range flags samples) raw_fresh_state.offset = 7501415 :=
    hW 0 (by simp)
  have r4 : to_i32 (read_u32 (raw_container range flags samples) 4) = range.offset.x := by
    rw [show read_u32 (raw_container range flags samples) 4 = _ from hW 1 (by simp)]
    exact to_i32_of_i32 _ hox
  have r8 : to_i32 (read_u32 (raw_container range flags samples) 8) = range.offset.y := by
    rw [show read_u32 (raw_container range flags samples) 8 = _ from hW 2 (by simp)]
    exact to_i32_of_i32 _ hoy
  have r12 : to_i32 (read_u32 (raw_container range flags samples) 12) = range.offset.z := by
    rw [show read_u32 (raw_container range flags samples) 12 = _ from hW 3 (by simp)]
    exact to_i32_of_i32 _ hoz
  have r16 : read_u32 (raw_container range flags samples) 16 = range.extent.x :=
    (hW 4 (by simp)).trans (Nat.mod_eq_of_lt hex)
  have r20 : read_u32 (raw_container range flags samples) 20 = range.extent.y :=
    (hW 5 (by simp)).trans (Nat.mod_eq_of_lt hey)
  have r24 : read_u32 (raw_container range flags samples) 24 = range.extent.z :=
    (hW 6 (by simp)).trans (Nat.mod_eq_of_lt hez)
  have r28 : read_u32 (raw_container range flags samples) 28 = flags :=
    (hW 7 (by simp)).trans (Nat.mod_eq_of_lt hf)
  rw [blit_begin_ok _ raw_fresh_state (by decide) r0]
  have ho : raw_fresh_state.offset = 0 := rfl
  rw [ho]
  unfold read_range
  simp only [Nat.zero_add, Nat.reduceAdd, r4, r8, r12, r16, r20, r24, r28]

/-- A raw container whose row of `2^31 + 1` voxels starts at `x = -1`: the last voxel
holds 1, the others 0.  The difference `offset.x - range.offset.x` of the last voxel
is `2^31`, which wraps in `int32_t`, and `load_region` reads far beyond the input. -/
theorem raw_wide_row :
    blit_begin (raw_container
        { offset := { x := -1, y := 0, z := 0 }, extent := { x := 2147483649, y := 1, z := 1 } }
        1 (List.replicate 2147483648 0 ++ [1])) raw_fresh_state
      = ({ range := { offset := { x := -1, y := 0, z := 0 },
                      extent := { x := 2147483649, y := 1, z := 1 } },
           channel_flags := 1, channel_n := 1, offset := 32 }, [])
    ∧ load_region (raw_container
        { offset := { x := -1, y := 0, z := 0 }, extent := { x := 2147483649, y := 1, z := 1 } }
        1 (List.replicate 2147483648 0 ++ [1]))
        { range := { offset := { x := -1, y := 0, z := 0 },
                      extent := { x := 2147483649, y := 1, z := 1 } },
           channel_flags := 1, channel_n := 1, offset := 32 }
        { x := 2147483647, y := 0, z := 0 } 0
      = { range := { offset := { x := 2147483647, y := 0, z := 0 },
                     extent := { x := 1, y := 1, z := 1 } },
          channels := 0, flags := GVOX_REGION_FLAG_UNIFORM, data := 0 }
    ∧ read_u32 (raw_container
        { offset := { x := -1, y := 0, z := 0 }, extent := { x := 2147483649, y := 1, z := 1 } }
        1 (List.replicate 2147483648 0 ++ [1])) (32 + 4 * 2147483648) = 1 := by
  refine ⟨?_, ?_, ?_⟩
  · have h := raw_container_blit
      { offset := { x := -1, y := 0, z := 0 }, extent := { x := 2147483649, y := 1, z := 1 } }
      1 (List.replicate 2147483648 0 ++ [1])
      (by unfold range_typed offset_typed is_i32; decide) (by decide)
    have hp : popcount 1 = 1 := by decide
    rw [hp] at h
    exact h
  · have hlen := raw_container_length
      { offset := { x := -1, y := 0, z := 0 }, extent := { x := 2147483649, y := 1, z := 1 } }
      1 (List.replicate 2147483648 0 ++ [1])
    rw [List.length_append, List.length_replicate] at hlen
    generalize raw_container
      { offset := { x := -1, y := 0, z := 0 }, extent := { x := 2147483649, y := 1, z := 1 } }
      1 (List.replicate 2147483648 0 ++ [1]) = input at hlen ⊢
    have ha : u64 (32 + u64 (4 * u64 (voxel_channel_index 1 0
        + u64 (1 * u64 (u64 (to_size_t (wrap_i32 (2147483647 - (-1)))
            + u64 (to_size_t (wrap_i32 (0 - 0)) * 2147483649))
          + u64 (u64 (to_size_t (wrap_i32 (0 - 0)) * 2147483649) * 1))))))
        = 18446744065119617056 := by decide
    unfold load_region
    simp only []
    rw [ha, read_u32_of_length_le input _ (by rw [hlen]; decide)]
  · have h := raw_container_sample
      { offset := { x := -1, y := 0, z := 0 }, extent := { x := 2147483649, y := 1, z := 1 } }
      1 (List.replicate 2147483648 0 ++ [1]) 2147483648
    rw [h, List.getD_append_right _ _ _ _ (by rw [List.length_replicate]),
      List.length_replicate, Nat.sub_self]
    rfl


/-! ## The packed write stays in its slice; the region grid; the frame of a task -/

theorem calc_palette_region_size_eq (bits : Nat) :
    calc_palette_region_size bits = 64 * bits + 4 := by
  unfold calc_palette_region_size REGION_SIZE
  omega

theorem ceil_log2_palette_bits (n : Nat) (h1 : 1 < n)
    (h2 : n ≤ MAX_REGION_COMPRESSED_VARIANT_N) :
    1 ≤ ceil_log2 n ∧ ceil_log2 n ≤ 9 := by
  have hn : n < 513 := by unfold MAX_REGION_COMPRESSED_VARIANT_N at h2; omega
  obtain ⟨a, b, _, _⟩ := ceil_log2_small n hn
  refine ⟨?_, b⟩
  by_contra h0
  have : ceil_log2 n = 0 := by omega
  rw [this] at a
  simp at a
  omega

theorem packed_byte_bound (idx bits : Nat) (hidx : idx < 512) (hbits : bits ≤ 9) :
    u32 (u32 idx * bits) / 8 = idx * bits / 8
      ∧ idx * bits / 8 + 4 ≤ calc_palette_region_size bits := by
  rw [calc_palette_region_size_eq]
  have h1 : u32 idx = idx := u32_of_lt (by omega)
  have h3 : idx * bits ≤ 511 * 9 := Nat.mul_le_mul (by omega) hbits
  have h2 : u32 (idx * bits) = idx * bits := u32_of_lt (by omega)
  have h4 : idx * bits ≤ 511 * bits := Nat.mul_le_mul_right _ (by omega)
  rw [h1, h2]
  refine ⟨rfl, ?_⟩
  omega

theorem palette_fill_step_error (S : Sampler) (range : GvoxRegionRange) (ox oy oz ch : Nat)
    (n bits : Nat) (buf : List Nat) (c : Nat × Nat × Nat) (e : GvoxResult)
    (hc : c ∈ region_coords) (hbits : bits ≤ 9)
    (hlen : buf.length = 4 * n + calc_palette_region_size bits)
    (he : palette_fill_step S range ox oy oz ch n bits buf c = .error e) :
    (read_words buf 0 n).indexOf (region_voxel S range ox oy oz ch c) = n := by
  by_contra hne
  have hidx := in_region_index_lt c hc
  unfold in_region_index at hidx
  obtain ⟨hb1, hb2⟩ := packed_byte_bound _ bits hidx hbits
  unfold palette_fill_step at he
  simp only [if_neg hne] at he
  rw [if_neg (by rw [hlen]; unfold REGION_SIZE at hb1 hb2 ⊢; rw [hb1]; omega)] at he
  exact absurd he (by simp)

theorem region_count_ceil (e : Nat) (h : e + 7 < 4294967296) :
    region_count e = (e + 7) / 8 ∧ e ≤ 8 * region_count e ∧ 8 * region_count e < e + 8 := by
  have h1 := region_count_eq e h
  unfold REGION_SIZE at h1
  have h2 : e + 8 - 1 = e + 7 := by omega
  rw [h2] at h1
  rw [h1]
  refine ⟨rfl, ?_, ?_⟩ <;> omega

theorem voxel_region_unique (range : GvoxRegionRange) (flags : Nat) (dx dy dz ci : Nat)
    (hx : range.extent.x + 7 < 4294967296) (hy : range.extent.y + 7 < 4294967296)
    (hz : range.extent.z + 7 < 4294967296)
    (hdx : dx < range.extent.x) (hdy : dy < range.extent.y) (hdz : dz < range.extent.z)
    (hci : ci < (channel_list flags).length) :
    (dx / 8, dy / 8, dz / 8, ci) ∈ enqueued_tasks range flags
      ∧ ∀ t ∈ enqueued_tasks range flags, t.2.2.2 = ci →
          8 * t.1 ≤ dx → dx < 8 * t.1 + 8 → 8 * t.2.1 ≤ dy → dy < 8 * t.2.1 + 8 →
          8 * t.2.2.1 ≤ dz → dz < 8 * t.2.2.1 + 8 → t = (dx / 8, dy / 8, dz / 8, ci) := by
  obtain ⟨ex, _, _⟩ := region_count_ceil range.extent.x hx
  obtain ⟨ey, _, _⟩ := region_count_ceil range.extent.y hy
  obtain ⟨ez, _, _⟩ := region_count_ceil range.extent.z hz
  constructor
  · unfold enqueued_tasks
    rw [mem_region_tasks, ex, ey, ez]
    refine ⟨?_, ?_, ?_, hci⟩ <;> simp only [] <;> omega
  · intro t _ h1 h2 h3 h4 h5 h6 h7
    obtain ⟨a, b, c, d⟩ := t
    simp only [] at h1 h2 h3 h4 h5 h6 h7
    have ha : a = dx / 8 := by omega
    have hb : b = dy / 8 := by omega
    have hc : c = dz / 8 := by omega
    rw [ha, hb, hc, h1]

theorem add_region_frame_facts (S : Sampler) (hash_order : List Nat → List Nat)
    (st : GvoxPaletteSerializeUserState) (range : GvoxRegionRange)
    (rx ry rz ci : Nat) (channels : List Nat) (hperm : ∀ l, (hash_order l).Perm l)
    (hx : rx < 536870912) (hy : ry < 536870912) (hz : rz < 536870912) (hst : state_ok st)
    (hs : header_slot_offset range rx ry rz ci channels.length + 8 ≤ st.data.length) :
    (∀ k, k < st.data.length →
        (k < header_slot_offset range rx ry rz ci channels.length
          ∨ header_slot_offset range rx ry rz ci channels.length + 8 ≤ k) →
        (add_region S hash_order st range rx ry rz ci channels).user_state.data.getD k 0
          = st.data.getD k 0)
      ∧ (∀ k, k < 8 →
          (add_region S hash_order st range rx ry rz ci channels).user_state.data.getD
              (header_slot_offset range rx ry rz ci channels.length + k) 0
            = (header_bytes
                (add_region S hash_order st range rx ry rz ci channels).region_header).getD k 0)
      ∧ (∀ k, k < (add_region S hash_order st range rx ry rz ci channels).size →
          (add_region S hash_order st range rx ry rz ci channels).user_state.data.getD
              (st.data.length + k) 0
            = (region_local_data S range rx ry rz (channels.getD ci 0)).getD k 0) := by
  have h := add_region_effect S hash_order st range rx ry rz ci channels hperm hx hy hz hst
  simp only [] at h
  obtain ⟨_, _, a3, _, _, _, _, a8⟩ := h
  have hd := a8 hs
  have hl : (write_bytes st.data (header_slot_offset range rx ry rz ci channels.length)
      (header_bytes (add_region S hash_order st range rx ry rz ci
        channels).region_header)).length = st.data.length := write_bytes_length _ _ _
  have hb : (header_bytes (add_region S hash_order st range rx ry rz ci
      channels).region_header).length = 8 := header_bytes_length _
  refine ⟨?_, ?_, ?_⟩
  · intro k hk hout
    rw [hd, List.getD_append _ _ _ _ (by rw [hl]; exact hk),
      getD_write_bytes _ _ _ _ (by rw [hb]; exact hs), hb, if_neg (by omega)]
  · intro k hk
    rw [hd, List.getD_append _ _ _ _ (by rw [hl]; omega),
      getD_write_bytes _ _ _ _ (by rw [hb]; exact hs), hb, if_pos (by omega)]
    congr 1
    omega
  · intro k _
    rw [hd]
    have e : st.data.length + k = (write_bytes st.data
        (header_slot_offset range rx ry rz ci channels.length)
        (header_bytes (add_region S hash_order st range rx ry rz ci
          channels).region_header)).length + k := by rw [hl]
    rw [e, List.getD_append_right _ _ _ _ (by omega)]
    congr 1
    omega

theorem sorted_pair_eq (pal : List Nat) (a b : Nat) (hab : a < b) (hl : pal.length = 2)
    (hs : List.Sorted (· < ·) pal) (hm : ∀ w, w ∈ pal ↔ w = a ∨ w = b) : pal = [a, b] := by
  match pal, hl with
  | [x, y], _ =>
    have hxy : x < y := by
      have := List.pairwise_cons.mp hs
      exact this.1 y (by simp)
    have hx := (hm x).mp (by simp)
    have hy := (hm y).mp (by simp)
    have hx2 : x = a := by omega
    have hy2 : y = b := by omega
    rw [hx2, hy2]

theorem serialize_region_errors (S : Sampler) (hash_order : List Nat → List Nat)
    (pool : List RegionTask → List RegionTask) (range : GvoxRegionRange) (flags : Nat)
    (hperm : ∀ l, (hash_order l).Perm l) (hpool : ∀ l, (pool l).Perm l) :
    (serialize_region S hash_order pool [] fresh_state range flags).errors = [] := by
  rw [serialize_region_fresh S hash_order pool range flags hperm hpool]
  exact (run_general S hash_order range (channel_list flags) hperm
    (pool (enqueued_tasks range flags)) (run_init range flags)
    (pool_task_ok pool range flags hpool)).2.2.2.2.1

/-! ## The legacy codec -/

theorem chunk_coords_eq : chunk_coords = region_coords := by
  unfold chunk_coords region_coords CHUNK_SIZE REGION_SIZE
  rfl

theorem chunk_voxel_index_one (c : Nat × Nat × Nat) (hc : c ∈ region_coords) :
    chunk_voxel_index 8 8 0 0 0 c = in_region_index c := by
  rw [mem_region_coords] at hc
  unfold chunk_voxel_index in_region_index CHUNK_SIZE REGION_SIZE u64
  simp only []
  omega

theorem chunk_tile_set_facts (node : GVoxSceneNode) (cx cy cz : Nat) :
    (chunk_tile_set node cx cy cz).Nodup
      ∧ (∀ w, w ∈ chunk_tile_set node cx cy cz
          ↔ w ∈ region_coords.map (chunk_voxel node cx cy cz))
      ∧ (chunk_tile_set node cx cy cz).length
          = (region_coords.map (chunk_voxel node cx cy cz)).toFinset.card
      ∧ (chunk_tile_set node cx cy cz).length ≤ 512
      ∧ (∀ w ∈ chunk_tile_set node cx cy cz, w < 4294967296) := by
  have h := foldl_tile_set (chunk_voxel node cx cy cz) region_coords [] List.nodup_nil
  have hnd : (chunk_tile_set node cx cy cz).Nodup := by
    unfold chunk_tile_set
    rw [chunk_coords_eq]
    exact h.1
  have hmem : ∀ w, w ∈ chunk_tile_set node cx cy cz
      ↔ w ∈ region_coords.map (chunk_voxel node cx cy cz) := by
    intro w
    unfold chunk_tile_set
    rw [chunk_coords_eq, h.2 w]
    simp
  have hlen : (chunk_tile_set node cx cy cz).length
      = (region_coords.map (chunk_voxel node cx cy cz)).toFinset.card := by
    have e : (chunk_tile_set node cx cy cz).toFinset
        = (region_coords.map (chunk_voxel node cx cy cz)).toFinset := by
      ext w
      simp only [List.mem_toFinset]
      exact hmem w
    rw [← List.toFinset_card_of_nodup hnd, e]
  refine ⟨hnd, hmem, hlen, ?_, ?_⟩
  · rw [hlen]
    refine le_trans (List.toFinset_card_le _) ?_
    rw [List.length_map, region_coords_length]
  · intro w hw
    rw [hmem, List.mem_map] at hw
    obtain ⟨c, _, rfl⟩ := hw
    unfold chunk_voxel
    exact u32_lt _

theorem node_ramp_voxels :
    region_coords.map (chunk_voxel node_ramp 0 0 0) = List.range 512 := by
  rw [← map_in_region_index]
  apply List.map_congr_left
  intro c hc
  unfold chunk_voxel
  have e1 : node_ramp.size_x = 8 := rfl
  have e2 : node_ramp.size_y = 8 := rfl
  rw [e1, e2, chunk_voxel_index_one c hc]
  have := in_region_index_lt c hc
  show u32 (in_region_index c) = in_region_index c
  exact u32_of_lt (by omega)

theorem node_ramp_variants : (chunk_tile_set node_ramp 0 0 0).length = 512 := by
  rw [(chunk_tile_set_facts node_ramp 0 0 0).2.2.1, node_ramp_voxels,
    List.toFinset_card_of_nodup (List.nodup_range 512), List.length_range]

theorem ceil_log2_nine (n : Nat) (h1 : n < 513) (h2 : 256 < n) : ceil_log2 n = 9 := by
  obtain ⟨a, b, _, _⟩ := ceil_log2_small n h1
  by_contra hne
  have h8 : ceil_log2 n ≤ 8 := by omega
  have hp : 2 ^ ceil_log2 n ≤ 2 ^ 8 := Nat.pow_le_pow_right (by decide) h8
  have e : (2 : Nat) ^ 8 = 256 := by norm_num
  omega

theorem chunk_fill_loop_none (step : List Nat → Nat × Nat × Nat → Option (List Nat))
    (h : ∀ b c, step b c = none) (buf : List Nat) (c : Nat × Nat × Nat)
    (cs : List (Nat × Nat × Nat)) : chunk_fill_loop step buf (c :: cs) = none := by
  unfold chunk_fill_loop
  rw [h buf c]

theorem chunk_coords_cons : ∃ c cs, chunk_coords = c :: cs := by
  have h := region_coords_length
  rw [← chunk_coords_eq] at h
  match hc : chunk_coords with
  | [] => rw [hc] at h; exact absurd h (by simp)
  | c :: cs => exact ⟨c, cs, rfl⟩

theorem chunk_variance_wide (hash_order : List Nat → List Nat) (data : List Nat)
    (node : GVoxSceneNode) (cx cy cz : Nat)
    (h : 256 < (chunk_tile_set node cx cy cz).length) :
    ceil_log2 (u64 (chunk_tile_set node cx cy cz).length) = 9
      ∧ chunk_variance hash_order data node cx cy cz = none := by
  have hle := (chunk_tile_set_facts node cx cy cz).2.2.2.1
  have hu : u64 (chunk_tile_set node cx cy cz).length = (chunk_tile_set node cx cy cz).length := by
    unfold u64; omega
  have hb : ceil_log2 (chunk_tile_set node cx cy cz).length = 9 :=
    ceil_log2_nine _ (by omega) h
  refine ⟨by rw [hu]; exact hb, ?_⟩
  unfold chunk_variance
  simp only [hu, hb]
  rw [if_pos (by omega)]
  obtain ⟨c, cs, hc⟩ := chunk_coords_cons
  rw [hc, chunk_fill_loop_none _ _ _ c cs]
  intro b c1
  unfold chunk_fill_step
  have hm : mask_bases_at 9 = none := by decide
  simp only [hm]

theorem parse_palette_id_assert (payload : List Nat) (buffer_ptr size_x size_y : Nat)
    (cx cy cz : Nat) (c : Nat × Nat × Nat)
    (h : ¬ ceil_log2 (read_u32 payload buffer_ptr) < 9) :
    parse_palette_id payload buffer_ptr size_x size_y cx cy cz c = none := by
  unfold parse_palette_id
  simp only []
  rw [if_pos h]

theorem getD_write_bytes_below (buf bytes : List Nat) (off k : Nat) (h : k < off) :
    (write_bytes buf off bytes).getD k 0 = buf.getD k 0 := by
  by_cases hf : off + bytes.length ≤ buf.length
  · rw [getD_write_bytes buf bytes off k hf, if_neg (by omega)]
  · unfold write_bytes
    rw [if_neg hf]

theorem mask_bases_at_some (k : Nat) (h : k < 9) : mask_bases_at k = some (2 ^ (k + 1) - 1) := by
  revert k
  decide

theorem chunk_fill_step_frame (node : GVoxSceneNode) (cx cy cz pb ob n bits m : Nat)
    (hm : mask_bases_at bits = some m) (data : List Nat) (c : Nat × Nat × Nat) :
    ∃ d1, chunk_fill_step node cx cy cz pb ob n bits data c = some d1
      ∧ d1.length = data.length ∧ ∀ k, k < ob → d1.getD k 0 = data.getD k 0 := by
  unfold chunk_fill_step
  simp only [hm]
  refine ⟨_, rfl, write_bytes_length _ _ _, ?_⟩
  intro k hk
  exact getD_write_bytes_below _ _ _ _ (by omega)

theorem chunk_fill_loop_frame (node : GVoxSceneNode) (cx cy cz pb ob n bits m : Nat)
    (hm : mask_bases_at bits = some m) (cs : List (Nat × Nat × Nat)) :
    ∀ data : List Nat, ∃ d1,
      chunk_fill_loop (chunk_fill_step node cx cy cz pb ob n bits) data cs = some d1
      ∧ d1.length = data.length ∧ ∀ k, k < ob → d1.getD k 0 = data.getD k 0 := by
  induction cs with
  | nil =>
    intro data
    exact ⟨data, rfl, rfl, fun _ _ => rfl⟩
  | cons c cs ih =>
    intro data
    obtain ⟨d1, h1, h2, h3⟩ := chunk_fill_step_frame node cx cy cz pb ob n bits m hm data c
    obtain ⟨d2, g1, g2, g3⟩ := ih d1
    refine ⟨d2, ?_, by rw [g2, h2], fun k hk => by rw [g3 k hk, h3 k hk]⟩
    unfold chunk_fill_loop
    rw [h1]
    exact g1

theorem chunk_variance_header (hash_order : List Nat → List Nat) (data : List Nat)
    (node : GVoxSceneNode) (cx cy cz : Nat) (hperm : ∀ l, (hash_order l).Perm l)
    (h1 : 1 < (chunk_tile_set node cx cy cz).length)
    (h2 : (chunk_tile_set node cx cy cz).length ≤ 256) :
    ∃ out size, chunk_variance hash_order data node cx cy cz = some (out, size)
      ∧ out.length = data.length + size
      ∧ read_u32 out data.length = (chunk_tile_set node cx cy cz).length
      ∧ read_words out (data.length + 4) (chunk_tile_set node cx cy cz).length
          = hash_order (chunk_tile_set node cx cy cz)
      ∧ ∀ k, k < data.length → out.getD k 0 = data.getD k 0 := by
  obtain ⟨_, _, _, _, hlt⟩ := chunk_tile_set_facts node cx cy cz
  have hu : u64 (chunk_tile_set node cx cy cz).length = (chunk_tile_set node cx cy cz).length := by
    unfold u64; omega
  have hb : ceil_log2 (chunk_tile_set node cx cy cz).length < 9 := by
    obtain ⟨a, b, c, _⟩ := ceil_log2_small (chunk_tile_set node cx cy cz).length (by omega)
    by_contra hne
    have h9 : ceil_log2 (chunk_tile_set node cx cy cz).length = 9 := by omega
    rw [h9] at c
    have := c h1
    norm_num at this
    omega
  have hm := mask_bases_at_some _ hb
  have hpl : (hash_order (chunk_tile_set node cx cy cz)).length
      = (chunk_tile_set node cx cy cz).length := (hperm _).length_eq
  have hplt : ∀ w ∈ hash_order (chunk_tile_set node cx cy cz), w < 4294967296 :=
    fun w hw => hlt w ((hperm _).mem_iff.mp hw)
  unfold chunk_variance
  simp only [hu]
  rw [if_pos (by omega), if_pos (by omega)]
  generalize hsz : 4 + 4 * (chunk_tile_set node cx cy cz).length
      + ((CHUNK_SIZE * CHUNK_SIZE * CHUNK_SIZE
          * ceil_log2 (chunk_tile_set node cx cy cz).length) / 8 + 3) / 4 * 4 + 1 + 4 = size
  have hsize : 4 + 4 * (chunk_tile_set node cx cy cz).length ≤ size := by omega
  generalize hd0 : write_words (write_bytes (data ++ List.replicate size 0) data.length
      (le32 (u32 (chunk_tile_set node cx cy cz).length))) (data.length + 4)
      (hash_order (chunk_tile_set node cx cy cz)) = d0
  have hl1 : (write_bytes (data ++ List.replicate size 0) data.length
      (le32 (u32 (chunk_tile_set node cx cy cz).length))).length = data.length + size := by
    rw [write_bytes_length, List.length_append, List.length_replicate]
  have hl0 : d0.length = data.length + size := by
    rw [← hd0, write_words_length, hl1]
  have hfit : data.length + 4 + 4 * (hash_order (chunk_tile_set node cx cy cz)).length
      ≤ (write_bytes (data ++ List.replicate size 0) data.length
        (le32 (u32 (chunk_tile_set node cx cy cz).length))).length := by
    rw [hl1, hpl]; omega
  have hw0 : read_words d0 (data.length + 4) (chunk_tile_set node cx cy cz).length
      = hash_order (chunk_tile_set node cx cy cz) := by
    have hrw := read_words_write_words (hash_order (chunk_tile_set node cx cy cz))
      (write_bytes (data ++ List.replicate size 0) data.length
        (le32 (u32 (chunk_tile_set node cx cy cz).length))) (data.length + 4) hfit hplt
    rw [hpl, hd0] at hrw
    exact hrw
  have hr0 : read_u32 d0 data.length = (chunk_tile_set node cx cy cz).length := by
    rw [← hd0, write_words_eq _ _ _ hfit,
      read_u32_write_bytes_disjoint _ _ _ _ (Or.inl (le_refl _)),
      read_u32_write_bytes_same _ _ _ (by
        rw [List.length_append, List.length_replicate]; omega)]
    have : u32 (chunk_tile_set node cx cy cz).length = (chunk_tile_set node cx cy cz).length :=
      u32_of_lt (by omega)
    rw [this]
    omega
  have hp0 : ∀ k, k < data.length → d0.getD k 0 = data.getD k 0 := by
    intro k hk
    rw [← hd0, write_words_eq _ _ _ hfit, getD_write_bytes_below _ _ _ _ (by omega),
      getD_write_bytes_below _ _ _ _ hk, List.getD_append _ _ _ _ hk]
  obtain ⟨d1, g1, g2, g3⟩ := chunk_fill_loop_frame node cx cy cz (data.length + 4)
    (data.length + 4 + 4 * (chunk_tile_set node cx cy cz).length)
    (chunk_tile_set node cx cy cz).length _ _ hm chunk_coords d0
  rw [g1]
  refine ⟨d1, size, rfl, by rw [g2, hl0], ?_, ?_, ?_⟩
  · rw [← hr0]
    exact read_u32_congr _ _ _ _ (fun k hk => g3 _ (by omega))
  · rw [← hw0]
    apply read_words_congr
    intro k hk
    exact g3 _ (by omega)
  · intro k hk
    rw [g3 k (by omega), hp0 k hk]

theorem parse_palette_id_two (payload : List Nat) (buffer_ptr : Nat) (c : Nat × Nat × Nat)
    (hc : c ∈ region_coords) (h2 : 2 ≤ c.1) (hv : read_u32 payload buffer_ptr = 2) :
    parse_palette_id payload buffer_ptr 8 8 0 0 0 c = some 0 := by
  have hidx := in_region_index_lt c hc
  have hi : in_region_index c = c.1 + 8 * (c.2.1 + 8 * c.2.2) := by
    unfold in_region_index REGION_SIZE; omega
  rw [mem_region_coords] at hc
  unfold parse_palette_id
  have hb : ceil_log2 2 = 1 := by decide
  have hm : mask_bases_at 1 = some 3 := by decide
  simp only [hv, hb, chunk_voxel_index_one c ((mem_region_coords c).mpr hc), hm]
  rw [if_neg (by decide), if_neg (by decide)]
  have hu : u32 (in_region_index c * 1) = in_region_index c := by
    rw [Nat.mul_one]; exact u32_of_lt (by omega)
  rw [hu]
  have hoff : in_region_index c - in_region_index c / 8 * 8 = c.1 := by omega
  rw [hoff, Nat.shiftRight_eq_div_pow]
  have hle : read_u32 payload (buffer_ptr + 4 + 2 * 4 + in_region_index c / 8) &&& 3 ≤ 3 :=
    Nat.and_le_right
  have hp : 4 ≤ 2 ^ c.1 := by
    have : 2 ^ 2 ≤ 2 ^ c.1 := Nat.pow_le_pow_right (by decide) h2
    omega
  rw [Nat.div_eq_of_lt (by omega)]

theorem indexOf_ne_zero (l : List Nat) (v : Nat) (h : l.getD 0 0 ≠ v) (hl : l ≠ []) :
    l.indexOf v ≠ 0 := by
  match l, hl with
  | a :: t, _ =>
    have ha : a ≠ v := h
    rw [List.indexOf_cons_ne _ ha]
    omega

theorem node_two_voxel (c : Nat × Nat × Nat) (hc : c ∈ region_coords) :
    chunk_voxel node_two 0 0 0 c = if in_region_index c = 2 then 1 else 0 := by
  unfold chunk_voxel
  have e1 : node_two.size_x = 8 := rfl
  have e2 : node_two.size_y = 8 := rfl
  rw [e1, e2, chunk_voxel_index_one c hc]
  show u32 (if in_region_index c = 2 then 1 else 0) = _
  split <;> rfl

theorem node_two_variants : (chunk_tile_set node_two 0 0 0).length = 2 := by
  rw [(chunk_tile_set_facts node_two 0 0 0).2.2.1]
  have e : (region_coords.map (chunk_voxel node_two 0 0 0)).toFinset = {1, 0} := by
    ext w
    simp only [List.mem_toFinset, List.mem_map, Finset.mem_insert, Finset.mem_singleton]
    constructor
    · rintro ⟨c, hc, rfl⟩
      rw [node_two_voxel c hc]
      split
      · exact Or.inl rfl
      · exact Or.inr rfl
    · rintro (rfl | rfl)
      · exact ⟨(2, 0, 0), (mem_region_coords _).mpr (by simp),
          by rw [node_two_voxel _ ((mem_region_coords _).mpr (by simp))]; rfl⟩
      · exact ⟨(0, 0, 0), (mem_region_coords _).mpr (by simp),
          by rw [node_two_voxel _ ((mem_region_coords _).mpr (by simp))]; rfl⟩
  rw [e]
  rfl

theorem node_two_differ :
    chunk_voxel node_two 0 0 0 (2, 0, 0) ≠ chunk_voxel node_two 0 0 0 (3, 0, 0) := by
  rw [node_two_voxel _ ((mem_region_coords _).mpr (by simp)),
    node_two_voxel _ ((mem_region_coords _).mpr (by simp))]
  decide

theorem legacy_decode_two (hash_order : List Nat → List Nat) (data : List Nat)
    (node : GVoxSceneNode) (hperm : ∀ l, (hash_order l).Perm l)
    (hn : (chunk_tile_set node 0 0 0).length = 2) :
    ∃ out size, chunk_variance hash_order data node 0 0 0 = some (out, size)
      ∧ out.length = data.length + size
      ∧ read_u32 out data.length = 2
      ∧ read_words out (data.length + 4) 2 = hash_order (chunk_tile_set node 0 0 0)
      ∧ (∀ c ∈ chunk_coords, 2 ≤ c.1 →
          parse_palette_id out data.length 8 8 0 0 0 c = some 0
          ∧ parse_voxel out data.length 8 8 0 0 0 c
              = some ((hash_order (chunk_tile_set node 0 0 0)).getD 0 0)) := by
  obtain ⟨out, size, h1, h2, h3, h4, _⟩ := chunk_variance_header hash_order data node 0 0 0
    hperm (by omega) (by omega)
  rw [hn] at h3 h4
  refine ⟨out, size, h1, h2, h3, h4, ?_⟩
  intro c hc hc2
  rw [chunk_coords_eq] at hc
  have hp := parse_palette_id_two out data.length c hc hc2 h3
  refine ⟨hp, ?_⟩
  unfold parse_voxel
  rw [hp]
  show some (read_u32 out (data.length + 4 + 4 * 0)) = _
  rw [← getD_read_words out (data.length + 4) 2 0 (by decide), h4]

/-! ## A call on a used state: the output is shifted by the write offset -/

theorem getD_append_cases (a b : List Nat) (k : Nat) :
    (a ++ b).getD k 0 = if k < a.length then a.getD k 0 else b.getD (k - a.length) 0 := by
  split
  · rename_i h
    exact List.getD_append _ _ _ _ h
  · rename_i h
    have e : k = a.length + (k - a.length) := by omega
    rw [e, List.getD_append_right _ _ _ _ (by omega)]

theorem getD_replicate_zero (n k : Nat) : (List.replicate n 0).getD k 0 = 0 := by
  rw [List.getD_eq_getElem?_getD, List.getElem?_replicate]
  split <;> rfl

theorem getD_pad (out : List Nat) (n k : Nat) :
    (out ++ List.replicate n 0).getD k 0 = out.getD k 0 := by
  rw [getD_append_cases]
  split
  · rfl
  · rename_i h
    rw [getD_replicate_zero, getD_of_le_length out k (by omega)]

theorem getD_take_lt (l : List Nat) (n k : Nat) (h : k < n) :
    (l.take n).getD k 0 = l.getD k 0 := by
  rw [List.getD_eq_getElem?_getD, List.getD_eq_getElem?_getD, List.getElem?_take_of_lt h]

theorem getD_drop (l : List Nat) (n k : Nat) : (l.drop n).getD k 0 = l.getD (n + k) 0 := by
  rw [List.getD_eq_getElem?_getD, List.getD_eq_getElem?_getD, List.getElem?_drop]

theorem output_write_length (out bytes : List Nat) (off : Nat) :
    (gvox_output_write out off bytes).length = max out.length (off + bytes.length) := by
  unfold gvox_output_write
  simp only [List.length_append, List.length_take, List.length_drop, List.length_replicate]
  omega

theorem output_write_getD (out bytes : List Nat) (off k : Nat) :
    (gvox_output_write out off bytes).getD k 0
      = if off ≤ k ∧ k < off + bytes.length then bytes.getD (k - off) 0 else out.getD k 0 := by
  unfold gvox_output_write
  simp only []
  have hlen : (List.take off (out ++ List.replicate (off + bytes.length - out.length) 0)).length
      = off := by
    rw [List.length_take, List.length_append, List.length_replicate]
    omega
  rw [List.append_assoc, getD_append_cases, hlen]
  by_cases h1 : k < off
  · rw [if_pos h1, if_neg (by omega), getD_take_lt _ _ _ h1, getD_pad]
  · rw [if_neg h1, getD_append_cases]
    by_cases h2 : k - off < bytes.length
    · rw [if_pos h2, if_pos (by omega)]
    · rw [if_neg h2, if_neg (by omega), getD_drop, getD_pad]
      congr 1
      omega

theorem write_bytes_agree (P : Nat → Prop) (d1 d2 bs : List Nat) (off : Nat)
    (hl : d1.length = d2.length) (hP : ∀ k, P k → d1.getD k 0 = d2.getD k 0) :
    ∀ k, (P k ∨ (off ≤ k ∧ k < off + bs.length ∧ off + bs.length ≤ d1.length)) →
      (write_bytes d1 off bs).getD k 0 = (write_bytes d2 off bs).getD k 0 := by
  intro k hk
  by_cases hf : off + bs.length ≤ d1.length
  · rw [getD_write_bytes d1 bs off k hf, getD_write_bytes d2 bs off k (by rw [← hl]; exact hf)]
    split
    · rfl
    · rename_i hn
      rcases hk with hk | hk
      · exact hP k hk
      · exact absurd ⟨hk.1, hk.2.1⟩ hn
  · unfold write_bytes
    rw [if_neg hf, if_neg (by rw [← hl]; exact hf)]
    rcases hk with hk | hk
    · exact hP k hk
    · exact absurd hk.2.2 hf

theorem publish_region_agree (P : Nat → Prop) (st1 st2 : GvoxPaletteSerializeUserState)
    (range : GvoxRegionRange) (rx ry rz ci cn : Nat) (hdr : ChannelHeader) (L : List Nat)
    (size : Nat) (hb : st1.blobs_begin = st2.blobs_begin)
    (hl : st1.data.length = st2.data.length)
    (hP : ∀ k, P k → st1.data.getD k 0 = st2.data.getD k 0) :
    (publish_region st1 range rx ry rz ci cn hdr L size).user_state.data.length
        = (publish_region st2 range rx ry rz ci cn hdr L size).user_state.data.length
      ∧ ∀ k, (P k ∨ (header_slot_offset range rx ry rz ci cn ≤ k
            ∧ k < header_slot_offset range rx ry rz ci cn + 8
            ∧ header_slot_offset range rx ry rz ci cn + 8 ≤ st1.data.length)) →
          (publish_region st1 range rx ry rz ci cn hdr L size).user_state.data.getD k 0
            = (publish_region st2 range rx ry rz ci cn hdr L size).user_state.data.getD k 0 := by
  constructor
  · rw [publish_region_length, publish_region_length, hl]
  · intro k hk
    have h1 := write_bytes_agree P st1.data st2.data (header_bytes hdr)
      (header_slot_offset range rx ry rz ci cn) hl hP
    rw [header_bytes_length] at h1
    unfold publish_region
    simp only []
    split
    · rw [hb]
      refine write_bytes_agree (fun k => P k ∨ (header_slot_offset range rx ry rz ci cn ≤ k
            ∧ k < header_slot_offset range rx ry rz ci cn + 8
            ∧ header_slot_offset range rx ry rz ci cn + 8 ≤ st1.data.length)) _ _ L _
        (by rw [write_bytes_length, write_bytes_length, hl]) h1 k (Or.inl hk)
    · exact h1 k hk

theorem add_region_agree (S : Sampler) (hash_order : List Nat → List Nat) (P : Nat → Prop)
    (st1 st2 : GvoxPaletteSerializeUserState) (range : GvoxRegionRange)
    (rx ry rz ci : Nat) (channels : List Nat) (hperm : ∀ l, (hash_order l).Perm l)
    (hx : rx < 536870912) (hy : ry < 536870912) (hz : rz < 536870912)
    (hb : st1.blobs_begin = st2.blobs_begin) (hl : st1.data.length = st2.data.length)
    (hP : ∀ k, P k → st1.data.getD k 0 = st2.data.getD k 0) :
    (add_region S hash_order st1 range rx ry rz ci channels).size
        = (add_region S hash_order st2 range rx ry rz ci channels).size
      ∧ (add_region S hash_order st1 range rx ry rz ci channels).region_header
        = (add_region S hash_order st2 range rx ry rz ci channels).region_header
      ∧ (add_region S hash_order st1 range rx ry rz ci channels).errors
        = (add_region S hash_order st2 range rx ry rz ci channels).errors
      ∧ (add_region S hash_order st1 range rx ry rz ci channels).user_state.data.length
        = (add_region S hash_order st2 range rx ry rz ci channels).user_state.data.length
      ∧ ∀ k, (P k ∨ st1.data.length ≤ k
            ∨ (header_slot_offset range rx ry rz ci channels.length ≤ k
              ∧ k < header_slot_offset range rx ry rz ci channels.length + 8
              ∧ header_slot_offset range rx ry rz ci channels.length + 8 ≤ st1.data.length)) →
          (add_region S hash_order st1 range rx ry rz ci channels).user_state.data.getD k 0
            = (add_region S hash_order st2 range rx ry rz ci channels).user_state.data.getD k 0 := by
  rw [add_region_spec S hash_order st1 range rx ry rz ci channels hperm hx hy hz,
    add_region_spec S hash_order st2 range rx ry rz ci channels hperm hx hy hz, hb, hl]
  refine ⟨rfl, rfl, rfl, ?_⟩
  by_cases hn : 1 < distinct_count S range rx ry rz (channels.getD ci 0)
  · simp only [if_pos hn]
    rw [alloc_region_state, alloc_region_state]
    have hl2 : (st1.data ++ List.replicate (region_blob_size
        (distinct_count S range rx ry rz (channels.getD ci 0))) 0).length
        = (st2.data ++ List.replicate (region_blob_size
        (distinct_count S range rx ry rz (channels.getD ci 0))) 0).length := by
      rw [List.length_append, List.length_append, hl]
    have hP2 : ∀ k, (P k ∨ st1.data.length ≤ k) →
        (st1.data ++ List.replicate (region_blob_size
          (distinct_count S range rx ry rz (channels.getD ci 0))) 0).getD k 0
        = (st2.data ++ List.replicate (region_blob_size
          (distinct_count S range rx ry rz (channels.getD ci 0))) 0).getD k 0 := by
      intro k hk
      rw [getD_append_cases, getD_append_cases, hl]
      split
      · rename_i hlt
        rcases hk with hk | hk
        · exact hP k hk
        · omega
      · rfl
    obtain ⟨p1, p2⟩ := publish_region_agree (fun k => P k ∨ st1.data.length ≤ k)
      { st1 with data := st1.data ++ List.replicate (region_blob_size
          (distinct_count S range rx ry rz (channels.getD ci 0))) 0 }
      { st2 with data := st2.data ++ List.replicate (region_blob_size
          (distinct_count S range rx ry rz (channels.getD ci 0))) 0 }
      range rx ry rz ci channels.length
      { variant_n := distinct_count S range rx ry rz (channels.getD ci 0),
        blob_offset := u32_sub st2.data.length st2.blobs_begin }
      (region_local_data S range rx ry rz (channels.getD ci 0))
      (region_blob_size (distinct_count S range rx ry rz (channels.getD ci 0))) hb hl2 hP2
    refine ⟨p1, ?_⟩
    intro k hk
    apply p2 k
    rcases hk with hk | hk | hk
    · exact Or.inl (Or.inl hk)
    · exact Or.inl (Or.inr (by omega))
    · refine Or.inr ⟨hk.1, hk.2.1, ?_⟩
      simp only [List.length_append]
      omega
  · simp only [if_neg hn]
    obtain ⟨p1, p2⟩ := publish_region_agree P st1 st2 range rx ry rz ci channels.length
      { variant_n := distinct_count S range rx ry rz (channels.getD ci 0),
        blob_offset := (region_samples S range rx ry rz (channels.getD ci 0)).headD 0 }
      (region_local_data S range rx ry rz (channels.getD ci 0))
      (region_blob_size (distinct_count S range rx ry rz (channels.getD ci 0))) hb hl hP
    refine ⟨p1, ?_⟩
    intro k hk
    rcases hk with hk | hk | hk
    · exact p2 k (Or.inl hk)
    · rw [getD_of_le_length _ k (by rw [publish_region_length]; omega),
        getD_of_le_length _ k (by rw [publish_region_length]; omega)]
    · exact p2 k (Or.inr ⟨hk.1, hk.2.1, by omega⟩)

theorem run_agree (S : Sampler) (hash_order : List Nat → List Nat) (range : GvoxRegionRange)
    (channels : List Nat) (hperm : ∀ l, (hash_order l).Perm l) (order : List RegionTask) :
    ∀ (P : Nat → Prop) (r1 r2 : RunState), (∀ t ∈ order, task_ok t) →
      r1.user_state.blobs_begin = r2.user_state.blobs_begin →
      r1.user_state.data.length = r2.user_state.data.length →
      r1.size = r2.size → r1.errors = r2.errors → r1.trace = r2.trace →
      (∀ k, P k → r1.user_state.data.getD k 0 = r2.user_state.data.getD k 0) →
      (order.foldl (run_task S hash_order range channels) r1).user_state.blobs_begin
          = (order.foldl (run_task S hash_order range channels) r2).user_state.blobs_begin
        ∧ (order.foldl (run_task S hash_order range channels) r1).user_state.data.length
          = (order.foldl (run_task S hash_order range channels) r2).user_state.data.length
        ∧ (order.foldl (run_task S hash_order range channels) r1).size
          = (order.foldl (run_task S hash_order range channels) r2).size
        ∧ (order.foldl (run_task S hash_order range channels) r1).errors
          = (order.foldl (run_task S hash_order range channels) r2).errors
        ∧ (order.foldl (run_task S hash_order range channels) r1).trace
          = (order.foldl (run_task S hash_order range channels) r2).trace
        ∧ ∀ k, (P k ∨ r1.user_state.data.length ≤ k
              ∨ ∃ t ∈ order, task_slot range channels.length t ≤ k
                  ∧ k < task_slot range channels.length t + 8
                  ∧ task_slot range channels.length t + 8 ≤ r1.user_state.data.length) →
            (order.foldl (run_task S hash_order range channels) r1).user_state.data.getD k 0
              = (order.foldl (run_task S hash_order range channels) r2).user_state.data.getD
                  k 0 := by
  induction order with
  | nil =>
    intro P r1 r2 _ hb hl hs he ht hP
    refine ⟨hb, hl, hs, he, ht, ?_⟩
    intro k hk
    rcases hk with hk | hk | ⟨t, ht, _⟩
    · exact hP k hk
    · show r1.user_state.data.getD k 0 = r2.user_state.data.getD k 0
      rw [getD_of_le_length _ k hk, getD_of_le_length _ k (by omega)]
    · exact absurd ht (List.not_mem_nil _)
  | cons t ts ih =>
    intro P r1 r2 hok hb hl hs he htr hP
    have hto := hok t (List.mem_cons_self _ _)
    obtain ⟨a1, a2, a3, a4, a5⟩ := add_region_agree S hash_order P r1.user_state
      r2.user_state range t.1 t.2.1 t.2.2.1 t.2.2.2 channels hperm hto.1 hto.2.1 hto.2.2 hb
      hl hP
    have rec1 := add_region_record S hash_order r1.user_state range t channels hperm hto
    have rec2 := add_region_record S hash_order r2.user_state range t channels hperm hto
    simp only [] at rec1 rec2
    have hstep := ih (fun k => P k ∨ r1.user_state.data.length ≤ k
        ∨ (task_slot range channels.length t ≤ k
          ∧ k < task_slot range channels.length t + 8
          ∧ task_slot range channels.length t + 8 ≤ r1.user_state.data.length))
      (run_task S hash_order range channels r1 t)
      (run_task S hash_order range channels r2 t)
      (fun u hu => hok u (List.mem_cons_of_mem _ hu))
      (by
        show (add_region S hash_order r1.user_state range t.1 t.2.1 t.2.2.1 t.2.2.2
            channels).user_state.blobs_begin
          = (add_region S hash_order r2.user_state range t.1 t.2.1 t.2.2.1 t.2.2.2
            channels).user_state.blobs_begin
        rw [rec1.2.2.2.1, rec2.2.2.2.1, hb])
      a4
      (by
        show u64 (r1.size + _) = u64 (r2.size + _)
        rw [hs, a1])
      (by
        show r1.errors ++ _ = r2.errors ++ _
        rw [he, a3])
      (by
        show r1.trace ++ _ = r2.trace ++ _
        rw [htr, a2, a1])
      a5
    obtain ⟨s1, s2, s3, s4, s5, s6⟩ := hstep
    rw [List.foldl_cons, List.foldl_cons]
    refine ⟨s1, s2, s3, s4, s5, ?_⟩
    intro k hk
    apply s6 k
    have hlen : (run_task S hash_order range channels r1 t).user_state.data.length
        = r1.user_state.data.length + task_size S range channels t := rec1.2.2.2.2.2
    rcases hk with hk | hk | ⟨u, hu, h1, h2, h3⟩
    · exact Or.inl (Or.inl hk)
    · exact Or.inl (Or.inr (Or.inl hk))
    · rcases List.mem_cons.mp hu with hu | hu
      · subst hu
        exact Or.inl (Or.inr (Or.inr ⟨h1, h2, h3⟩))
      · exact Or.inr (Or.inr ⟨u, hu, h1, h2, by rw [hlen]; omega⟩)

theorem vec_resize_length (buf : List Nat) (n : Nat) : (vec_resize buf n).length = n := by
  unfold vec_resize
  rw [List.length_append, List.length_take, List.length_replicate]
  omega

theorem run_from_eq (S : Sampler) (hash_order : List Nat → List Nat)
    (pool : List RegionTask → List RegionTask) (st : GvoxPaletteSerializeUserState)
    (range : GvoxRegionRange) (flags : Nat)
    (hperm : ∀ l, (hash_order l).Perm l) (hpool : ∀ l, (pool l).Perm l)
    (hg : region_count range.extent.x * region_count range.extent.y
      * region_count range.extent.z ≤ 4294967296) :
    (run_from S hash_order pool st range flags).user_state.blobs_begin
        = (run_final S hash_order pool range flags).user_state.blobs_begin
      ∧ (run_from S hash_order pool st range flags).user_state.data
        = (run_final S hash_order pool range flags).user_state.data
      ∧ (run_from S hash_order pool st range flags).size
        = (run_final S hash_order pool range flags).size
      ∧ (run_from S hash_order pool st range flags).errors
        = (run_final S hash_order pool range flags).errors
      ∧ (run_from S hash_order pool st range flags).trace
        = (run_final S hash_order pool range flags).trace
      ∧ (run_from S hash_order pool st range flags).user_state.offset = st.offset + 40
      ∧ (run_final S hash_order pool range flags).user_state.offset = 40 := by
  have hsz := header_table_size_of_le range flags hg
  have hl1 : (run_start st range flags).user_state.data.length
      = header_table_bytes range flags := by
    unfold run_start
    simp only []
    rw [vec_resize_length, hsz]
  have hl2 : (run_init range flags).user_state.data.length
      = header_table_bytes range flags := by
    unfold run_init
    simp only []
    rw [vec_resize_length, hsz]
  obtain ⟨s1, s2, s3, s4, s5, s6⟩ := run_agree S hash_order range (channel_list flags) hperm
    (pool (enqueued_tasks range flags)) (fun _ => False) (run_start st range flags)
    (run_init range flags) (pool_task_ok pool range flags hpool) rfl (by rw [hl1, hl2]) rfl
    rfl rfl (fun k hk => absurd hk id)
  have g1 := run_general S hash_order range (channel_list flags) hperm
    (pool (enqueued_tasks range flags)) (run_start st range flags)
    (pool_task_ok pool range flags hpool)
  have g2 := run_general S hash_order range (channel_list flags) hperm
    (pool (enqueued_tasks range flags)) (run_init range flags)
    (pool_task_ok pool range flags hpool)
  simp only [] at g1 g2
  obtain ⟨b1, b2, b3⟩ := task_slot_bijection range flags hg
  refine ⟨s1, ?_, s3, s4, s5, g1.2.1, g2.2.1⟩
  apply list_ext_getD _ _ s2
  intro k _
  apply s6 k
  rw [hl1]
  by_cases hk : header_table_bytes range flags ≤ k
  · exact Or.inr (Or.inl hk)
  · have hk8 : k / 8 < region_count range.extent.x * region_count range.extent.y
        * region_count range.extent.z * (channel_list flags).length := by
      unfold header_table_bytes at hk
      omega
    obtain ⟨t, ht, hslot, _⟩ := b3 (k / 8) hk8
    refine Or.inr (Or.inr ⟨t, (hpool _).mem_iff.mpr ht, ?_, ?_, (b1 t ht).2⟩)
    · rw [hslot]; omega
    · rw [hslot]; omega

theorem output_chain_getD (out m rb f c b d : List Nat) (o k : Nat) (hm : m.length = 4)
    (hrb : rb.length = 24) (hf : f.length = 4) (hc : c.length = 4) (hb : b.length = 4) :
    (gvox_output_write (gvox_output_write (gvox_output_write (gvox_output_write
        (gvox_output_write (gvox_output_write out o m) (o + 4) rb) (o + 4 + 24 + 4) f)
        (o + 4 + 24 + 4 + 4) c) (o + 4 + 24) b) (o + 40) d).getD k 0
      = if o ≤ k ∧ k < o + 40 + d.length then (m ++ (rb ++ (b ++ (f ++ (c ++ d))))).getD (k - o) 0
        else out.getD k 0 := by
  simp only [output_write_getD, getD_append_cases, hm, hrb, hf, hc, hb]
  have hreg : k < o ∨ (o ≤ k ∧ k < o + 4) ∨ (o + 4 ≤ k ∧ k < o + 28)
      ∨ (o + 28 ≤ k ∧ k < o + 32) ∨ (o + 32 ≤ k ∧ k < o + 36) ∨ (o + 36 ≤ k ∧ k < o + 40)
      ∨ (o + 40 ≤ k ∧ k < o + 40 + d.length) ∨ o + 40 + d.length ≤ k := by omega
  rcases hreg with h | h | h | h | h | h | h | h <;>
    (repeat (first | rw [if_pos (by omega)] | rw [if_neg (by omega)])) <;> rfl

theorem output_chain_length (out m rb f c b d : List Nat) (o : Nat) (hm : m.length = 4)
    (hrb : rb.length = 24) (hf : f.length = 4) (hc : c.length = 4) (hb : b.length = 4) :
    (gvox_output_write (gvox_output_write (gvox_output_write (gvox_output_write
        (gvox_output_write (gvox_output_write out o m) (o + 4) rb) (o + 4 + 24 + 4) f)
        (o + 4 + 24 + 4 + 4) c) (o + 4 + 24) b) (o + 40) d).length
      = max out.length (o + 40 + d.length) := by
  simp only [output_write_length, hm, hrb, hf, hc, hb]
  omega

theorem serialize_region_from (S : Sampler) (hash_order : List Nat → List Nat)
    (pool : List RegionTask → List RegionTask) (out0 : List Nat)
    (st : GvoxPaletteSerializeUserState) (range : GvoxRegionRange) (flags : Nat)
    (hperm : ∀ l, (hash_order l).Perm l) (hpool : ∀ l, (pool l).Perm l) :
    (serialize_region S hash_order pool out0 st range flags).user_state
        = (run_from S hash_order pool st range flags).user_state
      ∧ (serialize_region S hash_order pool out0 st range flags).errors
        = (run_from S hash_order pool st range flags).errors
      ∧ (serialize_region S hash_order pool out0 st range flags).trace
        = (run_from S hash_order pool st range flags).trace
      ∧ (serialize_region S hash_order pool out0 st range flags).output.length
        = max out0.length (st.offset + 40
            + (run_from S hash_order pool st range flags).user_state.data.length)
      ∧ ∀ k, (serialize_region S hash_order pool out0 st range flags).output.getD k 0
          = if st.offset ≤ k ∧ k < st.offset + 40
                + (run_from S hash_order pool st range flags).user_state.data.length then
              (([7370343, of_i32 range.offset.x, of_i32 range.offset.y,
                  of_i32 range.offset.z, range.extent.x, range.extent.y, range.extent.z,
                  u32_sub (run_from S hash_order pool st range flags).size
                    (run_from S hash_order pool st range flags).user_state.blobs_begin,
                  flags, u32 (popcount flags)].flatMap le32)
                ++ (run_from S hash_order pool st range flags).user_state.data).getD
                  (k - st.offset) 0
            else out0.getD k 0 := by
  have hg := run_general S hash_order range (channel_list flags) hperm
    (pool (enqueued_tasks range flags)) (run_start st range flags)
    (pool_task_ok pool range flags hpool)
  simp only [] at hg
  have hoff : (run_from S hash_order pool st range flags).user_state.offset
      = st.offset + 40 := hg.2.1
  have e : serialize_region S hash_order pool out0 st range flags =
      { user_state := (run_from S hash_order pool st range flags).user_state,
        output := gvox_output_write (gvox_output_write
            (gvox_output_write (gvox_output_write (gvox_output_write
              (gvox_output_write out0 st.offset [103, 118, 112, 0])
              (st.offset + 4) (range_bytes range))
              (st.offset + 4 + 24 + 4) (le32 flags))
              (st.offset + 4 + 24 + 4 + 4) (le32 (u32 (popcount flags))))
            (st.offset + 4 + 24)
            (le32 (u32_sub (run_from S hash_order pool st range flags).size
              (run_from S hash_order pool st range flags).user_state.blobs_begin)))
          (run_from S hash_order pool st range flags).user_state.offset
          (run_from S hash_order pool st range flags).user_state.data,
        errors := (run_from S hash_order pool st range flags).errors,
        trace := (run_from S hash_order pool st range flags).trace } := rfl
  rw [e, hoff]
  have hw : ([7370343, of_i32 range.offset.x, of_i32 range.offset.y,
      of_i32 range.offset.z, range.extent.x, range.extent.y, range.extent.z,
      u32_sub (run_from S hash_order pool st range flags).size
        (run_from S hash_order pool st range flags).user_state.blobs_begin,
      flags, u32 (popcount flags)].flatMap le32)
      ++ (run_from S hash_order pool st range flags).user_state.data
      = [103, 118, 112, 0] ++ (range_bytes range
        ++ (le32 (u32_sub (run_from S hash_order pool st range flags).size
              (run_from S hash_order pool st range flags).user_state.blobs_begin)
        ++ (le32 flags ++ (le32 (u32 (popcount flags))
        ++ (run_from S hash_order pool st range flags).user_state.data)))) := by
    simp only [List.flatMap_cons, List.flatMap_nil, le32_magic, range_bytes, List.append_assoc,
      List.append_nil]
  refine ⟨rfl, rfl, rfl, ?_, ?_⟩
  · exact output_chain_length _ _ _ _ _ _ _ _ rfl (range_bytes_length range) (le32_length _)
      (le32_length _) (le32_length _)
  · intro k
    rw [hw]
    exact output_chain_getD _ _ _ _ _ _ _ _ _ rfl (range_bytes_length range) (le32_length _)
      (le32_length _) (le32_length _)

theorem serialize_region_shift (S : Sampler) (hash_order : List Nat → List Nat)
    (pool : List RegionTask → List RegionTask) (out0 : List Nat)
    (st : GvoxPaletteSerializeUserState) (range : GvoxRegionRange) (flags : Nat)
    (hperm : ∀ l, (hash_order l).Perm l) (hpool : ∀ l, (pool l).Perm l)
    (hg : region_count range.extent.x * region_count range.extent.y
      * region_count range.extent.z ≤ 4294967296) :
    (serialize_region S hash_order pool out0 st range flags).user_state.offset = st.offset + 40
      ∧ (serialize_region S hash_order pool [] fresh_state range flags).user_state.offset = 40
      ∧ (serialize_region S hash_order pool out0 st range flags).user_state.blobs_begin
        = (serialize_region S hash_order pool [] fresh_state range flags).user_state.blobs_begin
      ∧ (serialize_region S hash_order pool out0 st range flags).user_state.data
        = (serialize_region S hash_order pool [] fresh_state range flags).user_state.data
      ∧ (serialize_region S hash_order pool out0 st range flags).trace
        = (serialize_region S hash_order pool [] fresh_state range flags).trace
      ∧ (serialize_region S hash_order pool out0 st range flags).errors
        = (serialize_region S hash_order pool [] fresh_state range flags).errors
      ∧ (∀ k, k < (serialize_region S hash_order pool [] fresh_state range flags).output.length →
          (serialize_region S hash_order pool out0 st range flags).output.getD (st.offset + k) 0
            = (serialize_region S hash_order pool [] fresh_state range flags).output.getD k 0)
      ∧ (∀ k, (k < st.offset ∨ st.offset
            + (serialize_region S hash_order pool [] fresh_state range flags).output.length ≤ k) →
          (serialize_region S hash_order pool out0 st range flags).output.getD k 0
            = out0.getD k 0)
      ∧ (serialize_region S hash_order pool out0 st range flags).output.length
        = max out0.length (st.offset
            + (serialize_region S hash_order pool [] fresh_state range flags).output.length) := by
  obtain ⟨a1, a2, a3, a4, a5⟩ := serialize_region_from S hash_order pool out0 st range flags
    hperm hpool
  obtain ⟨e1, e2, e3, e4, e5, e6, e7⟩ := run_from_eq S hash_order pool st range flags hperm
    hpool hg
  have hf := serialize_region_fresh S hash_order pool range flags hperm hpool
  have hfo : (serialize_region S hash_order pool [] fresh_state range flags).output
      = ([7370343, of_i32 range.offset.x, of_i32 range.offset.y,
            of_i32 range.offset.z, range.extent.x, range.extent.y, range.extent.z,
            u32_sub (run_final S hash_order pool range flags).size
              (run_final S hash_order pool range flags).user_state.blobs_begin,
            flags, u32 (popcount flags)].flatMap le32)
          ++ (run_final S hash_order pool range flags).user_state.data := by
    rw [hf]
  have hfl : (serialize_region S hash_order pool [] fresh_state range flags).output.length
      = 40 + (run_final S hash_order pool range flags).user_state.data.length := by
    rw [hfo, List.length_append, words_bytes_length]
    rfl
  have hfu : (serialize_region S hash_order pool [] fresh_state range flags).user_state
      = (run_final S hash_order pool range flags).user_state := by
    rw [hf]
  have hft : (serialize_region S hash_order pool [] fresh_state range flags).trace
      = (run_final S hash_order pool range flags).trace := by
    rw [hf]
  have hfe : (serialize_region S hash_order pool [] fresh_state range flags).errors
      = (run_final S hash_order pool range flags).errors := by
    rw [hf]
  rw [e3, e1, e2] at a5
  rw [e2] at a4
  rw [a1, a2, a3, a4, hfu, hft, hfe, hfo, ← hfo, hfl]
  refine ⟨e6, e7, e1, e2, e5, e4, ?_, ?_, by omega⟩
  · intro k hk
    rw [a5, if_pos (by omega), hfo]
    congr 1
    omega
  · intro k hk
    rw [a5, if_neg (by omega)]

/-! ## A buffer with `2^32` blob bytes, reached by a row of regions -/

theorem run_frame_le (S : Sampler) (hash_order : List Nat → List Nat) (range : GvoxRegionRange)
    (channels : List Nat) (hperm : ∀ l, (hash_order l).Perm l) (order : List RegionTask) :
    ∀ r0 : RunState, (∀ t ∈ order, task_ok t) →
      (∀ t ∈ order, 0 < task_size S range channels t) →
      r0.user_state.blobs_begin ≤ r0.user_state.data.length →
      r0.user_state.data.length - r0.user_state.blobs_begin
        + tasks_size S range channels order ≤ 4294967296 →
      (∀ t ∈ order, task_slot range channels.length t + 8 ≤ r0.user_state.data.length) →
      ∀ k, k < r0.user_state.data.length →
        (∀ t ∈ order, ¬ (task_slot range channels.length t ≤ k
          ∧ k < task_slot range channels.length t + 8)) →
        (order.foldl (run_task S hash_order range channels) r0).user_state.data.getD k 0
          = r0.user_state.data.getD k 0 := by
  induction order with
  | nil => intro r0 _ _ _ _ _ k _ _; rfl
  | cons t ts ih =>
    intro r0 hok hpos hbb htot hslot k hk hns
    rw [tasks_size_cons] at htot
    have ht := hok t (List.mem_cons_self _ _)
    have hp := hpos t (List.mem_cons_self _ _)
    have hd := run_task_data S hash_order range channels hperm r0 t ht
      ⟨hbb, by omega⟩ (hslot t (List.mem_cons_self _ _))
    obtain ⟨_, _, _, r4, _, r6⟩ := add_region_record S hash_order r0.user_state range t
      channels hperm ht
    have e1 : (run_task S hash_order range channels r0 t).user_state
        = (add_region S hash_order r0.user_state range t.1 t.2.1 t.2.2.1 t.2.2.2
            channels).user_state := rfl
    simp only [List.foldl_cons]
    rw [ih (run_task S hash_order range channels r0 t)
      (fun t' ht' => hok t' (List.mem_cons_of_mem _ ht'))
      (fun t' ht' => hpos t' (List.mem_cons_of_mem _ ht'))
      (by rw [e1, r4, r6]; omega) (by rw [e1, r4, r6]; omega)
      (fun t' ht' => by rw [e1, r6]; have := hslot t' (List.mem_cons_of_mem _ ht'); omega)
      k (by rw [e1, r6]; omega) (fun t' ht' => hns t' (List.mem_cons_of_mem _ ht'))]
    rw [hd, List.getD_append _ _ _ _ (by rw [write_bytes_length]; exact hk),
      getD_write_bytes _ _ _ _ (by
        rw [header_bytes_length]; exact hslot t (List.mem_cons_self _ _)),
      header_bytes_length, if_neg (hns t (List.mem_cons_self _ _))]

theorem sampler_mixed_sample (rx ch : Nat) (c : Nat × Nat × Nat) (hc : c ∈ region_coords)
    (h1 : rx < 2097152) :
    effective_sample sampler_mixed (range_at_origin 16777224 8 8) rx 0 0 ch c
      = in_region_index c := by
  rw [mem_region_coords] at hc
  unfold effective_sample range_at_origin REGION_SIZE
  simp only []
  rw [if_pos (by omega)]
  unfold sampler_mixed offset_add wrap_i32 in_region_index REGION_SIZE
  have e1 : (((0 : Int) + ((rx * 8 + c.1 : Nat) : Int) + 2147483648) % 4294967296
      - 2147483648).toNat = rx * 8 + c.1 := by omega
  have e2 : (((0 : Int) + ((0 * 8 + c.2.1 : Nat) : Int) + 2147483648) % 4294967296
      - 2147483648).toNat = c.2.1 := by omega
  have e3 : (((0 : Int) + ((0 * 8 + c.2.2 : Nat) : Int) + 2147483648) % 4294967296
      - 2147483648).toNat = c.2.2 := by omega
  simp only [e1, e2, e3]
  rw [if_pos (by omega)]
  simp only [Fin.ofNat]
  omega

theorem sampler_mixed_sample_last (ch : Nat) (c : Nat × Nat × Nat) (hc : c ∈ region_coords) :
    effective_sample sampler_mixed (range_at_origin 16777224 8 8) 2097152 0 0 ch c
      = if c.1 = 0 then 8 else 0 := by
  rw [mem_region_coords] at hc
  unfold effective_sample range_at_origin REGION_SIZE
  simp only []
  rw [if_pos (by omega)]
  unfold sampler_mixed offset_add wrap_i32
  have e1 : (((0 : Int) + ((2097152 * 8 + c.1 : Nat) : Int) + 2147483648) % 4294967296
      - 2147483648).toNat = 2097152 * 8 + c.1 := by omega
  simp only [e1]
  rw [if_neg (by omega)]
  have e2 : (2097152 * 8 + c.1) % 8 = c.1 := by omega
  rw [e2]
  by_cases h : c.1 = 0
  · rw [if_pos h]; rfl
  · rw [if_neg h]; rfl

theorem sampler_mixed_count (rx ch : Nat) (h1 : rx < 2097152) :
    distinct_count sampler_mixed (range_at_origin 16777224 8 8) rx 0 0 ch = 512 := by
  have e : region_samples sampler_mixed (range_at_origin 16777224 8 8) rx 0 0 ch
      = List.range 512 := by
    rw [← map_in_region_index]
    unfold region_samples
    apply List.map_congr_left
    intro c hc
    exact sampler_mixed_sample rx ch c hc h1
  unfold distinct_count
  rw [e, List.toFinset_card_of_nodup (List.nodup_range 512), List.length_range]

theorem sampler_mixed_variants_last (ch : Nat) :
    (region_samples sampler_mixed (range_at_origin 16777224 8 8) 2097152 0 0 ch).toFinset
      = {8, 0} := by
  ext w
  simp only [List.mem_toFinset, region_samples, List.mem_map, Finset.mem_insert,
    Finset.mem_singleton]
  constructor
  · rintro ⟨c, hc, rfl⟩
    rw [sampler_mixed_sample_last ch c hc]
    split
    · exact Or.inl rfl
    · exact Or.inr rfl
  · rintro (rfl | rfl)
    · exact ⟨(0, 0, 0), (mem_region_coords _).mpr (by simp),
        by rw [sampler_mixed_sample_last ch _ ((mem_region_coords _).mpr (by simp))]; simp⟩
    · exact ⟨(1, 0, 0), (mem_region_coords _).mpr (by simp),
        by rw [sampler_mixed_sample_last ch _ ((mem_region_coords _).mpr (by simp))]; simp⟩

theorem sampler_mixed_count_last (ch : Nat) :
    distinct_count sampler_mixed (range_at_origin 16777224 8 8) 2097152 0 0 ch = 2 := by
  unfold distinct_count
  rw [sampler_mixed_variants_last]
  rfl

theorem sampler_mixed_blob_last (ch : Nat) :
    (region_local_data sampler_mixed (range_at_origin 16777224 8 8) 2097152 0 0 ch).length
        = 76
      ∧ (region_local_data sampler_mixed (range_at_origin 16777224 8 8) 2097152 0 0
          ch).getD 4 0 = 8 := by
  have hn := sampler_mixed_count_last ch
  obtain ⟨pal, p1, p2, p3, p4, p5, p6, _⟩ := region_local_data_palette sampler_mixed
    (range_at_origin 16777224 8 8) 2097152 0 0 ch (by decide) (by decide) (by decide)
    (by rw [hn]; decide) (by rw [hn]; decide)
  rw [hn] at p1 p4 p6
  have hm : ∀ w, w ∈ pal ↔ w = 0 ∨ w = 8 := by
    intro w
    rw [p3, ← List.mem_toFinset, sampler_mixed_variants_last]
    simp only [Finset.mem_insert, Finset.mem_singleton]
    constructor
    · rintro (h | h)
      · exact Or.inr h
      · exact Or.inl h
    · rintro (h | h)
      · exact Or.inr h
      · exact Or.inl h
  have hp := sorted_pair_eq pal 0 8 (by decide) p1 p2 hm
  have g1 := getD_read_words (region_local_data sampler_mixed (range_at_origin 16777224 8 8)
    2097152 0 0 ch) 0 2 1 (by decide)
  rw [p6, hp] at g1
  have g1b : read_u32 (region_local_data sampler_mixed (range_at_origin 16777224 8 8)
      2097152 0 0 ch) 4 = 8 := g1.symm
  refine ⟨by rw [p4]; decide, ?_⟩
  have b0 := p5 4
  unfold read_u32 at g1b
  omega

theorem sampler_mixed_blob_first (ch : Nat) :
    (region_local_data sampler_mixed (range_at_origin 16777224 8 8) 0 0 0 ch).length = 2048
      ∧ (region_local_data sampler_mixed (range_at_origin 16777224 8 8) 0 0 0 ch).getD 4 0
          = 1 := by
  have hn := sampler_mixed_count 0 ch (by decide)
  have hl := region_local_data_length sampler_mixed (range_at_origin 16777224 8 8) 0 0 0 ch
    (by decide) (by decide) (by decide)
  rw [hn] at hl
  have hr := region_local_data_raw sampler_mixed (range_at_origin 16777224 8 8) 0 0 0 ch
    (by decide) (by decide) (by decide) (by rw [hn]; decide)
  refine ⟨by rw [hl]; decide, ?_⟩
  rw [hr]
  have hc : ((1, 0, 0) : Nat × Nat × Nat) ∈ region_coords :=
    (mem_region_coords _).mpr (by simp)
  have g := getD_words_bytes (region_samples sampler_mixed (range_at_origin 16777224 8 8)
    0 0 0 ch) 1 0 (by decide)
  have gs := getD_region_samples sampler_mixed (range_at_origin 16777224 8 8) 0 0 0 ch
    (1, 0, 0) hc
  have hi : in_region_index (1, 0, 0) = 1 := by decide
  rw [hi, sampler_mixed_sample 0 ch (1, 0, 0) hc (by decide), hi] at gs
  rw [gs] at g
  exact g

theorem run_task_state (S : Sampler) (hash_order : List Nat → List Nat)
    (range : GvoxRegionRange) (channels : List Nat) (r : RunState) (t : RegionTask) :
    (run_task S hash_order range channels r t).user_state
      = (add_region S hash_order r.user_state range t.1 t.2.1 t.2.2.1 t.2.2.2
          channels).user_state := rfl

theorem region_tasks_row_cons (N : Nat) :
    region_tasks (N + 1) 1 1 1
      = ((0, 0, 0, 0) : RegionTask) :: (List.range N).map (fun i => ((i + 1, 0, 0, 0) : RegionTask)) := by
  rw [region_tasks_row, List.range_succ_eq_map, List.map_cons, List.map_map]
  rfl

theorem row_task_slot (range : GvoxRegionRange) (i : Nat) (hi : i < 4294967296) :
    task_slot range 1 (i, 0, 0, 0) = 8 * i := by
  unfold task_slot header_slot_offset
  simp only [Nat.zero_mul, Nat.add_zero, Nat.mul_one, Nat.mul_zero]
  rw [u32_of_lt hi]
  omega

theorem sampler_mixed_task_size (i : Nat) (hi : i < 2097152) :
    task_size sampler_mixed (range_at_origin 16777224 8 8) (channel_list 1) (i, 0, 0, 0)
      = 2048 := by
  unfold task_size task_variant_n task_channel
  rw [channel_list_1]
  show region_blob_size (distinct_count sampler_mixed (range_at_origin 16777224 8 8) i 0 0 0)
    = 2048
  rw [sampler_mixed_count i 0 hi]
  decide

theorem sampler_mixed_rest_size (M : Nat) (hM : M ≤ 2097151) :
    tasks_size sampler_mixed (range_at_origin 16777224 8 8) (channel_list 1)
      ((List.range M).map (fun i => ((i + 1, 0, 0, 0) : RegionTask))) = M * 2048 := by
  unfold tasks_size
  rw [sum_map_of_const _ _ 2048, List.length_map, List.length_range]
  intro t ht
  rw [List.mem_map] at ht
  obtain ⟨i, hi, rfl⟩ := ht
  rw [List.mem_range] at hi
  exact sampler_mixed_task_size (i + 1) (by omega)

theorem row_table :
    (run_init (range_at_origin 16777224 8 8) 1).user_state.data
        = List.replicate 16777224 0
      ∧ (run_init (range_at_origin 16777224 8 8) 1).user_state.blobs_begin = 16777224 := by
  have e : (16777224 : Nat) = 8 * 2097153 := by norm_num
  have hc : region_count 16777224 = 2097153 := by
    rw [e]; exact region_count_mul 2097153 (by norm_num)
  have hg : region_count (range_at_origin 16777224 8 8).extent.x
      * region_count (range_at_origin 16777224 8 8).extent.y
      * region_count (range_at_origin 16777224 8 8).extent.z ≤ 4294967296 := by
    show region_count 16777224 * region_count 8 * region_count 8 ≤ 4294967296
    rw [hc, region_count_8]
    norm_num
  obtain ⟨h1, h2⟩ := run_init_table (range_at_origin 16777224 8 8) 1 hg
  have hb : header_table_bytes (range_at_origin 16777224 8 8) 1 = 16777224 := by
    unfold header_table_bytes
    show 8 * (region_count 16777224 * region_count 8 * region_count 8
      * (channel_list 1).length) = 16777224
    rw [hc, region_count_8, channel_list_1]
    rfl
  rw [hb] at h1 h2
  exact ⟨h1, h2⟩

theorem reached_state_facts :
    ((region_tasks 2097152 1 1 1).foldl
        (run_task sampler_mixed id (range_at_origin 16777224 8 8) (channel_list 1))
        (run_init (range_at_origin 16777224 8 8) 1)).user_state.blobs_begin = 16777224
      ∧ ((region_tasks 2097152 1 1 1).foldl
          (run_task sampler_mixed id (range_at_origin 16777224 8 8) (channel_list 1))
          (run_init (range_at_origin 16777224 8 8) 1)).user_state.data.length
        = 16777224 + 4294967296
      ∧ ((region_tasks 2097152 1 1 1).foldl
          (run_task sampler_mixed id (range_at_origin 16777224 8 8) (channel_list 1))
          (run_init (range_at_origin 16777224 8 8) 1)).user_state.data.getD 16777228 0 = 1 := by
  obtain ⟨hd0, hb0⟩ := row_table
  have hsplit : region_tasks 2097152 1 1 1
      = ((0, 0, 0, 0) : RegionTask)
        :: (List.range 2097151).map (fun i => ((i + 1, 0, 0, 0) : RegionTask)) :=
    region_tasks_row_cons 2097151
  rw [hsplit, List.foldl_cons]
  have hcl : (channel_list 1).length = 1 := by rw [channel_list_1]; rfl
  have hok0 : task_ok ((0, 0, 0, 0) : RegionTask) := by
    unfold task_ok; decide
  have hokr : ∀ t ∈ (List.range 2097151).map (fun i => ((i + 1, 0, 0, 0) : RegionTask)),
      task_ok t := by
    intro t ht
    rw [List.mem_map] at ht
    obtain ⟨i, hi, rfl⟩ := ht
    rw [List.mem_range] at hi
    unfold task_ok
    simp only []
    omega
  -- the state after the first task
  have rec0 := add_region_record sampler_mixed id
    (run_init (range_at_origin 16777224 8 8) 1).user_state (range_at_origin 16777224 8 8)
    (0, 0, 0, 0) (channel_list 1) perm_id hok0
  simp only [] at rec0
  obtain ⟨_, _, _, r4, _, r6⟩ := rec0
  rw [sampler_mixed_task_size 0 (by decide), hd0, List.length_replicate] at r6
  rw [hb0] at r4
  have e1 := run_task_state sampler_mixed id (range_at_origin 16777224 8 8) (channel_list 1)
    (run_init (range_at_origin 16777224 8 8) 1) (0, 0, 0, 0)
  simp only [] at e1
  have hst0 : state_ok (run_init (range_at_origin 16777224 8 8) 1).user_state := by
    unfold state_ok
    rw [hb0, hd0, List.length_replicate]
    omega
  have hslot0 : task_slot (range_at_origin 16777224 8 8) (channel_list 1).length (0, 0, 0, 0)
      = 0 := by
    rw [hcl, row_task_slot _ 0 (by decide)]
  have hd1 := run_task_data sampler_mixed id (range_at_origin 16777224 8 8) (channel_list 1)
    perm_id (run_init (range_at_origin 16777224 8 8) 1) (0, 0, 0, 0) hok0 hst0
    (by rw [hslot0, hd0, List.length_replicate]; omega)
  have hb1 : (run_task sampler_mixed id (range_at_origin 16777224 8 8) (channel_list 1)
      (run_init (range_at_origin 16777224 8 8) 1) (0, 0, 0, 0)).user_state.blobs_begin
      = 16777224 := by rw [e1]; exact r4
  have hl1 : (run_task sampler_mixed id (range_at_origin 16777224 8 8) (channel_list 1)
      (run_init (range_at_origin 16777224 8 8) 1) (0, 0, 0, 0)).user_state.data.length
      = 16777224 + 2048 := by rw [e1]; exact r6
  have hbyte1 : (run_task sampler_mixed id (range_at_origin 16777224 8 8) (channel_list 1)
      (run_init (range_at_origin 16777224 8 8) 1) (0, 0, 0, 0)).user_state.data.getD
      16777228 0 = 1 := by
    rw [hd1]
    have hwl : (write_bytes (run_init (range_at_origin 16777224 8 8) 1).user_state.data
        (task_slot (range_at_origin 16777224 8 8) (channel_list 1).length (0, 0, 0, 0))
        (header_bytes (task_header sampler_mixed (range_at_origin 16777224 8 8)
          (channel_list 1) (run_init (range_at_origin 16777224 8 8) 1).user_state.blobs_begin
          (run_init (range_at_origin 16777224 8 8) 1).user_state.data.length
          (0, 0, 0, 0)))).length = 16777224 := by
      rw [write_bytes_length, hd0, List.length_replicate]
    rw [getD_append_cases, hwl, if_neg (by omega)]
    show (region_local_data sampler_mixed (range_at_origin 16777224 8 8) 0 0 0
      (task_channel (channel_list 1) (0, 0, 0, 0))).getD 4 0 = 1
    exact (sampler_mixed_blob_first _).2
  generalize hA1 : run_task sampler_mixed id (range_at_origin 16777224 8 8) (channel_list 1)
      (run_init (range_at_origin 16777224 8 8) 1) (0, 0, 0, 0) = A1 at hb1 hl1 hbyte1 ⊢
  have hrs := sampler_mixed_rest_size 2097151 (le_refl _)
  have hpos : ∀ t ∈ (List.range 2097151).map (fun i => ((i + 1, 0, 0, 0) : RegionTask)),
      0 < task_size sampler_mixed (range_at_origin 16777224 8 8) (channel_list 1) t := by
    intro t ht
    rw [List.mem_map] at ht
    obtain ⟨i, hi, rfl⟩ := ht
    rw [List.mem_range] at hi
    rw [sampler_mixed_task_size (i + 1) (by omega)]
    decide
  have hslots : ∀ t ∈ (List.range 2097151).map (fun i => ((i + 1, 0, 0, 0) : RegionTask)),
      task_slot (range_at_origin 16777224 8 8) (channel_list 1).length t + 8 ≤ 16777216 := by
    intro t ht
    rw [List.mem_map] at ht
    obtain ⟨i, hi, rfl⟩ := ht
    rw [List.mem_range] at hi
    rw [hcl, row_task_slot _ (i + 1) (by omega)]
    omega
  generalize (List.range 2097151).map (fun i => ((i + 1, 0, 0, 0) : RegionTask)) = rest
    at hokr hrs hpos hslots ⊢
  have hg := run_general sampler_mixed id (range_at_origin 16777224 8 8) (channel_list 1)
    perm_id rest A1 hokr
  simp only [] at hg
  obtain ⟨g1, _, g3, _⟩ := hg
  rw [hrs, hl1] at g3
  rw [hb1] at g1
  refine ⟨g1, by rw [g3], ?_⟩
  rw [run_frame_le sampler_mixed id (range_at_origin 16777224 8 8) (channel_list 1) perm_id
    rest A1 hokr hpos (by rw [hb1, hl1]; omega) (by rw [hb1, hl1, hrs])
    (fun t ht => by have := hslots t ht; rw [hl1]; omega) 16777228
    (by rw [hl1]; omega) (fun t ht => by have := hslots t ht; omega)]
  exact hbyte1

theorem reached_call_facts (st : GvoxPaletteSerializeUserState)
    (hb : st.blobs_begin = 16777224) (hl : st.data.length = 16777224 + 4294967296) :
    (add_region sampler_mixed id st (range_at_origin 16777224 8 8) 2097152 0 0 0
        (channel_list 1)).region_header = { variant_n := 2, blob_offset := 0 }
      ∧ (add_region sampler_mixed id st (range_at_origin 16777224 8 8) 2097152 0 0 0
        (channel_list 1)).size = 76
      ∧ (add_region sampler_mixed id st (range_at_origin 16777224 8 8) 2097152 0 0 0
        (channel_list 1)).user_state.data.length = 16777224 + 4294967296 + 76
      ∧ (add_region sampler_mixed id st (range_at_origin 16777224 8 8) 2097152 0 0 0
        (channel_list 1)).user_state.data.getD 16777228 0 = 8 := by
  have hn := sampler_mixed_count_last 0
  obtain ⟨l1, l4⟩ := sampler_mixed_blob_last 0
  have hsz : region_blob_size 2 = 76 := by decide
  have hoff : u32_sub st.data.length st.blobs_begin = 0 := by
    rw [hl, hb]
    decide
  have hch : (channel_list 1).getD 0 0 = 0 := by rw [channel_list_1]; rfl
  have hcl : (channel_list 1).length = 1 := by rw [channel_list_1]; rfl
  rw [add_region_spec sampler_mixed id st (range_at_origin 16777224 8 8) 2097152 0 0 0
    (channel_list 1) perm_id (by decide) (by decide) (by decide), hch, hn, hsz, hoff, hcl,
    if_pos (by decide), if_pos (by decide), alloc_region_state]
  unfold publish_region
  simp only []
  rw [if_pos (by decide), hb]
  have hlen1 : (write_bytes (st.data ++ List.replicate 76 0)
      (header_slot_offset (range_at_origin 16777224 8 8) 2097152 0 0 0 1)
      (header_bytes { variant_n := 2, blob_offset := 0 })).length
      = 16777224 + 4294967296 + 76 := by
    rw [write_bytes_length, List.length_append, hl, List.length_replicate]
  refine ⟨trivial, trivial, ?_, ?_⟩
  · rw [write_bytes_length, hlen1]
  · rw [getD_write_bytes _ _ _ _ (by rw [hlen1, l1]; omega), l1, if_pos (by omega)]
    exact l4

theorem row_enqueued :
    enqueued_tasks (range_at_origin 16777224 8 8) 1
      = region_tasks 2097152 1 1 1 ++ ([(2097152, 0, 0, 0)] : List RegionTask) := by
  have e : (16777224 : Nat) = 8 * 2097153 := by norm_num
  rw [e, enqueued_tasks_row 2097153 (by norm_num)]
  exact region_tasks_row_succ 2097152
/-! ## The path `add_region` takes -/

theorem sampler_descending_sample (m ch : Nat) (c : Nat × Nat × Nat) (hc : c ∈ region_coords)
    (hm : m ≤ 511) :
    effective_sample (sampler_descending m) (range_at_origin 8 8 8) 0 0 0 ch c
      = m - min m (in_region_index c) := by
  rw [mem_region_coords] at hc
  unfold effective_sample range_at_origin REGION_SIZE
  simp only []
  rw [if_pos (by omega)]
  unfold sampler_descending offset_add wrap_i32 in_region_index REGION_SIZE
  simp only [Fin.ofNat]
  have e1 : (((0 : Int) + ((0 * 8 + c.1 : Nat) : Int) + 2147483648) % 4294967296
      - 2147483648).toNat = c.1 := by omega
  have e2 : (((0 : Int) + ((0 * 8 + c.2.1 : Nat) : Int) + 2147483648) % 4294967296
      - 2147483648).toNat = c.2.1 := by omega
  have e3 : (((0 : Int) + ((0 * 8 + c.2.2 : Nat) : Int) + 2147483648) % 4294967296
      - 2147483648).toNat = c.2.2 := by omega
  rw [e1, e2, e3]
  have e4 : c.1 % 8 + 8 * (c.2.1 % 8) + 64 * (c.2.2 % 8) = c.1 + c.2.1 * 8 + c.2.2 * 8 * 8 := by
    omega
  rw [e4]
  apply Nat.mod_eq_of_lt
  omega

theorem sampler_descending_count (m ch : Nat) (hm : m ≤ 511) :
    distinct_count (sampler_descending m) (range_at_origin 8 8 8) 0 0 0 ch = m + 1 := by
  have e : region_samples (sampler_descending m) (range_at_origin 8 8 8) 0 0 0 ch
      = (List.range 512).map (fun i => m - min m i) := by
    rw [← map_in_region_index, List.map_map]
    unfold region_samples
    apply List.map_congr_left
    intro c hc
    exact sampler_descending_sample m ch c hc hm
  have e2 : ((List.range 512).map (fun i => m - min m i)).toFinset = Finset.range (m + 1) := by
    ext w
    simp only [List.mem_toFinset, List.mem_map, List.mem_range, Finset.mem_range]
    constructor
    · rintro ⟨i, _, rfl⟩
      omega
    · intro hw
      exact ⟨m - w, by omega, by omega⟩
  unfold distinct_count
  rw [e, e2, Finset.card_range]

/-- The content of the blob `add_region` stores, by path: the raw tile above the
threshold, the sorted palette followed by the packed indices at or below it. -/
theorem add_region_paths (S : Sampler) (hash_order : List Nat → List Nat)
    (st : GvoxPaletteSerializeUserState) (range : GvoxRegionRange)
    (rx ry rz ci : Nat) (channels : List Nat) (hperm : ∀ l, (hash_order l).Perm l)
    (hx : rx < 536870912) (hy : ry < 536870912) (hz : rz < 536870912) (hst : state_ok st) :
    ((add_region S hash_order st range rx ry rz ci channels).region_header.variant_n
          > MAX_REGION_COMPRESSED_VARIANT_N →
        stored_blob (add_region S hash_order st range rx ry rz ci channels)
          = (region_samples S range rx ry rz (channels.getD ci 0)).flatMap le32)
      ∧ (1 < (add_region S hash_order st range rx ry rz ci channels).region_header.variant_n →
        (add_region S hash_order st range rx ry rz ci channels).region_header.variant_n
          ≤ MAX_REGION_COMPRESSED_VARIANT_N →
        List.Sorted (· < ·)
            (read_words (stored_blob (add_region S hash_order st range rx ry rz ci channels)) 0
              (add_region S hash_order st range rx ry rz ci channels).region_header.variant_n)
          ∧ (∀ w, w ∈ read_words
                (stored_blob (add_region S hash_order st range rx ry rz ci channels)) 0
                (add_region S hash_order st range rx ry rz ci channels).region_header.variant_n
              ↔ w ∈ region_samples S range rx ry rz (channels.getD ci 0))
          ∧ ∀ c ∈ region_coords,
              bit_field ((stored_blob (add_region S hash_order st range rx ry rz ci
                    channels)).drop
                  (4 * (add_region S hash_order st range rx ry rz ci
                    channels).region_header.variant_n))
                (in_region_index c * ceil_log2 (add_region S hash_order st range rx ry rz ci
                    channels).region_header.variant_n)
                (ceil_log2 (add_region S hash_order st range rx ry rz ci
                    channels).region_header.variant_n)
              = (read_words
                  (stored_blob (add_region S hash_order st range rx ry rz ci channels)) 0
                  (add_region S hash_order st range rx ry rz ci
                    channels).region_header.variant_n).indexOf
                  (effective_sample S range rx ry rz (channels.getD ci 0) c)) := by
  have h := add_region_effect S hash_order st range rx ry rz ci channels hperm hx hy hz hst
  simp only [] at h
  obtain ⟨_, _, _, _, _, _, h7, _⟩ := h
  have hvn := (add_region_size S hash_order st range rx ry rz ci channels hperm hx hy hz).2.1
  simp only [] at hvn
  rw [hvn, h7]
  constructor
  · intro hraw
    exact region_local_data_raw S range rx ry rz _ hx hy hz hraw
  · intro h1 h2
    obtain ⟨pal, hpl, hsorted, hmem, hlen, hok, hpal, hbits⟩ :=
      region_local_data_palette S range rx ry rz _ hx hy hz h1 (by omega)
    have hle := distinct_count_le S range rx ry rz (channels.getD ci 0)
    obtain ⟨hc1, hc2, _, _⟩ := ceil_log2_small _ (Nat.lt_succ_of_le hle)
    rw [hpal]
    refine ⟨hsorted, hmem, ?_⟩
    intro c hc
    obtain ⟨a1, a2, a3, a4⟩ := decode_palette_aux _ pal _ _ _ hle (in_region_index_lt c hc) hpl
      hlen hok hpal ((hmem _).mpr (List.mem_map_of_mem _ hc)) (fun t ht => hbits c hc t ht)
    apply bit_field_eq _ _ _ _ _ hok (lt_of_lt_of_le a2 hc1)
    intro t ht
    have := hbits c hc t ht
    have e : 8 * (4 * distinct_count S range rx ry rz (channels.getD ci 0))
        + in_region_index c * ceil_log2 (distinct_count S range rx ry rz (channels.getD ci 0)) + t
        = 32 * distinct_count S range rx ry rz (channels.getD ci 0)
          + in_region_index c * ceil_log2 (distinct_count S range rx ry rz (channels.getD ci 0))
          + t := by omega
    rw [e, this]

/-! ## The channel a task samples -/

/-- Everything `add_region` stores for slot `ci` is what the sampler returns on the
channel `channels[ci]`: the variant count is the number of distinct samples on that
channel, and the value kept for voxel `c` (the header's `blob_offset` for a constant
region, the word of the raw tile, the palette entry the packed index selects) is the
sample of `c` on that channel. -/
theorem add_region_samples_channel (S : Sampler) (hash_order : List Nat → List Nat)
    (st : GvoxPaletteSerializeUserState) (range : GvoxRegionRange)
    (rx ry rz ci : Nat) (channels : List Nat) (hperm : ∀ l, (hash_order l).Perm l)
    (hx : rx < 536870912) (hy : ry < 536870912) (hz : rz < 536870912) (hst : state_ok st) :
    (add_region S hash_order st range rx ry rz ci channels).region_header.variant_n
        = distinct_count S range rx ry rz (channels.getD ci 0)
      ∧ ∀ c ∈ region_coords,
        (if (add_region S hash_order st range rx ry rz ci channels).region_header.variant_n
            > MAX_REGION_COMPRESSED_VARIANT_N then
          read_u32 (stored_blob (add_region S hash_order st range rx ry rz ci channels))
            (4 * in_region_index c)
        else if (add_region S hash_order st range rx ry rz ci
            channels).region_header.variant_n > 1 then
          (read_words (stored_blob (add_region S hash_order st range rx ry rz ci channels)) 0
            (add_region S hash_order st range rx ry rz ci channels).region_header.variant_n).getD
            (bit_field ((stored_blob (add_region S hash_order st range rx ry rz ci
                  channels)).drop
                (4 * (add_region S hash_order st range rx ry rz ci
                  channels).region_header.variant_n))
              (in_region_index c * ceil_log2 (add_region S hash_order st range rx ry rz ci
                  channels).region_header.variant_n)
              (ceil_log2 (add_region S hash_order st range rx ry rz ci
                  channels).region_header.variant_n)) 0
        else (add_region S hash_order st range rx ry rz ci channels).region_header.blob_offset)
        = effective_sample S range rx ry rz (channels.getD ci 0) c := by
  have h := add_region_effect S hash_order st range rx ry rz ci channels hperm hx hy hz hst
  simp only [] at h
  obtain ⟨_, _, _, _, h5, _, h7, _⟩ := h
  have hvn := (add_region_size S hash_order st range rx ry rz ci channels hperm hx hy hz).2.1
  simp only [] at hvn
  have hp := add_region_paths S hash_order st range rx ry rz ci channels hperm hx hy hz hst
  refine ⟨hvn, ?_⟩
  intro c hc
  by_cases c1 : (add_region S hash_order st range rx ry rz ci channels).region_header.variant_n
      > MAX_REGION_COMPRESSED_VARIANT_N
  · rw [if_pos c1, h7]
    rw [hvn] at c1
    exact region_decode_raw S range rx ry rz _ hx hy hz c1 c hc
  · rw [if_neg c1]
    by_cases c2 : (add_region S hash_order st range rx ry rz ci
        channels).region_header.variant_n > 1
    · rw [if_pos c2]
      obtain ⟨_, hmem, hbits⟩ := hp.2 c2 (by omega)
      rw [hbits c hc]
      have hin : effective_sample S range rx ry rz (channels.getD ci 0) c
          ∈ read_words (stored_blob (add_region S hash_order st range rx ry rz ci channels)) 0
            (add_region S hash_order st range rx ry rz ci channels).region_header.variant_n :=
        (hmem _).mpr (List.mem_map_of_mem _ hc)
      rw [List.getD_eq_getElem _ _ (List.indexOf_lt_length.mpr hin)]
      exact List.getElem_indexOf _
    · rw [if_neg c2, h5]
      rw [hvn] at c2
      simp only [if_neg c2]
      have hpos := distinct_count_pos S range rx ry rz (channels.getD ci 0)
      exact sample_eq_head_of_count_one S range rx ry rz _ (by omega) c hc

theorem task_records_variant (S : Sampler) (range : GvoxRegionRange) (channels : List Nat)
    (bb len : Nat) (order : List RegionTask) (r : TaskRecord)
    (h : r ∈ task_records S range channels bb len order) :
    r.1 ∈ order ∧ r.2.1.variant_n
      = distinct_count S range r.1.1 r.1.2.1 r.1.2.2.1 (channels.getD r.1.2.2.2 0) := by
  obtain ⟨i, hi⟩ := List.mem_iff_getElem?.mp h
  obtain ⟨_, g2⟩ := task_records_get S range channels bb order len i r hi
  constructor
  · rw [← task_records_tasks S range channels bb order len]
    exact List.mem_map_of_mem _ h
  · rw [g2]; rfl

/-- Every task `serialize_region` runs has a slot `ci` of the channel list, and the
variant count it records is the number of distinct samples of its region on the channel
`channels[ci]`. -/
theorem serialize_trace_channel (S : Sampler) (hash_order : List Nat → List Nat)
    (pool : List RegionTask → List RegionTask) (output : List Nat)
    (st : GvoxPaletteSerializeUserState) (range : GvoxRegionRange) (flags : Nat)
    (hperm : ∀ l, (hash_order l).Perm l) (hpool : ∀ l, (pool l).Perm l)
    (r : TaskRecord) (h : r ∈ (serialize_region S hash_order pool output st range flags).trace) :
    r.1.2.2.2 < (channel_list flags).length
      ∧ r.2.1.variant_n = distinct_count S range r.1.1 r.1.2.1 r.1.2.2.1
          ((channel_list flags).getD r.1.2.2.2 0) := by
  have hok := pool_task_ok pool range flags hpool
  have hgen := (run_general S hash_order range (channel_list flags) hperm
    (pool (enqueued_tasks range flags)) (run_start st range flags) hok).2.2.2.2.2
  have h0 : (run_start st range flags).trace = [] := rfl
  rw [h0, List.nil_append] at hgen
  have ht : (serialize_region S hash_order pool output st range flags).trace
      = (run_from S hash_order pool st range flags).trace := rfl
  have hf : run_from S hash_order pool st range flags
      = (pool (enqueued_tasks range flags)).foldl
          (run_task S hash_order range (channel_list flags)) (run_start st range flags) := rfl
  rw [hf] at ht
  rw [ht, hgen] at h
  obtain ⟨g1, g2⟩ := task_records_variant S range (channel_list flags) _ _ _ r h
  refine ⟨?_, g2⟩
  have hm := (hpool _).mem_iff.mp g1
  unfold enqueued_tasks at hm
  rw [mem_region_tasks] at hm
  exact hm.2.2.2

theorem sampler_channel_sample (ch : Nat) (c : Nat × Nat × Nat) (hc : c ∈ region_coords)
    (hch : ch < 4294967296) :
    effective_sample sampler_channel (range_at_origin 8 8 8) 0 0 0 ch c = ch := by
  rw [mem_region_coords] at hc
  unfold effective_sample range_at_origin REGION_SIZE
  simp only []
  rw [if_pos (by omega)]
  unfold sampler_channel
  simp only [Fin.ofNat]
  exact Nat.mod_eq_of_lt hch


/-! ## The two locked sections of `add_region` -/

/-- C3 (variant count accuracy): for a region of the grid (indices below `2^32 / R`)
the `variant_n` that `add_region` puts in the channel header and stores in the header
slot is the number of distinct values among the `R^3` effective samples of the region,
an out-of-extent 0 counting as a value. -/
theorem variant_count_accurate (S : Sampler) (hash_order : List Nat → List Nat)
    (st : GvoxPaletteSerializeUserState) (range : GvoxRegionRange)
    (rx ry rz ci : Nat) (channels : List Nat) (hperm : ∀ l, (hash_order l).Perm l)
    (hx : rx < 536870912) (hy : ry < 536870912) (hz : rz < 536870912)
    (hst : state_ok st)
    (hslot : header_slot_offset range rx ry rz ci channels.length + 8 ≤ st.data.length) :
    (add_region S hash_order st range rx ry rz ci channels).region_header.variant_n
        = (region_samples S range rx ry rz (channels.getD ci 0)).toFinset.card
      ∧ read_u32 (add_region S hash_order st range rx ry rz ci channels).user_state.data
          (header_slot_offset range rx ry rz ci channels.length)
        = (region_samples S range rx ry rz (channels.getD ci 0)).toFinset.card := by
  have h := add_region_effect S hash_order st range rx ry rz ci channels hperm hx hy hz hst
  simp only [] at h
  obtain ⟨_, _, _, _, h5, _, _, h8⟩ := h
  have hn := (add_region_size S hash_order st range rx ry rz ci channels hperm hx hy hz).2.1
  simp only [] at hn
  refine ⟨hn, ?_⟩
  rw [h8 hslot, (read_header_slot st.data _ _ _ hslot).1, hn]
  have hle := distinct_count_le S range rx ry rz (channels.getD ci 0)
  exact Nat.mod_eq_of_lt (lt_of_le_of_lt hle (by norm_num))

/-- Witness of C3: extent `(9, 8, 8)`, sampler `x`, region `(1, 0, 0)` has exactly the
variants `{8, 0}` and `variant_n = 2`. -/
theorem variant_count_accurate_witness :
    (region_samples sampler_x (range_at_origin 9 8 8) 1 0 0 0).toFinset = {8, 0}
      ∧ (add_region sampler_x id (state_with_table 16) (range_at_origin 9 8 8) 1 0 0 0
          [0]).region_header.variant_n = 2
      ∧ read_u32 (add_region sampler_x id (state_with_table 16) (range_at_origin 9 8 8) 1 0 0 0
          [0]).user_state.data 8 = 2 := by
  have h := variant_count_accurate sampler_x id (state_with_table 16) (range_at_origin 9 8 8)
    1 0 0 0 [0] perm_id (by decide) (by decide) (by decide) (state_with_table_ok 16)
    (by decide)
  have e : ([0] : List Nat).getD 0 0 = 0 := rfl
  have e2 : header_slot_offset (range_at_origin 9 8 8) 1 0 0 0 ([0] : List Nat).length = 8 := by
    decide
  rw [e, e2, sampler_x_variants] at h
  exact ⟨sampler_x_variants 0, h.1, h.2⟩
/-- C6 (representation selection and blob size): the size `add_region` returns, and by
which it grows the shared buffer, is a function of `variant_n` alone: `4 * R^3` above
`MAX_PALETTE_VARIANTS`, `4 * variant_n + packed_size(ceil_log2 variant_n)` for
`1 < variant_n <= MAX_PALETTE_VARIANTS`, and 0 for a single variant; 512 variants give
2048 bytes.  The path taken shows in the blob stored (on a state whose blob area is
shorter than `2^32` bytes): above `MAX_PALETTE_VARIANTS`, so with
`MAX_PALETTE_VARIANTS + 1` variants, the blob is the raw tile, the `R^3` samples in voxel
order; with `1 < variant_n <= MAX_PALETTE_VARIANTS`, so with exactly
`MAX_PALETTE_VARIANTS` variants, it is the palette, strictly ascending and holding
exactly the samples, followed by the packed stream whose field of voxel `idx` is the
palette position of its sample. -/
theorem blob_size_by_variant_count (S : Sampler) (hash_order : List Nat → List Nat)
    (st : GvoxPaletteSerializeUserState) (range : GvoxRegionRange)
    (rx ry rz ci : Nat) (channels : List Nat) (hperm : ∀ l, (hash_order l).Perm l)
    (hx : rx < 536870912) (hy : ry < 536870912) (hz : rz < 536870912) :
    (add_region S hash_order st range rx ry rz ci channels).size
        = (if (add_region S hash_order st range rx ry rz ci channels).region_header.variant_n
              > MAX_REGION_COMPRESSED_VARIANT_N then
            4 * (REGION_SIZE * REGION_SIZE * REGION_SIZE)
          else if (add_region S hash_order st range rx ry rz ci
              channels).region_header.variant_n > 1 then
            4 * (add_region S hash_order st range rx ry rz ci channels).region_header.variant_n
              + calc_palette_region_size (ceil_log2
                (add_region S hash_order st range rx ry rz ci channels).region_header.variant_n)
          else 0)
      ∧ (add_region S hash_order st range rx ry rz ci channels).user_state.data.length
        = st.data.length + (add_region S hash_order st range rx ry rz ci channels).size
      ∧ 1 ≤ (add_region S hash_order st range rx ry rz ci channels).region_header.variant_n
      ∧ (add_region S hash_order st range rx ry rz ci channels).errors = []
      ∧ region_blob_size MAX_REGION_COMPRESSED_VARIANT_N
        = 4 * MAX_REGION_COMPRESSED_VARIANT_N
          + calc_palette_region_size (ceil_log2 MAX_REGION_COMPRESSED_VARIANT_N)
      ∧ region_blob_size (MAX_REGION_COMPRESSED_VARIANT_N + 1) = 4 * (8 * 8 * 8)
      ∧ region_blob_size 512 = 2048
      ∧ (state_ok st →
          (add_region S hash_order st range rx ry rz ci channels).region_header.variant_n
            > MAX_REGION_COMPRESSED_VARIANT_N →
          stored_blob (add_region S hash_order st range rx ry rz ci channels)
            = (region_samples S range rx ry rz (channels.getD ci 0)).flatMap le32)
      ∧ (state_ok st →
          1 < (add_region S hash_order st range rx ry rz ci channels).region_header.variant_n →
          (add_region S hash_order st range rx ry rz ci channels).region_header.variant_n
            ≤ MAX_REGION_COMPRESSED_VARIANT_N →
          List.Sorted (· < ·)
              (read_words (stored_blob (add_region S hash_order st range rx ry rz ci channels))
                0 (add_region S hash_order st range rx ry rz ci channels).region_header.variant_n)
            ∧ (∀ w, w ∈ read_words
                  (stored_blob (add_region S hash_order st range rx ry rz ci channels)) 0
                  (add_region S hash_order st range rx ry rz ci channels).region_header.variant_n
                ↔ w ∈ region_samples S range rx ry rz (channels.getD ci 0))
            ∧ ∀ c ∈ region_coords,
                bit_field ((stored_blob (add_region S hash_order st range rx ry rz ci
                      channels)).drop
                    (4 * (add_region S hash_order st range rx ry rz ci
                      channels).region_header.variant_n))
                  (in_region_index c * ceil_log2 (add_region S hash_order st range rx ry rz ci
                      channels).region_header.variant_n)
                  (ceil_log2 (add_region S hash_order st range rx ry rz ci
                      channels).region_header.variant_n)
                = (read_words
                    (stored_blob (add_region S hash_order st range rx ry rz ci channels)) 0
                    (add_region S hash_order st range rx ry rz ci
                      channels).region_header.variant_n).indexOf
                    (effective_sample S range rx ry rz (channels.getD ci 0) c)) := by
  have h := add_region_size S hash_order st range rx ry rz ci channels hperm hx hy hz
  simp only [] at h
  obtain ⟨h1, h2, h3, h4⟩ := h
  have hpos := distinct_count_pos S range rx ry rz (channels.getD ci 0)
  refine ⟨?_, by rw [h1]; exact h4, by rw [h2]; exact hpos, h3, by decide, by decide,
    by decide,
    fun hst => (add_region_paths S hash_order st range rx ry rz ci channels hperm hx hy hz
      hst).1,
    fun hst => (add_region_paths S hash_order st range rx ry rz ci channels hperm hx hy hz
      hst).2⟩
  rw [h1, h2]
  unfold region_blob_size MAX_REGION_ALLOCATION_SIZE
  split
  · ring
  · rfl

/-- Witness of C6: the cube under `sampler_descending 366` has exactly 367 variants
(`MAX_PALETTE_VARIANTS`) and is stored on the palette path: 2048 bytes, of which word 0
is below word 1 although the samples of voxels 0 and 1 are 366 and 365.  The cube under
`sampler_descending 367` has 368 variants and is stored as the raw tile: 2048 bytes whose
words 0 and 1 are the samples 367 and 366 of voxels 0 and 1. -/
theorem blob_size_by_variant_count_witness :
    ((add_region (sampler_descending 366) id (state_with_table 8) (range_at_origin 8 8 8)
          0 0 0 0 [0]).region_header.variant_n = 367
        ∧ (add_region (sampler_descending 366) id (state_with_table 8) (range_at_origin 8 8 8)
          0 0 0 0 [0]).size = 2048
        ∧ read_u32 (stored_blob (add_region (sampler_descending 366) id (state_with_table 8)
            (range_at_origin 8 8 8) 0 0 0 0 [0])) 0
          < read_u32 (stored_blob (add_region (sampler_descending 366) id (state_with_table 8)
            (range_at_origin 8 8 8) 0 0 0 0 [0])) 4
        ∧ effective_sample (sampler_descending 366) (range_at_origin 8 8 8) 0 0 0 0 (0, 0, 0)
          = 366
        ∧ effective_sample (sampler_descending 366) (range_at_origin 8 8 8) 0 0 0 0 (1, 0, 0)
          = 365)
      ∧ ((add_region (sampler_descending 367) id (state_with_table 8) (range_at_origin 8 8 8)
          0 0 0 0 [0]).region_header.variant_n = 368
        ∧ (add_region (sampler_descending 367) id (state_with_table 8) (range_at_origin 8 8 8)
          0 0 0 0 [0]).size = 2048
        ∧ read_u32 (stored_blob (add_region (sampler_descending 367) id (state_with_table 8)
            (range_at_origin 8 8 8) 0 0 0 0 [0])) 0 = 367
        ∧ read_u32 (stored_blob (add_region (sampler_descending 367) id (state_with_table 8)
            (range_at_origin 8 8 8) 0 0 0 0 [0])) 4 = 366) := by
  have e : ([0] : List Nat).getD 0 0 = 0 := rfl
  have hc0 : ((0, 0, 0) : Nat × Nat × Nat) ∈ region_coords :=
    (mem_region_coords _).mpr (by decide)
  have hc1 : ((1, 0, 0) : Nat × Nat × Nat) ∈ region_coords :=
    (mem_region_coords _).mpr (by decide)
  have hi0 : in_region_index (0, 0, 0) = 0 := by decide
  have hi1 : in_region_index (1, 0, 0) = 1 := by decide
  constructor
  · have hn := (add_region_size (sampler_descending 366) id (state_with_table 8)
      (range_at_origin 8 8 8) 0 0 0 0 [0] perm_id (by decide) (by decide) (by decide)).2.1
    simp only [] at hn
    rw [e, sampler_descending_count 366 0 (by decide)] at hn
    obtain ⟨h1, _, _, _, _, _, _, _, h9⟩ := blob_size_by_variant_count (sampler_descending 366)
      id (state_with_table 8) (range_at_origin 8 8 8) 0 0 0 0 [0] perm_id (by decide)
      (by decide) (by decide)
    rw [hn] at h1
    have hsorted := (h9 (state_with_table_ok 8) (by rw [hn]; decide) (by rw [hn]; decide)).1
    rw [hn] at hsorted
    refine ⟨hn, by rw [h1]; decide, ?_, ?_, ?_⟩
    · have hp := List.pairwise_iff_getElem.mp hsorted 0 1
        (by rw [read_words_length]; decide) (by rw [read_words_length]; decide) (by decide)
      have g0 := getD_read_words (stored_blob (add_region (sampler_descending 366) id
        (state_with_table 8) (range_at_origin 8 8 8) 0 0 0 0 [0])) 0 367 0 (by decide)
      have g1 := getD_read_words (stored_blob (add_region (sampler_descending 366) id
        (state_with_table 8) (range_at_origin 8 8 8) 0 0 0 0 [0])) 0 367 1 (by decide)
      rw [List.getD_eq_getElem _ _ (by rw [read_words_length]; decide)] at g0 g1
      rw [g0, g1] at hp
      exact hp
    · rw [sampler_descending_sample 366 0 _ hc0 (by decide), hi0]; decide
    · rw [sampler_descending_sample 366 0 _ hc1 (by decide), hi1]; decide
  · have hn := (add_region_size (sampler_descending 367) id (state_with_table 8)
      (range_at_origin 8 8 8) 0 0 0 0 [0] perm_id (by decide) (by decide) (by decide)).2.1
    simp only [] at hn
    rw [e, sampler_descending_count 367 0 (by decide)] at hn
    obtain ⟨h1, _, _, _, _, _, _, h8, _⟩ := blob_size_by_variant_count (sampler_descending 367)
      id (state_with_table 8) (range_at_origin 8 8 8) 0 0 0 0 [0] perm_id (by decide)
      (by decide) (by decide)
    rw [hn] at h1
    have hraw := h8 (state_with_table_ok 8) (by rw [hn]; decide)
    rw [e] at hraw
    refine ⟨hn, by rw [h1]; decide, ?_, ?_⟩
    · have := read_u32_words_bytes (region_samples (sampler_descending 367)
        (range_at_origin 8 8 8) 0 0 0 0) 0
      rw [hraw, this]
      have gs := getD_region_samples (sampler_descending 367) (range_at_origin 8 8 8) 0 0 0 0
        (0, 0, 0) hc0
      rw [hi0] at gs
      rw [gs, sampler_descending_sample 367 0 _ hc0 (by decide), hi0]
      decide
    · have := read_u32_words_bytes (region_samples (sampler_descending 367)
        (range_at_origin 8 8 8) 0 0 0 0) 1
      rw [hraw, this]
      have gs := getD_region_samples (sampler_descending 367) (range_at_origin 8 8 8) 0 0 0 0
        (1, 0, 0) hc1
      rw [hi1] at gs
      rw [gs, sampler_descending_sample 367 0 _ hc1 (by decide), hi1]
      decide

/-- C7 (raw tile content): on the raw path (`variant_n > MAX_PALETTE_VARIANTS`) the blob
`add_region` stores is exactly `R^3` little-endian 32-bit words, and the word at position
`xi + yi*R + zi*R^2` is the effective sample of voxel `(xi, yi, zi)`. -/
theorem raw_tile_content (S : Sampler) (hash_order : List Nat → List Nat)
    (st : GvoxPaletteSerializeUserState) (range : GvoxRegionRange)
    (rx ry rz ci : Nat) (channels : List Nat) (hperm : ∀ l, (hash_order l).Perm l)
    (hx : rx < 536870912) (hy : ry < 536870912) (hz : rz < 536870912) (hst : state_ok st)
    (hraw : (add_region S hash_order st range rx ry rz ci channels).region_header.variant_n
      > MAX_REGION_COMPRESSED_VARIANT_N) :
    stored_blob (add_region S hash_order st range rx ry rz ci channels)
        = (region_samples S range rx ry rz (channels.getD ci 0)).flatMap le32
      ∧ (stored_blob (add_region S hash_order st range rx ry rz ci channels)).length
        = 4 * (REGION_SIZE * REGION_SIZE * REGION_SIZE)
      ∧ ∀ c ∈ region_coords,
          read_u32 (stored_blob (add_region S hash_order st range rx ry rz ci channels))
            (4 * in_region_index c)
          = effective_sample S range rx ry rz (channels.getD ci 0) c := by
  have h := add_region_effect S hash_order st range rx ry rz ci channels hperm hx hy hz hst
  simp only [] at h
  obtain ⟨_, _, _, _, _, _, h7, _⟩ := h
  have hn := (add_region_size S hash_order st range rx ry rz ci channels hperm hx hy hz).2.1
  simp only [] at hn
  rw [hn] at hraw
  rw [h7]
  refine ⟨region_local_data_raw S range rx ry rz _ hx hy hz hraw, ?_, ?_⟩
  · rw [region_local_data_raw S range rx ry rz _ hx hy hz hraw, words_bytes_length,
      region_samples_length]
    rfl
  · intro c hc
    exact region_decode_raw S range rx ry rz _ hx hy hz hraw c hc

/-- Witness of C7: the raw tile of the cube sampled by `sampler_index` holds 83 at
position `3 + 2*8 + 1*64`. -/
theorem raw_tile_content_witness :
    read_u32 (stored_blob (add_region sampler_index id (state_with_table 8)
      (range_at_origin 8 8 8) 0 0 0 0 [0])) (4 * in_region_index (3, 2, 1)) = 83 := by
  have hn := (add_region_size sampler_index id (state_with_table 8) (range_at_origin 8 8 8)
    0 0 0 0 [0] perm_id (by decide) (by decide) (by decide)).2.1
  simp only [] at hn
  have e : ([0] : List Nat).getD 0 0 = 0 := rfl
  rw [e, sampler_index_count 8 0 0 (by decide) (by decide)] at hn
  have hc : ((3, 2, 1) : Nat × Nat × Nat) ∈ region_coords :=
    (mem_region_coords _).mpr (by decide)
  have h := (raw_tile_content sampler_index id (state_with_table 8) (range_at_origin 8 8 8)
    0 0 0 0 [0] perm_id (by decide) (by decide) (by decide) (state_with_table_ok 8)
    (by rw [hn]; decide)).2.2 (3, 2, 1) hc
  rw [h, e, sampler_index_sample 8 0 0 _ hc (by decide) (by decide)]
  decide

/-- C5 (palette monotonicity): on the palette path (`1 < variant_n <= MAX_PALETTE_VARIANTS`)
the first `variant_n` words of the blob `add_region` stores are strictly ascending and
are exactly the distinct effective samples of the region, whatever the iteration order
of the variant set. -/
theorem palette_strictly_ascending (S : Sampler) (hash_order : List Nat → List Nat)
    (st : GvoxPaletteSerializeUserState) (range : GvoxRegionRange)
    (rx ry rz ci : Nat) (channels : List Nat) (hperm : ∀ l, (hash_order l).Perm l)
    (hx : rx < 536870912) (hy : ry < 536870912) (hz : rz < 536870912) (hst : state_ok st)
    (h1 : 1 < (add_region S hash_order st range rx ry rz ci channels).region_header.variant_n)
    (h2 : (add_region S hash_order st range rx ry rz ci channels).region_header.variant_n
      ≤ MAX_REGION_COMPRESSED_VARIANT_N) :
    List.Sorted (· < ·)
        (read_words (stored_blob (add_region S hash_order st range rx ry rz ci channels)) 0
          (add_region S hash_order st range rx ry rz ci channels).region_header.variant_n)
      ∧ (∀ w, w ∈ read_words
            (stored_blob (add_region S hash_order st range rx ry rz ci channels)) 0
            (add_region S hash_order st range rx ry rz ci channels).region_header.variant_n
          ↔ w ∈ region_samples S range rx ry rz (channels.getD ci 0))
      ∧ ∀ order2 : List Nat → List Nat, (∀ l, (order2 l).Perm l) →
          stored_blob (add_region S order2 st range rx ry rz ci channels)
            = stored_blob (add_region S hash_order st range rx ry rz ci channels) := by
  have h := add_region_effect S hash_order st range rx ry rz ci channels hperm hx hy hz hst
  simp only [] at h
  obtain ⟨_, _, _, _, _, _, h7, _⟩ := h
  have hn := (add_region_size S hash_order st range rx ry rz ci channels hperm hx hy hz).2.1
  simp only [] at hn
  rw [hn] at h1 h2 ⊢
  rw [h7]
  obtain ⟨pal, _, hsorted, hmem, _, _, hpal, _⟩ :=
    region_local_data_palette S range rx ry rz _ hx hy hz h1 (by omega)
  rw [hpal]
  refine ⟨hsorted, hmem, ?_⟩
  intro order2 hperm2
  have h' := add_region_effect S order2 st range rx ry rz ci channels hperm2 hx hy hz hst
  simp only [] at h'
  exact h'.2.2.2.2.2.2.1

/-- Witness of C5: extent `(9, 8, 8)`, sampler `x`, region `(1, 0, 0)`: the two palette
words are strictly ascending. -/
theorem palette_strictly_ascending_witness :
    List.Sorted (· < ·) (read_words (stored_blob (add_region sampler_x id (state_with_table 16)
      (range_at_origin 9 8 8) 1 0 0 0 [0])) 0 2) := by
  have hn := (add_region_size sampler_x id (state_with_table 16) (range_at_origin 9 8 8)
    1 0 0 0 [0] perm_id (by decide) (by decide) (by decide)).2.1
  simp only [] at hn
  have e : ([0] : List Nat).getD 0 0 = 0 := rfl
  rw [e, sampler_x_count 0] at hn
  have h := (palette_strictly_ascending sampler_x id (state_with_table 16)
    (range_at_origin 9 8 8) 1 0 0 0 [0] perm_id (by decide) (by decide) (by decide)
    (state_with_table_ok 16) (by rw [hn]; decide) (by rw [hn]; decide)).1
  rw [hn] at h
  exact h


/-- C2 (bit-packed index layout): on the palette path, with `L` the blob `add_region`
stores, `n = variant_n` and `bits = ceil_log2 n`, the bits `[idx*bits, (idx+1)*bits)` of
the packed stream after the palette hold the position of the sample of voxel `idx` in
the palette, the same number is `(u32_le_at(byte) >> shift) & low_mask(bits)`, the
palette entry at that position is the sample, and a step of the index loop leaves the
bits of every other voxel unchanged. -/
theorem packed_index_layout (S : Sampler) (hash_order : List Nat → List Nat)
    (st : GvoxPaletteSerializeUserState) (range : GvoxRegionRange)
    (rx ry rz ci : Nat) (channels : List Nat) (L : List Nat) (n : Nat)
    (c : Nat × Nat × Nat) (hperm : ∀ l, (hash_order l).Perm l)
    (hx : rx < 536870912) (hy : ry < 536870912) (hz : rz < 536870912) (hst : state_ok st)
    (hL : L = stored_blob (add_region S hash_order st range rx ry rz ci channels))
    (hn : n = (add_region S hash_order st range rx ry rz ci channels).region_header.variant_n)
    (h1 : 1 < n) (h2 : n ≤ MAX_REGION_COMPRESSED_VARIANT_N) (hc : c ∈ region_coords) :
    (read_words L 0 n).indexOf (effective_sample S range rx ry rz (channels.getD ci 0) c) < n
      ∧ (read_words L 0 n).getD ((read_words L 0 n).indexOf
            (effective_sample S range rx ry rz (channels.getD ci 0) c)) 0
          = effective_sample S range rx ry rz (channels.getD ci 0) c
      ∧ bit_field (L.drop (4 * n)) (in_region_index c * ceil_log2 n) (ceil_log2 n)
          = (read_words L 0 n).indexOf (effective_sample S range rx ry rz (channels.getD ci 0) c)
      ∧ (read_u32 (L.drop (4 * n)) (in_region_index c * ceil_log2 n / 8)
            >>> (in_region_index c * ceil_log2 n - 8 * (in_region_index c * ceil_log2 n / 8)))
          &&& get_mask (ceil_log2 n)
          = (read_words L 0 n).indexOf (effective_sample S range rx ry rz (channels.getD ci 0) c)
      ∧ ∀ (buf buf1 : List Nat) (d : Nat × Nat × Nat), d ∈ region_coords → d ≠ c →
          bytes_ok buf → buf.length = 4 * n + calc_palette_region_size (ceil_log2 n) →
          palette_fill_step S range (u32 (rx * REGION_SIZE)) (u32 (ry * REGION_SIZE))
            (u32 (rz * REGION_SIZE)) (channels.getD ci 0) n (ceil_log2 n) buf c = .ok buf1 →
          bit_field (buf1.drop (4 * n)) (in_region_index d * ceil_log2 n) (ceil_log2 n)
            = bit_field (buf.drop (4 * n)) (in_region_index d * ceil_log2 n) (ceil_log2 n) := by
  have h := add_region_effect S hash_order st range rx ry rz ci channels hperm hx hy hz hst
  simp only [] at h
  obtain ⟨_, _, _, _, _, _, h7, _⟩ := h
  have hvn := (add_region_size S hash_order st range rx ry rz ci channels hperm hx hy hz).2.1
  simp only [] at hvn
  rw [hvn] at hn
  rw [h7] at hL
  subst hL hn
  obtain ⟨pal, hpl, _, hmem, hlen, hok, hpal, hbits⟩ :=
    region_local_data_palette S range rx ry rz _ hx hy hz h1 (by omega)
  have hle := distinct_count_le S range rx ry rz (channels.getD ci 0)
  obtain ⟨hc1, hc2, _, _⟩ := ceil_log2_small _ (Nat.lt_succ_of_le hle)
  obtain ⟨a1, a2, a3, a4⟩ := decode_palette_aux _ pal _ _ _ hle (in_region_index_lt c hc) hpl
    hlen hok hpal ((hmem _).mpr (List.mem_map_of_mem _ hc)) (fun t ht => hbits c hc t ht)
  rw [hpal]
  refine ⟨a2, ?_, ?_, ?_, ?_⟩
  · have := getD_read_words (region_local_data S range rx ry rz (channels.getD ci 0)) 0 _ _ a2
    rw [hpal, Nat.zero_add, a3] at this
    exact this
  · apply bit_field_eq _ _ _ _ _ hok (lt_of_lt_of_le a2 hc1)
    intro t ht
    have := hbits c hc t ht
    have e : 8 * (4 * distinct_count S range rx ry rz (channels.getD ci 0))
        + in_region_index c * ceil_log2 (distinct_count S range rx ry rz (channels.getD ci 0)) + t
        = 32 * distinct_count S range rx ry rz (channels.getD ci 0)
          + in_region_index c * ceil_log2 (distinct_count S range rx ry rz (channels.getD ci 0))
          + t := by omega
    rw [e, this]
  · rw [read_u32_drop, Nat.mul_comm 8 _]
    exact a1
  · intro buf buf1 d hd hne hbok hblen hstep
    exact palette_fill_step_frame S range _ _ _ _ _ _ buf buf1 c d hc hd hne hc2 hc1 hblen hbok
      hstep

/-- Witness of C2: extent `(9, 8, 8)`, sampler `x`, region `(1, 0, 0)`, voxel `(0, 0, 0)`
(sample 8): bit 0 of the packed stream is the palette position of 8. -/
theorem packed_index_layout_witness :
    bit_field ((stored_blob (add_region sampler_x id (state_with_table 16)
        (range_at_origin 9 8 8) 1 0 0 0 [0])).drop (4 * 2))
        (in_region_index (0, 0, 0) * ceil_log2 2) (ceil_log2 2)
      = (read_words (stored_blob (add_region sampler_x id (state_with_table 16)
          (range_at_origin 9 8 8) 1 0 0 0 [0])) 0 2).indexOf
        (effective_sample sampler_x (range_at_origin 9 8 8) 1 0 0 (([0] : List Nat).getD 0 0)
          (0, 0, 0)) := by
  have hn := (add_region_size sampler_x id (state_with_table 16) (range_at_origin 9 8 8)
    1 0 0 0 [0] perm_id (by decide) (by decide) (by decide)).2.1
  simp only [] at hn
  have e : ([0] : List Nat).getD 0 0 = 0 := rfl
  rw [e, sampler_x_count 0] at hn
  exact (packed_index_layout sampler_x id (state_with_table 16) (range_at_origin 9 8 8)
    1 0 0 0 [0] _ 2 (0, 0, 0) perm_id (by decide) (by decide) (by decide)
    (state_with_table_ok 16) rfl hn.symm (by decide) (by decide)
    ((mem_region_coords _).mpr (by decide))).2.2.1
/-- C4 (constant-region compactness): when the 512 effective samples of a region and
channel all equal one value `v`, `add_region` publishes the header `{1, v}`, returns
blob size 0 without error, leaves `blobs_begin` and the length of the shared buffer
unchanged, and the only bytes it writes are the eight header bytes at the header slot
(no blob byte is copied).  Consequently, for a range of extent `(8, 8, 8)` at any
offset, channel mask `1` and the constant sampler `0xDEADBEEF`, the container of a
fresh serializer starts with the magic number, has a `blob_size` field of 0, is 48
bytes long (the preamble and one header) and that header is `{1, 0xDEADBEEF}`. -/
theorem constant_region_compact (S : Sampler) (hash_order : List Nat → List Nat)
    (pool : List RegionTask → List RegionTask)
    (st : GvoxPaletteSerializeUserState) (range : GvoxRegionRange)
    (rx ry rz ci : Nat) (channels : List Nat) (v : Nat) (o : GvoxOffset3D)
    (hperm : ∀ l, (hash_order l).Perm l) (hpool : ∀ l, (pool l).Perm l)
    (hx : rx < 536870912) (hy : ry < 536870912) (hz : rz < 536870912)
    (hconst : ∀ c ∈ region_coords,
      effective_sample S range rx ry rz (channels.getD ci 0) c = v) :
    (add_region S hash_order st range rx ry rz ci channels).region_header
        = { variant_n := 1, blob_offset := v }
      ∧ (add_region S hash_order st range rx ry rz ci channels).size = 0
      ∧ (add_region S hash_order st range rx ry rz ci channels).errors = []
      ∧ (add_region S hash_order st range rx ry rz ci channels).user_state.blobs_begin
          = st.blobs_begin
      ∧ (add_region S hash_order st range rx ry rz ci channels).user_state.data.length
          = st.data.length
      ∧ (add_region S hash_order st range rx ry rz ci channels).user_state.data
          = write_bytes st.data (header_slot_offset range rx ry rz ci channels.length)
              (header_bytes { variant_n := 1, blob_offset := v })
      ∧ read_u32 (serialize_region (sampler_const 3735928559) hash_order pool [] fresh_state
          { offset := o, extent := ⟨8, 8, 8⟩ } 1).output 0 = 7370343
      ∧ read_u32 (serialize_region (sampler_const 3735928559) hash_order pool [] fresh_state
          { offset := o, extent := ⟨8, 8, 8⟩ } 1).output 28 = 0
      ∧ (serialize_region (sampler_const 3735928559) hash_order pool [] fresh_state
          { offset := o, extent := ⟨8, 8, 8⟩ } 1).output.length = 48
      ∧ read_u32 (serialize_region (sampler_const 3735928559) hash_order pool [] fresh_state
          { offset := o, extent := ⟨8, 8, 8⟩ } 1).output 40 = 1
      ∧ read_u32 (serialize_region (sampler_const 3735928559) hash_order pool [] fresh_state
          { offset := o, extent := ⟨8, 8, 8⟩ } 1).output 44 = 3735928559 := by
  have hspec := add_region_spec S hash_order st range rx ry rz ci channels hperm hx hy hz
  obtain ⟨hcnt, hhead⟩ := distinct_count_const S range rx ry rz (channels.getD ci 0) v hconst
  rw [hcnt, hhead] at hspec
  rw [if_neg (by decide), if_neg (by decide), region_blob_size_one 1 (by decide)] at hspec
  have hdata : (publish_region st range rx ry rz ci channels.length
      { variant_n := 1, blob_offset := v }
      (region_local_data S range rx ry rz (channels.getD ci 0)) 0).user_state.data
      = write_bytes st.data (header_slot_offset range rx ry rz ci channels.length)
          (header_bytes { variant_n := 1, blob_offset := v }) := rfl
  rw [hspec]
  refine ⟨rfl, rfl, rfl, rfl, ?_, hdata, ?_⟩
  · rw [hdata]; exact write_bytes_length _ _ _
  · exact serialize_const_cube 3735928559 hash_order pool o hperm hpool

/-- Witness of C4: the region `(0, 0, 0)` of an `(8, 8, 8)` range under the constant
sampler 7 publishes the header `{1, 7}` and reserves no blob. -/
theorem constant_region_compact_witness :
    (add_region (sampler_const 7) id (state_with_table 8) (range_at_origin 8 8 8)
        0 0 0 0 [0]).region_header = { variant_n := 1, blob_offset := 7 }
      ∧ (add_region (sampler_const 7) id (state_with_table 8) (range_at_origin 8 8 8)
        0 0 0 0 [0]).size = 0 :=
  have h := constant_region_compact (sampler_const 7) id id (state_with_table 8)
    (range_at_origin 8 8 8) 0 0 0 0 [0] 7 ⟨0, 0, 0⟩ perm_id perm_id_tasks
    (by decide) (by decide) (by decide)
    (sampler_const_count 7 (range_at_origin 8 8 8) 0 0 0 (([0] : List Nat).getD 0 0)
      ⟨Nat.le_refl 8, Nat.le_refl 8, Nat.le_refl 8⟩)
  ⟨h.1, h.2.1⟩
/-- C8 (header table placement), amended: when the number of regions
`Nx * Ny * Nz` is at most `2^32` (so that the 32-bit region index does not wrap),
the buffer `serialize_region` reserves on a fresh state is a zeroed header table of
exactly `8 * (Nx * Ny * Nz * channel_n)` bytes ending at `blobs_begin`; the slot of
task `(rx, ry, rz, ci)` is at byte offset `8 * (((rz*Ny + ry)*Nx + rx)*channel_n + ci)`
and lies inside the table; `add_region`, run on any state whose buffer holds the table,
leaves its header in that slot and changes no other byte of the buffer it was given;
the task is enqueued, no task is enqueued twice, the slots of distinct enqueued tasks
are disjoint, and every slot of the table is the slot of exactly one enqueued task. -/
theorem header_table_placement (S : Sampler) (hash_order : List Nat → List Nat)
    (st : GvoxPaletteSerializeUserState) (range : GvoxRegionRange) (flags : Nat)
    (rx ry rz ci : Nat) (hperm : ∀ l, (hash_order l).Perm l)
    (hg : region_count range.extent.x * region_count range.extent.y
      * region_count range.extent.z ≤ 4294967296)
    (hrx : rx < region_count range.extent.x) (hry : ry < region_count range.extent.y)
    (hrz : rz < region_count range.extent.z) (hci : ci < (channel_list flags).length)
    (hst : state_ok st) (hlen : header_table_bytes range flags ≤ st.data.length) :
    (run_init range flags).user_state.data
        = List.replicate (8 * (region_count range.extent.x * region_count range.extent.y
            * region_count range.extent.z * (channel_list flags).length)) 0
      ∧ (run_init range flags).user_state.blobs_begin
        = 8 * (region_count range.extent.x * region_count range.extent.y
            * region_count range.extent.z * (channel_list flags).length)
      ∧ header_slot_offset range rx ry rz ci (channel_list flags).length
        = 8 * (((rz * region_count range.extent.y + ry) * region_count range.extent.x + rx)
            * (channel_list flags).length + ci)
      ∧ header_slot_offset range rx ry rz ci (channel_list flags).length + 8
        ≤ 8 * (region_count range.extent.x * region_count range.extent.y
            * region_count range.extent.z * (channel_list flags).length)
      ∧ read_u32 (add_region S hash_order st range rx ry rz ci
            (channel_list flags)).user_state.data
          (header_slot_offset range rx ry rz ci (channel_list flags).length)
        = (add_region S hash_order st range rx ry rz ci
            (channel_list flags)).region_header.variant_n
      ∧ read_u32 (add_region S hash_order st range rx ry rz ci
            (channel_list flags)).user_state.data
          (header_slot_offset range rx ry rz ci (channel_list flags).length + 4)
        = (add_region S hash_order st range rx ry rz ci
            (channel_list flags)).region_header.blob_offset
      ∧ (∀ j, j < st.data.length →
          (j < header_slot_offset range rx ry rz ci (channel_list flags).length
            ∨ header_slot_offset range rx ry rz ci (channel_list flags).length + 8 ≤ j) →
          (add_region S hash_order st range rx ry rz ci
            (channel_list flags)).user_state.data.getD j 0 = st.data.getD j 0)
      ∧ (rx, ry, rz, ci) ∈ enqueued_tasks range flags
      ∧ (enqueued_tasks range flags).Nodup
      ∧ (∀ u ∈ enqueued_tasks range flags, u ≠ (rx, ry, rz, ci) →
          header_slot_offset range u.1 u.2.1 u.2.2.1 u.2.2.2 (channel_list flags).length + 8
              ≤ header_slot_offset range rx ry rz ci (channel_list flags).length
            ∨ header_slot_offset range rx ry rz ci (channel_list flags).length + 8
              ≤ header_slot_offset range u.1 u.2.1 u.2.2.1 u.2.2.2
                  (channel_list flags).length)
      ∧ (∀ k, k < region_count range.extent.x * region_count range.extent.y
            * region_count range.extent.z * (channel_list flags).length →
          ∃ u ∈ enqueued_tasks range flags,
            header_slot_offset range u.1 u.2.1 u.2.2.1 u.2.2.2 (channel_list flags).length
              = 8 * k
            ∧ ∀ w ∈ enqueued_tasks range flags,
                header_slot_offset range w.1 w.2.1 w.2.2.1 w.2.2.2
                  (channel_list flags).length = 8 * k → w = u) := by
  have hmem : (rx, ry, rz, ci) ∈ enqueued_tasks range flags := by
    unfold enqueued_tasks
    rw [mem_region_tasks]
    exact ⟨hrx, hry, hrz, hci⟩
  obtain ⟨b1, b2, b3⟩ := task_slot_bijection range flags hg
  obtain ⟨i1, i2⟩ := run_init_table range flags hg
  obtain ⟨s1, s2⟩ := b1 _ hmem
  have s1a : header_slot_offset range rx ry rz ci (channel_list flags).length
      = 8 * (((rz * region_count range.extent.y + ry) * region_count range.extent.x + rx)
          * (channel_list flags).length + ci) := s1
  have s2a : header_slot_offset range rx ry rz ci (channel_list flags).length + 8
      ≤ header_table_bytes range flags := s2
  obtain ⟨w1, w2, w3⟩ := add_region_header_slot S hash_order st range rx ry rz ci
    (channel_list flags) hperm (lt_trans hrx (region_count_lt _))
    (lt_trans hry (region_count_lt _)) (lt_trans hrz (region_count_lt _)) hst
    (le_trans s2a hlen)
  refine ⟨i1, i2, s1a, s2a, w1, w2, w3, hmem, region_tasks_nodup _ _ _ _, ?_, b3⟩
  intro u hu hne
  exact b2 u hu _ hmem hne

/-- Witness of C8: extent `(16, 8, 8)`, channel mask 1, task `(1, 0, 0, 0)` on the
zeroed two-slot table: the slot is at byte offset 8. -/
theorem header_table_placement_witness :
    header_slot_offset (range_at_origin 16 8 8) 1 0 0 0 (channel_list 1).length
      = 8 * (((0 * region_count (range_at_origin 16 8 8).extent.y + 0)
          * region_count (range_at_origin 16 8 8).extent.x + 1)
          * (channel_list 1).length + 0) :=
  (header_table_placement sampler_x id (state_with_table 16) (range_at_origin 16 8 8) 1
    1 0 0 0 perm_id (by decide) (by decide) (by decide) (by decide) (by decide)
    (state_with_table_ok 16) (by decide)).2.2.1

/-- Counterexample to C8 as stated: for extent `(1048576, 1048576, 8)` and channel
mask 1 the grid is `Nx = Ny = 131072`, `Nz = 1`; the enqueued task `(0, 32768, 0, 0)`
has the 32-bit region index `32768 * 131072 mod 2^32 = 0`, so `add_region` writes
its header at byte offset 0, the slot of task `(0, 0, 0, 0)`, and not at
`8 * (((0*Ny + 32768)*Nx + 0)*1 + 0) = 34359738368`. -/
theorem header_slot_wraps :
    (0, 32768, 0, 0) ∈ enqueued_tasks (range_at_origin 1048576 1048576 8) 1
      ∧ (0, 0, 0, 0) ∈ enqueued_tasks (range_at_origin 1048576 1048576 8) 1
      ∧ header_slot_offset (range_at_origin 1048576 1048576 8) 0 32768 0 0
          (channel_list 1).length = 0
      ∧ header_slot_offset (range_at_origin 1048576 1048576 8) 0 0 0 0
          (channel_list 1).length = 0
      ∧ 8 * (((0 * region_count (range_at_origin 1048576 1048576 8).extent.y + 32768)
          * region_count (range_at_origin 1048576 1048576 8).extent.x + 0)
          * (channel_list 1).length + 0) = 34359738368
      ∧ ¬ (header_slot_offset (range_at_origin 1048576 1048576 8) 0 32768 0 0
          (channel_list 1).length
        = 8 * (((0 * region_count (range_at_origin 1048576 1048576 8).extent.y + 32768)
          * region_count (range_at_origin 1048576 1048576 8).extent.x + 0)
          * (channel_list 1).length + 0)) := by
  have e1 : region_count (range_at_origin 1048576 1048576 8).extent.x = 131072 := by decide
  have e2 : region_count (range_at_origin 1048576 1048576 8).extent.y = 131072 := by decide
  have e3 : region_count (range_at_origin 1048576 1048576 8).extent.z = 1 := by decide
  have e4 : (channel_list 1).length = 1 := by decide
  have m1 : (0, 32768, 0, 0) ∈ enqueued_tasks (range_at_origin 1048576 1048576 8) 1 := by
    unfold enqueued_tasks
    rw [mem_region_tasks, e1, e2, e3, e4]
    decide
  have m2 : (0, 0, 0, 0) ∈ enqueued_tasks (range_at_origin 1048576 1048576 8) 1 := by
    unfold enqueued_tasks
    rw [mem_region_tasks, e1, e2, e3, e4]
    decide
  have s1 : header_slot_offset (range_at_origin 1048576 1048576 8) 0 32768 0 0
      (channel_list 1).length = 0 := by
    unfold header_slot_offset
    simp only [e1, e2, e4]
    decide
  have s2 : header_slot_offset (range_at_origin 1048576 1048576 8) 0 0 0 0
      (channel_list 1).length = 0 := by
    unfold header_slot_offset
    simp only [e1, e2, e4]
    decide
  refine ⟨m1, m2, s1, s2, ?_, ?_⟩
  · rw [e1, e2, e4]
  · rw [s1, e1, e2, e4]
    decide
/-- C9 (container size), amended: for every range, channel mask and sampler, on a
fresh state `serialize_region` runs every enqueued task once and emits
`40 + blobs_begin + s` bytes, where `s`, the sum of the blob sizes returned by the
region tasks, is also the final buffer length minus `blobs_begin`; the `blob_size`
field patched at offset 28 holds `s` reduced modulo `2^32`.  When `s < 2^32` the
field is `s` itself and the stream has `40 + blobs_begin + blob_size` bytes; when
the grid has at most `2^32` regions `blobs_begin` is the header-table size
`8 * (Nx * Ny * Nz * channel_n)`. -/
theorem container_size (S : Sampler) (hash_order : List Nat → List Nat)
    (pool : List RegionTask → List RegionTask) (range : GvoxRegionRange) (flags : Nat)
    (hperm : ∀ l, (hash_order l).Perm l) (hpool : ∀ l, (pool l).Perm l) :
    ((serialize_region S hash_order pool [] fresh_state range flags).trace.map
        (fun r => r.1)).Perm (enqueued_tasks range flags)
      ∧ read_u32 (serialize_region S hash_order pool [] fresh_state range flags).output 28
        = trace_size (serialize_region S hash_order pool [] fresh_state range flags).trace
            % 4294967296
      ∧ (serialize_region S hash_order pool [] fresh_state range flags).user_state.data.length
        = (serialize_region S hash_order pool [] fresh_state range
              flags).user_state.blobs_begin
          + trace_size (serialize_region S hash_order pool [] fresh_state range flags).trace
      ∧ (serialize_region S hash_order pool [] fresh_state range flags).output.length
        = 40 + (serialize_region S hash_order pool [] fresh_state range
              flags).user_state.blobs_begin
          + trace_size (serialize_region S hash_order pool [] fresh_state range flags).trace
      ∧ (trace_size (serialize_region S hash_order pool [] fresh_state range flags).trace
            < 4294967296 →
          read_u32 (serialize_region S hash_order pool [] fresh_state range flags).output 28
            = trace_size (serialize_region S hash_order pool [] fresh_state range
                flags).trace
          ∧ (serialize_region S hash_order pool [] fresh_state range flags).output.length
            = 40 + (serialize_region S hash_order pool [] fresh_state range
                  flags).user_state.blobs_begin
              + read_u32 (serialize_region S hash_order pool [] fresh_state range
                  flags).output 28)
      ∧ (region_count range.extent.x * region_count range.extent.y
            * region_count range.extent.z ≤ 4294967296 →
          (serialize_region S hash_order pool [] fresh_state range
              flags).user_state.blobs_begin
            = 8 * (region_count range.extent.x * region_count range.extent.y
                * region_count range.extent.z * (channel_list flags).length)) := by
  obtain ⟨f1, f2, f3, f4, f5⟩ := serialize_size_facts S hash_order pool range flags hperm hpool
  have hs : trace_size (serialize_region S hash_order pool [] fresh_state range flags).trace
      = total_blob_size S range flags := by
    rw [f1, task_records_sizes]
    exact tasks_size_perm S range (channel_list flags) _ _ (hpool _)
  rw [hs, f2, f3, f4, f5]
  refine ⟨?_, rfl, rfl, rfl, ?_, ?_⟩
  · rw [f1, task_records_tasks]
    exact hpool _
  · intro hlt
    rw [Nat.mod_eq_of_lt hlt]
    exact ⟨rfl, rfl⟩
  · intro hg
    exact (run_init_table range flags hg).2

/-- Witness of C9: one constant cube; the `blob_size` field is the recorded sum. -/
theorem container_size_witness :
    read_u32 (serialize_region (sampler_const 7) id id [] fresh_state
        (range_at_origin 8 8 8) 1).output 28
      = trace_size (serialize_region (sampler_const 7) id id [] fresh_state
          (range_at_origin 8 8 8) 1).trace % 4294967296 :=
  (container_size (sampler_const 7) id id (range_at_origin 8 8 8) 1 perm_id
    perm_id_tasks).2.1

/-- Counterexample to C9 as stated: a row of `2^21` regions (extent
`(16777216, 8, 8)`, channel mask 1) under `sampler_index`, every region stored raw.
The region tasks return `2^21 * 2048 = 2^32` blob bytes in all, the buffer grows by
as much, but the `blob_size` field at offset 28 is 0 and the stream is `2^32` bytes
longer than `40 + blobs_begin + blob_size`. -/
theorem blob_size_field_wraps :
    trace_size (serialize_region sampler_index id id [] fresh_state
        (range_at_origin 16777216 8 8) 1).trace = 4294967296
      ∧ read_u32 (serialize_region sampler_index id id [] fresh_state
        (range_at_origin 16777216 8 8) 1).output 28 = 0
      ∧ (serialize_region sampler_index id id [] fresh_state
          (range_at_origin 16777216 8 8) 1).user_state.data.length
        - (serialize_region sampler_index id id [] fresh_state
          (range_at_origin 16777216 8 8) 1).user_state.blobs_begin = 4294967296
      ∧ (serialize_region sampler_index id id [] fresh_state
          (range_at_origin 16777216 8 8) 1).output.length
        = 40 + (serialize_region sampler_index id id [] fresh_state
            (range_at_origin 16777216 8 8) 1).user_state.blobs_begin + 4294967296
      ∧ ¬ (read_u32 (serialize_region sampler_index id id [] fresh_state
          (range_at_origin 16777216 8 8) 1).output 28
        = trace_size (serialize_region sampler_index id id [] fresh_state
          (range_at_origin 16777216 8 8) 1).trace) := by
  obtain ⟨f1, f2, f3, f4, f5⟩ := serialize_size_facts sampler_index id id
    (range_at_origin 16777216 8 8) 1 perm_id perm_id_tasks
  have ht : total_blob_size sampler_index (range_at_origin 16777216 8 8) 1 = 4294967296 := by
    have e : (16777216 : Nat) = 8 * 2097152 := by norm_num
    rw [e, sampler_index_total 2097152 (by norm_num)]
  have hs : trace_size (serialize_region sampler_index id id [] fresh_state
      (range_at_origin 16777216 8 8) 1).trace = 4294967296 := by
    rw [f1, task_records_sizes, id_eq]
    unfold total_blob_size at ht
    exact ht
  rw [ht] at f3 f4 f5
  rw [hs, f2, f3, f4, f5]
  refine ⟨rfl, rfl, by omega, rfl, by decide⟩
/-- C10 (blob reservations do not overlap), amended: a region task with more than one
variant, run on a buffer whose blob area is shorter than `2^32` bytes, records
`blob_offset = buffer length - blobs_begin`, extends the buffer by the size it returns
and stores its blob at `blobs_begin + blob_offset`.  When the blobs of a container take
less than `2^32` bytes in all, then in any order `pool` of the region tasks: every
recorded task with `variant_n > 1` has `blob_offset` equal to the sum of the sizes
returned by the tasks that ran before it (counted from the blob area base), a size
above 0 and a range `[blob_offset, blob_offset + size)` inside `[0, blob_size)`; the
ranges of two such tasks do not overlap and their offsets differ; and every byte of
`[0, blob_size)` lies in the range of exactly one such task. -/
theorem blob_reservations_disjoint (S : Sampler) (hash_order : List Nat → List Nat)
    (pool : List RegionTask → List RegionTask) (range : GvoxRegionRange) (flags : Nat)
    (st : GvoxPaletteSerializeUserState) (rx ry rz ci : Nat)
    (hperm : ∀ l, (hash_order l).Perm l) (hpool : ∀ l, (pool l).Perm l)
    (htot : total_blob_size S range flags < 4294967296)
    (hx : rx < 536870912) (hy : ry < 536870912) (hz : rz < 536870912) (hst : state_ok st) :
    ((1 < (add_region S hash_order st range rx ry rz ci
            (channel_list flags)).region_header.variant_n →
        (add_region S hash_order st range rx ry rz ci
            (channel_list flags)).region_header.blob_offset
          = st.data.length - st.blobs_begin)
      ∧ (add_region S hash_order st range rx ry rz ci (channel_list flags)).user_state.data.length
          = st.data.length
            + (add_region S hash_order st range rx ry rz ci (channel_list flags)).size
      ∧ (add_region S hash_order st range rx ry rz ci (channel_list flags)).user_state.blobs_begin
          = st.blobs_begin
      ∧ stored_blob (add_region S hash_order st range rx ry rz ci (channel_list flags))
          = region_local_data S range rx ry rz ((channel_list flags).getD ci 0))
    ∧ read_u32 (serialize_region S hash_order pool [] fresh_state range flags).output 28
        = trace_size (serialize_region S hash_order pool [] fresh_state range flags).trace
    ∧ (∀ (i : Nat) (r : TaskRecord),
        (serialize_region S hash_order pool [] fresh_state range flags).trace[i]? = some r →
        r.2.2 = region_blob_size r.2.1.variant_n
        ∧ (1 < r.2.1.variant_n →
            r.2.1.blob_offset
              = reserved_before
                  (serialize_region S hash_order pool [] fresh_state range flags).trace i
            ∧ 0 < r.2.2
            ∧ r.2.1.blob_offset + r.2.2
                ≤ trace_size
                    (serialize_region S hash_order pool [] fresh_state range flags).trace))
    ∧ (∀ (i j : Nat) (r s : TaskRecord), i < j →
        (serialize_region S hash_order pool [] fresh_state range flags).trace[i]? = some r →
        (serialize_region S hash_order pool [] fresh_state range flags).trace[j]? = some s →
        1 < r.2.1.variant_n → 1 < s.2.1.variant_n →
        r.2.1.blob_offset + r.2.2 ≤ s.2.1.blob_offset
          ∧ r.2.1.blob_offset ≠ s.2.1.blob_offset)
    ∧ (∀ b, b < trace_size
          (serialize_region S hash_order pool [] fresh_state range flags).trace →
        ∃ (i : Nat) (r : TaskRecord),
          (serialize_region S hash_order pool [] fresh_state range flags).trace[i]? = some r
          ∧ 1 < r.2.1.variant_n ∧ r.2.1.blob_offset ≤ b ∧ b < r.2.1.blob_offset + r.2.2
          ∧ ∀ (j : Nat) (s : TaskRecord),
              (serialize_region S hash_order pool [] fresh_state range flags).trace[j]?
                = some s →
              1 < s.2.1.variant_n → s.2.1.blob_offset ≤ b →
              b < s.2.1.blob_offset + s.2.2 → j = i) := by
  obtain ⟨f1, _, _, f4, _⟩ := serialize_size_facts S hash_order pool range flags hperm hpool
  have hts := tasks_size_perm S range (channel_list flags) _ _ (hpool (enqueued_tasks range flags))
  have htd : tasks_size S range (channel_list flags) (enqueued_tasks range flags)
      = total_blob_size S range flags := rfl
  rw [htd] at hts
  have hlay := records_layout S range (channel_list flags)
    (run_init range flags).user_state.blobs_begin (pool (enqueued_tasks range flags))
    (by rw [hts]; exact htot)
  have hsz := task_records_sizes S range (channel_list flags)
    (run_init range flags).user_state.blobs_begin (pool (enqueued_tasks range flags))
    (run_init range flags).user_state.blobs_begin
  rw [← f1] at hlay hsz
  rw [hts] at hsz
  have heff := add_region_effect S hash_order st range rx ry rz ci (channel_list flags)
    hperm hx hy hz hst
  simp only [] at heff
  obtain ⟨e1, _, e3, _, e5, e6, e7, _⟩ := heff
  refine ⟨⟨?_, ?_, e1, e7⟩, ?_, hlay⟩
  · intro h1
    rw [e5] at h1 ⊢
    simp only [] at h1 ⊢
    rw [if_pos h1]
  · rw [e6, e3]
  · rw [f4, hsz, Nat.mod_eq_of_lt htot]

/-- Witness of C10: extent `(9, 8, 8)`, channel mask 1, sampler `x`, the tasks run in
enqueue order; the second region holds two variants and its blob starts at 0. -/
theorem blob_reservations_disjoint_witness :
    read_u32 (serialize_region sampler_x id id [] fresh_state
        (range_at_origin 9 8 8) 1).output 28
      = trace_size (serialize_region sampler_x id id [] fresh_state
          (range_at_origin 9 8 8) 1).trace :=
  (blob_reservations_disjoint sampler_x id id (range_at_origin 9 8 8) 1
    (state_with_table 16) 1 0 0 0 perm_id perm_id_tasks
    (lt_of_le_of_lt (total_blob_size_le sampler_x (range_at_origin 9 8 8) 1) (by decide))
    (by decide) (by decide) (by decide) (state_with_table_ok 16)).2.1

/-- Counterexample to C10 as stated: a row of `2^21 + 1` regions (extent
`(16777224, 8, 8)`, channel mask 1) under `sampler_index`, the tasks run in enqueue
order.  The task of region 0 and the task of region `2^21` both have 512 variants
and both record `blob_offset = 0` and size 2048, so their byte ranges coincide,
although `2^32` blob bytes were reserved before the second of them. -/
theorem blob_offsets_collide :
    (serialize_region sampler_index id id [] fresh_state
        (range_at_origin 16777224 8 8) 1).trace[0]?
      = some ((0, 0, 0, 0), { variant_n := 512, blob_offset := 0 }, 2048)
    ∧ (serialize_region sampler_index id id [] fresh_state
        (range_at_origin 16777224 8 8) 1).trace[2097152]?
      = some ((2097152, 0, 0, 0), { variant_n := 512, blob_offset := 0 }, 2048)
    ∧ reserved_before (serialize_region sampler_index id id [] fresh_state
        (range_at_origin 16777224 8 8) 1).trace 2097152 = 4294967296 := by
  have e : (16777224 : Nat) = 8 * 2097153 := by norm_num
  have hN : 8 * 2097153 ≤ 2147483648 := by norm_num
  obtain ⟨f1, _⟩ := serialize_size_facts sampler_index id id
    (range_at_origin 16777224 8 8) 1 perm_id perm_id_tasks
  rw [f1, id_eq]
  generalize (run_init (range_at_origin 16777224 8 8) 1).user_state.blobs_begin = bb
  rw [e, enqueued_tasks_row 2097153 hN]
  have h0 := sampler_index_record 2097153 0 bb hN (by norm_num)
  have h1 := sampler_index_record 2097153 2097152 bb hN (by norm_num)
  have u0 : u32_sub (bb + 0 * 2048) bb = 0 := by unfold u32_sub; omega
  have u1 : u32_sub (bb + 2097152 * 2048) bb = 0 := by unfold u32_sub; omega
  rw [u0] at h0
  rw [u1] at h1
  refine ⟨h0, h1, ?_⟩
  unfold reserved_before
  rw [task_records_take, task_records_sizes, region_tasks_row_take _ _ (by norm_num),
    sampler_index_tasks_size 2097153 2097152 hN (by norm_num)]

/-- C1 (round trip of the palette container), amended: for every range with `int32_t`
offset and `uint32_t` extent, every 32-bit channel mask and every sampler `S`, and in
every iteration order of the variant sets and every order of the region tasks, if the
region grid is formed without 32-bit wrap-around (every `extent + 7` below `2^32`, at
most `2^32` regions) and the blobs take less than `2^32` bytes in all, then decoding
the output of `serialize_region` run on a fresh state, as the decoder of the
specification prescribes, gives `S(p, c)` at every position `p` inside the range and
every channel `c` whose bit is set in the mask. -/
theorem palette_round_trip (S : Sampler) (hash_order : List Nat → List Nat)
    (pool : List RegionTask → List RegionTask) (range : GvoxRegionRange) (flags : Nat)
    (p : GvoxOffset3D) (c : Nat)
    (hperm : ∀ l, (hash_order l).Perm l) (hpool : ∀ l, (pool l).Perm l)
    (hr : range_typed range) (hf : flags < 4294967296) (hg : grid_fits range)
    (htot : total_blob_size S range flags < 4294967296)
    (hp : offset_typed p) (hin : in_range range p) (hc : c < 32)
    (hbit : flags.testBit c = true) :
    decode_voxel (serialize_region S hash_order pool [] fresh_state range flags).output p c
      = some (S p c).val :=
  decode_serialize S hash_order pool range flags p c hperm hpool hr hf hg htot hp hin hc hbit

/-- Witness of C1: extent `(9, 8, 8)`, channel mask 1, sampler `x`: the voxel
`(8, 0, 0)` of the second region decodes to its sample. -/
theorem palette_round_trip_witness :
    decode_voxel (serialize_region sampler_x id id [] fresh_state
        (range_at_origin 9 8 8) 1).output ⟨8, 0, 0⟩ 0
      = some (sampler_x ⟨8, 0, 0⟩ 0).val :=
  palette_round_trip sampler_x id id (range_at_origin 9 8 8) 1 ⟨8, 0, 0⟩ 0
    perm_id perm_id_tasks
    (by unfold range_typed offset_typed is_i32; decide) (by decide)
    (by unfold grid_fits; decide)
    (lt_of_le_of_lt (total_blob_size_le sampler_x (range_at_origin 9 8 8) 1) (by decide))
    (by unfold offset_typed is_i32; decide) (by unfold in_range; decide) (by decide)
    (by decide)

/-- Counterexample to C1 as stated: a row of `2^21` regions (extent
`(16777216, 8, 8)`, channel mask 1) under `sampler_index`, the tasks run in enqueue
order.  Every region is stored raw, the blobs take `2^32` bytes and the `blob_size`
field of the container is 0; the header of the last region holds 512 variants and a
blob range that ends beyond `blob_size`, so the decoder rejects it: the voxel
`(16777208, 0, 0)`, whose sample is 0, is not decoded. -/
theorem round_trip_fails_on_wrap :
    in_range (range_at_origin 16777216 8 8) ⟨16777208, 0, 0⟩
      ∧ (1 : Nat).testBit 0 = true
      ∧ (sampler_index ⟨16777208, 0, 0⟩ 0).val = 0
      ∧ decode_voxel (serialize_region sampler_index id id [] fresh_state
          (range_at_origin 16777216 8 8) 1).output ⟨16777208, 0, 0⟩ 0 = none
      ∧ ¬ (decode_voxel (serialize_region sampler_index id id [] fresh_state
          (range_at_origin 16777216 8 8) 1).output ⟨16777208, 0, 0⟩ 0
        = some (sampler_index ⟨16777208, 0, 0⟩ 0).val) := by
  have hdec : decode_voxel (serialize_region sampler_index id id [] fresh_state
      (range_at_origin 16777216 8 8) 1).output ⟨16777208, 0, 0⟩ 0 = none := by
    have e : (16777216 : Nat) = 8 * 2097152 := by norm_num
    obtain ⟨_, hv, hb⟩ := sampler_index_last_header
    rw [← e] at hv hb
    obtain ⟨_, _, _, f4, _⟩ := serialize_size_facts sampler_index id id
      (range_at_origin 16777216 8 8) 1 perm_id perm_id_tasks
    have ht : total_blob_size sampler_index (range_at_origin 16777216 8 8) 1
        = 4294967296 := by
      rw [e, sampler_index_total 2097152 (by norm_num)]
    rw [ht] at f4
    rw [serialize_region_fresh sampler_index id id (range_at_origin 16777216 8 8) 1 perm_id
      perm_id_tasks] at f4 ⊢
    simp only [] at f4 ⊢
    generalize (run_final sampler_index id id (range_at_origin 16777216 8 8)
      1).user_state.data = data at f4 hv hb ⊢
    generalize u32_sub (run_final sampler_index id id (range_at_origin 16777216 8 8) 1).size
      (run_final sampler_index id id (range_at_origin 16777216 8 8)
        1).user_state.blobs_begin = bs at f4 ⊢
    have hW := fun i hi => read_preamble [7370343, of_i32 (range_at_origin 16777216 8 8).offset.x,
      of_i32 (range_at_origin 16777216 8 8).offset.y,
      of_i32 (range_at_origin 16777216 8 8).offset.z,
      (range_at_origin 16777216 8 8).extent.x, (range_at_origin 16777216 8 8).extent.y,
      (range_at_origin 16777216 8 8).extent.z, bs, 1, u32 (popcount 1)] data i hi
    have hrd : ∀ k, read_u32 ([7370343, of_i32 (range_at_origin 16777216 8 8).offset.x,
        of_i32 (range_at_origin 16777216 8 8).offset.y,
        of_i32 (range_at_origin 16777216 8 8).offset.z,
        (range_at_origin 16777216 8 8).extent.x, (range_at_origin 16777216 8 8).extent.y,
        (range_at_origin 16777216 8 8).extent.z, bs, 1, u32 (popcount 1)].flatMap le32
        ++ data) (40 + k) = read_u32 data k := by
      intro k
      have := read_u32_append_right ([7370343, of_i32 (range_at_origin 16777216 8 8).offset.x,
        of_i32 (range_at_origin 16777216 8 8).offset.y,
        of_i32 (range_at_origin 16777216 8 8).offset.z,
        (range_at_origin 16777216 8 8).extent.x, (range_at_origin 16777216 8 8).extent.y,
        (range_at_origin 16777216 8 8).extent.z, bs, 1, u32 (popcount 1)].flatMap le32) data k
      rw [words_bytes_length] at this
      exact this
    generalize ([7370343, of_i32 (range_at_origin 16777216 8 8).offset.x,
        of_i32 (range_at_origin 16777216 8 8).offset.y,
        of_i32 (range_at_origin 16777216 8 8).offset.z,
        (range_at_origin 16777216 8 8).extent.x, (range_at_origin 16777216 8 8).extent.y,
        (range_at_origin 16777216 8 8).extent.z, bs, 1, u32 (popcount 1)].flatMap le32
        ++ data) = input at f4 hW hrd ⊢
    have rv : read_u32 input (40 + 16777208) = 512 := (hrd 16777208).trans hv
    have e8 : 40 + 8 * (16777208 / 8) = 40 + 16777208 := by norm_num
    refine decode_voxel_row_reject input ⟨16777208, 0, 0⟩ 16777216 16777208
      (hW 0 (by simp)) ?_ ?_ ?_ (hW 4 (by simp)) (hW 5 (by simp)) (hW 6 (by simp)) f4
      (hW 8 (by simp)) (hW 9 (by simp)) rfl rfl rfl (by norm_num) ?_
    · rw [show read_u32 input 4 = _ from hW 1 (by simp)]; rfl
    · rw [show read_u32 input 8 = _ from hW 2 (by simp)]; rfl
    · rw [show read_u32 input 12 = _ from hW 3 (by simp)]; rfl
    · rw [e8, rv]; decide
  refine ⟨by unfold in_range; decide, by decide, by decide, hdec, ?_⟩
  rw [hdec]
  exact fun h => Option.noConfusion h

/-- C11 (preamble layout): on a fresh state and an empty stream `serialize_region`
writes the magic bytes `'g','v','p',0` at offset 0, the 24 bytes of the range at
offset 4, the `uint32_t` `blob_size` (the sum of the blob sizes of the region tasks,
reduced to 32 bits) at offset 28, the `uint32_t` channel mask at offset 32 and
`channel_n = popcount(channel_mask)` at offset 36; from offset 40 on the stream is the
shared buffer, that is the header table (its first `blobs_begin` bytes) followed by
the blob area. -/
theorem preamble_layout (S : Sampler) (hash_order : List Nat → List Nat)
    (pool : List RegionTask → List RegionTask) (range : GvoxRegionRange) (flags : Nat)
    (hperm : ∀ l, (hash_order l).Perm l) (hpool : ∀ l, (pool l).Perm l) :
    (serialize_region S hash_order pool [] fresh_state range flags).output.take 4
        = [103, 118, 112, 0]
      ∧ ((serialize_region S hash_order pool [] fresh_state range flags).output.drop 4).take 24
        = range_bytes range
      ∧ read_u32 (serialize_region S hash_order pool [] fresh_state range flags).output 28
        = total_blob_size S range flags % 4294967296
      ∧ read_u32 (serialize_region S hash_order pool [] fresh_state range flags).output 32
        = flags % 4294967296
      ∧ read_u32 (serialize_region S hash_order pool [] fresh_state range flags).output 36
        = popcount flags
      ∧ (serialize_region S hash_order pool [] fresh_state range flags).output.drop 40
        = (serialize_region S hash_order pool [] fresh_state range flags).user_state.data
      ∧ (serialize_region S hash_order pool [] fresh_state range flags).user_state.data.length
        = (serialize_region S hash_order pool [] fresh_state range flags).user_state.blobs_begin
          + total_blob_size S range flags := by
  obtain ⟨_, f2, f3, f4, _⟩ := serialize_size_facts S hash_order pool range flags hperm hpool
  refine ⟨?_, ?_, f4, ?_, ?_, ?_, ?_⟩
  · rw [serialize_region_fresh S hash_order pool range flags hperm hpool]
    exact (preamble_bytes _ _ _ _ _ _ _ _ _ _ _).1
  · rw [serialize_region_fresh S hash_order pool range flags hperm hpool]
    exact (preamble_bytes _ _ _ _ _ _ _ _ _ _ _).2.1
  · rw [serialize_region_fresh S hash_order pool range flags hperm hpool]
    exact read_preamble _ _ 8 (by simp)
  · rw [serialize_region_fresh S hash_order pool range flags hperm hpool]
    refine (read_preamble _ _ 9 (by simp)).trans ?_
    have := popcount_le flags
    show u32 (popcount flags) % 4294967296 = popcount flags
    unfold u32
    omega
  · rw [serialize_region_fresh S hash_order pool range flags hperm hpool]
    exact (preamble_bytes _ _ _ _ _ _ _ _ _ _ _).2.2
  · rw [f3, f2]

/-- Witness of C11: the preamble of the container of one constant cube. -/
theorem preamble_layout_witness :
    (serialize_region (sampler_const 7) id id [] fresh_state
        (range_at_origin 8 8 8) 1).output.take 4 = [103, 118, 112, 0] :=
  (preamble_layout (sampler_const 7) id id (range_at_origin 8 8 8) 1 perm_id
    perm_id_tasks).1

/-- C12 (channel ordering): for every channel mask the channel list built by
`serialize_region` has `popcount(mask)` entries, is strictly ascending and holds
exactly the indices below 32 of the set bits of the mask; the entry in slot `ci` is
the set bit with exactly `ci` set bits below it.  The mask `0b1011` gives `[0, 1, 3]`
and a header table of 3 entries of 8 bytes per region.  The sampler is called for slot
`ci` with the channel id `channels[ci]`: what `add_region` stores for slot `ci` is what
the sampler returns on that channel (the variant count is the number of distinct samples
on that channel, and the value kept for each voxel, in the header of a constant region,
in the raw tile or in the palette entry its packed index selects, is the sample of the
voxel on that channel), the result does not depend on what the sampler returns on any
other channel, and every task `serialize_region` runs has a slot `ci` of this list and
records the variant count of the channel `channels[ci]`. -/
theorem channel_ordering (flags : Nat) :
    (channel_list flags).length = popcount flags
      ∧ (channel_list flags).Pairwise (· < ·)
      ∧ (∀ c, c ∈ channel_list flags ↔ c < 32 ∧ flags.testBit c = true)
      ∧ (∀ ci, ci < (channel_list flags).length →
          flags.testBit ((channel_list flags).getD ci 0) = true
          ∧ ((List.range ((channel_list flags).getD ci 0)).filter
              (fun i => flags.testBit i)).length = ci)
      ∧ channel_list 11 = [0, 1, 3]
      ∧ (∀ range : GvoxRegionRange, header_table_bytes range 11
          = 8 * (region_count range.extent.x * region_count range.extent.y
              * region_count range.extent.z * 3))
      ∧ (∀ (S S1 : Sampler) (hash_order : List Nat → List Nat)
          (st : GvoxPaletteSerializeUserState) (range : GvoxRegionRange) (rx ry rz ci : Nat),
          (∀ p, S p ((channel_list flags).getD ci 0) = S1 p ((channel_list flags).getD ci 0)) →
          add_region S hash_order st range rx ry rz ci (channel_list flags)
            = add_region S1 hash_order st range rx ry rz ci (channel_list flags))
      ∧ (∀ (S : Sampler) (hash_order : List Nat → List Nat)
          (st : GvoxPaletteSerializeUserState) (range : GvoxRegionRange) (rx ry rz ci : Nat),
          (∀ l, (hash_order l).Perm l) → rx < 536870912 → ry < 536870912 → rz < 536870912 →
          state_ok st →
          (add_region S hash_order st range rx ry rz ci
              (channel_list flags)).region_header.variant_n
            = distinct_count S range rx ry rz ((channel_list flags).getD ci 0)
          ∧ ∀ c ∈ region_coords,
            (if (add_region S hash_order st range rx ry rz ci
                (channel_list flags)).region_header.variant_n
                > MAX_REGION_COMPRESSED_VARIANT_N then
              read_u32 (stored_blob (add_region S hash_order st range rx ry rz ci
                (channel_list flags))) (4 * in_region_index c)
            else if (add_region S hash_order st range rx ry rz ci
                (channel_list flags)).region_header.variant_n > 1 then
              (read_words (stored_blob (add_region S hash_order st range rx ry rz ci
                  (channel_list flags))) 0
                (add_region S hash_order st range rx ry rz ci
                  (channel_list flags)).region_header.variant_n).getD
                (bit_field ((stored_blob (add_region S hash_order st range rx ry rz ci
                      (channel_list flags))).drop
                    (4 * (add_region S hash_order st range rx ry rz ci
                      (channel_list flags)).region_header.variant_n))
                  (in_region_index c * ceil_log2 (add_region S hash_order st range rx ry rz ci
                      (channel_list flags)).region_header.variant_n)
                  (ceil_log2 (add_region S hash_order st range rx ry rz ci
                      (channel_list flags)).region_header.variant_n)) 0
            else (add_region S hash_order st range rx ry rz ci
                (channel_list flags)).region_header.blob_offset)
            = effective_sample S range rx ry rz ((channel_list flags).getD ci 0) c)
      ∧ (∀ (S : Sampler) (hash_order : List Nat → List Nat)
          (pool : List RegionTask → List RegionTask) (output : List Nat)
          (st : GvoxPaletteSerializeUserState) (range : GvoxRegionRange),
          (∀ l, (hash_order l).Perm l) → (∀ l, (pool l).Perm l) →
          ∀ r ∈ (serialize_region S hash_order pool output st range flags).trace,
            r.1.2.2.2 < (channel_list flags).length
            ∧ r.2.1.variant_n = distinct_count S range r.1.1 r.1.2.1 r.1.2.2.1
                ((channel_list flags).getD r.1.2.2.2 0)) := by
  have h11 : channel_list 11 = [0, 1, 3] := by decide
  refine ⟨channel_list_length flags, channel_list_sorted flags, mem_channel_list flags, ?_,
    h11, ?_, ?_, ?_, ?_⟩
  · intro ci hci
    constructor
    · have hm : (channel_list flags).getD ci 0 ∈ channel_list flags := by
        rw [List.getD_eq_getElem _ _ hci]
        exact List.getElem_mem _
      exact ((mem_channel_list flags _).mp hm).2
    · have h := set_bits_below_getD (fun i => flags.testBit i) 32 ci
        (by rw [← channel_list_eq]; exact hci)
      rw [← channel_list_eq] at h
      exact h
  · intro range
    unfold header_table_bytes
    rw [h11]
    rfl
  · intro S S1 hash_order st range rx ry rz ci h
    exact add_region_congr S S1 hash_order st range rx ry rz ci (channel_list flags) h
  · intro S hash_order st range rx ry rz ci hperm hx hy hz hst
    exact add_region_samples_channel S hash_order st range rx ry rz ci (channel_list flags)
      hperm hx hy hz hst
  · intro S hash_order pool output st range hperm hpool r hr
    exact serialize_trace_channel S hash_order pool output st range flags hperm hpool r hr

/-- Witness of C12: with the mask `0b1011` slot 2 is channel 3, and `add_region` run for
slot 2 under the sampler that returns the channel id it is asked for records the
constant region of value 3. -/
theorem channel_ordering_witness :
    (channel_list 11).getD 2 0 = 3
      ∧ (add_region sampler_channel id (state_with_table 24) (range_at_origin 8 8 8) 0 0 0 2
          (channel_list 11)).region_header = { variant_n := 1, blob_offset := 3 } := by
  have h11 : channel_list 11 = [0, 1, 3] := by decide
  have e : (channel_list 11).getD 2 0 = 3 := by rw [h11]; rfl
  obtain ⟨h1, h2⟩ := (channel_ordering 11).2.2.2.2.2.2.2.1 sampler_channel id
    (state_with_table 24) (range_at_origin 8 8 8) 0 0 0 2 perm_id (by decide) (by decide)
    (by decide) (state_with_table_ok 24)
  have hc0 : ((0, 0, 0) : Nat × Nat × Nat) ∈ region_coords :=
    (mem_region_coords _).mpr (by decide)
  have hcnt := (distinct_count_const sampler_channel (range_at_origin 8 8 8) 0 0 0 3 3
    (fun c hc => sampler_channel_sample 3 c hc (by decide))).1
  rw [e, hcnt] at h1
  have h3 := h2 (0, 0, 0) hc0
  rw [h1, if_neg (by decide), if_neg (by decide), e,
    sampler_channel_sample 3 _ hc0 (by decide)] at h3
  refine ⟨e, ?_⟩
  generalize (add_region sampler_channel id (state_with_table 24) (range_at_origin 8 8 8)
    0 0 0 2 (channel_list 11)).region_header = hd at h1 h3
  cases hd
  simp only [] at h1 h3
  rw [h1, h3]

/-- C16 (`ceil_log2` meets its definition): for every 64-bit unsigned input `n`
(the parameter is a `size_t`), `ceil_log2 n` is 0 when `n ≤ 1` and otherwise the
smallest `k` with `2^k ≥ n` (`2^(ceil_log2 n) ≥ n`, and `ceil_log2 n ≤ k` for every
`k` with `2^k ≥ n`); in particular `ceil_log2 2 = 1`, `ceil_log2 3 = 2`,
`ceil_log2 256 = 8`, `ceil_log2 257 = 9` and `ceil_log2 512 = 9`. -/
theorem ceil_log2_meets_definition (n : Nat) (hn : n < 18446744073709551616) :
    (n ≤ 1 → ceil_log2 n = 0)
      ∧ (1 < n → n ≤ 2 ^ ceil_log2 n ∧ ∀ k, n ≤ 2 ^ k → ceil_log2 n ≤ k)
      ∧ ceil_log2 2 = 1 ∧ ceil_log2 3 = 2 ∧ ceil_log2 256 = 8 ∧ ceil_log2 257 = 9
      ∧ ceil_log2 512 = 9 := by
  obtain ⟨h1, h2, h3⟩ := ceil_log2_spec n hn
  exact ⟨h1, fun _ => ⟨h2, h3⟩, by decide, by decide, by decide, by decide, by decide⟩

/-- Witness of C16: `ceil_log2 300 = 9` is the smallest `k` with `2^k ≥ 300`. -/
theorem ceil_log2_meets_definition_witness :
    300 ≤ 2 ^ ceil_log2 300 ∧ ∀ k, 300 ≤ 2 ^ k → ceil_log2 300 ≤ k :=
  (ceil_log2_meets_definition 300 (by decide)).2.1 (by decide)

/-- C17 (low-bit mask), the table as the code has it: the entry `mask_bases[k]` that
`chunk_variance` and `parse_payload` select for `bits_per_variant = k` is
`2^(k+1) - 1` for `k` in `[0, 8]`, one bit wider than `(1 << k) - 1`, and the table
has no entry 9; for no `k` in `[0, 9]` is it the mask `(1 << k) - 1` of the `k` lowest
bits, which is what the `low_mask` of the specification (`get_mask`) gives. -/
theorem mask_table_off_by_one :
    (∀ k, k < 9 → mask_bases_at k = some (2 ^ (k + 1) - 1))
      ∧ mask_bases_at 9 = none
      ∧ (∀ k, k < 10 → mask_bases_at k ≠ some ((1 <<< k) - 1))
      ∧ mask_bases_at 1 = some 3
      ∧ (∀ k, k < 10 → get_mask k = (1 <<< k) - 1) := by
  refine ⟨by decide, by decide, by decide, by decide, by decide⟩

/-- C18 (determinism of region blobs): for a sampler `S`, two runs of `add_region` on
the same region and channel, with any two iteration orders of the variant set and from
any two buffer states (so with any blob offsets), push no error and give the same
`variant_n`, the same returned size and the same blob bytes (palette, packed indices
and padding, or the raw tile), namely `region_local_data`, which does not mention the
iteration order or the state; a constant region also has the same `blob_offset` (its
value), else `blob_offset` is the length of the blob area of the run; and both runs
write the header at the byte offset `header_slot_offset`, a function of the range,
`(rx, ry, rz, ci)` and the number of channels alone. -/
theorem region_blob_deterministic (S : Sampler) (order1 order2 : List Nat → List Nat)
    (st1 st2 : GvoxPaletteSerializeUserState) (range : GvoxRegionRange)
    (rx ry rz ci : Nat) (channels : List Nat)
    (hperm1 : ∀ l, (order1 l).Perm l) (hperm2 : ∀ l, (order2 l).Perm l)
    (hx : rx < 536870912) (hy : ry < 536870912) (hz : rz < 536870912)
    (hst1 : state_ok st1) (hst2 : state_ok st2)
    (hs1 : header_slot_offset range rx ry rz ci channels.length + 8 ≤ st1.data.length)
    (hs2 : header_slot_offset range rx ry rz ci channels.length + 8 ≤ st2.data.length) :
    stored_blob (add_region S order1 st1 range rx ry rz ci channels)
        = region_local_data S range rx ry rz (channels.getD ci 0)
      ∧ stored_blob (add_region S order2 st2 range rx ry rz ci channels)
        = region_local_data S range rx ry rz (channels.getD ci 0)
      ∧ (add_region S order1 st1 range rx ry rz ci channels).region_header.variant_n
        = (add_region S order2 st2 range rx ry rz ci channels).region_header.variant_n
      ∧ (add_region S order1 st1 range rx ry rz ci channels).size
        = (add_region S order2 st2 range rx ry rz ci channels).size
      ∧ (add_region S order1 st1 range rx ry rz ci channels).errors = []
      ∧ (add_region S order2 st2 range rx ry rz ci channels).errors = []
      ∧ (¬ 1 < (add_region S order1 st1 range rx ry rz ci channels).region_header.variant_n →
          (add_region S order1 st1 range rx ry rz ci channels).region_header
            = (add_region S order2 st2 range rx ry rz ci channels).region_header)
      ∧ (1 < (add_region S order1 st1 range rx ry rz ci channels).region_header.variant_n →
          (add_region S order1 st1 range rx ry rz ci channels).region_header.blob_offset
              = st1.data.length - st1.blobs_begin
            ∧ (add_region S order2 st2 range rx ry rz ci channels).region_header.blob_offset
              = st2.data.length - st2.blobs_begin)
      ∧ (add_region S order1 st1 range rx ry rz ci channels).user_state.data
        = write_bytes st1.data (header_slot_offset range rx ry rz ci channels.length)
            (header_bytes (add_region S order1 st1 range rx ry rz ci channels).region_header)
          ++ region_local_data S range rx ry rz (channels.getD ci 0)
      ∧ (add_region S order2 st2 range rx ry rz ci channels).user_state.data
        = write_bytes st2.data (header_slot_offset range rx ry rz ci channels.length)
            (header_bytes (add_region S order2 st2 range rx ry rz ci channels).region_header)
          ++ region_local_data S range rx ry rz (channels.getD ci 0) := by
  have h1 := add_region_effect S order1 st1 range rx ry rz ci channels hperm1 hx hy hz hst1
  have h2 := add_region_effect S order2 st2 range rx ry rz ci channels hperm2 hx hy hz hst2
  simp only [] at h1 h2
  obtain ⟨_, _, a3, a4, a5, _, a7, a8⟩ := h1
  obtain ⟨_, _, b3, b4, b5, _, b7, b8⟩ := h2
  refine ⟨a7, b7, ?_, ?_, a4, b4, ?_, ?_, a8 hs1, b8 hs2⟩
  · rw [a5, b5]
  · rw [a3, b3]
  · intro hn
    rw [a5] at hn ⊢
    rw [b5]
    simp only [] at hn
    rw [if_neg hn, if_neg hn]
  · intro hn
    rw [a5] at hn ⊢
    rw [b5]
    simp only [] at hn
    exact ⟨if_pos hn, if_pos hn⟩

/-- Witness of C18: the second region of extent `(9, 8, 8)` under the sampler `x`,
encoded from two zeroed tables of different sizes. -/
theorem region_blob_deterministic_witness :
    stored_blob (add_region sampler_x id (state_with_table 16) (range_at_origin 9 8 8)
        1 0 0 0 [0])
      = region_local_data sampler_x (range_at_origin 9 8 8) 1 0 0 (([0] : List Nat).getD 0 0) :=
  (region_blob_deterministic sampler_x id id (state_with_table 16) (state_with_table 24)
    (range_at_origin 9 8 8) 1 0 0 0 [0] perm_id perm_id (by decide) (by decide) (by decide)
    (state_with_table_ok 16) (state_with_table_ok 24) (by decide) (by decide)).1

/-- C20 (a palette lookup miss aborts the region): let the second pass of
`add_region` over a palette-path region (more than one variant, at most
`MAX_REGION_COMPRESSED_VARIANT_N`) meet, at some voxel, a sample that is not among the
variants of the first pass (the sampler answers `S` in the first pass and `S2` in the
second).  Then `add_region` pushes `ERROR_PARSE_ADAPTER_INVALID_INPUT` and nothing
else, returns 0, and leaves the shared buffer as it was but for the zero bytes of the
reserved blob range appended to it: no byte of the old buffer changes (the header slot
is not written) and every reserved byte is 0 (no blob byte is copied); `blobs_begin`
and `offset` are unchanged.  For a deterministic sampler (`S2 = S`) the function is
`add_region` and pushes no error. -/
theorem palette_miss_aborts (S S2 : Sampler) (hash_order : List Nat → List Nat)
    (st : GvoxPaletteSerializeUserState) (range : GvoxRegionRange)
    (rx ry rz ci : Nat) (channels : List Nat) (hperm : ∀ l, (hash_order l).Perm l)
    (hx : rx < 536870912) (hy : ry < 536870912) (hz : rz < 536870912)
    (h1 : 1 < distinct_count S range rx ry rz (channels.getD ci 0))
    (h2 : distinct_count S range rx ry rz (channels.getD ci 0)
      ≤ MAX_REGION_COMPRESSED_VARIANT_N)
    (hmiss : ∃ c ∈ region_coords,
      effective_sample S2 range rx ry rz (channels.getD ci 0) c
        ∉ region_samples S range rx ry rz (channels.getD ci 0)) :
    (add_region_resampled S S2 hash_order st range rx ry rz ci channels).errors
        = [GvoxResult.ERROR_PARSE_ADAPTER_INVALID_INPUT]
      ∧ (add_region_resampled S S2 hash_order st range rx ry rz ci channels).size = 0
      ∧ (add_region_resampled S S2 hash_order st range rx ry rz ci channels).user_state.data
        = st.data ++ List.replicate
            (4 * distinct_count S range rx ry rz (channels.getD ci 0)
              + calc_palette_region_size
                  (ceil_log2 (distinct_count S range rx ry rz (channels.getD ci 0)))) 0
      ∧ (∀ k, k < st.data.length →
          (add_region_resampled S S2 hash_order st range rx ry rz ci
            channels).user_state.data.getD k 0 = st.data.getD k 0)
      ∧ (∀ k, st.data.length ≤ k →
          (add_region_resampled S S2 hash_order st range rx ry rz ci
            channels).user_state.data.getD k 0 = 0)
      ∧ (add_region_resampled S S2 hash_order st range rx ry rz ci
            channels).user_state.blobs_begin = st.blobs_begin
      ∧ (add_region_resampled S S2 hash_order st range rx ry rz ci
            channels).user_state.offset = st.offset
      ∧ add_region_resampled S S hash_order st range rx ry rz ci channels
        = add_region S hash_order st range rx ry rz ci channels
      ∧ (add_region S hash_order st range rx ry rz ci channels).errors = [] := by
  have hm := add_region_resampled_miss S S2 hash_order st range rx ry rz ci channels hperm
    hx hy hz h1 h2 hmiss
  have hsz := (add_region_size S hash_order st range rx ry rz ci channels hperm hx hy hz).2.2.1
  have hbs := region_blob_size_palette (distinct_count S range rx ry rz (channels.getD ci 0))
    (by omega) h1
  rw [hm, hbs]
  refine ⟨rfl, rfl, rfl, ?_, ?_, rfl, rfl, rfl, hsz⟩
  · intro k hk
    exact List.getD_append _ _ _ _ hk
  · intro k hk
    show (st.data ++ List.replicate _ 0).getD k 0 = 0
    rw [List.getD_append_right _ _ _ _ hk, List.getD_eq_getElem?_getD,
      List.getElem?_replicate]
    split <;> rfl

/-- Witness of C20: the second region of extent `(9, 8, 8)` has the variants
`{8, 0}` under the sampler `x`; a second pass that answers 7 is rejected. -/
theorem palette_miss_aborts_witness :
    (add_region_resampled sampler_x (sampler_const 7) id (state_with_table 16)
        (range_at_origin 9 8 8) 1 0 0 0 [0]).errors
        = [GvoxResult.ERROR_PARSE_ADAPTER_INVALID_INPUT]
      ∧ (add_region_resampled sampler_x (sampler_const 7) id (state_with_table 16)
        (range_at_origin 9 8 8) 1 0 0 0 [0]).size = 0 :=
  have h := palette_miss_aborts sampler_x (sampler_const 7) id (state_with_table 16)
    (range_at_origin 9 8 8) 1 0 0 0 [0] perm_id (by decide) (by decide) (by decide)
    (by rw [sampler_x_count]; decide) (by rw [sampler_x_count]; decide)
    (sampler_x_miss _)
  ⟨h.1, h.2.1⟩

/-- C15 (the raw header parse raises iff the magic is wrong): `blit_begin`, called on a
parser whose cursor is at input offset `B` (0 for a fresh parser), pushes
`ERROR_PARSE_ADAPTER_INVALID_INPUT` if and only if the `uint32_t` at `B` is not the
magic, that is, on a stream of bytes, iff the four bytes at `B` differ from
`'g','v','r',0`; otherwise it pushes no error.  When the magic matches it caches the
24-byte range read at `B + 4`, the channel mask read at `B + 28` and
`channel_n = popcount(mask)`, and leaves the cursor (the data base) at `B + 32`; when
it does not match, the cached range, mask and `channel_n` are left unchanged. -/
theorem raw_header_parse (input : List Nat) (st : GvoxRawParseUserState)
    (hB : st.offset + 32 < 18446744073709551616) :
    ((blit_begin input st).2 = [GvoxResult.ERROR_PARSE_ADAPTER_INVALID_INPUT]
        ↔ read_u32 input st.offset ≠ 7501415)
      ∧ ((blit_begin input st).2 = [] ↔ read_u32 input st.offset = 7501415)
      ∧ (bytes_ok input →
          (read_u32 input st.offset = 7501415
            ↔ input.getD st.offset 0 = 103 ∧ input.getD (st.offset + 1) 0 = 118
              ∧ input.getD (st.offset + 2) 0 = 114 ∧ input.getD (st.offset + 3) 0 = 0))
      ∧ (read_u32 input st.offset = 7501415 →
          (blit_begin input st).1
            = { range := read_range input (st.offset + 4),
                channel_flags := read_u32 input (st.offset + 28),
                channel_n := popcount (read_u32 input (st.offset + 28)),
                offset := st.offset + 32 })
      ∧ (read_u32 input st.offset ≠ 7501415 →
          (blit_begin input st).1.range = st.range
          ∧ (blit_begin input st).1.channel_flags = st.channel_flags
          ∧ (blit_begin input st).1.channel_n = st.channel_n) := by
  by_cases hm : read_u32 input st.offset = 7501415
  · have h := blit_begin_ok input st hB hm
    rw [h]
    refine ⟨⟨fun h1 => absurd h1 (by simp), fun h1 => absurd hm h1⟩,
      ⟨fun _ => hm, fun _ => rfl⟩, fun hb => magic_bytes input st.offset hb,
      fun _ => rfl, fun h1 => absurd hm h1⟩
  · have h := blit_begin_bad input st hB hm
    rw [h]
    refine ⟨⟨fun _ => hm, fun _ => rfl⟩,
      ⟨fun h1 => absurd h1 (by simp), fun h1 => absurd h1 hm⟩,
      fun hb => magic_bytes input st.offset hb,
      fun h1 => absurd h1 hm, fun _ => ⟨rfl, rfl, rfl⟩⟩

/-- Witness of C15: a fresh parser on a stream that starts with `'g','v','p',0`. -/
theorem raw_header_parse_witness :
    (blit_begin [103, 118, 112, 0] raw_fresh_state).2
        = [GvoxResult.ERROR_PARSE_ADAPTER_INVALID_INPUT]
      ↔ read_u32 [103, 118, 112, 0] raw_fresh_state.offset ≠ 7501415 :=
  (raw_header_parse [103, 118, 112, 0] raw_fresh_state (by decide)).1

/-- C14 (loads after a wrong magic), amended: the raw parser keeps no error state.
If `blit_begin`, called on a fresh parser, reads a magic different from
`'g','v','r',0`, it pushes `ERROR_PARSE_ADAPTER_INVALID_INPUT`, and every later
`load_region` call, for every offset and `channel_id`, returns a region of extent
`(1, 1, 1)` with flag `UNIFORM` whose sample is the `uint32_t` held by the four input
bytes that follow the magic (offset 4): it is a zero region exactly when that word
is 0. -/
theorem raw_load_after_bad_magic (input : List Nat) (p : GvoxOffset3D) (c : Nat)
    (hm : read_u32 input 0 ≠ 7501415) :
    (blit_begin input raw_fresh_state).2 = [GvoxResult.ERROR_PARSE_ADAPTER_INVALID_INPUT]
      ∧ load_region input (blit_begin input raw_fresh_state).1 p c
        = { range := { offset := p, extent := { x := 1, y := 1, z := 1 } },
            channels := c, flags := GVOX_REGION_FLAG_UNIFORM, data := read_u32 input 4 }
      ∧ sample_region (load_region input (blit_begin input raw_fresh_state).1 p c)
        = read_u32 input 4 % 4294967296
      ∧ (sample_region (load_region input (blit_begin input raw_fresh_state).1 p c) = 0
          ↔ read_u32 input 4 % 4294967296 = 0) := by
  obtain ⟨h1, _, h3⟩ := load_region_after_error input p c hm
  rw [h3]
  exact ⟨h1, rfl, rfl, Iff.rfl⟩

/-- Witness of C14: on the zero stream every load after the failed `blit_begin` gives
a zero region. -/
theorem raw_load_after_bad_magic_witness :
    sample_region (load_region [0, 0, 0, 0, 0, 0, 0, 0]
        (blit_begin [0, 0, 0, 0, 0, 0, 0, 0] raw_fresh_state).1 ⟨3, 4, 5⟩ 2)
      = read_u32 [0, 0, 0, 0, 0, 0, 0, 0] 4 % 4294967296 :=
  (raw_load_after_bad_magic [0, 0, 0, 0, 0, 0, 0, 0] ⟨3, 4, 5⟩ 2 (by decide)).2.2.1

/-- Counterexample to C14 as stated: on the stream `0,0,0,0,1,0,0,0` the magic is
wrong and `blit_begin` pushes the error, yet `load_region` at `(0, 0, 0)`, channel 0,
returns a region whose sample is 1, not a zero region. -/
theorem raw_error_not_terminal :
    (blit_begin [0, 0, 0, 0, 1, 0, 0, 0] raw_fresh_state).2
        = [GvoxResult.ERROR_PARSE_ADAPTER_INVALID_INPUT]
      ∧ sample_region (load_region [0, 0, 0, 0, 1, 0, 0, 0]
          (blit_begin [0, 0, 0, 0, 1, 0, 0, 0] raw_fresh_state).1 ⟨0, 0, 0⟩ 0) = 1
      ∧ ¬ (sample_region (load_region [0, 0, 0, 0, 1, 0, 0, 0]
          (blit_begin [0, 0, 0, 0, 1, 0, 0, 0] raw_fresh_state).1 ⟨0, 0, 0⟩ 0) = 0) := by
  decide

/-- C13 (raw codec random access), amended: after a successful `blit_begin` on a raw
container that starts at input offset `B` (the cursor of the parser before the call),
for every position inside the cached range whose differences
`(dx, dy, dz) = offset - range.offset` are below `2^31` (they are formed in `int32_t`)
and every `channel_id < 32` whose bit is set in the mask, provided the address below
fits a 64-bit `size_t`: `load_region` returns a region with `range.offset` equal to
the requested offset, extent `(1, 1, 1)` and flags `UNIFORM`, and `sample_region` on
that region returns the little-endian `uint32_t` stored at
`B + 32 + 4 * (ch_idx + channel_n * (dx + dy*Ex + dz*Ex*Ey))`, where `ch_idx` is the
number of set mask bits below `channel_id` and `channel_n = popcount(mask)`.  Hence,
when the input is the raw container of a dense channel-fastest array `G`, the parser
returns `G[ch_idx + channel_n * (dx + dy*Ex + dz*Ex*Ey)]`; for extent `(2, 2, 2)` and
mask `0b101` every voxel of both channels is returned correctly. -/
theorem raw_random_access (input : List Nat) (st0 st : GvoxRawParseUserState)
    (p : GvoxOffset3D) (c dx dy dz : Nat)
    (hB : st0.offset + 32 < 18446744073709551616)
    (hst : blit_begin input st0 = (st, []))
    (hc : c < 32) (hbit : st.channel_flags.testBit c = true)
    (hin : in_range st.range p)
    (hx : p.x - st.range.offset.x = (dx : Int)) (hy : p.y - st.range.offset.y = (dy : Int))
    (hz : p.z - st.range.offset.z = (dz : Int))
    (hdx : dx < 2147483648) (hdy : dy < 2147483648) (hdz : dz < 2147483648)
    (haddr : st0.offset + 32 + 4 * dense_index st.channel_n st.range.extent.x
      st.range.extent.y (set_bits_below st.channel_flags c) dx dy dz
        < 18446744073709551616) :
    st.channel_n = popcount st.channel_flags
      ∧ st.offset = st0.offset + 32
      ∧ load_region input st p c
        = { range := { offset := p, extent := { x := 1, y := 1, z := 1 } },
            channels := c, flags := GVOX_REGION_FLAG_UNIFORM,
            data := read_u32 input (st0.offset + 32 + 4 * dense_index st.channel_n
              st.range.extent.x st.range.extent.y (set_bits_below st.channel_flags c)
              dx dy dz) }
      ∧ sample_region (load_region input st p c)
        = read_u32 input (st0.offset + 32 + 4 * dense_index st.channel_n
              st.range.extent.x st.range.extent.y (set_bits_below st.channel_flags c)
              dx dy dz) % 4294967296
      ∧ (bytes_ok input →
          sample_region (load_region input st p c)
            = read_u32 input (st0.offset + 32 + 4 * dense_index st.channel_n
                st.range.extent.x st.range.extent.y (set_bits_below st.channel_flags c)
                dx dy dz))
      ∧ (∀ (range : GvoxRegionRange) (flags : Nat) (samples : List Nat),
          range_typed range → flags < 4294967296 →
          input = raw_container range flags samples → st0 = raw_fresh_state →
          st.range = range ∧ st.channel_flags = flags
          ∧ sample_region (load_region input st p c)
            = samples.getD (dense_index (popcount flags) range.extent.x range.extent.y
                (set_bits_below flags c) dx dy dz) 0 % 4294967296)
      ∧ (∀ x : Nat, x < 2 → ∀ y : Nat, y < 2 → ∀ z : Nat, z < 2 →
          sample_region (load_region
            (raw_container (range_at_origin 2 2 2) 5 [100, 101, 102, 103, 104, 105, 106,
              107, 108, 109, 110, 111, 112, 113, 114, 115])
            (blit_begin (raw_container (range_at_origin 2 2 2) 5 [100, 101, 102, 103, 104,
              105, 106, 107, 108, 109, 110, 111, 112, 113, 114, 115]) raw_fresh_state).1
            ⟨(x : Int), (y : Int), (z : Int)⟩ 0) = 100 + 2 * (x + 2 * y + 4 * z)
          ∧ sample_region (load_region
            (raw_container (range_at_origin 2 2 2) 5 [100, 101, 102, 103, 104, 105, 106,
              107, 108, 109, 110, 111, 112, 113, 114, 115])
            (blit_begin (raw_container (range_at_origin 2 2 2) 5 [100, 101, 102, 103, 104,
              105, 106, 107, 108, 109, 110, 111, 112, 113, 114, 115]) raw_fresh_state).1
            ⟨(x : Int), (y : Int), (z : Int)⟩ 2) = 101 + 2 * (x + 2 * y + 4 * z)) := by
  have hm : read_u32 input st0.offset = 7501415 := by
    by_contra hne
    rw [blit_begin_bad input st0 hB hne] at hst
    exact absurd (congrArg Prod.snd hst) (by simp)
  have hb := blit_begin_ok input st0 hB hm
  rw [hst] at hb
  have hs := congrArg Prod.fst hb
  simp only [] at hs
  have hcn : st.channel_n = popcount st.channel_flags := by rw [hs]
  have hoff : st.offset = st0.offset + 32 := by rw [hs]
  have hey : dy < st.range.extent.y := by
    obtain ⟨_, _, _, i4, _, _⟩ := hin
    omega
  have hl := load_region_addr input st p c dx dy dz hc hbit hcn hx hy hz hdx hdy hdz hey
    (by rw [hoff]; omega)
  rw [hoff, Nat.add_assoc] at hl
  have e : st0.offset + (32 + 4 * dense_index st.channel_n st.range.extent.x
      st.range.extent.y (set_bits_below st.channel_flags c) dx dy dz)
      = st0.offset + 32 + 4 * dense_index st.channel_n st.range.extent.x
      st.range.extent.y (set_bits_below st.channel_flags c) dx dy dz := by omega
  rw [e] at hl
  have hsam : sample_region (load_region input st p c)
      = read_u32 input (st0.offset + 32 + 4 * dense_index st.channel_n
          st.range.extent.x st.range.extent.y (set_bits_below st.channel_flags c)
          dx dy dz) % 4294967296 := by
    rw [hl]; rfl
  refine ⟨hcn, hoff, hl, hsam, ?_, ?_, by decide⟩
  · intro hbytes
    rw [hsam]
    exact Nat.mod_eq_of_lt (read_u32_lt _ _ hbytes)
  · intro range flags samples hr hf hinp hfresh
    subst hinp hfresh
    have hrb := raw_container_blit range flags samples hr hf
    rw [hst] at hrb
    have hs2 := congrArg Prod.fst hrb
    simp only [] at hs2
    have h1 : st.range = range := by rw [hs2]
    have h2 : st.channel_flags = flags := by rw [hs2]
    have h3 : st.channel_n = popcount flags := by rw [hs2]
    refine ⟨h1, h2, ?_⟩
    rw [hsam, h1, h2, h3]
    have ho : raw_fresh_state.offset + 32 = 32 := rfl
    rw [ho, raw_container_sample, Nat.mod_mod]

/-- Witness of C13: the container of extent `(2, 2, 2)` and mask `0b101`; the voxel
`(1, 1, 1)` of channel 2 is read at its place in the dense array. -/
theorem raw_random_access_witness :
    sample_region (load_region
        (raw_container (range_at_origin 2 2 2) 5 [100, 101, 102, 103, 104, 105, 106, 107,
          108, 109, 110, 111, 112, 113, 114, 115])
        { range := range_at_origin 2 2 2, channel_flags := 5, channel_n := 2, offset := 32 }
        ⟨1, 1, 1⟩ 2)
      = read_u32 (raw_container (range_at_origin 2 2 2) 5 [100, 101, 102, 103, 104, 105,
          106, 107, 108, 109, 110, 111, 112, 113, 114, 115])
          (raw_fresh_state.offset + 32 + 4 * dense_index 2 2 2 (set_bits_below 5 2) 1 1 1)
        % 4294967296 :=
  (raw_random_access
    (raw_container (range_at_origin 2 2 2) 5 [100, 101, 102, 103, 104, 105, 106, 107,
      108, 109, 110, 111, 112, 113, 114, 115])
    raw_fresh_state
    { range := range_at_origin 2 2 2, channel_flags := 5, channel_n := 2, offset := 32 }
    ⟨1, 1, 1⟩ 2 1 1 1 (by decide) (by decide) (by decide) (by decide)
    (by unfold in_range; decide) (by decide) (by decide) (by decide) (by decide) (by decide)
    (by decide) (by decide)).2.2.2.1

/-- Counterexample to C13 as stated: the raw container of the range with offset
`(-1, 0, 0)` and extent `(2^31 + 1, 1, 1)`, mask 1, whose last sample is 1.  After a
successful `blit_begin` the position `(2^31 - 1, 0, 0)` lies inside the cached range
and bit 0 is set in the mask, and the word stored at
`32 + 4 * (0 + 1 * (2^31 + 0 + 0))` is 1; but `offset.x - range.offset.x = 2^31` wraps
in `int32_t`, `load_region` reads beyond the input and the sample it returns is 0.
Second, the address: for the cached extent `(2^31, 2^31, 2)` and mask 1 the position
`(0, 0, 1)` lies inside the range and all differences are small, but
`4 * (0 + 1 * (0 + 0 + 1 * 2^31 * 2^31))` is `2^64`, which is 0 in `size_t`:
`load_region` returns the word at offset 32 (here 1), not the word at `32 + 2^64`. -/
theorem raw_access_wraps :
    (blit_begin (raw_container
        { offset := { x := -1, y := 0, z := 0 }, extent := { x := 2147483649, y := 1, z := 1 } }
        1 (List.replicate 2147483648 0 ++ [1])) raw_fresh_state
      = ({ range := { offset := { x := -1, y := 0, z := 0 },
                      extent := { x := 2147483649, y := 1, z := 1 } },
           channel_flags := 1, channel_n := 1, offset := 32 }, [])
    ∧ in_range { offset := { x := -1, y := 0, z := 0 },
                 extent := { x := 2147483649, y := 1, z := 1 } }
        { x := 2147483647, y := 0, z := 0 }
    ∧ (1 : Nat).testBit 0 = true
    ∧ dense_index 1 2147483649 1 (set_bits_below 1 0) 2147483648 0 0 = 2147483648
    ∧ read_u32 (raw_container
        { offset := { x := -1, y := 0, z := 0 }, extent := { x := 2147483649, y := 1, z := 1 } }
        1 (List.replicate 2147483648 0 ++ [1])) (32 + 4 * 2147483648) = 1
    ∧ sample_region (load_region (raw_container
        { offset := { x := -1, y := 0, z := 0 }, extent := { x := 2147483649, y := 1, z := 1 } }
        1 (List.replicate 2147483648 0 ++ [1]))
        { range := { offset := { x := -1, y := 0, z := 0 },
                      extent := { x := 2147483649, y := 1, z := 1 } },
           channel_flags := 1, channel_n := 1, offset := 32 }
        { x := 2147483647, y := 0, z := 0 } 0) = 0)
    ∧ (blit_begin (raw_container
        { offset := { x := 0, y := 0, z := 0 },
          extent := { x := 2147483648, y := 2147483648, z := 2 } } 1 [1]) raw_fresh_state
      = ({ range := { offset := { x := 0, y := 0, z := 0 },
                      extent := { x := 2147483648, y := 2147483648, z := 2 } },
           channel_flags := 1, channel_n := 1, offset := 32 }, [])
    ∧ in_range { offset := { x := 0, y := 0, z := 0 },
                 extent := { x := 2147483648, y := 2147483648, z := 2 } }
        { x := 0, y := 0, z := 1 }
    ∧ 32 + 4 * dense_index 1 2147483648 2147483648 (set_bits_below 1 0) 0 0 1
        = 32 + 18446744073709551616
    ∧ read_u32 (raw_container
        { offset := { x := 0, y := 0, z := 0 },
          extent := { x := 2147483648, y := 2147483648, z := 2 } } 1 [1])
        (32 + 18446744073709551616) = 0
    ∧ sample_region (load_region (raw_container
        { offset := { x := 0, y := 0, z := 0 },
          extent := { x := 2147483648, y := 2147483648, z := 2 } } 1 [1])
        { range := { offset := { x := 0, y := 0, z := 0 },
                      extent := { x := 2147483648, y := 2147483648, z := 2 } },
           channel_flags := 1, channel_n := 1, offset := 32 }
        { x := 0, y := 0, z := 1 } 0) = 1) := by
  obtain ⟨h1, h2, h3⟩ := raw_wide_row
  refine ⟨⟨h1, by unfold in_range; decide, by decide, by decide, h3, ?_⟩,
    by decide, by unfold in_range; decide, by decide, by decide, by decide⟩
  rw [h2]
  rfl


/-- C21 (the packed-index write never leaves the reserved slice): on the palette path
(`1 < variant_n ≤ MAX_REGION_COMPRESSED_VARIANT_N`, `bits = ceil_log2 variant_n`) the bit
count is between 1 and 9, `packed_size(bits)` is `ceil(R^3 * bits / 8)` rounded up to a
multiple of 4 plus 4 bytes, and for every in-region index `idx < R^3` the byte
`idx * bits / 8` of the read-modify-write satisfies `byte + 4 ≤ packed_size(bits)`, so
the four bytes at `4 * variant_n + byte` lie inside the blob of
`region_blob_size variant_n` bytes.  Hence the guard of source line 162 is false at
every step on a local buffer of that size, the only error the index loop can raise is
the palette miss, and `add_region` pushes no error. -/
theorem packed_write_in_slice (variant_n idx : Nat) (h1 : 1 < variant_n)
    (h2 : variant_n ≤ MAX_REGION_COMPRESSED_VARIANT_N) (hidx : idx < 512) :
    1 ≤ ceil_log2 variant_n ∧ ceil_log2 variant_n ≤ 9
      ∧ calc_palette_region_size (ceil_log2 variant_n)
          = ((512 * ceil_log2 variant_n + 7) / 8 + 3) / 4 * 4 + 4
      ∧ idx * ceil_log2 variant_n / 8 + 4 ≤ calc_palette_region_size (ceil_log2 variant_n)
      ∧ region_blob_size variant_n
          = 4 * variant_n + calc_palette_region_size (ceil_log2 variant_n)
      ∧ 4 * variant_n + idx * ceil_log2 variant_n / 8 + 4 ≤ region_blob_size variant_n
      ∧ (∀ (S : Sampler) (range : GvoxRegionRange) (ox oy oz ch : Nat)
          (local_data : List Nat) (c : Nat × Nat × Nat),
          c ∈ region_coords → in_region_index c = idx →
          local_data.length = region_blob_size variant_n →
          ¬ (4 * variant_n + u32 (u32 (c.1 + c.2.1 * REGION_SIZE
                + c.2.2 * REGION_SIZE * REGION_SIZE) * ceil_log2 variant_n) / 8 + 3
              ≥ local_data.length)
          ∧ ∀ e, palette_fill_step S range ox oy oz ch variant_n (ceil_log2 variant_n)
                local_data c = .error e →
              (read_words local_data 0 variant_n).indexOf
                (region_voxel S range ox oy oz ch c) = variant_n)
      ∧ (∀ (S : Sampler) (hash_order : List Nat → List Nat)
          (st : GvoxPaletteSerializeUserState) (range : GvoxRegionRange)
          (rx ry rz ci : Nat) (channels : List Nat), (∀ l, (hash_order l).Perm l) →
          rx < 536870912 → ry < 536870912 → rz < 536870912 →
          (add_region S hash_order st range rx ry rz ci channels).errors = []) := by
  obtain ⟨b1, b2⟩ := ceil_log2_palette_bits variant_n h1 h2
  obtain ⟨p1, p2⟩ := packed_byte_bound idx (ceil_log2 variant_n) hidx b2
  have hsz := region_blob_size_palette variant_n (by omega) h1
  refine ⟨b1, b2, ?_, p2, hsz, by rw [hsz]; omega, ?_, ?_⟩
  · rw [calc_palette_region_size_eq]
    omega
  · intro S range ox oy oz ch local_data c hc hi hlen
    rw [hsz] at hlen
    constructor
    · have hi2 : c.1 + c.2.1 * REGION_SIZE + c.2.2 * REGION_SIZE * REGION_SIZE = idx := hi
      rw [hi2, p1, hlen]
      omega
    · intro e he
      exact palette_fill_step_error S range ox oy oz ch variant_n _ local_data c e hc b2 hlen he
  · intro S hash_order st range rx ry rz ci channels hperm hx hy hz
    exact (add_region_size S hash_order st range rx ry rz ci channels hperm hx hy hz).2.2.1

/-- Witness of C21: two variants (one bit per index) and the last index 511: the
write covers bytes 63 to 66 of the 68 packed bytes. -/
theorem packed_write_in_slice_witness :
    511 * ceil_log2 2 / 8 + 4 ≤ calc_palette_region_size (ceil_log2 2) :=
  (packed_write_in_slice 2 511 (by decide) (by decide) (by decide)).2.2.2.1

/-- C23 (region-grid dimensions), amended: for every extent whose components satisfy
`extent + 7 < 2^32` (so that the rounding `extent + REGION_SIZE - 1`, formed in
`uint32_t`, does not wrap), the region counts `(Nx, Ny, Nz)` of `serialize_region` and
the `(Nx, Ny)` recomputed by `add_region` for the header slot are
`ceil(extent.x / 8)`, `ceil(extent.y / 8)`, `ceil(extent.z / 8)`; the enqueued tasks are
the tasks of that grid, and every voxel `(dx, dy, dz)` of the range lies, for every
channel slot, in the cube of exactly one enqueued region, `(dx / 8, dy / 8, dz / 8)`.
The extent `(9, 8, 8)` gives `Nx = 2`, `Ny = 1`, `Nz = 1`. -/
theorem region_grid_dimensions (range : GvoxRegionRange) (flags : Nat)
    (hx : range.extent.x + 7 < 4294967296) (hy : range.extent.y + 7 < 4294967296)
    (hz : range.extent.z + 7 < 4294967296) :
    (region_count range.extent.x = (range.extent.x + 7) / 8
        ∧ range.extent.x ≤ 8 * region_count range.extent.x
        ∧ 8 * region_count range.extent.x < range.extent.x + 8)
      ∧ (region_count range.extent.y = (range.extent.y + 7) / 8
        ∧ range.extent.y ≤ 8 * region_count range.extent.y
        ∧ 8 * region_count range.extent.y < range.extent.y + 8)
      ∧ (region_count range.extent.z = (range.extent.z + 7) / 8
        ∧ range.extent.z ≤ 8 * region_count range.extent.z
        ∧ 8 * region_count range.extent.z < range.extent.z + 8)
      ∧ enqueued_tasks range flags
          = region_tasks ((range.extent.x + 7) / 8) ((range.extent.y + 7) / 8)
              ((range.extent.z + 7) / 8) (channel_list flags).length
      ∧ (∀ rx ry rz ci cn : Nat, header_slot_offset range rx ry rz ci cn
          = u32 (rx + ry * ((range.extent.x + 7) / 8)
              + rz * ((range.extent.x + 7) / 8) * ((range.extent.y + 7) / 8)) * (8 * cn)
            + 8 * ci)
      ∧ (∀ dx dy dz ci : Nat, dx < range.extent.x → dy < range.extent.y →
          dz < range.extent.z → ci < (channel_list flags).length →
          (dx / 8, dy / 8, dz / 8, ci) ∈ enqueued_tasks range flags
          ∧ ∀ t ∈ enqueued_tasks range flags, t.2.2.2 = ci →
              8 * t.1 ≤ dx → dx < 8 * t.1 + 8 → 8 * t.2.1 ≤ dy → dy < 8 * t.2.1 + 8 →
              8 * t.2.2.1 ≤ dz → dz < 8 * t.2.2.1 + 8 →
              t = (dx / 8, dy / 8, dz / 8, ci))
      ∧ region_count 9 = 2 ∧ region_count 8 = 1 := by
  have ex := region_count_ceil range.extent.x hx
  have ey := region_count_ceil range.extent.y hy
  have ez := region_count_ceil range.extent.z hz
  refine ⟨ex, ey, ez, ?_, ?_, ?_, by decide, by decide⟩
  · unfold enqueued_tasks
    rw [ex.1, ey.1, ez.1]
  · intro rx ry rz ci cn
    unfold header_slot_offset
    simp only [ex.1, ey.1]
  · intro dx dy dz ci hdx hdy hdz hci
    exact voxel_region_unique range flags dx dy dz ci hx hy hz hdx hdy hdz hci

/-- Witness of C23: the extent `(9, 8, 8)` has two regions along x. -/
theorem region_grid_dimensions_witness :
    region_count (range_at_origin 9 8 8).extent.x
      = ((range_at_origin 9 8 8).extent.x + 7) / 8 :=
  (region_grid_dimensions (range_at_origin 9 8 8) 1 (by decide) (by decide)
    (by decide)).1.1

/-- Counterexample to C23 as stated: the extent `(4294967295, 8, 8)` has non-zero
`uint32_t` components, but `extent.x + REGION_SIZE - 1` wraps to 6 and the region count
along x is 0, not `ceil(4294967295 / 8) = 536870912`; no task is enqueued, so the voxel
at the range offset lies in no enqueued region. -/
theorem region_count_wraps :
    region_count (range_at_origin 4294967295 8 8).extent.x = 0
      ∧ ((range_at_origin 4294967295 8 8).extent.x + 7) / 8 = 536870912
      ∧ enqueued_tasks (range_at_origin 4294967295 8 8) 1 = []
      ∧ ¬ ((0, 0, 0, 0) ∈ enqueued_tasks (range_at_origin 4294967295 8 8) 1) := by
  have h : enqueued_tasks (range_at_origin 4294967295 8 8) 1 = [] := by decide
  refine ⟨by decide, by decide, h, ?_⟩
  rw [h]
  exact List.not_mem_nil _

/-- C27 (frame of a region task), amended: on a buffer whose blob area is shorter than
`2^32` bytes (so that the 32-bit `blob_offset` is the exact offset) and which holds the
header slot of the task, a completed `add_region` call pushes no error, extends the
buffer by the size it returns, and leaves `blobs_begin` and the write offset as they
were.  Every byte that was in the buffer before the call and lies outside the 8-byte
header slot of the task is unchanged; the slot holds the header; and, when
`variant_n > 1`, the range `[blobs_begin + blob_offset, blobs_begin + blob_offset + size)`
is the range `[old length, old length + size)` appended by the call and holds the blob.
A task with `variant_n ≤ 1` appends nothing. -/
theorem add_region_frame (S : Sampler) (hash_order : List Nat → List Nat)
    (st : GvoxPaletteSerializeUserState) (range : GvoxRegionRange)
    (rx ry rz ci : Nat) (channels : List Nat) (hperm : ∀ l, (hash_order l).Perm l)
    (hx : rx < 536870912) (hy : ry < 536870912) (hz : rz < 536870912) (hst : state_ok st)
    (hs : header_slot_offset range rx ry rz ci channels.length + 8 ≤ st.data.length) :
    (add_region S hash_order st range rx ry rz ci channels).errors = []
      ∧ (add_region S hash_order st range rx ry rz ci channels).user_state.data.length
        = st.data.length + (add_region S hash_order st range rx ry rz ci channels).size
      ∧ (add_region S hash_order st range rx ry rz ci channels).user_state.blobs_begin
        = st.blobs_begin
      ∧ (add_region S hash_order st range rx ry rz ci channels).user_state.offset = st.offset
      ∧ (∀ k, k < st.data.length →
          (k < header_slot_offset range rx ry rz ci channels.length
            ∨ header_slot_offset range rx ry rz ci channels.length + 8 ≤ k) →
          (add_region S hash_order st range rx ry rz ci channels).user_state.data.getD k 0
            = st.data.getD k 0)
      ∧ (∀ k, k < 8 →
          (add_region S hash_order st range rx ry rz ci channels).user_state.data.getD
              (header_slot_offset range rx ry rz ci channels.length + k) 0
            = (header_bytes (add_region S hash_order st range rx ry rz ci
                channels).region_header).getD k 0)
      ∧ (1 < (add_region S hash_order st range rx ry rz ci channels).region_header.variant_n →
          st.blobs_begin
              + (add_region S hash_order st range rx ry rz ci channels).region_header.blob_offset
            = st.data.length
          ∧ ∀ k, k < (add_region S hash_order st range rx ry rz ci channels).size →
              (add_region S hash_order st range rx ry rz ci channels).user_state.data.getD
                  (st.blobs_begin + (add_region S hash_order st range rx ry rz ci
                    channels).region_header.blob_offset + k) 0
                = (region_local_data S range rx ry rz (channels.getD ci 0)).getD k 0)
      ∧ (¬ 1 < (add_region S hash_order st range rx ry rz ci channels).region_header.variant_n →
          (add_region S hash_order st range rx ry rz ci channels).size = 0
          ∧ (add_region S hash_order st range rx ry rz ci channels).user_state.data.length
            = st.data.length) := by
  have h := add_region_effect S hash_order st range rx ry rz ci channels hperm hx hy hz hst
  simp only [] at h
  obtain ⟨a1, a2, a3, a4, a5, a6, _, _⟩ := h
  obtain ⟨f1, f2, f3⟩ := add_region_frame_facts S hash_order st range rx ry rz ci channels
    hperm hx hy hz hst hs
  refine ⟨a4, by rw [a6, a3], a1, a2, f1, f2, ?_, ?_⟩
  · intro hn
    have hoff : st.blobs_begin
        + (add_region S hash_order st range rx ry rz ci channels).region_header.blob_offset
        = st.data.length := by
      rw [a5] at hn ⊢
      simp only [] at hn ⊢
      rw [if_pos hn]
      have := hst.1
      omega
    refine ⟨hoff, ?_⟩
    intro k hk
    rw [hoff]
    exact f3 k hk
  · intro hn
    rw [a5] at hn
    simp only [] at hn
    have hz0 := region_blob_size_one _ hn
    rw [a6, a3, hz0]
    exact ⟨rfl, rfl⟩

/-- Witness of C27: the second region of extent `(9, 8, 8)` under the sampler `x`,
encoded into a zeroed table of two slots: the write offset is left at 40. -/
theorem add_region_frame_witness :
    (add_region sampler_x id (state_with_table 16) (range_at_origin 9 8 8) 1 0 0 0
        [0]).user_state.offset = (state_with_table 16).offset :=
  (add_region_frame sampler_x id (state_with_table 16) (range_at_origin 9 8 8) 1 0 0 0 [0]
    perm_id (by decide) (by decide) (by decide) (state_with_table_ok 16)
    (by decide)).2.2.2.1

/-- Counterexample to C27 as stated: a row of `2^21 + 1` regions (extent
`(16777224, 8, 8)`, channel mask 1) under `sampler_mixed`, the tasks run in enqueue
order.  After the first `2^21` tasks, each of which stored a raw tile of 2048 bytes, the
buffer holds the table of 16777224 bytes and `2^32` blob bytes; the byte at offset
`16777228` is byte 4 of the blob of the first task and holds 1.  The last enqueued task,
`(2097152, 0, 0, 0)`, has its header slot at `[16777216, 16777224)`, two variants and a
blob of 76 bytes; it reserves `[4311744520, 4311744596)` at the end of the buffer, but
its `blob_offset` is `2^32` reduced to 32 bits, that is 0, and the blob is copied to
`[16777224, 16777300)`: the byte at offset `16777228`, which was in the buffer before
the call and lies neither in the slot nor in the reserved range, changes from 1 to 8. -/
theorem add_region_overwrites_on_wrap :
    enqueued_tasks (range_at_origin 16777224 8 8) 1
        = region_tasks 2097152 1 1 1 ++ ([(2097152, 0, 0, 0)] : List RegionTask)
      ∧ ((region_tasks 2097152 1 1 1).foldl
          (run_task sampler_mixed id (range_at_origin 16777224 8 8) (channel_list 1))
          (run_init (range_at_origin 16777224 8 8) 1)).user_state.blobs_begin = 16777224
      ∧ ((region_tasks 2097152 1 1 1).foldl
          (run_task sampler_mixed id (range_at_origin 16777224 8 8) (channel_list 1))
          (run_init (range_at_origin 16777224 8 8) 1)).user_state.data.length
        = 16777224 + 4294967296
      ∧ header_slot_offset (range_at_origin 16777224 8 8) 2097152 0 0 0
          (channel_list 1).length = 16777216
      ∧ (add_region sampler_mixed id
          ((region_tasks 2097152 1 1 1).foldl
            (run_task sampler_mixed id (range_at_origin 16777224 8 8) (channel_list 1))
            (run_init (range_at_origin 16777224 8 8) 1)).user_state
          (range_at_origin 16777224 8 8) 2097152 0 0 0 (channel_list 1)).region_header
        = { variant_n := 2, blob_offset := 0 }
      ∧ (add_region sampler_mixed id
          ((region_tasks 2097152 1 1 1).foldl
            (run_task sampler_mixed id (range_at_origin 16777224 8 8) (channel_list 1))
            (run_init (range_at_origin 16777224 8 8) 1)).user_state
          (range_at_origin 16777224 8 8) 2097152 0 0 0 (channel_list 1)).size = 76
      ∧ (add_region sampler_mixed id
          ((region_tasks 2097152 1 1 1).foldl
            (run_task sampler_mixed id (range_at_origin 16777224 8 8) (channel_list 1))
            (run_init (range_at_origin 16777224 8 8) 1)).user_state
          (range_at_origin 16777224 8 8) 2097152 0 0 0
          (channel_list 1)).user_state.data.length = 16777224 + 4294967296 + 76
      ∧ ((region_tasks 2097152 1 1 1).foldl
          (run_task sampler_mixed id (range_at_origin 16777224 8 8) (channel_list 1))
          (run_init (range_at_origin 16777224 8 8) 1)).user_state.data.getD 16777228 0 = 1
      ∧ (add_region sampler_mixed id
          ((region_tasks 2097152 1 1 1).foldl
            (run_task sampler_mixed id (range_at_origin 16777224 8 8) (channel_list 1))
            (run_init (range_at_origin 16777224 8 8) 1)).user_state
          (range_at_origin 16777224 8 8) 2097152 0 0 0
          (channel_list 1)).user_state.data.getD 16777228 0 = 8 := by
  obtain ⟨s1, s2, s3⟩ := reached_state_facts
  obtain ⟨c1, c2, c3, c4⟩ := reached_call_facts _ s1 s2
  have hslot : header_slot_offset (range_at_origin 16777224 8 8) 2097152 0 0 0
      (channel_list 1).length = 16777216 := by
    have h := row_task_slot (range_at_origin 16777224 8 8) 2097152 (by decide)
    rw [channel_list_1]
    exact h
  exact ⟨row_enqueued, s1, s2, hslot, c1, c2, c3, s3, c4⟩

/-- C22 (blob sizes fit in `u32`), amended: `serialize_region` rejects no input, and
the number of blob bytes of a container is at most 2048 times the number of region
tasks.  When that number of blob bytes is below `2^32`, then in any order of the region
tasks the `uint32_t` `blob_size` written at offset 28 is the exact number of blob
bytes, which is also the buffer length minus `blobs_begin`, and the `blob_offset` of
every channel header with `variant_n > 1` is the exact number of blob bytes reserved
before the task made its reserve step. -/
theorem blob_sizes_exact (S : Sampler) (hash_order : List Nat → List Nat)
    (pool : List RegionTask → List RegionTask) (range : GvoxRegionRange) (flags : Nat)
    (hperm : ∀ l, (hash_order l).Perm l) (hpool : ∀ l, (pool l).Perm l)
    (htot : total_blob_size S range flags < 4294967296) :
    total_blob_size S range flags
        ≤ region_count range.extent.z * (region_count range.extent.y
            * (region_count range.extent.x * (channel_list flags).length)) * 2048
      ∧ trace_size (serialize_region S hash_order pool [] fresh_state range flags).trace
        = total_blob_size S range flags
      ∧ read_u32 (serialize_region S hash_order pool [] fresh_state range flags).output 28
        = total_blob_size S range flags
      ∧ (serialize_region S hash_order pool [] fresh_state range flags).user_state.data.length
          - (serialize_region S hash_order pool [] fresh_state range
              flags).user_state.blobs_begin
        = total_blob_size S range flags
      ∧ (serialize_region S hash_order pool [] fresh_state range flags).errors = []
      ∧ (∀ (i : Nat) (r : TaskRecord),
          (serialize_region S hash_order pool [] fresh_state range flags).trace[i]? = some r →
          1 < r.2.1.variant_n →
          r.2.1.blob_offset
              = reserved_before
                  (serialize_region S hash_order pool [] fresh_state range flags).trace i
            ∧ r.2.1.blob_offset + r.2.2 ≤ total_blob_size S range flags) := by
  obtain ⟨f1, f2, f3, f4, _⟩ := serialize_size_facts S hash_order pool range flags hperm hpool
  have hts : tasks_size S range (channel_list flags) (pool (enqueued_tasks range flags))
      = total_blob_size S range flags :=
    tasks_size_perm S range (channel_list flags) _ _ (hpool _)
  have hsz : trace_size (serialize_region S hash_order pool [] fresh_state range flags).trace
      = total_blob_size S range flags := by
    rw [f1, task_records_sizes]
    exact hts
  have hl := records_layout S range (channel_list flags)
    (run_init range flags).user_state.blobs_begin (pool (enqueued_tasks range flags))
    (by rw [hts]; exact htot)
  have herr := serialize_region_errors S hash_order pool range flags hperm hpool
  refine ⟨total_blob_size_le S range flags, hsz, ?_, ?_, herr, ?_⟩
  · rw [f4, Nat.mod_eq_of_lt htot]
  · rw [f3, f2]
    omega
  · intro i r hr hn
    rw [f1] at hr ⊢
    obtain ⟨_, h2⟩ := hl.1 i r hr
    obtain ⟨h3, _, h5⟩ := h2 hn
    rw [task_records_sizes, hts] at h5
    exact ⟨h3, h5⟩

/-- Witness of C22: extent `(9, 8, 8)`, channel mask 1, sampler `x`: two tasks, at most
4096 blob bytes; the `blob_size` field is the exact sum. -/
theorem blob_sizes_exact_witness :
    read_u32 (serialize_region sampler_x id id [] fresh_state
        (range_at_origin 9 8 8) 1).output 28
      = total_blob_size sampler_x (range_at_origin 9 8 8) 1 :=
  (blob_sizes_exact sampler_x id id (range_at_origin 9 8 8) 1 perm_id perm_id_tasks
    (lt_of_le_of_lt (total_blob_size_le sampler_x (range_at_origin 9 8 8) 1)
      (by decide))).2.2.1

/-- Counterexample to C22 as stated: `serialize_region` accepts the row of `2^21 + 1`
regions (extent `(16777224, 8, 8)`, channel mask 1) under `sampler_index`, every region
stored raw.  The container has `(2^21 + 1) * 2048 = 4294969344` blob bytes, which is
not below `2^32`; the `blob_size` field holds 2048, and the header of the last task,
run in enqueue order, holds `blob_offset = 0` although `2^32` blob bytes were reserved
before it. -/
theorem blob_bytes_exceed_u32 :
    total_blob_size sampler_index (range_at_origin 16777224 8 8) 1 = 4294969344
      ∧ ¬ (total_blob_size sampler_index (range_at_origin 16777224 8 8) 1 < 4294967296)
      ∧ (serialize_region sampler_index id id [] fresh_state
          (range_at_origin 16777224 8 8) 1).errors = []
      ∧ read_u32 (serialize_region sampler_index id id [] fresh_state
          (range_at_origin 16777224 8 8) 1).output 28 = 2048
      ∧ (∃ r : TaskRecord, (serialize_region sampler_index id id [] fresh_state
            (range_at_origin 16777224 8 8) 1).trace[2097152]? = some r
          ∧ r.2.1.variant_n = 512 ∧ r.2.1.blob_offset = 0
          ∧ reserved_before (serialize_region sampler_index id id [] fresh_state
              (range_at_origin 16777224 8 8) 1).trace 2097152 = 4294967296) := by
  have e : (16777224 : Nat) = 8 * 2097153 := by norm_num
  have hN : 8 * 2097153 ≤ 2147483648 := by norm_num
  obtain ⟨f1, _, _, f4, _⟩ := serialize_size_facts sampler_index id id
    (range_at_origin 16777224 8 8) 1 perm_id perm_id_tasks
  have ht : total_blob_size sampler_index (range_at_origin 16777224 8 8) 1 = 4294969344 := by
    rw [e, sampler_index_total 2097153 hN]
  have herr := serialize_region_errors sampler_index id id
    (range_at_origin 16777224 8 8) 1 perm_id perm_id_tasks
  refine ⟨ht, by rw [ht]; decide, herr, by rw [f4, ht], ?_⟩
  rw [f1, id_eq]
  generalize (run_init (range_at_origin 16777224 8 8) 1).user_state.blobs_begin = bb
  rw [e, enqueued_tasks_row 2097153 hN]
  have h1 := sampler_index_record 2097153 2097152 bb hN (by norm_num)
  have u1 : u32_sub (bb + 2097152 * 2048) bb = 0 := by unfold u32_sub; omega
  rw [u1] at h1
  refine ⟨_, h1, rfl, rfl, ?_⟩
  unfold reserved_before
  rw [task_records_take, task_records_sizes, region_tasks_row_take _ _ (by norm_num),
    sampler_index_tasks_size 2097153 2097152 hN (by norm_num)]

/-- C25 (index round trip of the legacy codec), as the code has it: take a node whose
first chunk (row and slice length 8, as in a node of sizes 8, 8, 8) has two distinct
packed voxels, the voxels of index 2 and 3 being different, and any iteration order of
the variant set.  `chunk_variance` writes the
chunk (`chunk_info = 2`, then the two palette words in iteration order), and stores for
a voxel its position in that palette; the positions of the voxels 2 and 3 differ.
`parse_payload` computes `(input & mask_bases[1]) >> bit_offset` with
`mask_bases[1] = 0b11`, which is 0 for every voxel whose `bit_offset` is at least 2, so
it decodes all these voxels as `palette[0]`: for one of the voxels 2 and 3 the index it
extracts is not the index stored and the decoded voxel is not the encoded voxel. -/
theorem legacy_index_round_trip_fails (hash_order : List Nat → List Nat) (data : List Nat)
    (node : GVoxSceneNode) (hperm : ∀ l, (hash_order l).Perm l)
    (hsx : node.size_x = 8) (hsy : node.size_y = 8)
    (hn : (chunk_tile_set node 0 0 0).length = 2)
    (hd : chunk_voxel node 0 0 0 (2, 0, 0) ≠ chunk_voxel node 0 0 0 (3, 0, 0)) :
    ∃ out size, chunk_variance hash_order data node 0 0 0 = some (out, size)
      ∧ read_u32 out data.length = 2
      ∧ read_words out (data.length + 4) 2 = hash_order (chunk_tile_set node 0 0 0)
      ∧ (∀ c ∈ chunk_coords, 2 ≤ c.1 →
          parse_palette_id out data.length node.size_x node.size_y 0 0 0 c = some 0
          ∧ parse_voxel out data.length node.size_x node.size_y 0 0 0 c
              = some ((hash_order (chunk_tile_set node 0 0 0)).getD 0 0))
      ∧ (hash_order (chunk_tile_set node 0 0 0)).indexOf (chunk_voxel node 0 0 0 (2, 0, 0))
          ≠ (hash_order (chunk_tile_set node 0 0 0)).indexOf
              (chunk_voxel node 0 0 0 (3, 0, 0))
      ∧ ∃ c ∈ chunk_coords,
          parse_palette_id out data.length node.size_x node.size_y 0 0 0 c
              ≠ some ((hash_order (chunk_tile_set node 0 0 0)).indexOf
                  (chunk_voxel node 0 0 0 c))
          ∧ parse_voxel out data.length node.size_x node.size_y 0 0 0 c
              ≠ some (chunk_voxel node 0 0 0 c) := by
  obtain ⟨out, size, h1, _, h3, h4, h5⟩ := legacy_decode_two hash_order data node hperm hn
  rw [hsx, hsy]
  have hm2 : ((2, 0, 0) : Nat × Nat × Nat) ∈ region_coords :=
    (mem_region_coords _).mpr (by simp)
  have hm3 : ((3, 0, 0) : Nat × Nat × Nat) ∈ region_coords :=
    (mem_region_coords _).mpr (by simp)
  have hin : ∀ c ∈ region_coords,
      chunk_voxel node 0 0 0 c ∈ hash_order (chunk_tile_set node 0 0 0) := by
    intro c hc
    rw [(hperm _).mem_iff, (chunk_tile_set_facts node 0 0 0).2.1]
    exact List.mem_map_of_mem _ hc
  have hne : hash_order (chunk_tile_set node 0 0 0) ≠ [] := by
    intro h0
    have := hin _ hm2
    rw [h0] at this
    exact absurd this (List.not_mem_nil _)
  have hidx : (hash_order (chunk_tile_set node 0 0 0)).indexOf
        (chunk_voxel node 0 0 0 (2, 0, 0))
      ≠ (hash_order (chunk_tile_set node 0 0 0)).indexOf
        (chunk_voxel node 0 0 0 (3, 0, 0)) := by
    intro he
    exact hd ((List.indexOf_inj (hin _ hm2) (hin _ hm3)).mp he)
  have hbad : ∀ c ∈ region_coords, 2 ≤ c.1 →
      (hash_order (chunk_tile_set node 0 0 0)).getD 0 0 ≠ chunk_voxel node 0 0 0 c →
      parse_palette_id out data.length 8 8 0 0 0 c
          ≠ some ((hash_order (chunk_tile_set node 0 0 0)).indexOf
              (chunk_voxel node 0 0 0 c))
        ∧ parse_voxel out data.length 8 8 0 0 0 c ≠ some (chunk_voxel node 0 0 0 c) := by
    intro c hc hc2 hv
    obtain ⟨g1, g2⟩ := h5 c (by rw [chunk_coords_eq]; exact hc) hc2
    rw [g1, g2]
    constructor
    · intro he
      exact indexOf_ne_zero _ _ hv hne (Option.some.inj he).symm
    · intro he
      exact hv (Option.some.inj he)
  refine ⟨out, size, h1, h3, h4, h5, hidx, ?_⟩
  by_cases hv : (hash_order (chunk_tile_set node 0 0 0)).getD 0 0
      = chunk_voxel node 0 0 0 (2, 0, 0)
  · refine ⟨(3, 0, 0), by rw [chunk_coords_eq]; exact hm3, ?_⟩
    exact hbad _ hm3 (by simp) (by rw [hv]; exact hd)
  · refine ⟨(2, 0, 0), by rw [chunk_coords_eq]; exact hm2, ?_⟩
    exact hbad _ hm2 (by simp) hv

/-- Witness of C25: the node `node_two` (voxel 2 is 1, every other voxel is 0), encoded
into an empty buffer with the variants in insertion order. -/
theorem legacy_index_round_trip_fails_witness :
    ∃ out size, chunk_variance id [] node_two 0 0 0 = some (out, size)
      ∧ read_u32 out ([] : List Nat).length = 2
      ∧ read_words out (([] : List Nat).length + 4) 2 = id (chunk_tile_set node_two 0 0 0)
      ∧ (∀ c ∈ chunk_coords, 2 ≤ c.1 →
          parse_palette_id out ([] : List Nat).length node_two.size_x node_two.size_y 0 0 0 c
              = some 0
          ∧ parse_voxel out ([] : List Nat).length node_two.size_x node_two.size_y 0 0 0 c
              = some ((id (chunk_tile_set node_two 0 0 0)).getD 0 0))
      ∧ (id (chunk_tile_set node_two 0 0 0)).indexOf (chunk_voxel node_two 0 0 0 (2, 0, 0))
          ≠ (id (chunk_tile_set node_two 0 0 0)).indexOf
              (chunk_voxel node_two 0 0 0 (3, 0, 0))
      ∧ ∃ c ∈ chunk_coords,
          parse_palette_id out ([] : List Nat).length node_two.size_x node_two.size_y 0 0 0 c
              ≠ some ((id (chunk_tile_set node_two 0 0 0)).indexOf
                  (chunk_voxel node_two 0 0 0 c))
          ∧ parse_voxel out ([] : List Nat).length node_two.size_x node_two.size_y 0 0 0 c
              ≠ some (chunk_voxel node_two 0 0 0 c) :=
  legacy_index_round_trip_fails id [] node_two perm_id rfl rfl node_two_variants
    node_two_differ

/-- C26 (bit-count bound of the legacy codec), as the code has it: the sizes of
`node_ramp` are multiples of 8 and its one chunk holds 512 distinct packed voxels, so
`chunk_variance` computes `bits_per_variant = ceil_log2 512 = 9`, which is not below 9,
and looks up `mask_bases[9]` in a table of 9 entries: the lookup leaves the table.  The
same holds for every chunk with more than 256 distinct voxels, and `parse_payload`
fails its assertion `bits_per_variant < 9` on every chunk whose `chunk_info` is above
256 and at most 512. -/
theorem legacy_bits_reach_nine :
    node_ramp.size_x % 8 = 0 ∧ node_ramp.size_y % 8 = 0 ∧ node_ramp.size_z % 8 = 0
      ∧ (chunk_tile_set node_ramp 0 0 0).length = 512
      ∧ ceil_log2 (u64 (chunk_tile_set node_ramp 0 0 0).length) = 9
      ∧ ¬ (ceil_log2 (u64 (chunk_tile_set node_ramp 0 0 0).length) < 9)
      ∧ mask_bases.length = 9
      ∧ mask_bases_at (ceil_log2 (u64 (chunk_tile_set node_ramp 0 0 0).length)) = none
      ∧ (∀ (hash_order : List Nat → List Nat) (data : List Nat),
          chunk_variance hash_order data node_ramp 0 0 0 = none)
      ∧ (∀ (hash_order : List Nat → List Nat) (data : List Nat) (node : GVoxSceneNode)
          (cx cy cz : Nat), 256 < (chunk_tile_set node cx cy cz).length →
          ceil_log2 (u64 (chunk_tile_set node cx cy cz).length) = 9
          ∧ chunk_variance hash_order data node cx cy cz = none)
      ∧ (∀ (payload : List Nat) (buffer_ptr size_x size_y cx cy cz : Nat)
          (c : Nat × Nat × Nat), 256 < read_u32 payload buffer_ptr →
          read_u32 payload buffer_ptr ≤ 512 →
          ceil_log2 (read_u32 payload buffer_ptr) = 9
          ∧ parse_palette_id payload buffer_ptr size_x size_y cx cy cz c = none) := by
  have hv := node_ramp_variants
  have hw := chunk_variance_wide
  have h9 := (hw id [] node_ramp 0 0 0 (by rw [hv]; decide)).1
  refine ⟨rfl, rfl, rfl, hv, h9, by rw [h9]; decide, rfl, by rw [h9]; decide, ?_, ?_, ?_⟩
  · intro hash_order data
    exact (hw hash_order data node_ramp 0 0 0 (by rw [hv]; decide)).2
  · intro hash_order data node cx cy cz h
    exact hw hash_order data node cx cy cz h
  · intro payload buffer_ptr size_x size_y cx cy cz c h1 h2
    have hb := ceil_log2_nine _ (by omega) h1
    exact ⟨hb, parse_palette_id_assert payload buffer_ptr size_x size_y cx cy cz c
      (by rw [hb]; decide)⟩

/-- C24 (serializer state across top-level calls), amended: the write offset of the
serializer state persists.  A call of `serialize_region` on a state whose write offset
is `o` (0 for a freshly created state, 40 after one completed call, since every call
advances the offset by the 40 bytes of its preamble and nothing resets it) writes its
bytes at the output offsets `o + k` and leaves the offset at `o + 40`.  Apart from this
shift nothing persists, when the grid has at most `2^32` regions: whatever the buffer,
`blobs_begin` and the output stream before the call, the bytes written are the bytes a
call on a fresh state and an empty stream writes at the offsets `k`, the stream is
unchanged outside `[o, o + length)`, and the buffer, `blobs_begin`, the headers and blob
offsets recorded by the tasks and the errors are those of the call on the fresh
state. -/
theorem serializer_offset_persists (S : Sampler) (hash_order : List Nat → List Nat)
    (pool : List RegionTask → List RegionTask) (out0 : List Nat)
    (st : GvoxPaletteSerializeUserState) (range : GvoxRegionRange) (flags : Nat)
    (hperm : ∀ l, (hash_order l).Perm l) (hpool : ∀ l, (pool l).Perm l)
    (hg : region_count range.extent.x * region_count range.extent.y
      * region_count range.extent.z ≤ 4294967296) :
    (serialize_region S hash_order pool out0 st range flags).user_state.offset = st.offset + 40
      ∧ (serialize_region S hash_order pool [] fresh_state range flags).user_state.offset = 40
      ∧ (serialize_region S hash_order pool out0 st range flags).user_state.blobs_begin
        = (serialize_region S hash_order pool [] fresh_state range flags).user_state.blobs_begin
      ∧ (serialize_region S hash_order pool out0 st range flags).user_state.data
        = (serialize_region S hash_order pool [] fresh_state range flags).user_state.data
      ∧ (serialize_region S hash_order pool out0 st range flags).trace
        = (serialize_region S hash_order pool [] fresh_state range flags).trace
      ∧ (serialize_region S hash_order pool out0 st range flags).errors
        = (serialize_region S hash_order pool [] fresh_state range flags).errors
      ∧ (∀ k, k < (serialize_region S hash_order pool [] fresh_state range flags).output.length →
          (serialize_region S hash_order pool out0 st range flags).output.getD (st.offset + k) 0
            = (serialize_region S hash_order pool [] fresh_state range flags).output.getD k 0)
      ∧ (∀ k, (k < st.offset ∨ st.offset
            + (serialize_region S hash_order pool [] fresh_state range flags).output.length ≤ k) →
          (serialize_region S hash_order pool out0 st range flags).output.getD k 0
            = out0.getD k 0)
      ∧ (serialize_region S hash_order pool out0 st range flags).output.length
        = max out0.length (st.offset
            + (serialize_region S hash_order pool [] fresh_state range flags).output.length) := by
  obtain ⟨s1, s2, s3, s4, s5, s6, s7, s8, s9⟩ := serialize_region_shift S hash_order pool out0
    st range flags hperm hpool hg
  exact ⟨s1, s2, s3, s4, s5, s6, s7, s8, s9⟩

/-- Witness of C24: a second call, on the state and the stream left by the call on one
constant cube, leaves the write offset 40 bytes further. -/
theorem serializer_offset_persists_witness :
    (serialize_region (sampler_const 7) id id
        (serialize_region (sampler_const 7) id id [] fresh_state
          (range_at_origin 8 8 8) 1).output
        (serialize_region (sampler_const 7) id id [] fresh_state
          (range_at_origin 8 8 8) 1).user_state
        (range_at_origin 8 8 8) 1).user_state.offset
      = (serialize_region (sampler_const 7) id id [] fresh_state
          (range_at_origin 8 8 8) 1).user_state.offset + 40 :=
  (serializer_offset_persists (sampler_const 7) id id
    (serialize_region (sampler_const 7) id id [] fresh_state (range_at_origin 8 8 8) 1).output
    (serialize_region (sampler_const 7) id id [] fresh_state
      (range_at_origin 8 8 8) 1).user_state
    (range_at_origin 8 8 8) 1 perm_id perm_id_tasks (by decide)).1

/-- Counterexample to C24 as stated: one constant cube (extent `(8, 8, 8)`, channel
mask 1, sampler 7).  The call on a fresh state writes 48 bytes, the magic at offset 0 and
the header `{1, 7}` at offset 40, and leaves the write offset at 40.  The same call on
the state and the stream it left writes its magic at offset 40, leaves a stream of 88
bytes and the write offset at 80: its output is not the output of the call on the fresh
state. -/
theorem second_call_is_shifted :
    (serialize_region (sampler_const 7) id id [] fresh_state
        (range_at_origin 8 8 8) 1).user_state.offset = 40
      ∧ (serialize_region (sampler_const 7) id id [] fresh_state
        (range_at_origin 8 8 8) 1).output.length = 48
      ∧ read_u32 (serialize_region (sampler_const 7) id id [] fresh_state
        (range_at_origin 8 8 8) 1).output 0 = 7370343
      ∧ read_u32 (serialize_region (sampler_const 7) id id [] fresh_state
        (range_at_origin 8 8 8) 1).output 40 = 1
      ∧ (serialize_region (sampler_const 7) id id
          (serialize_region (sampler_const 7) id id [] fresh_state
            (range_at_origin 8 8 8) 1).output
          (serialize_region (sampler_const 7) id id [] fresh_state
            (range_at_origin 8 8 8) 1).user_state
          (range_at_origin 8 8 8) 1).user_state.offset = 80
      ∧ (serialize_region (sampler_const 7) id id
          (serialize_region (sampler_const 7) id id [] fresh_state
            (range_at_origin 8 8 8) 1).output
          (serialize_region (sampler_const 7) id id [] fresh_state
            (range_at_origin 8 8 8) 1).user_state
          (range_at_origin 8 8 8) 1).output.length = 88
      ∧ read_u32 (serialize_region (sampler_const 7) id id
          (serialize_region (sampler_const 7) id id [] fresh_state
            (range_at_origin 8 8 8) 1).output
          (serialize_region (sampler_const 7) id id [] fresh_state
            (range_at_origin 8 8 8) 1).user_state
          (range_at_origin 8 8 8) 1).output 40 = 7370343
      ∧ ¬ ((serialize_region (sampler_const 7) id id
          (serialize_region (sampler_const 7) id id [] fresh_state
            (range_at_origin 8 8 8) 1).output
          (serialize_region (sampler_const 7) id id [] fresh_state
            (range_at_origin 8 8 8) 1).user_state
          (range_at_origin 8 8 8) 1).output
        = (serialize_region (sampler_const 7) id id [] fresh_state
          (range_at_origin 8 8 8) 1).output) := by
  obtain ⟨c0, _, c2, c3, _⟩ := serialize_const_cube 7 id id ⟨0, 0, 0⟩ perm_id perm_id_tasks
  have hr : ({ offset := ⟨0, 0, 0⟩, extent := ⟨8, 8, 8⟩ } : GvoxRegionRange)
      = range_at_origin 8 8 8 := rfl
  rw [hr] at c0 c2 c3
  obtain ⟨s1, s2, _, _, _, _, s7, _, s9⟩ := serialize_region_shift (sampler_const 7) id id
    (serialize_region (sampler_const 7) id id [] fresh_state (range_at_origin 8 8 8) 1).output
    (serialize_region (sampler_const 7) id id [] fresh_state
      (range_at_origin 8 8 8) 1).user_state
    (range_at_origin 8 8 8) 1 perm_id perm_id_tasks (by decide)
  rw [s2] at s1 s7 s9
  rw [c2] at s7 s9
  have hlen : (serialize_region (sampler_const 7) id id
      (serialize_region (sampler_const 7) id id [] fresh_state
        (range_at_origin 8 8 8) 1).output
      (serialize_region (sampler_const 7) id id [] fresh_state
        (range_at_origin 8 8 8) 1).user_state
      (range_at_origin 8 8 8) 1).output.length = 88 := by
    rw [s9]; rfl
  refine ⟨s2, c2, c0, c3, s1, hlen, ?_, ?_⟩
  · rw [← c0]
    exact read_u32_congr _ _ 40 0 (fun k hk => by
      have := s7 k (by omega)
      rw [Nat.zero_add]
      exact this)
  · intro he
    rw [he, c2] at hlen
    exact absurd hlen (by decide)

end Gvox
